import Mathlib

/-!
# Enhanced Automation Specs: scope tree, spec compiler, commands and session state

A shallow embedding of `EnhancedAutomationSpecBase.cpp`.  Arrays (`TArray`) are lists
whose head is index 0, so `Last()` is the last element of the list and `Push` appends.
Shared references to scopes are represented by value: during compilation every scope is
held by exactly one slot of the traversal stack, and mutating a scope through
`Stack.Last()` is replacing that slot.
-/

namespace EnhancedSpecs

/-! ## TMap: insertion ordered map with unique keys -/

/-- Conversion `FChar::ToLower`, which maps the letters A to Z of ASCII. -/
def FCharToLower (c : Char) : Char :=
  if 65 ≤ c.toNat ∧ c.toNat ≤ 90 then Char.ofNat (c.toNat + 32) else c

/-- Key functions `KeyFuncs` of a `TMap`: two keys match, and hash alike, when their
folded forms are equal.  The default key functions compare with `operator==` of the key
type. -/
class FKeyFuncs (κ : Type) where
  Fold : κ → κ

/-- Keys of type `FString`: `operator==` and `GetTypeHash` of `FString` ignore the case
of the letters of ASCII, so the folded form of a key is its text in lower case. -/
instance FStringKeyFuncs : FKeyFuncs String where
  Fold Key := String.mk (Key.data.map FCharToLower)

/-- Keys that are natural numbers compare as they are. -/
instance FNatKeyFuncs : FKeyFuncs Nat where
  Fold Key := Key

/-- Lookup of `TMap::Find`: the value stored under a key that matches, if any. -/
def TMapFind {κ ν : Type} [FKeyFuncs κ] [DecidableEq κ] : List (κ × ν) → κ → Option ν
  | [], _ => none
  | (k, v) :: rest, key =>
    if FKeyFuncs.Fold k = FKeyFuncs.Fold key then some v else TMapFind rest key

/-- Membership test of `TMap::Contains`. -/
def TMapContains {κ ν : Type} [FKeyFuncs κ] [DecidableEq κ] (m : List (κ × ν)) (key : κ) :
    Bool :=
  (TMapFind m key).isSome

/-- Insertion of `TMap::Add`: an existing pair whose key matches is replaced in its slot
by the new pair, otherwise the pair is added at the end. -/
def TMapAdd {κ ν : Type} [FKeyFuncs κ] [DecidableEq κ] : List (κ × ν) → κ → ν → List (κ × ν)
  | [], key, val => [(key, val)]
  | (k, v) :: rest, key, val =>
    if FKeyFuncs.Fold k = FKeyFuncs.Fold key then (key, val) :: rest
    else (k, v) :: TMapAdd rest key val

/-- Bulk insertion of `TMap::Append`: every pair of the other map is added in turn. -/
def TMapAppend {κ ν : Type} [FKeyFuncs κ] [DecidableEq κ] (m other : List (κ × ν)) :
    List (κ × ν) :=
  other.foldl (fun acc p => TMapAdd acc p.1 p.2) m

/-- Keys of a map in iteration order. -/
def TMapKeys {κ ν : Type} (m : List (κ × ν)) : List κ :=
  m.map Prod.fst

/-- Folded forms of the keys of a map in iteration order; a `TMap` holds no two keys with
the same folded form. -/
def TMapFoldedKeys {κ ν : Type} [FKeyFuncs κ] (m : List (κ × ν)) : List κ :=
  (TMapKeys m).map FKeyFuncs.Fold

/-- Values of a map in iteration order (`GenerateValueArray`). -/
def TMapValues {κ ν : Type} (m : List (κ × ν)) : List ν :=
  m.map Prod.snd

/-! ## Data model -/

/-- Variable scope `FSpecVariableScope`: a `TMap` from variable name to variable. -/
abbrev FSpecVariableScope (ν : Type) := List (String × ν)

/-- Leaf declaration `FSpecItDefinition` made by `It` and `LatentIt`. -/
structure FSpecItDefinition (γ : Type) where
  Id : String
  Description : String
  Filename : String
  LineNumber : Int
  Command : γ

/-- Compiled spec `FSpec`. -/
structure FSpec (γ ν : Type) where
  Id : String
  Description : String
  Filename : String
  LineNumber : Int
  Commands : List γ
  Variables : FSpecVariableScope ν

/-- Node of the declaration tree `FSpecDefinitionScope`. -/
structure FSpecDefinitionScope (γ ν : Type) where
  Description : String
  BeforeAll : List γ
  BeforeEach : List γ
  AfterEach : List γ
  It : List (FSpecItDefinition γ)
  Children : List (FSpecDefinitionScope γ ν)
  Variables : FSpecVariableScope ν

/-- Faults that abort the program: a failed `check`, an array access out of range, a null
shared pointer.  `FuelExhausted` is the bound of the loop model and is shown unreachable. -/
inductive FFault where
  | CheckFailed
  | IndexOutOfRange
  | NullReference
  | FuelExhausted
  deriving DecidableEq, Repr

/-! ## PostDefine -/

/-- State of the locals of `PostDefine` together with `IdToSpecMap`. -/
structure FPostDefineState (γ ν : Type) where
  Stack : List (FSpecDefinitionScope γ ν)
  BeforeAll : List γ
  BeforeEach : List γ
  AfterEach : List γ
  IdToSpecMap : List (String × FSpec γ ν)

/-- Variable merge of `PostDefine`: `Variables.Append(ScopeInStack->Variables)` for every
scope of `Stack`, from index 0 upwards. -/
def MergeStackVariables {γ ν : Type} (Stack : List (FSpecDefinitionScope γ ν)) :
    FSpecVariableScope ν :=
  Stack.foldl (fun Variables ScopeInStack => TMapAppend Variables ScopeInStack.Variables) []

/-- Spec built by the body of the `It` loop of `PostDefine` for one declaration.  The
reverse index loop over `AfterEach` adds its elements last to first. -/
def CompileIt {γ ν : Type} (Stack : List (FSpecDefinitionScope γ ν))
    (BeforeAll BeforeEach AfterEach : List γ) (ItBlockScope : FSpecItDefinition γ) :
    FSpec γ ν :=
  { Id := ItBlockScope.Id
    Description := ItBlockScope.Description
    Filename := ItBlockScope.Filename
    LineNumber := ItBlockScope.LineNumber
    Commands := BeforeAll ++ BeforeEach ++ [ItBlockScope.Command] ++ AfterEach.reverse
    Variables := MergeStackVariables Stack }

/-- Registration `check(!IdToSpecMap.Contains(Spec->Id)); IdToSpecMap.Add(Spec->Id, Spec)`. -/
def AddSpec {γ ν : Type} (IdToSpecMap : List (String × FSpec γ ν)) (Spec : FSpec γ ν) :
    Except FFault (List (String × FSpec γ ν)) :=
  if TMapContains IdToSpecMap Spec.Id then Except.error FFault.CheckFailed
  else Except.ok (TMapAdd IdToSpecMap Spec.Id Spec)

/-- Registration of a sequence of specs, stopping at the first failed check. -/
def AddSpecs {γ ν : Type} :
    List (String × FSpec γ ν) → List (FSpec γ ν) → Except FFault (List (String × FSpec γ ν))
  | IdToSpecMap, [] => Except.ok IdToSpecMap
  | IdToSpecMap, Spec :: Rest =>
    match AddSpec IdToSpecMap Spec with
    | Except.error e => Except.error e
    | Except.ok NewMap => AddSpecs NewMap Rest

/-- The `for` loop of `PostDefine` over `Scope->It`. -/
def CompileIts {γ ν : Type} (Stack : List (FSpecDefinitionScope γ ν))
    (BeforeAll BeforeEach AfterEach : List γ) (It : List (FSpecItDefinition γ))
    (IdToSpecMap : List (String × FSpec γ ν)) : Except FFault (List (String × FSpec γ ν)) :=
  AddSpecs IdToSpecMap (It.map (CompileIt Stack BeforeAll BeforeEach AfterEach))

/-- Removal `A.RemoveAt(A.Num() - Count, Count)` guarded by `Count > 0`: drops the last
`Count` elements; a start index below zero is out of range. -/
def RemoveLastAdded {γ : Type} (A : List γ) (Count : Nat) : Except FFault (List γ) :=
  if Count > 0 then
    (if Count ≤ A.length then Except.ok (A.take (A.length - Count))
     else Except.error FFault.IndexOutOfRange)
  else Except.ok A

/-- The inner `while` loop of `PostDefine`: pops every scope on top of the stack that has
neither children nor `It` declarations left and removes its hooks from the running
sequences.  One unit of fuel per iteration; the stack height is always enough. -/
def PopFinishedScopes {γ ν : Type} :
    Nat → FPostDefineState γ ν → Except FFault (FPostDefineState γ ν)
  | 0, State => Except.ok State
  | Fuel + 1, State =>
    match State.Stack.getLast? with
    | none => Except.ok State
    | some Last =>
      if Last.Children.length = 0 ∧ Last.It.length = 0 then
        match RemoveLastAdded State.BeforeAll Last.BeforeAll.length with
        | Except.error e => Except.error e
        | Except.ok NewBeforeAll =>
          match RemoveLastAdded State.BeforeEach Last.BeforeEach.length with
          | Except.error e => Except.error e
          | Except.ok NewBeforeEach =>
            match RemoveLastAdded State.AfterEach Last.AfterEach.length with
            | Except.error e => Except.error e
            | Except.ok NewAfterEach =>
              PopFinishedScopes Fuel
                { Stack := State.Stack.dropLast
                  BeforeAll := NewBeforeAll
                  BeforeEach := NewBeforeEach
                  AfterEach := NewAfterEach
                  IdToSpecMap := State.IdToSpecMap }
      else Except.ok State

/-- One iteration of the outer `while` loop of `PostDefine` for `Scope = Stack.Last()`. -/
def PostDefineStep {γ ν : Type} (State : FPostDefineState γ ν)
    (Scope : FSpecDefinitionScope γ ν) : Except FFault (FPostDefineState γ ν) :=
  let BeforeAll := State.BeforeAll ++ Scope.BeforeAll
  let BeforeEach := State.BeforeEach ++ Scope.BeforeEach
  let AfterEach := State.AfterEach ++ Scope.AfterEach
  match CompileIts State.Stack BeforeAll BeforeEach AfterEach Scope.It State.IdToSpecMap with
  | Except.error e => Except.error e
  | Except.ok NewMap =>
    if Scope.Children.length > 0 then
      Except.ok
        { Stack := State.Stack.dropLast ++ [{ Scope with It := [], Children := [] }]
            ++ Scope.Children
          BeforeAll := BeforeAll
          BeforeEach := BeforeEach
          AfterEach := AfterEach
          IdToSpecMap := NewMap }
    else
      PopFinishedScopes State.Stack.length
        { Stack := State.Stack.dropLast ++ [{ Scope with It := [] }]
          BeforeAll := BeforeAll
          BeforeEach := BeforeEach
          AfterEach := AfterEach
          IdToSpecMap := NewMap }

/-- The outer `while (Stack.Num() > 0)` loop of `PostDefine`, one unit of fuel per
iteration. -/
def PostDefineLoop {γ ν : Type} :
    Nat → FPostDefineState γ ν → Except FFault (FPostDefineState γ ν)
  | 0, State =>
    match State.Stack.getLast? with
    | none => Except.ok State
    | some _ => Except.error FFault.FuelExhausted
  | Fuel + 1, State =>
    match State.Stack.getLast? with
    | none => Except.ok State
    | some Scope =>
      match PostDefineStep State Scope with
      | Except.error e => Except.error e
      | Except.ok NewState => PostDefineLoop Fuel NewState

mutual
/-- Number of scopes of a subtree. -/
def FSpecDefinitionScope.NumScopes {γ ν : Type} : FSpecDefinitionScope γ ν → Nat
  | ⟨_, _, _, _, _, Children, _⟩ => 1 + NumScopesOfList Children
/-- Number of scopes of a list of subtrees. -/
def NumScopesOfList {γ ν : Type} : List (FSpecDefinitionScope γ ν) → Nat
  | [] => 0
  | Scope :: Rest => Scope.NumScopes + NumScopesOfList Rest
end

/-- Compilation `PostDefine` of the tree under `RootDefinitionScope` into `IdToSpecMap`.
The loop visits one scope per iteration, so the number of scopes bounds its iterations. -/
def PostDefine {γ ν : Type} (RootDefinitionScope : FSpecDefinitionScope γ ν)
    (IdToSpecMap : List (String × FSpec γ ν)) : Except FFault (List (String × FSpec γ ν)) :=
  match PostDefineLoop RootDefinitionScope.NumScopes
      { Stack := [RootDefinitionScope]
        BeforeAll := []
        BeforeEach := []
        AfterEach := []
        IdToSpecMap := IdToSpecMap } with
  | Except.error e => Except.error e
  | Except.ok State => Except.ok State.IdToSpecMap

/-! ## Recursive description of the traversal, used to reason about the loop -/

mutual
/-- Specs that the loop of `PostDefine` registers, in order, from the moment `Scope` is
on top of the stack `Below ++ [Scope]` with the given running hook sequences until the
scope is popped again. -/
def SpecsOfScope {γ ν : Type} (Below : List (FSpecDefinitionScope γ ν))
    (BeforeAll BeforeEach AfterEach : List γ) :
    FSpecDefinitionScope γ ν → List (FSpec γ ν)
  | ⟨Description, OwnBeforeAll, OwnBeforeEach, OwnAfterEach, It, Children, Variables⟩ =>
    It.map (CompileIt
        (Below ++ [⟨Description, OwnBeforeAll, OwnBeforeEach, OwnAfterEach, It, Children,
          Variables⟩])
        (BeforeAll ++ OwnBeforeAll) (BeforeEach ++ OwnBeforeEach) (AfterEach ++ OwnAfterEach))
    ++ SpecsOfChildren
        (Below ++ [⟨Description, OwnBeforeAll, OwnBeforeEach, OwnAfterEach, [], [], Variables⟩])
        (BeforeAll ++ OwnBeforeAll) (BeforeEach ++ OwnBeforeEach) (AfterEach ++ OwnAfterEach)
        Children
/-- Specs registered for the scopes `Children` lying on the stack above `Below`: the last
child is on top and is compiled first, while the earlier ones wait below it. -/
def SpecsOfChildren {γ ν : Type} (Below : List (FSpecDefinitionScope γ ν))
    (BeforeAll BeforeEach AfterEach : List γ) :
    List (FSpecDefinitionScope γ ν) → List (FSpec γ ν)
  | [] => []
  | Child :: Rest =>
    SpecsOfChildren (Below ++ [Child]) BeforeAll BeforeEach AfterEach Rest
    ++ SpecsOfScope Below BeforeAll BeforeEach AfterEach Child
end

mutual
/-- All `It` declarations of a subtree, in the order in which `PostDefine` compiles them. -/
def FSpecDefinitionScope.AllIt {γ ν : Type} :
    FSpecDefinitionScope γ ν → List (FSpecItDefinition γ)
  | ⟨_, _, _, _, It, Children, _⟩ => It ++ AllItOfList Children
/-- All `It` declarations of a list of sibling subtrees, last sibling first. -/
def AllItOfList {γ ν : Type} : List (FSpecDefinitionScope γ ν) → List (FSpecItDefinition γ)
  | [] => []
  | Child :: Rest => AllItOfList Rest ++ Child.AllIt
end

mutual
/-- Invariant left by `Describe`: every scope below this one has an `It` or a child. -/
def FSpecDefinitionScope.Pruned {γ ν : Type} : FSpecDefinitionScope γ ν → Prop
  | ⟨_, _, _, _, _, Children, _⟩ => PrunedList Children
/-- Every scope of the list has an `It` or a child, and so has everything below it. -/
def PrunedList {γ ν : Type} : List (FSpecDefinitionScope γ ν) → Prop
  | [] => True
  | Child :: Rest =>
    (Child.It ≠ [] ∨ Child.Children ≠ []) ∧ Child.Pruned ∧ PrunedList Rest
end

/-- Relation `ScopePath Root Path Scope`: `Path` lists the scopes from `Root` down to
`Scope`, each one a child of the one before. -/
inductive ScopePath {γ ν : Type} :
    FSpecDefinitionScope γ ν → List (FSpecDefinitionScope γ ν) → FSpecDefinitionScope γ ν → Prop
  | Here (Scope : FSpecDefinitionScope γ ν) : ScopePath Scope [Scope] Scope
  | Child (Parent Child Scope : FSpecDefinitionScope γ ν)
      (Path : List (FSpecDefinitionScope γ ν)) :
      Child ∈ Parent.Children → ScopePath Child Path Scope →
      ScopePath Parent (Parent :: Path) Scope

/-- Hooks of one kind declared along a path, outermost scope first. -/
def HooksAlong {γ ν : Type} (Hooks : FSpecDefinitionScope γ ν → List γ)
    (Path : List (FSpecDefinitionScope γ ν)) : List γ :=
  (Path.map Hooks).flatten

mutual
/-- Every scope of the subtree holds its variables under names that are distinct up to
the case of their letters, as a `TMap` does. -/
def FSpecDefinitionScope.ValidVariables {γ ν : Type} : FSpecDefinitionScope γ ν → Prop
  | ⟨_, _, _, _, _, Children, Variables⟩ =>
    (TMapFoldedKeys Variables).Nodup ∧ ValidVariablesList Children
/-- Every scope of the subtrees holds its variables under distinct names. -/
def ValidVariablesList {γ ν : Type} : List (FSpecDefinitionScope γ ν) → Prop
  | [] => True
  | Child :: Rest => Child.ValidVariables ∧ ValidVariablesList Rest
end

/-- Map entry under which a spec is registered. -/
def SpecEntry {γ ν : Type} (Spec : FSpec γ ν) : String × FSpec γ ν :=
  (Spec.Id, Spec)

/-- What the loop does once a subtree has been compiled into the map `m1`: it pops the
finished scopes on top of `Below` and goes on with the remaining fuel. -/
def ContinueAfter {γ ν : Type} (k : Nat) (Below : List (FSpecDefinitionScope γ ν))
    (BeforeAll BeforeEach AfterEach : List γ) (r : Except FFault (List (String × FSpec γ ν))) :
    Except FFault (FPostDefineState γ ν) :=
  match r with
  | Except.error e => Except.error e
  | Except.ok m1 =>
    match PopFinishedScopes Below.length
        { Stack := Below
          BeforeAll := BeforeAll
          BeforeEach := BeforeEach
          AfterEach := AfterEach
          IdToSpecMap := m1 } with
    | Except.error e => Except.error e
    | Except.ok State => PostDefineLoop k State


/-- A spec is compiled along a path: it is built from an `It` of the last scope of the
path, on a stack whose top is that scope, with the hooks of the path appended to the
running sequences. -/
def CompiledAlong {γ ν : Type} (BeforeAll BeforeEach AfterEach : List γ)
    (Start : FSpecDefinitionScope γ ν) (Spec : FSpec γ ν) : Prop :=
  ∃ (Path : List (FSpecDefinitionScope γ ν)) (Scope : FSpecDefinitionScope γ ν)
    (It : FSpecItDefinition γ) (Under : List (FSpecDefinitionScope γ ν)),
    ScopePath Start Path Scope ∧ It ∈ Scope.It ∧
    Spec = CompileIt (Under ++ [Scope])
      (BeforeAll ++ HooksAlong (fun S => S.BeforeAll) Path)
      (BeforeEach ++ HooksAlong (fun S => S.BeforeEach) Path)
      (AfterEach ++ HooksAlong (fun S => S.AfterEach) Path) It


/-! ## Session state -/

/-- Session record `FEnhancedTestSessionState`: the block handles that have run. -/
structure FEnhancedTestSessionState where
  BlocksRun : List Int
  deriving DecidableEq, Repr

/-- Query `HasBlockRun`: `BlocksRun.Contains(BlockHandle)`. -/
def FEnhancedTestSessionState.HasBlockRun (this : FEnhancedTestSessionState)
    (BlockHandle : Int) : Bool :=
  this.BlocksRun.contains BlockHandle

/-- Update `MarkBlockAsRun`: `check(!HasBlockRun(BlockHandle)); BlocksRun.Add(BlockHandle)`. -/
def FEnhancedTestSessionState.MarkBlockAsRun (this : FEnhancedTestSessionState)
    (BlockHandle : Int) : Except FFault FEnhancedTestSessionState :=
  if this.HasBlockRun BlockHandle then Except.error FFault.CheckFailed
  else Except.ok { BlocksRun := this.BlocksRun ++ [BlockHandle] }

/-- Handler `ClearState` of the tests-complete event: `BlocksRun.Empty()`. -/
def FEnhancedTestSessionState.ClearState (_this : FEnhancedTestSessionState) :
    FEnhancedTestSessionState :=
  { BlocksRun := [] }

/-! ## The running spec object as seen by commands -/

/-- What the bodies written by the test author read and write: the members of their spec
class and, through `TestEqual` and `AddError`, the errors of the running test. -/
structure FUserEnv (σ : Type) where
  Members : σ
  Errors : List String

/-- The part of the spec object that commands act on.  `BodiesInvoked` is a ghost record,
absent from the program, of the block handles whose run-once body was invoked, in order;
it makes "the body was invoked" a statement about the state. -/
structure FSpecWorld (σ : Type) where
  Env : FUserEnv σ
  SuiteSessionState : Option FEnhancedTestSessionState
  BodiesInvoked : List Int

/-- Query `HasAnyErrors` of the owning spec. -/
def FSpecWorld.HasAnyErrors {σ : Type} (Spec : FSpecWorld σ) : Bool :=
  !Spec.Env.Errors.isEmpty

/-- Call `AddError(Text, 0)` on the owning spec. -/
def FSpecWorld.AddError {σ : Type} (Spec : FSpecWorld σ) (Text : String) : FSpecWorld σ :=
  { Spec with Env := { Spec.Env with Errors := Spec.Env.Errors ++ [Text] } }

/-- A body written by the test author, `[=, this] { ... }`. -/
abbrev TUserWork (σ : Type) := FUserEnv σ → FUserEnv σ

/-- A latent body written by the test author, `[=, this](const FDoneDelegate& Done) { ... }`.
The boolean tells whether the body executed the delegate before it returned; a body that
keeps the delegate executes it later, between two polls. -/
abbrev TUserLatentWork (σ : Type) := FUserEnv σ → FUserEnv σ × Bool

/-- A work function `TFunction<void()>` held by a command. -/
abbrev TFunction (σ : Type) := FSpecWorld σ → Except FFault (FSpecWorld σ)

/-- A work function `TFunction<void(const FDoneDelegate&)>` held by a command; the boolean
tells whether the delegate was executed before the call returned. -/
abbrev TLatentFunction (σ : Type) := FSpecWorld σ → Except FFault (FSpecWorld σ × Bool)

/-- A body of the test author as the work of a command. -/
def UserLambda {σ : Type} (DoWork : TUserWork σ) : TFunction σ :=
  fun Spec => Except.ok { Spec with Env := DoWork Spec.Env }

/-- A latent body of the test author as the work of a command. -/
def UserLatentLambda {σ : Type} (DoWork : TUserLatentWork σ) : TLatentFunction σ :=
  fun Spec => Except.ok ({ Spec with Env := (DoWork Spec.Env).1 }, (DoWork Spec.Env).2)

/-- Call `SuiteSessionState->MarkBlockAsRun(BlockHandle)` on the spec object. -/
def FSpecWorld.MarkBlockAsRun {σ : Type} (Spec : FSpecWorld σ) (BlockHandle : Int) :
    Except FFault (FSpecWorld σ) :=
  match Spec.SuiteSessionState with
  | none => Except.error FFault.NullReference
  | some Session =>
    match Session.MarkBlockAsRun BlockHandle with
    | Except.error e => Except.error e
    | Except.ok NewSession => Except.ok { Spec with SuiteSessionState := some NewSession }

/-- Wrapper `CreateRunWorkOnceWrapper(BlockHandle, DoWork)` for `TFunction<void()>`: runs
`DoWork` and marks the handle unless the handle is marked already.  The call of `DoWork`
is entered in the ghost record. -/
def CreateRunWorkOnceWrapper {σ : Type} (BlockHandle : Int) (DoWork : TFunction σ) :
    TFunction σ :=
  fun Spec =>
    match Spec.SuiteSessionState with
    | none => Except.error FFault.NullReference
    | some Session =>
      if !Session.HasBlockRun BlockHandle then
        match DoWork { Spec with BodiesInvoked := Spec.BodiesInvoked ++ [BlockHandle] } with
        | Except.error e => Except.error e
        | Except.ok AfterWork => AfterWork.MarkBlockAsRun BlockHandle
      else Except.ok Spec

/-- Wrapper `CreateRunWorkOnceWrapper(BlockHandle, DoWork)` for latent work: the delegate
is handed to `DoWork` and is not touched when the handle is marked already. -/
def CreateRunWorkOnceLatentWrapper {σ : Type} (BlockHandle : Int) (DoWork : TLatentFunction σ) :
    TLatentFunction σ :=
  fun Spec =>
    match Spec.SuiteSessionState with
    | none => Except.error FFault.NullReference
    | some Session =>
      if !Session.HasBlockRun BlockHandle then
        match DoWork { Spec with BodiesInvoked := Spec.BodiesInvoked ++ [BlockHandle] } with
        | Except.error e => Except.error e
        | Except.ok (AfterWork, bDelegateExecuted) =>
          match AfterWork.MarkBlockAsRun BlockHandle with
          | Except.error e => Except.error e
          | Except.ok Marked => Except.ok (Marked, bDelegateExecuted)
      else Except.ok (Spec, false)

/-! ## Latent commands -/

/-- Execution context `EAsyncExecution` of asynchronous work. -/
inductive EAsyncExecution where
  | TaskGraph
  | TaskGraphMainThread
  | Thread
  | ThreadIfForkSafe
  | ThreadPool
  | LargeThreadPool
  deriving DecidableEq, Repr

/-- Wrap of a 64 bit signed integer. -/
def WrapInt64 (x : Int) : Int :=
  (x + 9223372036854775808) % 18446744073709551616 - 9223372036854775808

/-- Sum `FDateTime + FTimespan`: both count ticks in an `int64`, and the sum is the
`FDateTime` of the sum of the ticks, taken in 64 bits. -/
def FDateTimePlus (Time Span : Int) : Int :=
  WrapInt64 (Time + Span)

/-- Command `FSimpleBlockingCommand`. -/
structure FSimpleBlockingCommand (σ : Type) where
  Work : TFunction σ
  bSkipIfErrored : Bool

/-- Command `FAsyncCommand`; `bFutureValid` is `Future.IsValid()`.  `Dispatched` is a
ghost record, absent from the program, of the tasks that `Update` has handed to `Async`
and that have not run yet: one entry per task, the execution context it was handed to,
oldest first. -/
structure FAsyncCommand (σ : Type) where
  Execution : EAsyncExecution
  Work : TFunction σ
  Timeout : Int
  bSkipIfErrored : Bool
  bDone : Bool
  bFutureValid : Bool
  StartTime : Int
  Dispatched : List EAsyncExecution

/-- Command `FMultiFrameLatentCommand`. -/
structure FMultiFrameLatentCommand (σ : Type) where
  Work : TLatentFunction σ
  Timeout : Int
  bSkipIfErrored : Bool
  bHasStartedRunning : Bool
  bDone : Bool
  StartTime : Int

/-- Command `FAsyncMultiFrameLatentCommand`; `bFutureValid` is `Future.IsValid()`.
`Dispatched` is a ghost record, absent from the program, of the tasks that `Update` has
handed to `Async` and that have not run yet: one entry per task, the execution context it
was handed to, oldest first. -/
structure FAsyncMultiFrameLatentCommand (σ : Type) where
  Execution : EAsyncExecution
  Work : TLatentFunction σ
  Timeout : Int
  bSkipIfErrored : Bool
  bDone : Bool
  bFutureValid : Bool
  StartTime : Int
  Dispatched : List EAsyncExecution

/-- Poll `FSimpleBlockingCommand::Update`. -/
def FSimpleBlockingCommand.Update {σ : Type} (this : FSimpleBlockingCommand σ)
    (Spec : FSpecWorld σ) : Except FFault (FSpecWorld σ × Bool) :=
  if !this.bSkipIfErrored || !Spec.HasAnyErrors then
    match this.Work Spec with
    | Except.error e => Except.error e
    | Except.ok AfterWork => Except.ok (AfterWork, true)
  else Except.ok (Spec, true)

/-- Callback `FAsyncCommand::Done`. -/
def FAsyncCommand.Done {σ : Type} (this : FAsyncCommand σ) : FAsyncCommand σ :=
  if this.bFutureValid then { this with bDone := true } else this

/-- Method `FAsyncCommand::Reset`. -/
def FAsyncCommand.Reset {σ : Type} (this : FAsyncCommand σ) : FAsyncCommand σ :=
  { this with bDone := false, bFutureValid := false }

/-- Poll `FAsyncCommand::Update`.  `NowAtStart` and `Now` are the two readings of
`FDateTime::UtcNow()`.  The call `Future = Async(Execution, Task)` makes the future valid
and hands the task `{ Work(); Done(); }` to the execution context, which the ghost record
notes; the task runs on another thread, and its run is `FAsyncCommand.Task`, between
polls. -/
def FAsyncCommand.Update {σ : Type} (this : FAsyncCommand σ) (NowAtStart Now : Int)
    (Spec : FSpecWorld σ) : FAsyncCommand σ × FSpecWorld σ × Bool :=
  if !this.bFutureValid ∧ this.bSkipIfErrored ∧ Spec.HasAnyErrors then (this, Spec, true)
  else
    let Started : FAsyncCommand σ :=
      if !this.bFutureValid then
        { this with
          bDone := false
          bFutureValid := true
          Dispatched := this.Dispatched ++ [this.Execution]
          StartTime := NowAtStart }
      else this
    if Started.bDone then (Started.Reset, Spec, true)
    else if Now ≥ FDateTimePlus Started.StartTime Started.Timeout then
      (Started.Reset, Spec.AddError "Latent command timed out.", true)
    else (Started, Spec, false)

/-- A run of the task `{ Work(); Done(); }` that `FAsyncCommand::Update` handed to
`Async`: the execution context takes the oldest task of the ghost record, and the task
calls the work and then `Done`.  Nothing runs when no task was handed over. -/
def FAsyncCommand.Task {σ : Type} (this : FAsyncCommand σ) (Spec : FSpecWorld σ) :
    Except FFault (FAsyncCommand σ × FSpecWorld σ) :=
  match this.Dispatched with
  | [] => Except.ok (this, Spec)
  | _ :: Waiting =>
    match this.Work Spec with
    | Except.error e => Except.error e
    | Except.ok AfterWork =>
      Except.ok (FAsyncCommand.Done { this with Dispatched := Waiting }, AfterWork)

/-- Callback `FMultiFrameLatentCommand::Done`. -/
def FMultiFrameLatentCommand.Done {σ : Type} (this : FMultiFrameLatentCommand σ) :
    FMultiFrameLatentCommand σ :=
  if this.bHasStartedRunning then { this with bDone := true } else this

/-- Method `FMultiFrameLatentCommand::Reset`. -/
def FMultiFrameLatentCommand.Reset {σ : Type} (this : FMultiFrameLatentCommand σ) :
    FMultiFrameLatentCommand σ :=
  { this with bDone := false, bHasStartedRunning := false }

/-- Poll `FMultiFrameLatentCommand::Update`.  The work runs inside the poll; when it
executes the delegate before returning, `Done` runs at that moment, before
`bHasStartedRunning` is set. -/
def FMultiFrameLatentCommand.Update {σ : Type} (this : FMultiFrameLatentCommand σ)
    (NowAtStart Now : Int) (Spec : FSpecWorld σ) :
    Except FFault (FMultiFrameLatentCommand σ × FSpecWorld σ × Bool) :=
  if !this.bHasStartedRunning ∧ this.bSkipIfErrored ∧ Spec.HasAnyErrors then
    Except.ok (this, Spec, true)
  else
    let Begun : Except FFault (FMultiFrameLatentCommand σ × FSpecWorld σ) :=
      if !this.bHasStartedRunning then
        match this.Work Spec with
        | Except.error e => Except.error e
        | Except.ok (AfterWork, bDelegateExecuted) =>
          let Cleared : FMultiFrameLatentCommand σ := { this with bDone := false }
          let AfterCall := if bDelegateExecuted then Cleared.Done else Cleared
          Except.ok
            ({ AfterCall with bHasStartedRunning := true, StartTime := NowAtStart }, AfterWork)
      else Except.ok (this, Spec)
    match Begun with
    | Except.error e => Except.error e
    | Except.ok (Started, Current) =>
      if Started.bDone then Except.ok (Started.Reset, Current, true)
      else if Now ≥ FDateTimePlus Started.StartTime Started.Timeout then
        Except.ok (Started.Reset, Current.AddError "Latent command timed out.", true)
      else Except.ok (Started, Current, false)

/-- Callback `FAsyncMultiFrameLatentCommand::Done`. -/
def FAsyncMultiFrameLatentCommand.Done {σ : Type} (this : FAsyncMultiFrameLatentCommand σ) :
    FAsyncMultiFrameLatentCommand σ :=
  if this.bFutureValid then { this with bDone := true } else this

/-- Method `FAsyncMultiFrameLatentCommand::Reset`. -/
def FAsyncMultiFrameLatentCommand.Reset {σ : Type} (this : FAsyncMultiFrameLatentCommand σ) :
    FAsyncMultiFrameLatentCommand σ :=
  { this with bDone := false, bFutureValid := false }

/-- Poll `FAsyncMultiFrameLatentCommand::Update`.  The call
`Future = Async(Execution, Task)` makes the future valid and hands the task
`{ Work(Done delegate); }` to the execution context, which the ghost record notes; the
task runs on another thread, and its run is `FAsyncMultiFrameLatentCommand.Task`, between
polls. -/
def FAsyncMultiFrameLatentCommand.Update {σ : Type} (this : FAsyncMultiFrameLatentCommand σ)
    (NowAtStart Now : Int) (Spec : FSpecWorld σ) :
    FAsyncMultiFrameLatentCommand σ × FSpecWorld σ × Bool :=
  if !this.bFutureValid ∧ this.bSkipIfErrored ∧ Spec.HasAnyErrors then (this, Spec, true)
  else
    let Started : FAsyncMultiFrameLatentCommand σ :=
      if !this.bFutureValid then
        { this with
          bDone := false
          bFutureValid := true
          Dispatched := this.Dispatched ++ [this.Execution]
          StartTime := NowAtStart }
      else this
    if Started.bDone then (Started.Reset, Spec, true)
    else if Now ≥ FDateTimePlus Started.StartTime Started.Timeout then
      (Started.Reset, Spec.AddError "Latent command timed out.", true)
    else (Started, Spec, false)

/-- A run of the task `{ Work(Done delegate); }` that
`FAsyncMultiFrameLatentCommand::Update` handed to `Async`: the execution context takes
the oldest task of the ghost record, and the task calls the work, which executes the
delegate before it returns or keeps it.  Nothing runs when no task was handed over. -/
def FAsyncMultiFrameLatentCommand.Task {σ : Type} (this : FAsyncMultiFrameLatentCommand σ)
    (Spec : FSpecWorld σ) : Except FFault (FAsyncMultiFrameLatentCommand σ × FSpecWorld σ) :=
  match this.Dispatched with
  | [] => Except.ok (this, Spec)
  | _ :: Waiting =>
    match this.Work Spec with
    | Except.error e => Except.error e
    | Except.ok (AfterWork, bDelegateExecuted) =>
      let Taken : FAsyncMultiFrameLatentCommand σ := { this with Dispatched := Waiting }
      Except.ok (if bDelegateExecuted then Taken.Done else Taken, AfterWork)

/-- A command behind `IAutomationLatentCommand`. -/
inductive FLatentCommand (σ : Type) where
  | SimpleBlocking (Command : FSimpleBlockingCommand σ)
  | Async (Command : FAsyncCommand σ)
  | MultiFrameLatent (Command : FMultiFrameLatentCommand σ)
  | AsyncMultiFrameLatent (Command : FAsyncMultiFrameLatentCommand σ)

/-- Virtual call `IAutomationLatentCommand::Update`. -/
def FLatentCommand.Update {σ : Type} (this : FLatentCommand σ) (NowAtStart Now : Int)
    (Spec : FSpecWorld σ) : Except FFault (FLatentCommand σ × FSpecWorld σ × Bool) :=
  match this with
  | FLatentCommand.SimpleBlocking Command =>
    match Command.Update Spec with
    | Except.error e => Except.error e
    | Except.ok (NewSpec, bComplete) =>
      Except.ok (FLatentCommand.SimpleBlocking Command, NewSpec, bComplete)
  | FLatentCommand.Async Command =>
    match Command.Update NowAtStart Now Spec with
    | (NewCommand, NewSpec, bComplete) =>
      Except.ok (FLatentCommand.Async NewCommand, NewSpec, bComplete)
  | FLatentCommand.MultiFrameLatent Command =>
    match Command.Update NowAtStart Now Spec with
    | Except.error e => Except.error e
    | Except.ok (NewCommand, NewSpec, bComplete) =>
      Except.ok (FLatentCommand.MultiFrameLatent NewCommand, NewSpec, bComplete)
  | FLatentCommand.AsyncMultiFrameLatent Command =>
    match Command.Update NowAtStart Now Spec with
    | (NewCommand, NewSpec, bComplete) =>
      Except.ok (FLatentCommand.AsyncMultiFrameLatent NewCommand, NewSpec, bComplete)

/-- Modelled from the spec: the external scheduler, which is not part of this repository,
polls the command at the head of its queue and advances to the next one when the poll
reports completion; a poll that reports false ends the tick.  The result is the queue
left for the next tick. -/
def ExecuteLatentCommands {σ : Type} (Now : Int) :
    List (FLatentCommand σ) → FSpecWorld σ →
    Except FFault (List (FLatentCommand σ) × FSpecWorld σ)
  | [], Spec => Except.ok ([], Spec)
  | Command :: Queue, Spec =>
    match Command.Update Now Now Spec with
    | Except.error e => Except.error e
    | Except.ok (NewCommand, NewSpec, bComplete) =>
      if bComplete then ExecuteLatentCommands Now Queue NewSpec
      else Except.ok (NewCommand :: Queue, NewSpec)

/-! ## The declaration pass -/

/-- Scope type of a spec whose commands act on `FSpecWorld σ`. -/
abbrev FScope (σ ν : Type) := FSpecDefinitionScope (FLatentCommand σ) ν

/-- The declaration and compilation state of `FEnhancedAutomationSpecBase`.
`RootDefinitionScope` is the scope at index 0 of `DefinitionScopeStack`: the two refer to
one object.  `HandleCounter` is the function-local static of `FSpecBlockHandle::Assign`. -/
structure FEnhancedAutomationSpecBase (σ ν : Type) where
  DescriptionStack : List String
  DefinitionScopeStack : List (FScope σ ν)
  IdToSpecMap : List (String × FSpec (FLatentCommand σ) ν)
  bHasBeenDefined : Bool
  bEnableSkipIfError : Bool
  DefaultTimeout : Int
  HandleCounter : Int

/-- Predicate `FChar::IsWhitespace` on the characters of the C locale. -/
def FCharIsWhitespace (c : Char) : Bool :=
  c.toNat = 32 || (9 ≤ c.toNat && c.toNat ≤ 13)

/-- Search `FString::FindLastChar`: index of the last occurrence of the character. -/
def FindLastChar (Text : List Char) (c : Char) : Option Nat :=
  match (Text.reverse.indexOf? c) with
  | none => none
  | some FromEnd => some (Text.length - 1 - FromEnd)

/-- Join of `GetId`: the non-empty descriptions of the stack separated by one blank,
without the blank where either side already has whitespace at the seam. -/
def JoinIdParts : List Char → List String → List Char
  | CompleteId, [] => CompleteId
  | CompleteId, CurrentDescription :: Rest =>
    match CurrentDescription.data with
    | [] => JoinIdParts CompleteId Rest
    | First :: Tail =>
      match CompleteId.getLast? with
      | none => JoinIdParts (First :: Tail) Rest
      | some Last =>
        if FCharIsWhitespace Last || FCharIsWhitespace First then
          JoinIdParts (CompleteId ++ First :: Tail) Rest
        else JoinIdParts (CompleteId ++ [Char.ofNat 32] ++ First :: Tail) Rest

/-- Function `GetId` on a description stack. -/
def GetId (DescriptionStack : List String) : Except FFault String :=
  match DescriptionStack.getLast? with
  | none => Except.error FFault.IndexOutOfRange
  | some LastDescription =>
    let Whole := Except.ok (String.mk (JoinIdParts [] DescriptionStack))
    if LastDescription.data.getLast? = some (Char.ofNat 93) then
      let ItDescription := LastDescription.data.dropLast
      match FindLastChar ItDescription (Char.ofNat 91) with
      | none => Whole
      | some StartingBraceIndex =>
        if StartingBraceIndex ≠ ItDescription.length - 1 then
          Except.ok (String.mk (ItDescription.drop (StartingBraceIndex + 1)))
        else Whole
    else Whole

/-- Join of `GetDescription`: the non-empty descriptions separated by a dot; both
branches of the whitespace test build the same text. -/
def JoinDescriptionParts : List Char → List String → List Char
  | CompleteDescription, [] => CompleteDescription
  | CompleteDescription, CurrentDescription :: Rest =>
    match CurrentDescription.data with
    | [] => JoinDescriptionParts CompleteDescription Rest
    | First :: Tail =>
      match CompleteDescription.getLast? with
      | none => JoinDescriptionParts (First :: Tail) Rest
      | some Last =>
        if FCharIsWhitespace Last || FCharIsWhitespace First then
          JoinDescriptionParts (CompleteDescription ++ [Char.ofNat 46] ++ First :: Tail) Rest
        else JoinDescriptionParts (CompleteDescription ++ [Char.ofNat 46] ++ First :: Tail) Rest

/-- Function `GetDescription` on a description stack. -/
def GetDescription (DescriptionStack : List String) : String :=
  String.mk (JoinDescriptionParts [] DescriptionStack)

/-- Wrap of a 32 bit signed integer. -/
def WrapInt32 (x : Int) : Int :=
  (x + 2147483648) % 4294967296 - 2147483648

namespace FEnhancedAutomationSpecBase

/-- Method `PushDescription`. -/
def PushDescription {σ ν : Type} (this : FEnhancedAutomationSpecBase σ ν)
    (InDescription : String) : FEnhancedAutomationSpecBase σ ν :=
  { this with DescriptionStack := this.DescriptionStack ++ [InDescription] }

/-- Method `PopDescription`: `DescriptionStack.RemoveAt(DescriptionStack.Num() - 1)`. -/
def PopDescription {σ ν : Type} (this : FEnhancedAutomationSpecBase σ ν) :
    Except FFault (FEnhancedAutomationSpecBase σ ν) :=
  match this.DescriptionStack with
  | [] => Except.error FFault.IndexOutOfRange
  | _ :: _ => Except.ok { this with DescriptionStack := this.DescriptionStack.dropLast }

/-- A write through `DefinitionScopeStack.Last()` (or `GetCurrentScope()`) to the current
scope. -/
def ModifyCurrentScope {σ ν : Type} (this : FEnhancedAutomationSpecBase σ ν)
    (Change : FScope σ ν → FScope σ ν) : Except FFault (FEnhancedAutomationSpecBase σ ν) :=
  match this.DefinitionScopeStack.getLast? with
  | none => Except.error FFault.IndexOutOfRange
  | some CurrentScope =>
    Except.ok
      { this with
        DefinitionScopeStack := this.DefinitionScopeStack.dropLast ++ [Change CurrentScope] }

/-- Method `Describe`.  `NewScope` is one object referred to by the last entry of
`ParentScope->Children` and by the top of `DefinitionScopeStack`; the declarations of
`DoWork` write to the stack entry, and the entry under the parent is brought up to date
when `DoWork` has returned, before the test that removes an empty scope. -/
def Describe {σ ν : Type} (InDescription : String)
    (DoWork : FEnhancedAutomationSpecBase σ ν → Except FFault (FEnhancedAutomationSpecBase σ ν))
    (this : FEnhancedAutomationSpecBase σ ν) :
    Except FFault (FEnhancedAutomationSpecBase σ ν) :=
  match this.DefinitionScopeStack.getLast? with
  | none => Except.error FFault.IndexOutOfRange
  | some ParentScope =>
    let NewScope : FScope σ ν :=
      { Description := InDescription
        BeforeAll := []
        BeforeEach := []
        AfterEach := []
        It := []
        Children := []
        Variables := [] }
    let Opened : FEnhancedAutomationSpecBase σ ν :=
      { this with
        DefinitionScopeStack :=
          this.DefinitionScopeStack.dropLast
            ++ [{ ParentScope with Children := ParentScope.Children ++ [NewScope] }]
            ++ [NewScope]
        DescriptionStack := this.DescriptionStack ++ [InDescription] }
    match DoWork Opened with
    | Except.error e => Except.error e
    | Except.ok Worked =>
      match Worked.PopDescription with
      | Except.error e => Except.error e
      | Except.ok Popped =>
        match Popped.DefinitionScopeStack.getLast?,
            Popped.DefinitionScopeStack.dropLast.getLast? with
        | some FinalScope, some FinalParent =>
          let Kept : List (FScope σ ν) :=
            if FinalScope.It.length = 0 ∧ FinalScope.Children.length = 0 then
              FinalParent.Children.dropLast
            else FinalParent.Children.dropLast ++ [FinalScope]
          Except.ok
            { Popped with
              DefinitionScopeStack :=
                Popped.DefinitionScopeStack.dropLast.dropLast
                  ++ [{ FinalParent with Children := Kept }] }
        | _, _ => Except.error FFault.IndexOutOfRange

end FEnhancedAutomationSpecBase

/-- The argument lists of the overloads of `It`, `BeforeAll`, `BeforeEach` and `AfterEach`
and of their `Latent` forms.  A timeout that is not given is `DefaultTimeout`. -/
inductive FWorkArgs (σ : Type) where
  | Blocking (DoWork : TUserWork σ)
  | Async (Execution : EAsyncExecution) (Timeout : Option Int) (DoWork : TUserWork σ)
  | Latent (Timeout : Option Int) (DoWork : TUserLatentWork σ)
  | AsyncLatent (Execution : EAsyncExecution) (Timeout : Option Int)
      (DoWork : TUserLatentWork σ)

/-- The command that the overload selected by `Args` constructs, idle, around the given
ways of turning the body of the test author into the work of the command. -/
def MakeCommand {σ : Type} (DefaultTimeout : Int) (bSkipIfErrored : Bool)
    (Wrap : TFunction σ → TFunction σ) (WrapLatent : TLatentFunction σ → TLatentFunction σ) :
    FWorkArgs σ → FLatentCommand σ
  | FWorkArgs.Blocking DoWork =>
    FLatentCommand.SimpleBlocking
      { Work := Wrap (UserLambda DoWork), bSkipIfErrored := bSkipIfErrored }
  | FWorkArgs.Async Execution Timeout DoWork =>
    FLatentCommand.Async
      { Execution := Execution
        Work := Wrap (UserLambda DoWork)
        Timeout := Timeout.getD DefaultTimeout
        bSkipIfErrored := bSkipIfErrored
        bDone := false
        bFutureValid := false
        StartTime := 0
        Dispatched := [] }
  | FWorkArgs.Latent Timeout DoWork =>
    FLatentCommand.MultiFrameLatent
      { Work := WrapLatent (UserLatentLambda DoWork)
        Timeout := Timeout.getD DefaultTimeout
        bSkipIfErrored := bSkipIfErrored
        bHasStartedRunning := false
        bDone := false
        StartTime := 0 }
  | FWorkArgs.AsyncLatent Execution Timeout DoWork =>
    FLatentCommand.AsyncMultiFrameLatent
      { Execution := Execution
        Work := WrapLatent (UserLatentLambda DoWork)
        Timeout := Timeout.getD DefaultTimeout
        bSkipIfErrored := bSkipIfErrored
        bDone := false
        bFutureValid := false
        StartTime := 0
        Dispatched := [] }

/-- Method `FSpecBlockHandle::Assign`: `Handle = HandleCounter++` on the function-local
static counter of 32 bits.  The result is the handle and the counter afterwards. -/
def FSpecBlockHandle.Assign (HandleCounter : Int) : Int × Int :=
  (HandleCounter, WrapInt32 (HandleCounter + 1))

/-- Modelled from the spec: the default constructor of `FSpecBlockHandle`, declared in a
header that is not among the sources, assigns the handle (each `BeforeAll` declaration
is wrapped with a unique handle assigned at declaration time). -/
def FSpecBlockHandle.Construct (HandleCounter : Int) : Int × Int :=
  FSpecBlockHandle.Assign HandleCounter

/-- Modelled from the spec: the default of the constructor parameter `bSkipIfErrored` of
the commands, declared in a header that is not among the sources (`AfterEach` does not
honor `bEnableSkipIfError`). -/
def DefaultSkipIfErrored : Bool := false

namespace FEnhancedAutomationSpecBase

/-- Methods `It` and `LatentIt`.  `Filename` and `LineNumber` are what
`GetTopOfCallStack()` reports for the declaration. -/
def It {σ ν : Type} (InDescription : String) (Filename : String) (LineNumber : Int)
    (Args : FWorkArgs σ) (this : FEnhancedAutomationSpecBase σ ν) :
    Except FFault (FEnhancedAutomationSpecBase σ ν) :=
  let Pushed := this.PushDescription InDescription
  match GetId Pushed.DescriptionStack with
  | Except.error e => Except.error e
  | Except.ok Id =>
    let Definition : FSpecItDefinition (FLatentCommand σ) :=
      { Id := Id
        Description := GetDescription Pushed.DescriptionStack
        Filename := Filename
        LineNumber := LineNumber
        Command := MakeCommand this.DefaultTimeout this.bEnableSkipIfError id id Args }
    match Pushed.ModifyCurrentScope
        (fun CurrentScope => { CurrentScope with It := CurrentScope.It ++ [Definition] }) with
    | Except.error e => Except.error e
    | Except.ok Declared => Declared.PopDescription

/-- Methods `BeforeAll` and `LatentBeforeAll`: the body is wrapped by
`CreateRunWorkOnceWrapper` with the handle of a newly constructed `FSpecBlockHandle`. -/
def BeforeAll {σ ν : Type} (Args : FWorkArgs σ) (this : FEnhancedAutomationSpecBase σ ν) :
    Except FFault (FEnhancedAutomationSpecBase σ ν) :=
  let BlockHandle := (FSpecBlockHandle.Construct this.HandleCounter).1
  let Assigned :=
    { this with HandleCounter := (FSpecBlockHandle.Construct this.HandleCounter).2 }
  let Command := MakeCommand this.DefaultTimeout this.bEnableSkipIfError
    (CreateRunWorkOnceWrapper BlockHandle) (CreateRunWorkOnceLatentWrapper BlockHandle) Args
  Assigned.ModifyCurrentScope
    (fun CurrentScope => { CurrentScope with BeforeAll := CurrentScope.BeforeAll ++ [Command] })

/-- Methods `BeforeEach` and `LatentBeforeEach`. -/
def BeforeEach {σ ν : Type} (Args : FWorkArgs σ) (this : FEnhancedAutomationSpecBase σ ν) :
    Except FFault (FEnhancedAutomationSpecBase σ ν) :=
  let Command := MakeCommand this.DefaultTimeout this.bEnableSkipIfError id id Args
  this.ModifyCurrentScope
    (fun CurrentScope => { CurrentScope with BeforeEach := CurrentScope.BeforeEach ++ [Command] })

/-- Methods `AfterEach` and `LatentAfterEach`: the commands are constructed without the
skip argument. -/
def AfterEach {σ ν : Type} (Args : FWorkArgs σ) (this : FEnhancedAutomationSpecBase σ ν) :
    Except FFault (FEnhancedAutomationSpecBase σ ν) :=
  let Command := MakeCommand this.DefaultTimeout DefaultSkipIfErrored id id Args
  this.ModifyCurrentScope
    (fun CurrentScope => { CurrentScope with AfterEach := CurrentScope.AfterEach ++ [Command] })

/-- Modelled from the spec: `LET` and `REDEFINE_LET` of the missing header enter the
variable under its name in the own variable scope of the current scope. -/
def Let {σ ν : Type} (Name : String) (Variable : ν) (this : FEnhancedAutomationSpecBase σ ν) :
    Except FFault (FEnhancedAutomationSpecBase σ ν) :=
  this.ModifyCurrentScope
    (fun CurrentScope =>
      { CurrentScope with Variables := TMapAdd CurrentScope.Variables Name Variable })

/-- Modelled from the spec: the definition of a name that is visible where a declaration
stands, "the one being shadowed" by a redefinition there: the definition in the
innermost scope of the scope stack that defines the name. -/
def VisibleVariable {σ ν : Type} : List (FScope σ ν) → String → Option ν
  | [], _ => none
  | Outermost :: Inner, Name =>
    match VisibleVariable Inner Name with
    | some Variable => some Variable
    | none => TMapFind Outermost.Variables Name

/-- Modelled from the spec: `REDEFINE_LET` of the missing header: "a redefinition in a
nested scope creates a new ScopedVariable whose Previous points at the one being
shadowed".  `Make` builds the new variable around the definition that is visible where
the redefinition stands, and the new variable is entered as `LET` enters one. -/
def RedefineLet {σ ν : Type} (Name : String) (Make : Option ν → ν)
    (this : FEnhancedAutomationSpecBase σ ν) :
    Except FFault (FEnhancedAutomationSpecBase σ ν) :=
  Let Name (Make (VisibleVariable this.DefinitionScopeStack Name)) this

end FEnhancedAutomationSpecBase

/-- A declaration inside `Define` or inside the body of a `Describe`. -/
inductive FSpecDecl (σ ν : Type) where
  | Describe (InDescription : String) (DoWork : List (FSpecDecl σ ν))
  | It (InDescription : String) (Filename : String) (LineNumber : Int) (Args : FWorkArgs σ)
  | BeforeAll (Args : FWorkArgs σ)
  | BeforeEach (Args : FWorkArgs σ)
  | AfterEach (Args : FWorkArgs σ)
  | Let (Name : String) (Variable : ν)
  | RedefineLet (Name : String) (Make : Option ν → ν)

mutual
/-- Execution of one declaration on the spec object. -/
def RunDecl {σ ν : Type} :
    FSpecDecl σ ν → FEnhancedAutomationSpecBase σ ν →
    Except FFault (FEnhancedAutomationSpecBase σ ν)
  | FSpecDecl.Describe InDescription DoWork, this =>
    FEnhancedAutomationSpecBase.Describe InDescription (fun Opened => RunDecls DoWork Opened) this
  | FSpecDecl.It InDescription Filename LineNumber Args, this =>
    FEnhancedAutomationSpecBase.It InDescription Filename LineNumber Args this
  | FSpecDecl.BeforeAll Args, this => FEnhancedAutomationSpecBase.BeforeAll Args this
  | FSpecDecl.BeforeEach Args, this => FEnhancedAutomationSpecBase.BeforeEach Args this
  | FSpecDecl.AfterEach Args, this => FEnhancedAutomationSpecBase.AfterEach Args this
  | FSpecDecl.Let Name Variable, this => FEnhancedAutomationSpecBase.Let Name Variable this
  | FSpecDecl.RedefineLet Name Make, this =>
    FEnhancedAutomationSpecBase.RedefineLet Name Make this
/-- Execution of a sequence of declarations, the body of `Define` or of a `Describe`. -/
def RunDecls {σ ν : Type} :
    List (FSpecDecl σ ν) → FEnhancedAutomationSpecBase σ ν →
    Except FFault (FEnhancedAutomationSpecBase σ ν)
  | [], this => Except.ok this
  | Decl :: Rest, this =>
    match RunDecl Decl this with
    | Except.error e => Except.error e
    | Except.ok Next => RunDecls Rest Next
end

mutual
/-- Whether the declaration is an `It` or a `Describe` with an `It` somewhere inside. -/
def FSpecDecl.DeclaresIt {σ ν : Type} : FSpecDecl σ ν → Bool
  | FSpecDecl.Describe _ DoWork => DeclaresItInList DoWork
  | FSpecDecl.It _ _ _ _ => true
  | FSpecDecl.BeforeAll _ => false
  | FSpecDecl.BeforeEach _ => false
  | FSpecDecl.AfterEach _ => false
  | FSpecDecl.Let _ _ => false
  | FSpecDecl.RedefineLet _ _ => false
/-- Whether one of the declarations declares an `It`. -/
def DeclaresItInList {σ ν : Type} : List (FSpecDecl σ ν) → Bool
  | [] => false
  | Decl :: Rest => Decl.DeclaresIt || DeclaresItInList Rest
end

namespace FEnhancedAutomationSpecBase

/-- Modelled from the spec: the constructor, which is in the missing header, seeds the
scope stack with the root scope; nothing is compiled yet. -/
def Fresh (σ ν : Type) (bEnableSkipIfError : Bool) (DefaultTimeout : Int)
    (HandleCounter : Int) : FEnhancedAutomationSpecBase σ ν :=
  { DescriptionStack := []
    DefinitionScopeStack :=
      [{ Description := ""
         BeforeAll := []
         BeforeEach := []
         AfterEach := []
         It := []
         Children := []
         Variables := [] }]
    IdToSpecMap := []
    bHasBeenDefined := false
    bEnableSkipIfError := bEnableSkipIfError
    DefaultTimeout := DefaultTimeout
    HandleCounter := HandleCounter }

/-- Method `PostDefine` on the spec object: compiles the tree under `RootDefinitionScope`
into `IdToSpecMap`, resets the root and the scope stack and sets `bHasBeenDefined`. -/
def PostDefine {σ ν : Type} (this : FEnhancedAutomationSpecBase σ ν) :
    Except FFault (FEnhancedAutomationSpecBase σ ν) :=
  match this.DefinitionScopeStack.head? with
  | none => Except.error FFault.NullReference
  | some RootDefinitionScope =>
    match EnhancedSpecs.PostDefine RootDefinitionScope this.IdToSpecMap with
    | Except.error e => Except.error e
    | Except.ok NewMap =>
      Except.ok
        { this with
          IdToSpecMap := NewMap
          DefinitionScopeStack := []
          bHasBeenDefined := true }

/-- Method `EnsureDefinitions`; `Define` is the virtual method of the spec class. -/
def EnsureDefinitions {σ ν : Type}
    (Define : FEnhancedAutomationSpecBase σ ν → Except FFault (FEnhancedAutomationSpecBase σ ν))
    (this : FEnhancedAutomationSpecBase σ ν) :
    Except FFault (FEnhancedAutomationSpecBase σ ν) :=
  if !this.bHasBeenDefined then
    match Define this with
    | Except.error e => Except.error e
    | Except.ok Defined => Defined.PostDefine
  else Except.ok this

end FEnhancedAutomationSpecBase

/-! ## Relations between the states before and after a declaration -/

/-- The declaration left everything but the current scope and the handle counter as it
was: the scope stack is `Below` with the current scope `Current` on top. -/
def KeepsFrame {σ ν : Type} (Before After : FEnhancedAutomationSpecBase σ ν)
    (Below : List (FScope σ ν)) (Current : FScope σ ν) : Prop :=
  After.DefinitionScopeStack = Below ++ [Current] ∧
  After.DescriptionStack = Before.DescriptionStack ∧
  After.IdToSpecMap = Before.IdToSpecMap ∧
  After.bHasBeenDefined = Before.bHasBeenDefined ∧
  After.bEnableSkipIfError = Before.bEnableSkipIfError ∧
  After.DefaultTimeout = Before.DefaultTimeout

/-- The current scope gained `It` declarations and children, all added at the end; the
new children are pruned and hold valid variables; something was added exactly when
`bDeclaresIt` is set. -/
def ScopeGrows {σ ν : Type} (bDeclaresIt : Bool) (Before After : FScope σ ν) : Prop :=
  ∃ (NewIt : List (FSpecItDefinition (FLatentCommand σ))) (NewChildren : List (FScope σ ν)),
    After.It = Before.It ++ NewIt ∧
    After.Children = Before.Children ++ NewChildren ∧
    PrunedList NewChildren ∧
    ValidVariablesList NewChildren ∧
    (bDeclaresIt = true ↔ (NewIt ≠ [] ∨ NewChildren ≠ [])) ∧
    ((TMapFoldedKeys Before.Variables).Nodup → (TMapFoldedKeys After.Variables).Nodup) ∧
    After.Description = Before.Description

/-- The scope that `Describe` creates. -/
def NewDescribeScope (σ ν : Type) (InDescription : String) : FScope σ ν :=
  { Description := InDescription
    BeforeAll := []
    BeforeEach := []
    AfterEach := []
    It := []
    Children := []
    Variables := [] }


/-! ## Sequences of polls within one session -/

/-- One poll of a blocking command as a step on the spec object. -/
def PollBlocking {σ : Type} (Command : FSimpleBlockingCommand σ) :
    FSpecWorld σ → Except FFault (FSpecWorld σ) :=
  fun Spec =>
    match Command.Update Spec with
    | Except.error e => Except.error e
    | Except.ok (NewSpec, _) => Except.ok NewSpec

/-- Steps executed one after the other, stopping at the first fault. -/
def RunSteps {α : Type} : List (α → Except FFault α) → α → Except FFault α
  | [], State => Except.ok State
  | Step :: Rest, State =>
    match Step State with
    | Except.error e => Except.error e
    | Except.ok Next => RunSteps Rest Next

/-- Whether the block handle is marked as run in the session of the spec object. -/
def FSpecWorld.HasBlockRun {σ : Type} (Spec : FSpecWorld σ) (BlockHandle : Int) : Bool :=
  match Spec.SuiteSessionState with
  | none => false
  | some Session => Session.HasBlockRun BlockHandle

/-- A step that has nothing to do with the block handle: it keeps the session object,
leaves the mark of the handle as it is, as every step other than `ClearState` and the
run-once wrapper of this handle does, and does not invoke the body of the handle. -/
def ForeignTo {σ : Type} (BlockHandle : Int)
    (Step : FSpecWorld σ → Except FFault (FSpecWorld σ)) : Prop :=
  ∀ Spec After, Step Spec = Except.ok After →
    (Spec.SuiteSessionState.isSome = true → After.SuiteSessionState.isSome = true) ∧
    After.HasBlockRun BlockHandle = Spec.HasBlockRun BlockHandle ∧
    After.BodiesInvoked.count BlockHandle = Spec.BodiesInvoked.count BlockHandle

/-- Invariant of a session for one block handle: the session object exists, the body of
the handle was invoked at most once, and not at all while the handle is unmarked. -/
def OnceInvariant {σ : Type} (BlockHandle : Int) (Spec : FSpecWorld σ) : Prop :=
  Spec.SuiteSessionState.isSome = true ∧
  Spec.BodiesInvoked.count BlockHandle ≤ 1 ∧
  (Spec.HasBlockRun BlockHandle = false → Spec.BodiesInvoked.count BlockHandle = 0)


/-! ## The demo specs of the repository -/

/-- Modelled from the spec: `TestEqual` of the host framework records an error against
the running test when the two values differ. -/
def TestEqual {σ : Type} (What : String) (Actual Expected : Int) (Env : FUserEnv σ) :
    FUserEnv σ :=
  if Actual = Expected then Env else { Env with Errors := Env.Errors ++ [What] }

/-- Members of the spec class of `BeforeAllDemo.spec.cpp`. -/
structure FBeforeAllDemoSpec where
  Test1RunCount : Int
  Test2RunCount : Int
  deriving DecidableEq, Repr

/-- Method `FBeforeAllDemoSpec::Define` of `BeforeAllDemo.spec.cpp`. -/
def FBeforeAllDemoSpec.Define : List (FSpecDecl FBeforeAllDemoSpec Unit) :=
  [FSpecDecl.Describe "BeforeAll()"
    [FSpecDecl.Describe "when there are multiple expectations and no BeforeEach blocks"
      [FSpecDecl.BeforeAll (FWorkArgs.Blocking (fun Env =>
          { Env with Members :=
            { Env.Members with Test1RunCount := WrapInt32 (Env.Members.Test1RunCount + 1) } })),
       FSpecDecl.It "evaluates the `BeforeAll` at least once" "BeforeAllDemo.spec.cpp" 27
        (FWorkArgs.Blocking (fun Env =>
          TestEqual "Test1RunCount" Env.Members.Test1RunCount 1 Env)),
       FSpecDecl.It "evaluates the `BeforeAll` no more than once" "BeforeAllDemo.spec.cpp" 32
        (FWorkArgs.Blocking (fun Env =>
          TestEqual "Test1RunCount" Env.Members.Test1RunCount 1 Env))],
     FSpecDecl.Describe "when there are multiple expectations and multiple BeforeEach blocks"
      [FSpecDecl.BeforeEach (FWorkArgs.Blocking (fun Env =>
          { Env with Members :=
            { Env.Members with Test2RunCount := WrapInt32 (Env.Members.Test2RunCount * 2) } })),
       FSpecDecl.BeforeAll (FWorkArgs.Blocking (fun Env =>
          { Env with Members :=
            { Env.Members with Test2RunCount := WrapInt32 (Env.Members.Test2RunCount + 1) } })),
       FSpecDecl.BeforeEach (FWorkArgs.Blocking (fun Env =>
          { Env with Members :=
            { Env.Members with Test2RunCount := WrapInt32 (Env.Members.Test2RunCount + 1) } })),
       FSpecDecl.It "evaluates the `BeforeAll` before each `BeforeEach` block"
        "BeforeAllDemo.spec.cpp" 61
        (FWorkArgs.Blocking (fun Env =>
          TestEqual "Test2RunCount" Env.Members.Test2RunCount 3 Env))]]]

/-- The spec object of the demo after `EnsureDefinitions`, with `bEnableSkipIfError` set,
a default timeout of 30 seconds in ticks and the handle counter at its initial value 1. -/
def FBeforeAllDemoSpec.Compiled :
    Except FFault (FEnhancedAutomationSpecBase FBeforeAllDemoSpec Unit) :=
  FEnhancedAutomationSpecBase.EnsureDefinitions (RunDecls FBeforeAllDemoSpec.Define)
    (FEnhancedAutomationSpecBase.Fresh FBeforeAllDemoSpec Unit true 300000000 1)

/-- The spec object of the demo at the start of a session: both counters zero, no error,
a session state without marked handles. -/
def FBeforeAllDemoSpec.FreshSession : FSpecWorld FBeforeAllDemoSpec :=
  { Env := { Members := { Test1RunCount := 0, Test2RunCount := 0 }, Errors := [] }
    SuiteSessionState := some { BlocksRun := [] }
    BodiesInvoked := [] }

/-- The command chain of the compiled spec with the given identifier, empty when there
is none. -/
def CommandsOf {σ ν : Type} (Compiled : Except FFault (FEnhancedAutomationSpecBase σ ν))
    (Id : String) : List (FLatentCommand σ) :=
  match Compiled with
  | Except.error _ => []
  | Except.ok Spec =>
    match TMapFind Spec.IdToSpecMap Id with
    | none => []
    | some Found => Found.Commands

/-- What a test observes of the spec object after the scheduler ran a queue: the members,
the errors, the ghost record and the number of commands left in the queue. -/
def Observe {σ : Type}
    (Result : Except FFault (List (FLatentCommand σ) × FSpecWorld σ)) :
    Option (σ × List String × List Int × Nat) :=
  match Result with
  | Except.error _ => none
  | Except.ok (Queue, Spec) =>
    some (Spec.Env.Members, Spec.Env.Errors, Spec.BodiesInvoked, Queue.length)

/-- The root scope as the declarations leave it, before `PostDefine` consumes it. -/
def DeclaredRoot {σ ν : Type} (Decls : List (FSpecDecl σ ν)) (bEnableSkipIfError : Bool)
    (DefaultTimeout HandleCounter : Int) : FScope σ ν :=
  match RunDecls Decls
      (FEnhancedAutomationSpecBase.Fresh σ ν bEnableSkipIfError DefaultTimeout HandleCounter) with
  | Except.error _ => NewDescribeScope σ ν ""
  | Except.ok Declared => Declared.DefinitionScopeStack.head?.getD (NewDescribeScope σ ν "")

/-- The value of a result that is known to be a success. -/
def ValueOf {α : Type} (Result : Except FFault α) (Default : α) : α :=
  match Result with
  | Except.error _ => Default
  | Except.ok Value => Value

/-- The compiled spec object of the demo. -/
def FBeforeAllDemoSpec.CompiledObject : FEnhancedAutomationSpecBase FBeforeAllDemoSpec Unit :=
  ValueOf FBeforeAllDemoSpec.Compiled
    (FEnhancedAutomationSpecBase.Fresh FBeforeAllDemoSpec Unit true 300000000 1)

/-- The root scope of the demo after `Define`. -/
def FBeforeAllDemoSpec.Root : FScope FBeforeAllDemoSpec Unit :=
  DeclaredRoot FBeforeAllDemoSpec.Define true 300000000 1

/-- The scope of `Describe("BeforeAll()", ...)` of the demo. -/
def FBeforeAllDemoSpec.Group : FScope FBeforeAllDemoSpec Unit :=
  FBeforeAllDemoSpec.Root.Children.headD FBeforeAllDemoSpec.Root

/-- The scope "when there are multiple expectations and no BeforeEach blocks". -/
def FBeforeAllDemoSpec.FirstScope : FScope FBeforeAllDemoSpec Unit :=
  FBeforeAllDemoSpec.Group.Children.headD FBeforeAllDemoSpec.Root

/-- The scope "when there are multiple expectations and multiple BeforeEach blocks". -/
def FBeforeAllDemoSpec.SecondScope : FScope FBeforeAllDemoSpec Unit :=
  FBeforeAllDemoSpec.Group.Children.getLastD FBeforeAllDemoSpec.Root

/-- A placeholder `It` declaration for an empty list. -/
def NoItDefinition (σ : Type) : FSpecItDefinition (FLatentCommand σ) :=
  { Id := ""
    Description := ""
    Filename := ""
    LineNumber := 0
    Command := FLatentCommand.SimpleBlocking { Work := UserLambda id, bSkipIfErrored := false } }

/-- The `It` declaration of the scope with two `BeforeEach` blocks. -/
def FBeforeAllDemoSpec.SecondIt : FSpecItDefinition (FLatentCommand FBeforeAllDemoSpec) :=
  FBeforeAllDemoSpec.SecondScope.It.headD (NoItDefinition FBeforeAllDemoSpec)

/-- The `BeforeAll` command of the first scope of the demo as `BeforeAll` constructs it
for the handle 1: the run-once wrapper around `++Test1RunCount`. -/
def FBeforeAllDemoSpec.FirstBeforeAll : FSimpleBlockingCommand FBeforeAllDemoSpec :=
  { Work := CreateRunWorkOnceWrapper 1 (UserLambda (fun Env =>
      { Env with Members :=
        { Env.Members with Test1RunCount := WrapInt32 (Env.Members.Test1RunCount + 1) } }))
    bSkipIfErrored := true }

/-- The body command of the two `It` blocks of the first scope of the demo. -/
def FBeforeAllDemoSpec.FirstBody : FSimpleBlockingCommand FBeforeAllDemoSpec :=
  { Work := UserLambda (fun Env => TestEqual "Test1RunCount" Env.Members.Test1RunCount 1 Env)
    bSkipIfErrored := true }

/-- The polls of one session in which the chains of the two specs of the first scope of
the demo are executed, the second one twice. -/
def FBeforeAllDemoSpec.FirstScopePolls :
    List (FSpecWorld FBeforeAllDemoSpec → Except FFault (FSpecWorld FBeforeAllDemoSpec)) :=
  [PollBlocking FBeforeAllDemoSpec.FirstBeforeAll, PollBlocking FBeforeAllDemoSpec.FirstBody,
   PollBlocking FBeforeAllDemoSpec.FirstBeforeAll, PollBlocking FBeforeAllDemoSpec.FirstBody,
   PollBlocking FBeforeAllDemoSpec.FirstBeforeAll, PollBlocking FBeforeAllDemoSpec.FirstBody]

/-- The merged variable scope of the compiled spec with the given identifier, empty when
there is none. -/
def VariablesOf {σ ν : Type} (Compiled : Except FFault (FEnhancedAutomationSpecBase σ ν))
    (Id : String) : FSpecVariableScope ν :=
  match Compiled with
  | Except.error _ => []
  | Except.ok Spec =>
    match TMapFind Spec.IdToSpecMap Id with
    | none => []
    | some Found => Found.Variables

/-- A `Define` with two sibling groups after the pattern of `LetDemo.spec.cpp`: the outer
group defines `X`, the first nested group redefines `X`, defines `Y` and declares a
`BeforeEach`, the second nested group declares neither a variable nor a hook.  A variable
is represented by the text of its definition. -/
def SiblingScopesDefine : List (FSpecDecl Unit String) :=
  [FSpecDecl.Describe "Outer"
    [FSpecDecl.Let "X" "X of Outer",
     FSpecDecl.Describe "First"
      [FSpecDecl.Let "X" "X of First",
       FSpecDecl.Let "Y" "Y of First",
       FSpecDecl.BeforeEach (FWorkArgs.Blocking id),
       FSpecDecl.It "reads its own X" "SiblingScopes.spec.cpp" 10 (FWorkArgs.Blocking id)],
     FSpecDecl.Describe "Second"
      [FSpecDecl.It "reads the X of Outer" "SiblingScopes.spec.cpp" 20
        (FWorkArgs.Blocking id)]]]

/-- The spec object of the sibling groups after `EnsureDefinitions`. -/
def SiblingScopesCompiled : Except FFault (FEnhancedAutomationSpecBase Unit String) :=
  FEnhancedAutomationSpecBase.EnsureDefinitions (RunDecls SiblingScopesDefine)
    (FEnhancedAutomationSpecBase.Fresh Unit String true 300000000 1)

/-- The root scope of the sibling groups after `Define`. -/
def SiblingScopesRoot : FScope Unit String :=
  DeclaredRoot SiblingScopesDefine true 300000000 1

/-- The scope of `Describe("Outer", ...)`. -/
def SiblingScopesOuter : FScope Unit String :=
  SiblingScopesRoot.Children.headD SiblingScopesRoot

/-- The scope of `Describe("First", ...)`. -/
def SiblingScopesFirst : FScope Unit String :=
  SiblingScopesOuter.Children.headD SiblingScopesRoot

/-- The scope of `Describe("Second", ...)`. -/
def SiblingScopesSecond : FScope Unit String :=
  SiblingScopesOuter.Children.getLastD SiblingScopesRoot

/-- A spec object with one recorded error. -/
def ErroredSpec : FSpecWorld Int :=
  { Env := { Members := 0, Errors := ["Expected 1, but it was 2."] }
    SuiteSessionState := some { BlocksRun := [] }
    BodiesInvoked := [] }

/-- A blocking command with skip-if-errored whose work increments the member. -/
def IncrementCommand : FSimpleBlockingCommand Int :=
  { Work := UserLambda (fun Env => { Env with Members := Env.Members + 1 })
    bSkipIfErrored := true }
/-! ## States of the commands that span several polls -/

/-- The command waits for its next activation: `Future.IsValid()` is false and `bDone`
is false. -/
def FAsyncCommand.IsIdle {σ : Type} (this : FAsyncCommand σ) : Prop :=
  this.bFutureValid = false ∧ this.bDone = false

/-- The command waits for its next activation: `bHasStartedRunning` and `bDone` are
false. -/
def FMultiFrameLatentCommand.IsIdle {σ : Type} (this : FMultiFrameLatentCommand σ) : Prop :=
  this.bHasStartedRunning = false ∧ this.bDone = false

/-- The command waits for its next activation: `Future.IsValid()` is false and `bDone`
is false. -/
def FAsyncMultiFrameLatentCommand.IsIdle {σ : Type} (this : FAsyncMultiFrameLatentCommand σ) :
    Prop :=
  this.bFutureValid = false ∧ this.bDone = false

/-- The state invariant of `FAsyncCommand`: `bDone` is only set while the future is valid.
The constructor establishes it; `Update`, `Done`, `Reset` and the task keep it. -/
def FAsyncCommand.DoneOnlyWhileStarted {σ : Type} (this : FAsyncCommand σ) : Prop :=
  this.bDone = true → this.bFutureValid = true

/-- The state invariant of `FMultiFrameLatentCommand`: `bDone` is only set after the
command has started running. -/
def FMultiFrameLatentCommand.DoneOnlyWhileStarted {σ : Type}
    (this : FMultiFrameLatentCommand σ) : Prop :=
  this.bDone = true → this.bHasStartedRunning = true

/-- The state invariant of `FAsyncMultiFrameLatentCommand`: `bDone` is only set while the
future is valid. -/
def FAsyncMultiFrameLatentCommand.DoneOnlyWhileStarted {σ : Type}
    (this : FAsyncMultiFrameLatentCommand σ) : Prop :=
  this.bDone = true → this.bFutureValid = true

/-- The state of `FMultiFrameLatentCommand` in which the first poll leaves it when the
work has returned and the clock read `NowAtStart`. -/
def FMultiFrameLatentCommand.Started {σ : Type} (this : FMultiFrameLatentCommand σ)
    (NowAtStart : Int) : FMultiFrameLatentCommand σ :=
  { this with bDone := false, bHasStartedRunning := true, StartTime := NowAtStart }

/-- The state of `FAsyncCommand` after the first poll has handed the task to `Async` and
the clock read `NowAtStart`. -/
def FAsyncCommand.Started {σ : Type} (this : FAsyncCommand σ) (NowAtStart : Int) :
    FAsyncCommand σ :=
  { this with
    bDone := false
    bFutureValid := true
    Dispatched := this.Dispatched ++ [this.Execution]
    StartTime := NowAtStart }

/-- The state of `FAsyncMultiFrameLatentCommand` after the first poll has handed the task
to `Async` and the clock read `NowAtStart`. -/
def FAsyncMultiFrameLatentCommand.Started {σ : Type} (this : FAsyncMultiFrameLatentCommand σ)
    (NowAtStart : Int) : FAsyncMultiFrameLatentCommand σ :=
  { this with
    bDone := false
    bFutureValid := true
    Dispatched := this.Dispatched ++ [this.Execution]
    StartTime := NowAtStart }

/-- The flag `bSkipIfErrored` of a command. -/
def FLatentCommand.bSkipIfErrored {σ : Type} : FLatentCommand σ → Bool
  | FLatentCommand.SimpleBlocking Command => Command.bSkipIfErrored
  | FLatentCommand.Async Command => Command.bSkipIfErrored
  | FLatentCommand.MultiFrameLatent Command => Command.bSkipIfErrored
  | FLatentCommand.AsyncMultiFrameLatent Command => Command.bSkipIfErrored

/-- One poll of a multi-frame latent command at the time `Now`, on the state that the
previous poll left. -/
def FMultiFrameLatentCommand.PollAt {σ : Type} (Now : Int)
    (State : FMultiFrameLatentCommand σ × FSpecWorld σ × Bool) :
    Except FFault (FMultiFrameLatentCommand σ × FSpecWorld σ × Bool) :=
  State.1.Update Now Now State.2.1

/-- What a test observes of a command and its spec after a poll: whether the command is
in an activation (`bHasStartedRunning` or `Future.IsValid()`), the flag `bDone`, the start
time, the members and the errors of the spec, and the result of the poll. -/
structure FCommandObservation (σ : Type) where
  bStarted : Bool
  bDone : Bool
  StartTime : Int
  Members : σ
  Errors : List String
  bComplete : Bool
  deriving DecidableEq

/-- The observation after polls of a multi-frame latent command. -/
def FMultiFrameLatentCommand.Observe {σ : Type}
    (Result : Except FFault (FMultiFrameLatentCommand σ × FSpecWorld σ × Bool)) :
    Option (FCommandObservation σ) :=
  match Result with
  | Except.error _ => none
  | Except.ok (Command, Spec, bComplete) =>
    some
      { bStarted := Command.bHasStartedRunning
        bDone := Command.bDone
        StartTime := Command.StartTime
        Members := Spec.Env.Members
        Errors := Spec.Env.Errors
        bComplete := bComplete }

/-- A spec object without errors whose only member is a counter at zero. -/
def CleanSpec : FSpecWorld Int :=
  { Env := { Members := 0, Errors := [] }
    SuiteSessionState := none
    BodiesInvoked := [] }

/-- The command of `LatentIt(..., FTimespan(50), [](const FDoneDelegate&) { ++Counter; })`:
the body counts its calls and never executes the delegate. -/
def NeverDoneCommand : FMultiFrameLatentCommand Int :=
  { Work := UserLatentLambda (fun Env => ({ Env with Members := Env.Members + 1 }, false))
    Timeout := 50
    bSkipIfErrored := true
    bHasStartedRunning := false
    bDone := false
    StartTime := 0 }

/-- The command of
`LatentIt(..., [](const FDoneDelegate& Done) { ++Counter; Done.Execute(); })` with the
default timeout of 30 seconds in ticks: the body executes the delegate before it
returns. -/
def DoneBeforeReturnCommand : FMultiFrameLatentCommand Int :=
  { Work := UserLatentLambda (fun Env => ({ Env with Members := Env.Members + 1 }, true))
    Timeout := 300000000
    bSkipIfErrored := true
    bHasStartedRunning := false
    bDone := false
    StartTime := 0 }

/-- An async command with a timeout of 50 ticks whose task was started at time 100 and
has not finished. -/
def PendingAsyncCommand : FAsyncCommand Int :=
  { Execution := EAsyncExecution.ThreadPool
    Work := IncrementCommand.Work
    Timeout := 50
    bSkipIfErrored := true
    bDone := false
    bFutureValid := true
    StartTime := 100
    Dispatched := [EAsyncExecution.ThreadPool] }

/-- The command waits for its next activation; a blocking command has no state. -/
def FLatentCommand.IsIdle {σ : Type} : FLatentCommand σ → Prop
  | FLatentCommand.SimpleBlocking _ => True
  | FLatentCommand.Async Command => Command.IsIdle
  | FLatentCommand.MultiFrameLatent Command => Command.IsIdle
  | FLatentCommand.AsyncMultiFrameLatent Command => Command.IsIdle

/-- The state invariant of the commands: `bDone` is only set during an activation. -/
def FLatentCommand.DoneOnlyWhileStarted {σ : Type} : FLatentCommand σ → Prop
  | FLatentCommand.SimpleBlocking _ => True
  | FLatentCommand.Async Command => Command.DoneOnlyWhileStarted
  | FLatentCommand.MultiFrameLatent Command => Command.DoneOnlyWhileStarted
  | FLatentCommand.AsyncMultiFrameLatent Command => Command.DoneOnlyWhileStarted

/-- A spec object that is being declared, with `bEnableSkipIfError` set: the root scope
and the scope of one `Describe` are on the scope stack. -/
def DeclaringSpec : FEnhancedAutomationSpecBase Int Unit :=
  { FEnhancedAutomationSpecBase.Fresh Int Unit true 300000000 1 with
    DescriptionStack := ["Teardown"]
    DefinitionScopeStack := [NewDescribeScope Int Unit "", NewDescribeScope Int Unit "Teardown"] }

/-- A teardown body that increments the counter. -/
def TeardownBody : TUserWork Int :=
  fun Env => { Env with Members := Env.Members + 1 }

/-! ## Running compiled specs -/

/-- The operations of the variable classes that `RunSpec` calls.  The classes are
declared in the header `EnhancedAutomationSpecBase.h`, so the operations are parameters
here: `Reset` is `Variable->Reset()` and `SetVariablesInScope` is the assignment
`this->VariablesInScope = Variables`; both act on the members of the spec object. -/
structure FSpecVariableOps (σ ν : Type) where
  Reset : ν → σ → σ
  SetVariablesInScope : FSpecVariableScope ν → σ → σ

/-- The spec object at run time: its declaration and compilation state, the part that
commands act on, and the queue of latent commands of `FAutomationTestFramework`. -/
structure FSpecRuntime (σ ν : Type) where
  Base : FEnhancedAutomationSpecBase σ ν
  Spec : FSpecWorld σ
  LatentCommands : List (FLatentCommand σ)

/-- A change of the members of the spec object. -/
def FSpecWorld.ModifyMembers {σ : Type} (Change : σ → σ) (Spec : FSpecWorld σ) : FSpecWorld σ :=
  { Spec with Env := { Spec.Env with Members := Change Spec.Env.Members } }

/-- Modelled from the spec: `EnqueueLatentCommand` of the host framework, which is not
part of this repository, puts the command at the end of the queue. -/
def EnqueueLatentCommand {σ : Type} (Queue : List (FLatentCommand σ))
    (Command : FLatentCommand σ) : List (FLatentCommand σ) :=
  Queue ++ [Command]

/-- The step `if (!SuiteSessionState.IsValid()) SuiteSessionState = new ...` of
`RunTest`. -/
def FSpecWorld.EnsureSessionState {σ : Type} (Spec : FSpecWorld σ) : FSpecWorld σ :=
  if !Spec.SuiteSessionState.isSome then
    { Spec with SuiteSessionState := some { BlocksRun := [] } }
  else Spec

namespace FEnhancedAutomationSpecBase

/-- Method `RunSpec`: resets every variable of the spec in the order of its variable
scope, makes that scope the scope of the spec object, and enqueues the commands of the
spec by ascending index. -/
def RunSpec {σ ν : Type} (Ops : FSpecVariableOps σ ν) (SpecToRun : FSpec (FLatentCommand σ) ν)
    (this : FSpecRuntime σ ν) : FSpecRuntime σ ν :=
  let AfterReset : FSpecWorld σ :=
    SpecToRun.Variables.foldl
      (fun Spec Entry => Spec.ModifyMembers (Ops.Reset Entry.2)) this.Spec
  let InScope : FSpecWorld σ :=
    AfterReset.ModifyMembers (Ops.SetVariablesInScope SpecToRun.Variables)
  { this with
    Spec := InScope
    LatentCommands := SpecToRun.Commands.foldl EnqueueLatentCommand this.LatentCommands }

/-- Method `RunTest`; `Define` is the virtual method of the spec class.  The result holds
the return value of the method. -/
def RunTest {σ ν : Type} (Ops : FSpecVariableOps σ ν)
    (Define : FEnhancedAutomationSpecBase σ ν → Except FFault (FEnhancedAutomationSpecBase σ ν))
    (InParameters : String) (this : FSpecRuntime σ ν) : Except FFault (FSpecRuntime σ ν × Bool) :=
  match EnsureDefinitions Define this.Base with
  | Except.error e => Except.error e
  | Except.ok Defined =>
    let Prepared : FSpecRuntime σ ν :=
      { this with Base := Defined, Spec := this.Spec.EnsureSessionState }
    if InParameters = "" then
      let Specs := TMapValues Defined.IdToSpecMap
      Except.ok (Specs.foldl (fun Runtime SpecToRun => RunSpec Ops SpecToRun Runtime) Prepared, true)
    else
      match TMapFind Defined.IdToSpecMap InParameters with
      | some SpecToRun => Except.ok (RunSpec Ops SpecToRun Prepared, true)
      | none => Except.ok (Prepared, true)

end FEnhancedAutomationSpecBase

namespace FSpecRuntime

/-- One tick of the scheduler on the queue of the runtime. -/
def ExecuteLatentCommands {σ ν : Type} (Now : Int) (this : FSpecRuntime σ ν) :
    Except FFault (FSpecRuntime σ ν) :=
  match EnhancedSpecs.ExecuteLatentCommands Now this.LatentCommands this.Spec with
  | Except.error e => Except.error e
  | Except.ok (Queue, Spec) => Except.ok { this with LatentCommands := Queue, Spec := Spec }

/-- A call of `RunTest` by the host, followed by one tick of the scheduler. -/
def RunTestAndExecute {σ ν : Type} (Ops : FSpecVariableOps σ ν)
    (Define : FEnhancedAutomationSpecBase σ ν → Except FFault (FEnhancedAutomationSpecBase σ ν))
    (Now : Int) (InParameters : String) (this : FSpecRuntime σ ν) :
    Except FFault (FSpecRuntime σ ν) :=
  match FEnhancedAutomationSpecBase.RunTest Ops Define InParameters this with
  | Except.error e => Except.error e
  | Except.ok (Enqueued, _) => Enqueued.ExecuteLatentCommands Now

end FSpecRuntime

/-- The variable operations of a spec class without variables. -/
def NoVariableOps (σ : Type) : FSpecVariableOps σ Unit :=
  { Reset := fun _ Members => Members
    SetVariablesInScope := fun _ Members => Members }

/-! ## Scoped variables -/

/-- Removal of `TMap::Remove`: every pair whose key matches is taken out. -/
def TMapRemove {κ ν : Type} [FKeyFuncs κ] [DecidableEq κ] : List (κ × ν) → κ → List (κ × ν)
  | [], _ => []
  | (k, v) :: rest, key =>
    if FKeyFuncs.Fold k = FKeyFuncs.Fold key then TMapRemove rest key
    else (k, v) :: TMapRemove rest key

/-- Modelled from the spec: the factory of a scoped variable, "a
zero-argument-or-dependency-argument factory producing a value".  It reads variables by
their name, which resolves in the variable scope of the spec that is running, it reads
the definition that its variable shadows (`Previous`), and it returns a value. -/
inductive FGenerator (τ : Type) where
  | Return (Value : τ)
  | Read (Name : String) (Continue : τ → FGenerator τ)
  | ReadPrevious (Continue : τ → FGenerator τ)

/-- Modelled from the spec: a scoped variable has a factory, "an optional reference to
the ScopedVariable it shadows" and an identity, "stable address/handle"; the memoized
value of the variable is kept under its handle in the members of the spec object. -/
structure TSpecVariable (τ : Type) where
  Handle : Nat
  Generator : FGenerator τ
  Previous : Option (TSpecVariable τ)

/-- Modelled from the spec: the members of the spec object that the variable classes
use: the variable scope of the running spec, the memoized values by handle, and the
handles of the variables whose factory is running, which is the "dependency tracking
during one evaluation".  `GeneratorsInvoked` is a ghost record, absent from the program,
of the handles whose factory was invoked, in order. -/
structure FSpecVariableMembers (τ : Type) where
  VariablesInScope : FSpecVariableScope (TSpecVariable τ)
  Memo : List (Nat × τ)
  Evaluating : List Nat
  GeneratorsInvoked : List Nat

/-- A read of a variable: the value, and the members after the evaluations and
memoizations that the read caused; no result when the evaluation does not end. -/
abbrev TVariableRead (τ : Type) := FSpecVariableMembers τ → Option (τ × FSpecVariableMembers τ)

/-- Modelled from the spec: execution of a factory, given how a variable is read by name
and how `Previous` is read. -/
def FGenerator.Run {τ : Type} (ReadNamed : String → TVariableRead τ)
    (ReadShadowed : TVariableRead τ) : FGenerator τ → TVariableRead τ
  | FGenerator.Return Value, Members => some (Value, Members)
  | FGenerator.Read Name Continue, Members =>
    match ReadNamed Name Members with
    | none => none
    | some (Value, After) => (Continue Value).Run ReadNamed ReadShadowed After
  | FGenerator.ReadPrevious Continue, Members =>
    match ReadShadowed Members with
    | none => none
    | some (Value, After) => (Continue Value).Run ReadNamed ReadShadowed After

/-- The factory of the variable with handle `h` was invoked at most once between the
states `Before` and `After`, and only if the variable had no memoized value in `Before`;
then it has one in `After`.  A memoized value stays memoized. -/
def InvokedAtMostOnce {τ : Type} (h : Nat) (Before After : FSpecVariableMembers τ) : Prop :=
  (After.GeneratorsInvoked.count h = Before.GeneratorsInvoked.count h ∧
    ((TMapFind Before.Memo h).isSome = true → (TMapFind After.Memo h).isSome = true)) ∨
  (After.GeneratorsInvoked.count h = Before.GeneratorsInvoked.count h + 1 ∧
    TMapFind Before.Memo h = none ∧ (TMapFind After.Memo h).isSome = true)

/-- Modelled from the spec: a read of a variable by its name, as a factory or a body
does it: the name resolves in the variable scope of the spec that is running. -/
def ReadByName {τ : Type} (ReadVariable : TSpecVariable τ → TVariableRead τ) (Name : String) :
    TVariableRead τ :=
  fun Members =>
    match TMapFind Members.VariablesInScope Name with
    | none => none
    | some Named => ReadVariable Named Members

/-- Modelled from the spec: a read of `Previous` by the factory of a variable: the read
of the definition that the variable shadows. -/
def ReadPrevious {τ : Type} (ReadVariable : TSpecVariable τ → TVariableRead τ)
    (Variable : TSpecVariable τ) : TVariableRead τ :=
  fun Members =>
    match Variable.Previous with
    | none => none
    | some Shadowed => ReadVariable Shadowed Members

/-- Modelled from the spec: the evaluation of a variable on its first access in a run.
The factory is invoked, which the ghost record notes; its reads go through
`ReadVariable`; the value it returns is memoized under the handle of the variable.  A
variable that is read while its own factory is running depends on itself: the program
does not return from such a read, and the evaluation has no result. -/
def TSpecVariable.Evaluate {τ : Type} (ReadVariable : TSpecVariable τ → TVariableRead τ)
    (Variable : TSpecVariable τ) : TVariableRead τ :=
  fun Members =>
    if Variable.Handle ∈ Members.Evaluating then none
    else
      match Variable.Generator.Run (ReadByName ReadVariable) (ReadPrevious ReadVariable Variable)
          { Members with
            Evaluating := Variable.Handle :: Members.Evaluating
            GeneratorsInvoked := Members.GeneratorsInvoked ++ [Variable.Handle] } with
      | none => none
      | some (Value, After) =>
        some (Value,
          { After with
            Memo := TMapAdd After.Memo Variable.Handle Value
            Evaluating := Members.Evaluating })

/-- Modelled from the spec: accessor `Get()`: "reading a variable triggers evaluation on
first access per run and returns the memoized value on every subsequent access".  The
evaluation is lazy and recursive; `Fuel` bounds the depth of the recursion. -/
def TSpecVariable.Get {τ : Type} : Nat → TSpecVariable τ → TVariableRead τ
  | 0, Variable, Members =>
    match TMapFind Members.Memo Variable.Handle with
    | some Value => some (Value, Members)
    | none => none
  | Fuel + 1, Variable, Members =>
    match TMapFind Members.Memo Variable.Handle with
    | some Value => some (Value, Members)
    | none => Variable.Evaluate (TSpecVariable.Get Fuel) Members

/-- Modelled from the spec: accessor `operator*`, the access "by reference"; it resolves
as `Get()` does. -/
def TSpecVariable.Dereference {τ : Type} (Fuel : Nat) (Variable : TSpecVariable τ) :
    TVariableRead τ :=
  Variable.Get Fuel

/-- Modelled from the spec: accessor `operator->`, the access "through an owning smart
handle"; it resolves as `Get()` does. -/
def TSpecVariable.Arrow {τ : Type} (Fuel : Nat) (Variable : TSpecVariable τ) :
    TVariableRead τ :=
  Variable.Get Fuel

/-- Modelled from the spec: a write through an accessor, as in `*Variable = Value` or
`Variable->Member = Value`: "mutating the underlying value through any accessor mutates
the one memoized instance for that run". -/
def TSpecVariable.Modify {τ : Type} (Fuel : Nat) (Variable : TSpecVariable τ) (Change : τ → τ)
    (Members : FSpecVariableMembers τ) : Option (FSpecVariableMembers τ) :=
  match Variable.Get Fuel Members with
  | none => none
  | some (Value, After) =>
    some { After with Memo := TMapAdd After.Memo Variable.Handle (Change Value) }

/-- An access to a variable in a body: a read through `Get()`, `operator*` or
`operator->`, or a write through an accessor. -/
inductive FVariableAccess (τ : Type) where
  | Get (Fuel : Nat) (Variable : TSpecVariable τ)
  | Dereference (Fuel : Nat) (Variable : TSpecVariable τ)
  | Arrow (Fuel : Nat) (Variable : TSpecVariable τ)
  | Modify (Fuel : Nat) (Variable : TSpecVariable τ) (Change : τ → τ)

/-- The members after an access that returns. -/
def FVariableAccess.Apply {τ : Type} (Members : FSpecVariableMembers τ) :
    FVariableAccess τ → Option (FSpecVariableMembers τ)
  | FVariableAccess.Get Fuel Variable => (Variable.Get Fuel Members).map Prod.snd
  | FVariableAccess.Dereference Fuel Variable => (Variable.Dereference Fuel Members).map Prod.snd
  | FVariableAccess.Arrow Fuel Variable => (Variable.Arrow Fuel Members).map Prod.snd
  | FVariableAccess.Modify Fuel Variable Change => Variable.Modify Fuel Change Members

/-- The members after a sequence of accesses that all return. -/
def AccessAll {τ : Type} : List (FVariableAccess τ) → FSpecVariableMembers τ →
    Option (FSpecVariableMembers τ)
  | [], Members => some Members
  | Access :: Rest, Members =>
    match Access.Apply Members with
    | none => none
    | some After => AccessAll Rest After

mutual
/-- Modelled from the spec: `Reset()` clears the memo of the variable and of the
definitions it shadows, so that "no state leaks between runs of the same spec or between
different specs sharing a shadowed ancestor definition". -/
def TSpecVariable.Reset {τ : Type} : TSpecVariable τ → FSpecVariableMembers τ →
    FSpecVariableMembers τ
  | ⟨Handle, _, Previous⟩, Members =>
    ResetShadowed Previous { Members with Memo := TMapRemove Members.Memo Handle }
/-- Modelled from the spec: `Reset()` along the chain of shadowed definitions. -/
def ResetShadowed {τ : Type} : Option (TSpecVariable τ) → FSpecVariableMembers τ →
    FSpecVariableMembers τ
  | none, Members => Members
  | some Shadowed, Members => Shadowed.Reset Members
end

mutual
/-- The handles of a variable and of the definitions it shadows. -/
def TSpecVariable.Handles {τ : Type} : TSpecVariable τ → List Nat
  | ⟨Handle, _, Previous⟩ => Handle :: HandlesOfShadowed Previous
/-- The handles along the chain of shadowed definitions. -/
def HandlesOfShadowed {τ : Type} : Option (TSpecVariable τ) → List Nat
  | none => []
  | some Shadowed => Shadowed.Handles
end

/-- The handles of the variables of a scope and of the definitions they shadow. -/
def HandlesInScope {τ : Type} : FSpecVariableScope (TSpecVariable τ) → List Nat
  | [] => []
  | Entry :: Rest => Entry.2.Handles ++ HandlesInScope Rest

/-- A bound on the depth of the evaluations in a scope: one more than the number of
definitions in the scope and on their chains. -/
def EvaluationFuel {τ : Type} (Scope : FSpecVariableScope (TSpecVariable τ)) : Nat :=
  (HandlesInScope Scope).length + 1

/-- The variable operations that `RunSpec` calls, for variables of one value type. -/
def VariableOps (τ : Type) : FSpecVariableOps (FSpecVariableMembers τ) (TSpecVariable τ) :=
  { Reset := fun Variable Members => Variable.Reset Members
    SetVariablesInScope := fun Scope Members => { Members with VariablesInScope := Scope } }

/-! ## The demo spec of `LetDemo.spec.cpp` -/

/-- Modelled from the spec: `TestEqual` of the host framework on values of any type with
decidable equality. -/
def TestEqualValue {σ α : Type} [DecidableEq α] (What : String) (Actual Expected : α)
    (Env : FUserEnv σ) : FUserEnv σ :=
  if Actual = Expected then Env else { Env with Errors := Env.Errors ++ [What] }

/-- Modelled from the spec: a variable that a body names resolves in the variable scope
of the spec that is running, and `Access` is the accessor that the body uses.  The body
goes on with the value.  A read without a result is entered as an error of the test, so
that it does not pass unnoticed. -/
def WithVariable {τ : Type} (Access : Nat → TSpecVariable τ → TVariableRead τ) (Name : String)
    (Body : τ → TUserWork (FSpecVariableMembers τ)) : TUserWork (FSpecVariableMembers τ) :=
  fun Env =>
    match ReadByName (Access (EvaluationFuel Env.Members.VariablesInScope)) Name
        Env.Members with
    | none => { Env with Errors := Env.Errors ++ ["No value of " ++ Name] }
    | some (Value, After) => Body Value { Env with Members := After }

/-- Modelled from the spec: a write through an accessor to a variable that a body
names. -/
def ModifyVariable {τ : Type} (Name : String) (Change : τ → τ) :
    TUserWork (FSpecVariableMembers τ) :=
  fun Env =>
    match TMapFind Env.Members.VariablesInScope Name with
    | none => { Env with Errors := Env.Errors ++ ["No value of " ++ Name] }
    | some Variable =>
      match Variable.Modify (EvaluationFuel Env.Members.VariablesInScope) Change Env.Members with
      | none => { Env with Errors := Env.Errors ++ ["No value of " ++ Name] }
      | some After => { Env with Members := After }

/-- The statements of a body, executed in order. -/
def Statements {σ : Type} : List (TUserWork σ) → TUserWork σ
  | [], Env => Env
  | Statement :: Rest, Env => Statements Rest (Statement Env)

/-- Modelled from the spec: `LET(Name, Type, Dependencies, Body)` declares a variable
that shadows nothing.  `Handle` is the identity of the new variable object. -/
def LET {σ τ : Type} (Handle : Nat) (Name : String) (Generator : FGenerator τ) :
    FSpecDecl σ (TSpecVariable τ) :=
  FSpecDecl.Let Name { Handle := Handle, Generator := Generator, Previous := none }

/-- Modelled from the spec: `REDEFINE_LET(Name, Type, Dependencies, Body)` declares a
variable whose `Previous` is the definition of that name that is visible where the
redefinition stands, which the declaration pass looks up on its scope stack.  `Handle`
is the identity of the new variable object. -/
def REDEFINE_LET {σ τ : Type} (Handle : Nat) (Name : String) (Generator : FGenerator τ) :
    FSpecDecl σ (TSpecVariable τ) :=
  FSpecDecl.RedefineLet Name
    (fun Shadowed => { Handle := Handle, Generator := Generator, Previous := Shadowed })

/-- Members of the spec class of `LetDemo.spec.cpp`; the values of its variables are the
strings `FString` and `FTestObject::SomeValue`. -/
abbrev FLetDemoSpec := FSpecVariableMembers String

namespace FLetDemoSpec

/-- Declaration kind of the demo. -/
abbrev FDecl := FSpecDecl FLetDemoSpec (TSpecVariable String)

/-- The scope "when the same variable is redefined a third time in an even deeper nested
scope", which stands at lines 125 to 161 under the redefinition of line 113 and at lines
183 to 224 under the redefinition of line 166.  `FirstIt` is the line of its first `It`,
and `ExpectedExtended` is the value that its second half expects. -/
def ThirdTime (HandleReplaced HandleExtended : Nat) (FirstIt : Int)
    (ExpectedExtended : String) : FDecl :=
  FSpecDecl.Describe
    "when the same variable is redefined a third time in an even deeper nested scope"
    [FSpecDecl.Describe "when the second redefinition does not reference the original value"
      [REDEFINE_LET HandleReplaced "OuterValue1" (FGenerator.Return "DeepInner"),
       FSpecDecl.It "replaces the original value in the scope" "LetDemo.spec.cpp" FirstIt
        (FWorkArgs.Blocking (WithVariable TSpecVariable.Arrow "OuterValue1" (fun Value =>
          TestEqualValue "OuterValue1->SomeValue" Value "DeepInner"))),
       FSpecDecl.It "impacts the values of dependent variables in the outer scope"
        "LetDemo.spec.cpp" (FirstIt + 5)
        (FWorkArgs.Blocking (WithVariable TSpecVariable.Arrow "OuterValue2" (fun Value =>
          TestEqualValue "OuterValue2->SomeValue" Value "DeepInner")))],
     FSpecDecl.Describe "when the second redefinition references the original value"
      [REDEFINE_LET HandleExtended "OuterValue1"
        (FGenerator.ReadPrevious (fun Value => FGenerator.Return (Value ++ "DeepInner"))),
       FSpecDecl.It "replaces the original value in the scope" "LetDemo.spec.cpp" (FirstIt + 20)
        (FWorkArgs.Blocking (WithVariable TSpecVariable.Arrow "OuterValue1" (fun Value =>
          TestEqualValue "OuterValue1->SomeValue" Value ExpectedExtended))),
       FSpecDecl.It "impacts the values of dependent variables in the outer scope"
        "LetDemo.spec.cpp" (FirstIt + 25)
        (FWorkArgs.Blocking (WithVariable TSpecVariable.Arrow "OuterValue2" (fun Value =>
          TestEqualValue "OuterValue2->SomeValue" Value ExpectedExtended)))]]

/-- The scope "when changing the value of a variable via its reference", lines 92 to
107. -/
def ChangingValue : FDecl :=
  FSpecDecl.Describe "when changing the value of a variable via its reference"
    [LET 8 "MyVariable" (FGenerator.Return "ABC"),
     FSpecDecl.It "affects the value of the variable in the test that changes it"
      "LetDemo.spec.cpp" 96
      (FWorkArgs.Blocking (Statements
        [ModifyVariable "MyVariable" (fun _ => "DEF"),
         WithVariable TSpecVariable.Dereference "MyVariable" (fun Value =>
          TestEqualValue "MyVariable" Value "DEF")])),
     FSpecDecl.It "does not affect the value of the variable in other tests"
      "LetDemo.spec.cpp" 103
      (FWorkArgs.Blocking (WithVariable TSpecVariable.Dereference "MyVariable" (fun Value =>
        TestEqualValue "MyVariable" Value "ABC")))]

/-- The scope "when the same variable is redefined a second time in the same scope",
lines 65 to 90. -/
def RedefinedInSameScope : FDecl :=
  FSpecDecl.Describe "when the same variable is redefined a second time in the same scope"
    [FSpecDecl.Describe "when the redefinition does not reference the original value"
      [LET 4 "MyVariable" (FGenerator.Return "ABC"),
       REDEFINE_LET 5 "MyVariable" (FGenerator.Return "DEF"),
       FSpecDecl.It "replaces the original value in the scope" "LetDemo.spec.cpp" 73
        (FWorkArgs.Blocking (WithVariable TSpecVariable.Dereference "MyVariable" (fun Value =>
          TestEqualValue "MyVariable" Value "DEF")))],
     FSpecDecl.Describe "when the redefinition references the original value"
      [LET 6 "MyVariable" (FGenerator.Return "ABC"),
       REDEFINE_LET 7 "MyVariable"
        (FGenerator.ReadPrevious (fun Value => FGenerator.Return (Value ++ "DEF"))),
       FSpecDecl.It "replaces the original value in the scope" "LetDemo.spec.cpp" 85
        (FWorkArgs.Blocking (WithVariable TSpecVariable.Dereference "MyVariable" (fun Value =>
          TestEqualValue "MyVariable" Value "ABCDEF")))]]

/-- The scope "when the same variable is redefined in a nested scope", lines 109 to
226. -/
def RedefinedInNestedScope : FDecl :=
  FSpecDecl.Describe "when the same variable is redefined in a nested scope"
    [FSpecDecl.Describe "when the redefinition does not reference the original value"
      [REDEFINE_LET 9 "OuterValue1" (FGenerator.Return "Inner"),
       FSpecDecl.It "replaces the original value in the scope" "LetDemo.spec.cpp" 115
        (FWorkArgs.Blocking (WithVariable TSpecVariable.Arrow "OuterValue1" (fun Value =>
          TestEqualValue "OuterValue1->SomeValue" Value "Inner"))),
       FSpecDecl.It "impacts the values of dependent variables in the outer scope"
        "LetDemo.spec.cpp" 120
        (FWorkArgs.Blocking (WithVariable TSpecVariable.Arrow "OuterValue2" (fun Value =>
          TestEqualValue "OuterValue2->SomeValue" Value "Inner"))),
       ThirdTime 10 11 131 "InnerDeepInner"],
     FSpecDecl.Describe "when the redefinition references the original value"
      [REDEFINE_LET 12 "OuterValue1"
        (FGenerator.ReadPrevious (fun Value => FGenerator.Return (Value ++ "Inner"))),
       FSpecDecl.It "replaces the original value in the scope" "LetDemo.spec.cpp" 173
        (FWorkArgs.Blocking (WithVariable TSpecVariable.Arrow "OuterValue1" (fun Value =>
          TestEqualValue "OuterValue1->SomeValue" Value "OuterInner"))),
       FSpecDecl.It "impacts the values of dependent variables in the outer scope"
        "LetDemo.spec.cpp" 178
        (FWorkArgs.Blocking (WithVariable TSpecVariable.Arrow "OuterValue2" (fun Value =>
          TestEqualValue "OuterValue2->SomeValue" Value "OuterInner"))),
       ThirdTime 13 14 194 "OuterInnerDeepInner"]]

/-- The scope "when a variable is defined in a scope", lines 20 to 227. -/
def DefinedInScope : FDecl :=
  FSpecDecl.Describe "when a variable is defined in a scope"
    [LET 1 "OuterValue1" (FGenerator.Return "Outer"),
     LET 2 "OuterValue2" (FGenerator.Read "OuterValue1" FGenerator.Return),
     FSpecDecl.It "can supply the value via Get()" "LetDemo.spec.cpp" 25
      (FWorkArgs.Blocking (WithVariable TSpecVariable.Get "OuterValue1" (fun Value =>
        TestEqualValue "OuterValue1.Get().SomeValue" Value "Outer"))),
     FSpecDecl.It "can supply the value via dereferencing" "LetDemo.spec.cpp" 30
      (FWorkArgs.Blocking (WithVariable TSpecVariable.Dereference "OuterValue1" (fun Value =>
        TestEqualValue "*OuterValue1->SomeValue" Value "Outer"))),
     FSpecDecl.It "can supply the value via arrow dereferencing" "LetDemo.spec.cpp" 35
      (FWorkArgs.Blocking (WithVariable TSpecVariable.Arrow "OuterValue1" (fun Value =>
        TestEqualValue "OuterValue1->SomeValue" Value "Outer"))),
     FSpecDecl.It "returns the same value every time during the same test"
      "LetDemo.spec.cpp" 40
      (FWorkArgs.Blocking (Statements
        [ModifyVariable "OuterValue1" (fun _ => "Changed"),
         WithVariable TSpecVariable.Get "OuterValue1" (fun Value =>
          TestEqualValue "OuterValue1" Value "Changed"),
         WithVariable TSpecVariable.Dereference "OuterValue1" (fun Value =>
          TestEqualValue "OuterValue1" Value "Changed"),
         WithVariable TSpecVariable.Arrow "OuterValue1" (fun Value =>
          TestEqualValue "OuterValue1" Value "Changed")])),
     FSpecDecl.It "can provide values to variables after it in the scope"
      "LetDemo.spec.cpp" 49
      (FWorkArgs.Blocking (WithVariable TSpecVariable.Arrow "OuterValue2" (fun Value =>
        TestEqualValue "OuterValue2->SomeValue" Value "Outer"))),
     FSpecDecl.Describe "when a different variable is defined in a nested scope"
      [LET 3 "InnerValue" (FGenerator.Return "Inner"),
       FSpecDecl.It "tracks the two variable separately in the current scope"
        "LetDemo.spec.cpp" 58
        (FWorkArgs.Blocking (Statements
          [WithVariable TSpecVariable.Arrow "OuterValue1" (fun Value =>
            TestEqualValue "*OuterValue1->SomeValue" Value "Outer"),
           WithVariable TSpecVariable.Arrow "InnerValue" (fun Value =>
            TestEqualValue "*InnerValue->SomeValue" Value "Inner")]))],
     RedefinedInSameScope,
     ChangingValue,
     RedefinedInNestedScope]

/-- The scope "BeforeEach() and Let()", lines 230 to 256. -/
def BeforeEachAndLet : FDecl :=
  FSpecDecl.Describe "BeforeEach() and Let()"
    [FSpecDecl.Describe "when a variable is referenced by a BeforeEach() block"
      [LET 15 "Variable" (FGenerator.Return "ABC"),
       FSpecDecl.BeforeEach (FWorkArgs.Blocking
        (ModifyVariable "Variable" (fun Value => Value ++ "XYZ"))),
       FSpecDecl.It "provides a value to the BeforeEach() block the same as in a test"
        "LetDemo.spec.cpp" 241
        (FWorkArgs.Blocking (WithVariable TSpecVariable.Dereference "Variable" (fun Value =>
          TestEqualValue "Variable" Value "ABCXYZ"))),
       FSpecDecl.Describe "when the variable is redefined in a nested scope"
        [REDEFINE_LET 16 "Variable" (FGenerator.Return "Inner"),
         FSpecDecl.It "provides the redefined value to the outer BeforeEach() block"
          "LetDemo.spec.cpp" 250
          (FWorkArgs.Blocking (WithVariable TSpecVariable.Dereference "Variable" (fun Value =>
            TestEqualValue "Variable" Value "InnerXYZ")))]]]

/-- Method `FLetDemoSpec::Define` of `LetDemo.spec.cpp`. -/
def Define : List FDecl :=
  [FSpecDecl.Describe "Let()" [DefinedInScope], BeforeEachAndLet]

/-- The spec object of the demo before its first test: nothing is declared, no variable
is in scope, nothing is memoized, no error is recorded and the queue is empty. -/
def Start : FSpecRuntime FLetDemoSpec (TSpecVariable String) :=
  { Base := FEnhancedAutomationSpecBase.Fresh FLetDemoSpec (TSpecVariable String) true 300000000 1
    Spec :=
      { Env :=
          { Members :=
              { VariablesInScope := [], Memo := [], Evaluating := [], GeneratorsInvoked := [] }
            Errors := [] }
        SuiteSessionState := none
        BodiesInvoked := [] }
    LatentCommands := [] }

/-- The host runs tests of a spec class with the given `Define` one after the other:
each entry is passed to `RunTest` and the commands are executed before the next entry is
passed.  The empty entry runs all tests. -/
def RunTests (Decls : List FDecl) (Parameters : List String) :
    Except FFault (FSpecRuntime FLetDemoSpec (TSpecVariable String)) :=
  RunSteps
    (Parameters.map (fun InParameters =>
      FSpecRuntime.RunTestAndExecute (VariableOps String) (RunDecls Decls) 0 InParameters))
    Start

/-- A spec class that declares, of the demo, only the scope of lines 92 to 107. -/
def ChangingValueOnly : List FDecl :=
  [FSpecDecl.Describe "Let()" [ChangingValue]]

/-- Identifier, in `ChangingValueOnly`, of the test of line 96. -/
def OnlyAffectsId : String :=
  "Let() when changing the value of a variable via its reference affects the value of the variable in the test that changes it"

/-- Identifier, in `ChangingValueOnly`, of the test of line 103. -/
def OnlyDoesNotAffectId : String :=
  "Let() when changing the value of a variable via its reference does not affect the value of the variable in other tests"

/-- The spec object after one call of `RunTest`, before the scheduler has executed any
command. -/
def Enqueued (Decls : List FDecl) (InParameters : String) :
    Except FFault (FSpecRuntime FLetDemoSpec (TSpecVariable String)) :=
  match FEnhancedAutomationSpecBase.RunTest (VariableOps String) (RunDecls Decls) InParameters
      Start with
  | Except.error e => Except.error e
  | Except.ok (Runtime, _) => Except.ok Runtime

/-- The compiled spec object of the demo. -/
def CompiledObject : FEnhancedAutomationSpecBase FLetDemoSpec (TSpecVariable String) :=
  ValueOf (FEnhancedAutomationSpecBase.EnsureDefinitions (RunDecls Define) Start.Base) Start.Base

/-- Identifier of the test of line 40. -/
def SameValueId : String :=
  "Let() when a variable is defined in a scope returns the same value every time during the same test"

/-- Identifier of the test of line 115. -/
def ReplacedId : String :=
  "Let() when a variable is defined in a scope when the same variable is redefined in a nested scope when the redefinition does not reference the original value replaces the original value in the scope"

/-- Identifier of the test of line 173. -/
def ExtendedId : String :=
  "Let() when a variable is defined in a scope when the same variable is redefined in a nested scope when the redefinition references the original value replaces the original value in the scope"

/-- Identifier of the test of line 194. -/
def ExtendedThenReplacedId : String :=
  "Let() when a variable is defined in a scope when the same variable is redefined in a nested scope when the redefinition references the original value when the same variable is redefined a third time in an even deeper nested scope when the second redefinition does not reference the original value replaces the original value in the scope"

/-- Identifier of the test of line 214. -/
def ExtendedTwiceId : String :=
  "Let() when a variable is defined in a scope when the same variable is redefined in a nested scope when the redefinition references the original value when the same variable is redefined a third time in an even deeper nested scope when the second redefinition references the original value replaces the original value in the scope"

/-- Identifier of the test of line 219. -/
def DependentOfExtendedTwiceId : String :=
  "Let() when a variable is defined in a scope when the same variable is redefined in a nested scope when the redefinition references the original value when the same variable is redefined a third time in an even deeper nested scope when the second redefinition references the original value impacts the values of dependent variables in the outer scope"

end FLetDemoSpec

/-- What a test observes of a spec object with variables: its errors, the names of the
variables in scope with their handles, the memoized values, the ghost record of invoked
factories, and the number of commands left in the queue. -/
structure FVariableObservation (τ : Type) where
  Errors : List String
  InScope : List (String × Nat)
  Memo : List (Nat × τ)
  GeneratorsInvoked : List Nat
  Queued : Nat
  deriving DecidableEq, Repr

/-- The observation of a spec object with variables. -/
def ObserveVariables {τ : Type}
    (Result : Except FFault (FSpecRuntime (FSpecVariableMembers τ) (TSpecVariable τ))) :
    Option (FVariableObservation τ) :=
  match Result with
  | Except.error _ => none
  | Except.ok Runtime =>
    some
      { Errors := Runtime.Spec.Env.Errors
        InScope :=
          Runtime.Spec.Env.Members.VariablesInScope.map (fun Entry => (Entry.1, Entry.2.Handle))
        Memo := Runtime.Spec.Env.Members.Memo
        GeneratorsInvoked := Runtime.Spec.Env.Members.GeneratorsInvoked
        Queued := Runtime.LatentCommands.length }

/-- The identifiers of the compiled specs. -/
def CompiledIds {σ ν : Type} (Result : Except FFault (FSpecRuntime σ ν)) : List String :=
  match Result with
  | Except.error _ => []
  | Except.ok Runtime => TMapKeys Runtime.Base.IdToSpecMap

/-! ## Test lists and source locations -/

/-- Test `FString::StartsWith(InPrefix)` with its default `ESearchCase::IgnoreCase`: the
prefix is not empty and the first characters of the text equal it up to case. -/
def FStringStartsWith (Text InPrefix : String) : Bool :=
  decide (0 < InPrefix.data.length) &&
    decide ((Text.data.take InPrefix.data.length).map FCharToLower =
      InPrefix.data.map FCharToLower)

/-- Function `FString::RightChop(Count)`: the text without its first `Count` characters. -/
def RightChop (Text : String) (Count : Nat) : String :=
  String.mk (Text.data.drop Count)

namespace FEnhancedAutomationSpecBase

/-- The identifier that `GetTestSourceFileName` and `GetTestSourceFileLine` look up:
`InTestName`, without the prefix `TestName + " "` when it starts with that prefix.
`TestName` is the member of the base class `FAutomationTestBase`. -/
def TestIdOf (TestName InTestName : String) : String :=
  if FStringStartsWith InTestName (TestName ++ " ") then
    RightChop InTestName (TestName.data.length + 1)
  else InTestName

/-- Method `GetTestSourceFileName(InTestName)`.  `TestName` is the member of the base
class and `BaseFileName` is what `FAutomationTestBase::GetTestSourceFileName()`
returns. -/
def GetTestSourceFileName {σ ν : Type} (TestName BaseFileName : String) (InTestName : String)
    (this : FEnhancedAutomationSpecBase σ ν) : String :=
  match TMapFind this.IdToSpecMap (TestIdOf TestName InTestName) with
  | some Spec => Spec.Filename
  | none => BaseFileName

/-- Method `GetTestSourceFileLine(InTestName)`.  `TestName` is the member of the base
class and `BaseFileLine` is what `FAutomationTestBase::GetTestSourceFileLine()`
returns. -/
def GetTestSourceFileLine {σ ν : Type} (TestName : String) (BaseFileLine : Int)
    (InTestName : String) (this : FEnhancedAutomationSpecBase σ ν) : Int :=
  match TMapFind this.IdToSpecMap (TestIdOf TestName InTestName) with
  | some Spec => Spec.LineNumber
  | none => BaseFileLine

/-- Method `GetTests`; `Define` is the virtual method of the spec class.  The result is
the spec object after `EnsureDefinitions` and the two output arrays. -/
def GetTests {σ ν : Type}
    (Define : FEnhancedAutomationSpecBase σ ν → Except FFault (FEnhancedAutomationSpecBase σ ν))
    (OutBeautifiedNames OutTestCommands : List String)
    (this : FEnhancedAutomationSpecBase σ ν) :
    Except FFault (FEnhancedAutomationSpecBase σ ν × List String × List String) :=
  match EnsureDefinitions Define this with
  | Except.error e => Except.error e
  | Except.ok Defined =>
    let Specs := TMapValues Defined.IdToSpecMap
    let Out := Specs.foldl
      (fun (Arrays : List String × List String) SpecToRun =>
        (Arrays.1 ++ [SpecToRun.Description], Arrays.2 ++ [SpecToRun.Id]))
      (OutBeautifiedNames, OutTestCommands)
    Except.ok (Defined, Out.1, Out.2)

/-- The state in which `Describe` calls `DoWork`: the new scope is the last child of the
scope that was on top of the stack, it is pushed on the stack, and its description is
pushed on the description stack. -/
def DescribeOpened {σ ν : Type} (InDescription : String)
    (this : FEnhancedAutomationSpecBase σ ν) (Below : List (FScope σ ν))
    (ParentScope : FScope σ ν) : FEnhancedAutomationSpecBase σ ν :=
  { this with
    DefinitionScopeStack :=
      Below
        ++ [{ ParentScope with
              Children := ParentScope.Children ++ [NewDescribeScope σ ν InDescription] }]
        ++ [NewDescribeScope σ ν InDescription]
    DescriptionStack := this.DescriptionStack ++ [InDescription] }

end FEnhancedAutomationSpecBase

/-! ## Identifier and description in the words of their description -/

/-- One step of the identifier as it is described: the next description is put after the
text built so far, with one blank between them unless the text ends with whitespace or
the description begins with whitespace. -/
def GlueId (Built Next : List Char) : List Char :=
  match Built.getLast?, Next.head? with
  | some Last, some First =>
    if FCharIsWhitespace Last || FCharIsWhitespace First then Built ++ Next
    else Built ++ [Char.ofNat 32] ++ Next
  | _, _ => Built ++ Next

/-- The identifier as it is described for a description stack whose innermost entry
names no identifier in brackets: the non-empty descriptions, in order, glued together. -/
def IdOfDescriptions (DescriptionStack : List String) : String :=
  String.mk
    (((DescriptionStack.map String.data).filter (fun Description => Description ≠ [])).foldl
      GlueId [])

/-- The description as it is described: the non-empty entries of the description stack,
in order, joined by one dot. -/
def DescriptionOfDescriptions (DescriptionStack : List String) : String :=
  String.mk
    (List.intercalate [Char.ofNat 46]
      ((DescriptionStack.map String.data).filter (fun Description => Description ≠ [])))

/-- A spec class named `FDemo` whose outermost `Describe` repeats the class name, so that
the identifier of its test begins with the class name and a blank. -/
def PrefixedIdDefine : List (FSpecDecl Unit Unit) :=
  [FSpecDecl.Describe "FDemo"
    [FSpecDecl.It "works" "Demo.spec.cpp" 7 (FWorkArgs.Blocking id)]]

/-- The compiled spec object of `PrefixedIdDefine`. -/
def PrefixedIdCompiled : FEnhancedAutomationSpecBase Unit Unit :=
  ValueOf
    (FEnhancedAutomationSpecBase.EnsureDefinitions (RunDecls PrefixedIdDefine)
      (FEnhancedAutomationSpecBase.Fresh Unit Unit true 300000000 1))
    (FEnhancedAutomationSpecBase.Fresh Unit Unit true 300000000 1)

/-- What a test observes of the result of `GetTests`: the two output arrays. -/
def ObserveTests {σ ν : Type}
    (Result : Except FFault (FEnhancedAutomationSpecBase σ ν × List String × List String)) :
    Option (List String × List String) :=
  match Result with
  | Except.error _ => none
  | Except.ok (_, OutBeautifiedNames, OutTestCommands) =>
    some (OutBeautifiedNames, OutTestCommands)

/-! ## Signals between polls and commands that run once -/

/-- The call `Done.Execute()` on a delegate that a latent body has kept: `Done` runs on the
command between two polls. -/
def FMultiFrameLatentCommand.SignalDone {σ : Type}
    (State : FMultiFrameLatentCommand σ × FSpecWorld σ × Bool) :
    Except FFault (FMultiFrameLatentCommand σ × FSpecWorld σ × Bool) :=
  Except.ok (State.1.Done, State.2.1, State.2.2)

/-- A latent body that counts its calls and keeps the delegate for a callback, which
executes it later. -/
def KeepDelegateBody : TUserLatentWork Int :=
  fun Env => ({ Env with Members := Env.Members + 1 }, false)

/-- The command of `LatentAfterEach(FTimespan(50), KeepDelegateBody)`. -/
def KeptDelegateCommand : FMultiFrameLatentCommand Int :=
  { Work := UserLatentLambda KeepDelegateBody
    Timeout := 50
    bSkipIfErrored := false
    bHasStartedRunning := false
    bDone := false
    StartTime := 0 }

/-- A spec object without errors whose only member is a counter at zero, in a session
without marked handles. -/
def SessionSpec : FSpecWorld Int :=
  { Env := { Members := 0, Errors := [] }
    SuiteSessionState := some { BlocksRun := [] }
    BodiesInvoked := [] }

/-- The command of `LatentBeforeAll(FTimespan(50), KeepDelegateBody)` whose block handle
is 7. -/
def LatentBeforeAllCommand : FMultiFrameLatentCommand Int :=
  { Work := CreateRunWorkOnceLatentWrapper 7 (UserLatentLambda KeepDelegateBody)
    Timeout := 50
    bSkipIfErrored := true
    bHasStartedRunning := false
    bDone := false
    StartTime := 0 }

/-- What a test observes of a command that runs once and its spec after a poll: whether
the command is in an activation, the start time, the counter, the errors, the handles
marked in the session, the handles whose body was invoked, and the result of the poll. -/
structure FRunOnceObservation where
  bStarted : Bool
  StartTime : Int
  Members : Int
  Errors : List String
  BlocksRun : Option (List Int)
  BodiesInvoked : List Int
  bComplete : Bool
  deriving DecidableEq

/-- The observation after polls of a multi-frame latent command that runs once. -/
def ObserveRunOnce
    (Result : Except FFault (FMultiFrameLatentCommand Int × FSpecWorld Int × Bool)) :
    Option FRunOnceObservation :=
  match Result with
  | Except.error _ => none
  | Except.ok (Command, Spec, bComplete) =>
    some
      { bStarted := Command.bHasStartedRunning
        StartTime := Command.StartTime
        Members := Spec.Env.Members
        Errors := Spec.Env.Errors
        BlocksRun := Spec.SuiteSessionState.map (fun Session => Session.BlocksRun)
        BodiesInvoked := Spec.BodiesInvoked
        bComplete := bComplete }

namespace FLetDemoSpec

end FLetDemoSpec

/-! ## Successive block handles -/

/-- The initial value of the function-local static `HandleCounter` of
`FSpecBlockHandle::Assign`. -/
def FSpecBlockHandle.InitialHandleCounter : Int := 1

/-- Successive calls of `FSpecBlockHandle::Assign`, the first on the given value of the
counter: the handles they yield, in order, and the counter after the last call. -/
def FSpecBlockHandle.AssignSuccessive : Nat → Int → List Int × Int
  | 0, HandleCounter => ([], HandleCounter)
  | Count + 1, HandleCounter =>
    ((FSpecBlockHandle.Assign HandleCounter).1 ::
        (FSpecBlockHandle.AssignSuccessive Count (FSpecBlockHandle.Assign HandleCounter).2).1,
      (FSpecBlockHandle.AssignSuccessive Count (FSpecBlockHandle.Assign HandleCounter).2).2)

/-! ## Ghost record of the traversal of PostDefine -/

/-- An event of the traversal of `PostDefine`: an iteration of the outer loop visits the
scope `Stack.Last()`, or an iteration of the inner loop pops a scope off the stack.  The
scope is recorded as it is at that moment. -/
inductive FTraversalEvent (γ ν : Type) where
  | Visit (Scope : FSpecDefinitionScope γ ν)
  | Pop (PoppedScope : FSpecDefinitionScope γ ν)

/-- The locals of `PostDefine` before the first iteration of its loop. -/
def PostDefineStart {γ ν : Type} (RootDefinitionScope : FSpecDefinitionScope γ ν)
    (IdToSpecMap : List (String × FSpec γ ν)) : FPostDefineState γ ν :=
  { Stack := [RootDefinitionScope]
    BeforeAll := []
    BeforeEach := []
    AfterEach := []
    IdToSpecMap := IdToSpecMap }

/-- Ghost record, absent from the program, of the events of the loop of `PostDefine`, in
order.  Every iteration of the outer loop is one visit; the scopes it pops are those by
which the stack, after `Scope->It.Empty()`, is higher than the stack it leaves, top
first. -/
def PostDefineEvents {γ ν : Type} :
    Nat → FPostDefineState γ ν → List (FTraversalEvent γ ν)
  | 0, _ => []
  | Fuel + 1, State =>
    match State.Stack.getLast? with
    | none => []
    | some Scope =>
      match PostDefineStep State Scope with
      | Except.error _ => [FTraversalEvent.Visit Scope]
      | Except.ok NewState =>
        FTraversalEvent.Visit Scope ::
          ((((State.Stack.dropLast ++ [{ Scope with It := [] }]).drop
              NewState.Stack.length).reverse.map FTraversalEvent.Pop)
            ++ PostDefineEvents Fuel NewState)

mutual
/-- The events of the traversal of a subtree as a recursion over the tree: the scope is
visited, then its children with what lies below them, the last child first, and then the
scope, which has neither `It` nor children left, is popped. -/
def EventsOfScope {γ ν : Type} : FSpecDefinitionScope γ ν → List (FTraversalEvent γ ν)
  | ⟨Description, BeforeAll, BeforeEach, AfterEach, It, Children, Variables⟩ =>
    FTraversalEvent.Visit
        ⟨Description, BeforeAll, BeforeEach, AfterEach, It, Children, Variables⟩ ::
      (EventsOfChildren Children ++
        [FTraversalEvent.Pop ⟨Description, BeforeAll, BeforeEach, AfterEach, [], [], Variables⟩])
/-- The events of the traversal of sibling subtrees, the last sibling first. -/
def EventsOfChildren {γ ν : Type} :
    List (FSpecDefinitionScope γ ν) → List (FTraversalEvent γ ν)
  | [] => []
  | Child :: Rest => EventsOfChildren Rest ++ EventsOfScope Child
end

/-- The events that follow once a subtree has been compiled into the map `m1`: the pops
of the finished scopes on top of `Below` and the events of the remaining iterations. -/
def ContinueEvents {γ ν : Type} (k : Nat) (Below : List (FSpecDefinitionScope γ ν))
    (BeforeAll BeforeEach AfterEach : List γ) (m1 : List (String × FSpec γ ν)) :
    List (FTraversalEvent γ ν) :=
  match PopFinishedScopes Below.length
      { Stack := Below
        BeforeAll := BeforeAll
        BeforeEach := BeforeEach
        AfterEach := AfterEach
        IdToSpecMap := m1 } with
  | Except.error _ => []
  | Except.ok State =>
    ((Below.drop State.Stack.length).reverse.map FTraversalEvent.Pop)
      ++ PostDefineEvents k State

/-- The scopes visited by a sequence of events, in order. -/
def VisitedScopes {γ ν : Type} :
    List (FTraversalEvent γ ν) → List (FSpecDefinitionScope γ ν)
  | [] => []
  | FTraversalEvent.Visit Scope :: Rest => Scope :: VisitedScopes Rest
  | FTraversalEvent.Pop _ :: Rest => VisitedScopes Rest

/-- The scopes popped by a sequence of events, in order. -/
def PoppedScopes {γ ν : Type} :
    List (FTraversalEvent γ ν) → List (FSpecDefinitionScope γ ν)
  | [] => []
  | FTraversalEvent.Visit _ :: Rest => PoppedScopes Rest
  | FTraversalEvent.Pop PoppedScope :: Rest => PoppedScope :: PoppedScopes Rest

/-- Every pop of the sequence comes after the visit of the scope it pops: the popped
scope is a scope visited earlier, without its `It` declarations and children. -/
def PopsFollowVisits {γ ν : Type} (Events : List (FTraversalEvent γ ν)) : Prop :=
  ∀ (Front Back : List (FTraversalEvent γ ν)) (PoppedScope : FSpecDefinitionScope γ ν),
    Events = Front ++ FTraversalEvent.Pop PoppedScope :: Back →
    ∃ Scope, FTraversalEvent.Visit Scope ∈ Front ∧
      PoppedScope = { Scope with It := [], Children := [] }

mutual
/-- All scopes of a subtree, each once, in the order in which `PostDefine` visits them. -/
def FSpecDefinitionScope.AllScopes {γ ν : Type} :
    FSpecDefinitionScope γ ν → List (FSpecDefinitionScope γ ν)
  | ⟨Description, BeforeAll, BeforeEach, AfterEach, It, Children, Variables⟩ =>
    ⟨Description, BeforeAll, BeforeEach, AfterEach, It, Children, Variables⟩ ::
      AllScopesOfList Children
/-- All scopes of sibling subtrees, the last sibling first. -/
def AllScopesOfList {γ ν : Type} :
    List (FSpecDefinitionScope γ ν) → List (FSpecDefinitionScope γ ν)
  | [] => []
  | Child :: Rest => AllScopesOfList Rest ++ Child.AllScopes
end

/-- What a test observes of an event: whether it is a visit, and the description of its
scope. -/
def FTraversalEvent.Label {γ ν : Type} : FTraversalEvent γ ν → Bool × String
  | FTraversalEvent.Visit Scope => (true, Scope.Description)
  | FTraversalEvent.Pop PoppedScope => (false, PoppedScope.Description)

/-- A tree that `Describe` does not produce: the first child of the root has neither an
`It` nor a child, the second child has one `It`. -/
def UnprunedRoot : FSpecDefinitionScope Unit Unit :=
  { Description := "Root"
    BeforeAll := []
    BeforeEach := []
    AfterEach := []
    It := []
    Children :=
      [{ Description := "Empty"
         BeforeAll := []
         BeforeEach := []
         AfterEach := []
         It := []
         Children := []
         Variables := [] },
       { Description := "Leaf"
         BeforeAll := []
         BeforeEach := []
         AfterEach := []
         It :=
          [{ Id := "Leaf works"
             Description := "Leaf.works"
             Filename := "Demo.spec.cpp"
             LineNumber := 3
             Command := () }]
         Children := []
         Variables := [] }]
    Variables := [] }
/-! ## Further programs and observations -/

/-- The fault with which a call aborted, if it did. -/
def FaultOf {α : Type} (Result : Except FFault α) : Option FFault :=
  match Result with
  | Except.error e => some e
  | Except.ok _ => none

/-- A spec class with two tests whose descriptions differ in the case of one letter:
`Describe("A", [this] { It("x", [] {}); It("X", [] {}); })`. -/
def CaseVariantDefine : List (FSpecDecl Unit Unit) :=
  [FSpecDecl.Describe "A"
    [FSpecDecl.It "x" "CaseVariant.spec.cpp" 3 (FWorkArgs.Blocking (fun Env => Env)),
     FSpecDecl.It "X" "CaseVariant.spec.cpp" 4 (FWorkArgs.Blocking (fun Env => Env))]]

/-! ## Async commands between polls -/

/-- One poll of an async command at the time `Now`, on the state that the previous step
left. -/
def FAsyncCommand.PollAt {σ : Type} (Now : Int)
    (State : FAsyncCommand σ × FSpecWorld σ × Bool) :
    Except FFault (FAsyncCommand σ × FSpecWorld σ × Bool) :=
  Except.ok (State.1.Update Now Now State.2.1)

/-- A run, between two polls, of the oldest task that the command has handed to
`Async`. -/
def FAsyncCommand.RunTask {σ : Type} (State : FAsyncCommand σ × FSpecWorld σ × Bool) :
    Except FFault (FAsyncCommand σ × FSpecWorld σ × Bool) :=
  match State.1.Task State.2.1 with
  | Except.error e => Except.error e
  | Except.ok (Command, Spec) => Except.ok (Command, Spec, State.2.2)

/-- One poll of an async multi-frame latent command at the time `Now`, on the state that
the previous step left. -/
def FAsyncMultiFrameLatentCommand.PollAt {σ : Type} (Now : Int)
    (State : FAsyncMultiFrameLatentCommand σ × FSpecWorld σ × Bool) :
    Except FFault (FAsyncMultiFrameLatentCommand σ × FSpecWorld σ × Bool) :=
  Except.ok (State.1.Update Now Now State.2.1)

/-- A run, between two polls, of the oldest task that the command has handed to
`Async`. -/
def FAsyncMultiFrameLatentCommand.RunTask {σ : Type}
    (State : FAsyncMultiFrameLatentCommand σ × FSpecWorld σ × Bool) :
    Except FFault (FAsyncMultiFrameLatentCommand σ × FSpecWorld σ × Bool) :=
  match State.1.Task State.2.1 with
  | Except.error e => Except.error e
  | Except.ok (Command, Spec) => Except.ok (Command, Spec, State.2.2)

/-- What a test observes of an async command and its spec: whether the future is valid,
the flag `bDone`, the tasks handed to `Async` that have not run, the members and the
errors of the spec, and the result of the last poll. -/
structure FAsyncObservation (σ : Type) where
  bFutureValid : Bool
  bDone : Bool
  Dispatched : List EAsyncExecution
  Members : σ
  Errors : List String
  bComplete : Bool
  deriving DecidableEq

/-- The observation after steps of an async command. -/
def FAsyncCommand.Observe {σ : Type}
    (Result : Except FFault (FAsyncCommand σ × FSpecWorld σ × Bool)) :
    Option (FAsyncObservation σ) :=
  match Result with
  | Except.error _ => none
  | Except.ok (Command, Spec, bComplete) =>
    some
      { bFutureValid := Command.bFutureValid
        bDone := Command.bDone
        Dispatched := Command.Dispatched
        Members := Spec.Env.Members
        Errors := Spec.Env.Errors
        bComplete := bComplete }

/-- The observation after steps of an async multi-frame latent command. -/
def FAsyncMultiFrameLatentCommand.Observe {σ : Type}
    (Result : Except FFault (FAsyncMultiFrameLatentCommand σ × FSpecWorld σ × Bool)) :
    Option (FAsyncObservation σ) :=
  match Result with
  | Except.error _ => none
  | Except.ok (Command, Spec, bComplete) =>
    some
      { bFutureValid := Command.bFutureValid
        bDone := Command.bDone
        Dispatched := Command.Dispatched
        Members := Spec.Env.Members
        Errors := Spec.Env.Errors
        bComplete := bComplete }

/-- The command of
`AfterEach(EAsyncExecution::ThreadPool, FTimespan(50), [this] { ++Counter; })`, as its
constructor leaves it. -/
def AsyncTeardownCommand : FAsyncCommand Int :=
  { Execution := EAsyncExecution.ThreadPool
    Work := UserLambda TeardownBody
    Timeout := 50
    bSkipIfErrored := false
    bDone := false
    bFutureValid := false
    StartTime := 0
    Dispatched := [] }

/-- A latent teardown body that increments the counter and executes the delegate before
it returns. -/
def LatentTeardownBody : TUserLatentWork Int :=
  fun Env => ({ Env with Members := Env.Members + 1 }, true)

/-- The command of
`LatentAfterEach(EAsyncExecution::ThreadPool, FTimespan(50), LatentTeardownBody)`, as its
constructor leaves it. -/
def AsyncLatentTeardownCommand : FAsyncMultiFrameLatentCommand Int :=
  { Execution := EAsyncExecution.ThreadPool
    Work := UserLatentLambda LatentTeardownBody
    Timeout := 50
    bSkipIfErrored := false
    bDone := false
    bFutureValid := false
    StartTime := 0
    Dispatched := [] }

/-- The largest span `FTimespan::MaxValue()`, in ticks. -/
def FTimespanMaxValue : Int := 9223372036854775807

/-- The command of `LatentIt(..., FTimespan::MaxValue(), KeepDelegateBody)`: a latent test
that is meant to wait for its callback without a deadline. -/
def UnboundedWaitCommand : FMultiFrameLatentCommand Int :=
  { Work := UserLatentLambda KeepDelegateBody
    Timeout := FTimespanMaxValue
    bSkipIfErrored := true
    bHasStartedRunning := false
    bDone := false
    StartTime := 0 }

/-- A spec class that declares, at the root of `Define`, a test whose description is
empty and a second test: `It("", [] {}); It("Other", [] {});`. -/
def EmptyIdDefine : List FLetDemoSpec.FDecl :=
  [FSpecDecl.It "" "EmptyId.spec.cpp" 3 (FWorkArgs.Blocking (fun Env => Env)),
   FSpecDecl.It "Other" "EmptyId.spec.cpp" 4 (FWorkArgs.Blocking (fun Env => Env))]

/-- The handles of the definition that the compiled spec with the given identifier binds
to a name, and of the definitions that it shadows, innermost first. -/
def ChainOf {σ τ : Type} (Compiled : FEnhancedAutomationSpecBase σ (TSpecVariable τ))
    (Id Name : String) : Option (List Nat) :=
  match TMapFind Compiled.IdToSpecMap Id with
  | none => none
  | some Spec =>
    match TMapFind Spec.Variables Name with
    | none => none
    | some Variable => some Variable.Handles

/-- The body of
`Describe("Group", [this] { BeforeEach(...); It("first", ...); Describe("Nested", [this] { It("second", ...); }); Describe("Empty", [this] {}); })`. -/
def NestedGroupWork : List (FSpecDecl Int Unit) :=
  [FSpecDecl.BeforeEach (FWorkArgs.Blocking TeardownBody),
   FSpecDecl.It "first" "Group.spec.cpp" 5 (FWorkArgs.Blocking TeardownBody),
   FSpecDecl.Describe "Nested"
    [FSpecDecl.It "second" "Group.spec.cpp" 8 (FWorkArgs.Blocking TeardownBody)],
   FSpecDecl.Describe "Empty" []]

/-- The spec object in which `Describe("Group", ...)` on `DeclaringSpec` leaves its body
when the body has returned. -/
def NestedGroupWorked : FEnhancedAutomationSpecBase Int Unit :=
  ValueOf
    (RunDecls NestedGroupWork
      (FEnhancedAutomationSpecBase.DescribeOpened "Group" DeclaringSpec
        [NewDescribeScope Int Unit ""] (NewDescribeScope Int Unit "Teardown")))
    DeclaringSpec

/-- The scope on top of the scope stack when the body of `Describe("Group", ...)` has
returned. -/
def NestedGroupScope : FScope Int Unit :=
  NestedGroupWorked.DefinitionScopeStack.getLastD (NewDescribeScope Int Unit "Group")

/-! ## Lemmas on TMap -/

@[simp] theorem Fold_nat (Key : Nat) : FKeyFuncs.Fold Key = Key := rfl

theorem FCharToLower_idem (c : Char) : FCharToLower (FCharToLower c) = FCharToLower c := by
  unfold FCharToLower
  by_cases h : 65 ≤ c.toNat ∧ c.toNat ≤ 90
  · have hValid : (c.toNat + 32).isValidChar := by
      left
      omega
    have hNat : (Char.ofNat (c.toNat + 32)).toNat = c.toNat + 32 := by
      simp only [Char.ofNat, hValid, dite_true]
      rfl
    have hOut : ¬ (65 ≤ (Char.ofNat (c.toNat + 32)).toNat ∧
        (Char.ofNat (c.toNat + 32)).toNat ≤ 90) := by
      rw [hNat]
      omega
    rw [if_pos h, if_neg hOut]
  · rw [if_neg h, if_neg h]

theorem Fold_string (Key : String) :
    FKeyFuncs.Fold Key = String.mk (Key.data.map FCharToLower) := rfl

theorem Fold_string_idem (Key : String) :
    FKeyFuncs.Fold (FKeyFuncs.Fold Key) = FKeyFuncs.Fold Key := by
  simp only [Fold_string, List.map_map]
  congr 1
  apply List.map_congr_left
  intro c _
  exact FCharToLower_idem c

theorem TMapFoldedKeys_nil {κ ν : Type} [FKeyFuncs κ] :
    TMapFoldedKeys ([] : List (κ × ν)) = [] := rfl

theorem TMapFoldedKeys_cons {κ ν : Type} [FKeyFuncs κ] (k : κ) (v : ν) (m : List (κ × ν)) :
    TMapFoldedKeys ((k, v) :: m) = FKeyFuncs.Fold k :: TMapFoldedKeys m := rfl

theorem TMapFoldedKeys_append {κ ν : Type} [FKeyFuncs κ] (m other : List (κ × ν)) :
    TMapFoldedKeys (m ++ other) = TMapFoldedKeys m ++ TMapFoldedKeys other := by
  simp [TMapFoldedKeys, TMapKeys]

theorem TMapFoldedKeys_nat {ν : Type} (m : List (Nat × ν)) : TMapFoldedKeys m = TMapKeys m := by
  unfold TMapFoldedKeys
  induction TMapKeys m with
  | nil => rfl
  | cons k rest ih => rw [List.map_cons, ih, Fold_nat]

theorem TMapFind_congr {κ ν : Type} [FKeyFuncs κ] [DecidableEq κ] (m : List (κ × ν))
    (key other : κ) (h : FKeyFuncs.Fold key = FKeyFuncs.Fold other) :
    TMapFind m key = TMapFind m other := by
  induction m with
  | nil => rfl
  | cons p rest ih =>
    obtain ⟨a, b⟩ := p
    simp only [TMapFind, h, ih]

theorem TMapFind_Add {κ ν : Type} [FKeyFuncs κ] [DecidableEq κ] (m : List (κ × ν)) (key : κ)
    (val : ν) (k : κ) :
    TMapFind (TMapAdd m key val) k =
      if FKeyFuncs.Fold key = FKeyFuncs.Fold k then some val else TMapFind m k := by
  induction m with
  | nil => simp [TMapAdd, TMapFind]
  | cons p rest ih =>
    obtain ⟨a, b⟩ := p
    by_cases h : FKeyFuncs.Fold a = FKeyFuncs.Fold key
    · by_cases h2 : FKeyFuncs.Fold key = FKeyFuncs.Fold k
      · simp [TMapAdd, TMapFind, h, h2]
      · have h3 : ¬ FKeyFuncs.Fold a = FKeyFuncs.Fold k := by rw [h]; exact h2
        simp [TMapAdd, TMapFind, h, h2, h3]
    · by_cases h2 : FKeyFuncs.Fold a = FKeyFuncs.Fold k
      · have h3 : ¬ FKeyFuncs.Fold key = FKeyFuncs.Fold k := by
          rw [← h2]
          exact fun h4 => h h4.symm
        rw [if_neg h3]
        simp only [TMapAdd, if_neg h, TMapFind, if_pos h2]
      · simp [TMapAdd, TMapFind, h, h2, ih]

theorem TMapAdd_of_not_contains {κ ν : Type} [FKeyFuncs κ] [DecidableEq κ] (m : List (κ × ν))
    (key : κ) (val : ν) (h : TMapContains m key = false) :
    TMapAdd m key val = m ++ [(key, val)] := by
  induction m with
  | nil => simp [TMapAdd]
  | cons p rest ih =>
    obtain ⟨a, b⟩ := p
    by_cases h1 : FKeyFuncs.Fold a = FKeyFuncs.Fold key
    · simp [TMapContains, TMapFind, h1] at h
    · simp only [TMapContains, TMapFind, h1, if_false] at h
      simp [TMapAdd, h1, ih h]

theorem TMapContains_iff_mem_keys {κ ν : Type} [FKeyFuncs κ] [DecidableEq κ]
    (m : List (κ × ν)) (key : κ) :
    TMapContains m key = true ↔ FKeyFuncs.Fold key ∈ TMapFoldedKeys m := by
  induction m with
  | nil => simp [TMapContains, TMapFind, TMapFoldedKeys, TMapKeys]
  | cons p rest ih =>
    obtain ⟨a, b⟩ := p
    rw [TMapFoldedKeys_cons]
    by_cases h1 : FKeyFuncs.Fold a = FKeyFuncs.Fold key
    · simp [TMapContains, TMapFind, h1]
    · have ih2 := ih
      simp only [TMapContains] at ih2
      simp [TMapContains, TMapFind, h1, Ne.symm h1, ih2]

theorem TMapFind_none_iff {κ ν : Type} [FKeyFuncs κ] [DecidableEq κ]
    (m : List (κ × ν)) (key : κ) :
    TMapFind m key = none ↔ FKeyFuncs.Fold key ∉ TMapFoldedKeys m := by
  rw [← TMapContains_iff_mem_keys]
  simp [TMapContains]

theorem TMapFoldedKeys_Add {κ ν : Type} [FKeyFuncs κ] [DecidableEq κ] (m : List (κ × ν))
    (key : κ) (val : ν) :
    TMapFoldedKeys (TMapAdd m key val) =
      if FKeyFuncs.Fold key ∈ TMapFoldedKeys m then TMapFoldedKeys m
      else TMapFoldedKeys m ++ [FKeyFuncs.Fold key] := by
  induction m with
  | nil => simp [TMapAdd, TMapFoldedKeys, TMapKeys]
  | cons p rest ih =>
    obtain ⟨a, b⟩ := p
    by_cases h1 : FKeyFuncs.Fold a = FKeyFuncs.Fold key
    · simp [TMapAdd, TMapFoldedKeys_cons, h1]
    · by_cases h2 : FKeyFuncs.Fold key ∈ TMapFoldedKeys rest
      · simp [TMapAdd, TMapFoldedKeys_cons, h1, h2, ih]
      · simp [TMapAdd, TMapFoldedKeys_cons, h1, h2, ih, Ne.symm h1]

theorem TMapFind_Append {κ ν : Type} [FKeyFuncs κ] [DecidableEq κ] (other m : List (κ × ν))
    (k : κ) (hnodup : (TMapFoldedKeys other).Nodup) :
    TMapFind (TMapAppend m other) k =
      match TMapFind other k with
      | some v => some v
      | none => TMapFind m k := by
  induction other generalizing m with
  | nil => simp [TMapAppend, TMapFind]
  | cons p rest ih =>
    obtain ⟨a, b⟩ := p
    simp only [TMapFoldedKeys_cons, List.nodup_cons] at hnodup
    have ih2 := ih (TMapAdd m a b) hnodup.2
    simp only [TMapAppend, List.foldl_cons] at ih2 ⊢
    rw [ih2, TMapFind_Add]
    by_cases h1 : FKeyFuncs.Fold a = FKeyFuncs.Fold k
    · have hnc : TMapFind rest k = none := by
        rw [TMapFind_none_iff, ← h1]
        exact hnodup.1
      simp [TMapFind, hnc, h1]
    · simp [TMapFind, h1]

theorem mem_TMapFoldedKeys_Add {κ ν : Type} [FKeyFuncs κ] [DecidableEq κ] (m : List (κ × ν))
    (key : κ) (val : ν) (k : κ) :
    k ∈ TMapFoldedKeys (TMapAdd m key val) ↔ k ∈ TMapFoldedKeys m ∨ k = FKeyFuncs.Fold key := by
  rw [TMapFoldedKeys_Add]
  by_cases h : FKeyFuncs.Fold key ∈ TMapFoldedKeys m
  · rw [if_pos h]
    constructor
    · exact Or.inl
    · rintro (h1 | h1)
      · exact h1
      · rw [h1]; exact h
  · rw [if_neg h]
    simp

theorem TMapFoldedKeys_Append_mem {κ ν : Type} [FKeyFuncs κ] [DecidableEq κ]
    (other m : List (κ × ν)) (k : κ) :
    k ∈ TMapFoldedKeys (TMapAppend m other) ↔
      k ∈ TMapFoldedKeys m ∨ k ∈ TMapFoldedKeys other := by
  induction other generalizing m with
  | nil => simp [TMapAppend, TMapFoldedKeys, TMapKeys]
  | cons p rest ih =>
    obtain ⟨a, b⟩ := p
    have ih2 := ih (TMapAdd m a b)
    have hcons : TMapAppend m ((a, b) :: rest) = TMapAppend (TMapAdd m a b) rest := rfl
    have hk : k ∈ TMapFoldedKeys ((a, b) :: rest) ↔
        k = FKeyFuncs.Fold a ∨ k ∈ TMapFoldedKeys rest := by
      simp [TMapFoldedKeys_cons]
    rw [hcons, ih2, mem_TMapFoldedKeys_Add, hk]
    tauto

theorem TMapFoldedKeys_Add_nodup {κ ν : Type} [FKeyFuncs κ] [DecidableEq κ] (m : List (κ × ν))
    (key : κ) (val : ν) (h : (TMapFoldedKeys m).Nodup) :
    (TMapFoldedKeys (TMapAdd m key val)).Nodup := by
  rw [TMapFoldedKeys_Add]
  by_cases h1 : FKeyFuncs.Fold key ∈ TMapFoldedKeys m
  · simpa [h1] using h
  · simp only [h1, if_false]
    exact List.Nodup.append h (List.nodup_singleton _) (by simpa using h1)

/-! ## The loop of PostDefine follows the recursive description -/

theorem RemoveLastAdded_append {γ : Type} (A Own : List γ) :
    RemoveLastAdded (A ++ Own) Own.length = Except.ok A := by
  unfold RemoveLastAdded
  by_cases h : Own.length > 0
  · simp [h]
  · have h0 : Own = [] := by
      cases Own with
      | nil => rfl
      | cons x xs => simp at h
    subst h0
    simp

theorem PopFinishedScopes_finished {γ ν : Type} (n : Nat)
    (Below : List (FSpecDefinitionScope γ ν)) (Scope : FSpecDefinitionScope γ ν)
    (BeforeAll BeforeEach AfterEach : List γ) (m : List (String × FSpec γ ν))
    (hc : Scope.Children = []) (hi : Scope.It = []) :
    PopFinishedScopes (n + 1)
      { Stack := Below ++ [Scope]
        BeforeAll := BeforeAll ++ Scope.BeforeAll
        BeforeEach := BeforeEach ++ Scope.BeforeEach
        AfterEach := AfterEach ++ Scope.AfterEach
        IdToSpecMap := m }
    = PopFinishedScopes n
      { Stack := Below
        BeforeAll := BeforeAll
        BeforeEach := BeforeEach
        AfterEach := AfterEach
        IdToSpecMap := m } := by
  simp [PopFinishedScopes, hc, hi, RemoveLastAdded_append]

theorem PopFinishedScopes_unfinished {γ ν : Type} (n : Nat)
    (Below : List (FSpecDefinitionScope γ ν)) (Scope : FSpecDefinitionScope γ ν)
    (BeforeAll BeforeEach AfterEach : List γ) (m : List (String × FSpec γ ν))
    (h : Scope.It ≠ [] ∨ Scope.Children ≠ []) :
    PopFinishedScopes n
      { Stack := Below ++ [Scope]
        BeforeAll := BeforeAll
        BeforeEach := BeforeEach
        AfterEach := AfterEach
        IdToSpecMap := m }
    = Except.ok
      { Stack := Below ++ [Scope]
        BeforeAll := BeforeAll
        BeforeEach := BeforeEach
        AfterEach := AfterEach
        IdToSpecMap := m } := by
  cases n with
  | zero => rfl
  | succ k =>
    have h2 : ¬ (Scope.Children = [] ∧ Scope.It = []) := by
      rintro ⟨h3, h4⟩
      rcases h with h | h
      · exact h h4
      · exact h h3
    simp [PopFinishedScopes, h2]

theorem AddSpecs_append {γ ν : Type} (xs ys : List (FSpec γ ν)) (m : List (String × FSpec γ ν)) :
    AddSpecs m (xs ++ ys) =
      match AddSpecs m xs with
      | Except.error e => Except.error e
      | Except.ok m1 => AddSpecs m1 ys := by
  induction xs generalizing m with
  | nil => simp [AddSpecs]
  | cons x rest ih =>
    simp only [List.cons_append, AddSpecs]
    cases h : AddSpec m x with
    | error e => simp
    | ok m1 => simp [ih]

mutual
theorem PostDefineLoop_scope {γ ν : Type} :
    ∀ (Scope : FSpecDefinitionScope γ ν), Scope.Pruned →
    ∀ (Below : List (FSpecDefinitionScope γ ν)) (BeforeAll BeforeEach AfterEach : List γ)
      (m : List (String × FSpec γ ν)) (k : Nat),
    PostDefineLoop (Scope.NumScopes + k)
      { Stack := Below ++ [Scope]
        BeforeAll := BeforeAll
        BeforeEach := BeforeEach
        AfterEach := AfterEach
        IdToSpecMap := m }
    = ContinueAfter k Below BeforeAll BeforeEach AfterEach
        (AddSpecs m (SpecsOfScope Below BeforeAll BeforeEach AfterEach Scope))
  | ⟨Description, OwnBeforeAll, OwnBeforeEach, OwnAfterEach, It, Children, Variables⟩,
    hp, Below, BeforeAll, BeforeEach, AfterEach, m, k => by
    have hfuel : (FSpecDefinitionScope.NumScopes
        (⟨Description, OwnBeforeAll, OwnBeforeEach, OwnAfterEach, It, Children, Variables⟩ :
          FSpecDefinitionScope γ ν)) + k = (NumScopesOfList Children + k) + 1 := by
      simp only [FSpecDefinitionScope.NumScopes]; omega
    rw [hfuel]
    simp only [PostDefineLoop, List.getLast?_concat,
      PostDefineStep, CompileIts, SpecsOfScope, AddSpecs_append, List.dropLast_concat]
    cases hadd : AddSpecs m (List.map (CompileIt
        (Below ++ [⟨Description, OwnBeforeAll, OwnBeforeEach, OwnAfterEach, It, Children,
          Variables⟩])
        (BeforeAll ++ OwnBeforeAll) (BeforeEach ++ OwnBeforeEach) (AfterEach ++ OwnAfterEach))
        It) with
    | error e => simp [ContinueAfter]
    | ok m1 =>
      cases Children with
      | nil =>
        simp only [List.length_nil, gt_iff_lt, lt_self_iff_false, if_false, SpecsOfChildren,
          AddSpecs, List.length_append, List.length_singleton, NumScopesOfList, Nat.zero_add]
        have hpop := PopFinishedScopes_finished Below.length Below
          (⟨Description, OwnBeforeAll, OwnBeforeEach, OwnAfterEach, [], [], Variables⟩ :
            FSpecDefinitionScope γ ν) BeforeAll BeforeEach AfterEach m1 rfl rfl
        simp only at hpop
        rw [hpop]
        simp [ContinueAfter]
      | cons Child Rest =>
        have hp2 : PrunedList (Child :: Rest) := by
          simpa [FSpecDefinitionScope.Pruned] using hp
        have hrec := PostDefineLoop_children (Child :: Rest) (by simp) hp2
          (Below ++ [⟨Description, OwnBeforeAll, OwnBeforeEach, OwnAfterEach, [], [],
            Variables⟩])
          (BeforeAll ++ OwnBeforeAll) (BeforeEach ++ OwnBeforeEach) (AfterEach ++ OwnAfterEach)
          m1 k
        simp only [List.length_cons, gt_iff_lt, Nat.zero_lt_succ, if_true]
        rw [hrec]
        cases hadd2 : AddSpecs m1 (SpecsOfChildren
            (Below ++ [⟨Description, OwnBeforeAll, OwnBeforeEach, OwnAfterEach, [], [],
              Variables⟩])
            (BeforeAll ++ OwnBeforeAll) (BeforeEach ++ OwnBeforeEach)
            (AfterEach ++ OwnAfterEach) (Child :: Rest)) with
        | error e => simp [ContinueAfter]
        | ok m2 =>
          have hpop := PopFinishedScopes_finished Below.length Below
            (⟨Description, OwnBeforeAll, OwnBeforeEach, OwnAfterEach, [], [], Variables⟩ :
              FSpecDefinitionScope γ ν) BeforeAll BeforeEach AfterEach m2 rfl rfl
          simp only at hpop
          simp only [ContinueAfter, List.length_append, List.length_singleton]
          rw [hpop]
theorem PostDefineLoop_children {γ ν : Type} :
    ∀ (Children : List (FSpecDefinitionScope γ ν)), Children ≠ [] → PrunedList Children →
    ∀ (Below : List (FSpecDefinitionScope γ ν)) (BeforeAll BeforeEach AfterEach : List γ)
      (m : List (String × FSpec γ ν)) (k : Nat),
    PostDefineLoop (NumScopesOfList Children + k)
      { Stack := Below ++ Children
        BeforeAll := BeforeAll
        BeforeEach := BeforeEach
        AfterEach := AfterEach
        IdToSpecMap := m }
    = ContinueAfter k Below BeforeAll BeforeEach AfterEach
        (AddSpecs m (SpecsOfChildren Below BeforeAll BeforeEach AfterEach Children))
  | [], hne, _, _, _, _, _, _, _ => absurd rfl hne
  | Child :: Rest, _, hp, Below, BeforeAll, BeforeEach, AfterEach, m, k => by
    obtain ⟨hne, hpc, hpr⟩ : (Child.It ≠ [] ∨ Child.Children ≠ []) ∧ Child.Pruned ∧
        PrunedList Rest := by
      simpa [PrunedList] using hp
    cases Rest with
    | nil =>
      have hrec := PostDefineLoop_scope Child hpc Below BeforeAll BeforeEach AfterEach m k
      simp only [NumScopesOfList, Nat.add_zero, SpecsOfChildren, List.nil_append]
      exact hrec
    | cons Second Others =>
      have hrec := PostDefineLoop_children (Second :: Others) (by simp) hpr
        (Below ++ [Child]) BeforeAll BeforeEach AfterEach m (Child.NumScopes + k)
      have hfuel : NumScopesOfList (Child :: Second :: Others) + k
          = NumScopesOfList (Second :: Others) + (Child.NumScopes + k) := by
        simp only [NumScopesOfList]; omega
      have hstack : Below ++ Child :: Second :: Others = (Below ++ [Child]) ++ Second :: Others := by
        simp
      rw [hfuel, hstack, hrec]
      have hspecs : SpecsOfChildren Below BeforeAll BeforeEach AfterEach
          (Child :: Second :: Others)
          = SpecsOfChildren (Below ++ [Child]) BeforeAll BeforeEach AfterEach (Second :: Others)
            ++ SpecsOfScope Below BeforeAll BeforeEach AfterEach Child := by
        simp [SpecsOfChildren]
      rw [hspecs, AddSpecs_append]
      cases hadd : AddSpecs m (SpecsOfChildren (Below ++ [Child]) BeforeAll BeforeEach
          AfterEach (Second :: Others)) with
      | error e => simp [ContinueAfter]
      | ok m1 =>
        simp only [ContinueAfter]
        rw [PopFinishedScopes_unfinished _ Below Child BeforeAll BeforeEach AfterEach m1 hne]
        simp only
        have hrec2 := PostDefineLoop_scope Child hpc Below BeforeAll BeforeEach AfterEach m1 k
        rw [hrec2]
        simp [ContinueAfter]
end

/-! ## What PostDefine computes on a pruned tree -/

theorem PostDefine_eq_AddSpecs {γ ν : Type} (Root : FSpecDefinitionScope γ ν)
    (hp : Root.Pruned) (m : List (String × FSpec γ ν)) :
    PostDefine Root m = AddSpecs m (SpecsOfScope [] [] [] [] Root) := by
  have h := PostDefineLoop_scope Root hp [] [] [] [] m 0
  simp only [Nat.add_zero, List.nil_append] at h
  unfold PostDefine
  rw [h]
  cases hadd : AddSpecs m (SpecsOfScope [] [] [] [] Root) with
  | error e => simp [ContinueAfter]
  | ok m1 => simp [ContinueAfter, PopFinishedScopes, PostDefineLoop]

theorem AddSpecs_eq {γ ν : Type} (Specs : List (FSpec γ ν)) (m : List (String × FSpec γ ν)) :
    AddSpecs m Specs =
      if (∀ Spec ∈ Specs, FKeyFuncs.Fold Spec.Id ∉ TMapFoldedKeys m) ∧
        (Specs.map (fun Spec => FKeyFuncs.Fold Spec.Id)).Nodup
      then Except.ok (m ++ Specs.map SpecEntry) else Except.error FFault.CheckFailed := by
  induction Specs generalizing m with
  | nil => simp [AddSpecs]
  | cons Spec Rest ih =>
    simp only [AddSpecs, AddSpec]
    by_cases hc : TMapContains m Spec.Id = true
    · have hmem := (TMapContains_iff_mem_keys m Spec.Id).mp hc
      have hneg : ¬ ((∀ S ∈ Spec :: Rest, FKeyFuncs.Fold S.Id ∉ TMapFoldedKeys m) ∧
          ((Spec :: Rest).map (fun S => FKeyFuncs.Fold S.Id)).Nodup) := by
        rintro ⟨h1, _⟩
        exact h1 Spec (List.mem_cons_self _ _) hmem
      simp only [hc, if_true]
      rw [if_neg hneg]
    · have hc2 : TMapContains m Spec.Id = false := by simpa using hc
      have hnmem : FKeyFuncs.Fold Spec.Id ∉ TMapFoldedKeys m := fun hm =>
        hc ((TMapContains_iff_mem_keys m Spec.Id).mpr hm)
      simp only [hc2, Bool.false_eq_true, if_false]
      rw [ih, TMapAdd_of_not_contains m Spec.Id Spec hc2]
      have hkeys : TMapFoldedKeys (m ++ [(Spec.Id, Spec)]) =
          TMapFoldedKeys m ++ [FKeyFuncs.Fold Spec.Id] := by
        rw [TMapFoldedKeys_append]
        rfl
      rw [hkeys]
      by_cases hgood : (∀ S ∈ Spec :: Rest, FKeyFuncs.Fold S.Id ∉ TMapFoldedKeys m) ∧
          ((Spec :: Rest).map (fun S => FKeyFuncs.Fold S.Id)).Nodup
      · obtain ⟨h1, h2⟩ := hgood
        simp only [List.map_cons, List.nodup_cons] at h2
        have hgood2 : (∀ S ∈ Rest,
              FKeyFuncs.Fold S.Id ∉ TMapFoldedKeys m ++ [FKeyFuncs.Fold Spec.Id]) ∧
            (Rest.map (fun S => FKeyFuncs.Fold S.Id)).Nodup := by
          refine ⟨?_, h2.2⟩
          intro S hS hmem
          rcases List.mem_append.mp hmem with hm | hm
          · exact h1 S (List.mem_cons_of_mem _ hS) hm
          · have heq : FKeyFuncs.Fold S.Id = FKeyFuncs.Fold Spec.Id := by simpa using hm
            apply h2.1
            rw [← heq]
            exact List.mem_map_of_mem (fun S => FKeyFuncs.Fold S.Id) hS
        rw [if_pos hgood2, if_pos ⟨h1, by simpa using h2⟩]
        simp [SpecEntry]
      · have hbad2 : ¬ ((∀ S ∈ Rest,
              FKeyFuncs.Fold S.Id ∉ TMapFoldedKeys m ++ [FKeyFuncs.Fold Spec.Id]) ∧
            (Rest.map (fun S => FKeyFuncs.Fold S.Id)).Nodup) := by
          rintro ⟨h1, h2⟩
          apply hgood
          refine ⟨?_, ?_⟩
          · intro S hS
            rcases List.mem_cons.mp hS with hS | hS
            · rw [hS]; exact hnmem
            · intro hm
              exact h1 S hS (List.mem_append_left _ hm)
          · simp only [List.map_cons, List.nodup_cons]
            refine ⟨?_, h2⟩
            intro hmem
            obtain ⟨S, hS, hSid⟩ := List.mem_map.mp hmem
            apply h1 S hS
            apply List.mem_append_right
            simp only [List.mem_singleton]
            exact hSid
        rw [if_neg hbad2, if_neg hgood]

theorem TMapFind_SpecEntry {γ ν : Type} (Specs : List (FSpec γ ν))
    (hnodup : (Specs.map (fun Spec => FKeyFuncs.Fold Spec.Id)).Nodup) (Spec : FSpec γ ν)
    (hmem : Spec ∈ Specs) :
    TMapFind (Specs.map SpecEntry) Spec.Id = some Spec := by
  induction Specs with
  | nil => simp at hmem
  | cons Head Rest ih =>
    simp only [List.map_cons, List.nodup_cons] at hnodup
    rcases List.mem_cons.mp hmem with h | h
    · subst h
      simp [TMapFind, SpecEntry]
    · have hne : FKeyFuncs.Fold Head.Id ≠ FKeyFuncs.Fold Spec.Id := by
        intro heq
        apply hnodup.1
        rw [heq]
        exact List.mem_map_of_mem (fun S => FKeyFuncs.Fold S.Id) h
      simp only [List.map_cons, SpecEntry, TMapFind, hne, if_false]
      exact ih hnodup.2 h

/-- On a pruned tree and an empty map, `PostDefine` succeeds exactly when the identifiers
of the specs of the recursive description are distinct as keys of the map, that is up to
the case of their letters, and then the map lists them. -/
theorem PostDefine_empty_eq {γ ν : Type} (Root : FSpecDefinitionScope γ ν) (hp : Root.Pruned) :
    PostDefine Root [] =
      if ((SpecsOfScope [] [] [] [] Root).map (fun Spec => FKeyFuncs.Fold Spec.Id)).Nodup
      then Except.ok ((SpecsOfScope [] [] [] [] Root).map SpecEntry)
      else Except.error FFault.CheckFailed := by
  rw [PostDefine_eq_AddSpecs Root hp, AddSpecs_eq]
  simp [TMapFoldedKeys, TMapKeys]

mutual
theorem SpecsOfScope_ids {γ ν : Type} :
    ∀ (Scope : FSpecDefinitionScope γ ν) (Below : List (FSpecDefinitionScope γ ν))
      (BeforeAll BeforeEach AfterEach : List γ),
    (SpecsOfScope Below BeforeAll BeforeEach AfterEach Scope).map
        (fun Spec => (Spec.Id, Spec.Description, Spec.Filename, Spec.LineNumber))
      = Scope.AllIt.map (fun It => (It.Id, It.Description, It.Filename, It.LineNumber))
  | ⟨Description, OwnBeforeAll, OwnBeforeEach, OwnAfterEach, It, Children, Variables⟩,
    Below, BeforeAll, BeforeEach, AfterEach => by
    simp only [SpecsOfScope, FSpecDefinitionScope.AllIt, List.map_append, List.map_map]
    rw [SpecsOfChildren_ids Children]
    rfl
theorem SpecsOfChildren_ids {γ ν : Type} :
    ∀ (Children : List (FSpecDefinitionScope γ ν)) (Below : List (FSpecDefinitionScope γ ν))
      (BeforeAll BeforeEach AfterEach : List γ),
    (SpecsOfChildren Below BeforeAll BeforeEach AfterEach Children).map
        (fun Spec => (Spec.Id, Spec.Description, Spec.Filename, Spec.LineNumber))
      = (AllItOfList Children).map (fun It => (It.Id, It.Description, It.Filename, It.LineNumber))
  | [], _, _, _, _ => by simp [SpecsOfChildren, AllItOfList]
  | Child :: Rest, Below, BeforeAll, BeforeEach, AfterEach => by
    simp only [SpecsOfChildren, AllItOfList, List.map_append]
    rw [SpecsOfChildren_ids Rest, SpecsOfScope_ids Child]
end

/-! ## Compiled specs and root-to-scope paths -/

theorem HooksAlong_cons {γ ν : Type} (Hooks : FSpecDefinitionScope γ ν → List γ)
    (Scope : FSpecDefinitionScope γ ν) (Path : List (FSpecDefinitionScope γ ν)) :
    HooksAlong Hooks (Scope :: Path) = Hooks Scope ++ HooksAlong Hooks Path := by
  simp [HooksAlong]

theorem HooksAlong_single {γ ν : Type} (Hooks : FSpecDefinitionScope γ ν → List γ)
    (Scope : FSpecDefinitionScope γ ν) : HooksAlong Hooks [Scope] = Hooks Scope := by
  simp [HooksAlong]

mutual
theorem mem_SpecsOfScope {γ ν : Type} :
    ∀ (Scope : FSpecDefinitionScope γ ν) (Below : List (FSpecDefinitionScope γ ν))
      (BeforeAll BeforeEach AfterEach : List γ) (Spec : FSpec γ ν),
    Spec ∈ SpecsOfScope Below BeforeAll BeforeEach AfterEach Scope →
    CompiledAlong BeforeAll BeforeEach AfterEach Scope Spec
  | ⟨Description, OwnBeforeAll, OwnBeforeEach, OwnAfterEach, It, Children, Variables⟩,
    Below, BeforeAll, BeforeEach, AfterEach, Spec, hmem => by
    simp only [SpecsOfScope, List.mem_append, List.mem_map] at hmem
    rcases hmem with ⟨ItDef, hIt, hSpec⟩ | hmem
    · refine ⟨[_], _, ItDef, Below, ScopePath.Here _, hIt, ?_⟩
      rw [← hSpec]
      simp [HooksAlong_single]
    · obtain ⟨Child, hChild, Path, Scope, ItDef, Under, hPath, hIt, hSpec⟩ :=
        mem_SpecsOfChildren Children _ _ _ _ Spec hmem
      refine ⟨_ :: Path, Scope, ItDef, Under,
        ScopePath.Child _ Child Scope Path hChild hPath, hIt, ?_⟩
      rw [hSpec]
      simp [HooksAlong_cons]
theorem mem_SpecsOfChildren {γ ν : Type} :
    ∀ (Children : List (FSpecDefinitionScope γ ν)) (Below : List (FSpecDefinitionScope γ ν))
      (BeforeAll BeforeEach AfterEach : List γ) (Spec : FSpec γ ν),
    Spec ∈ SpecsOfChildren Below BeforeAll BeforeEach AfterEach Children →
    ∃ Child ∈ Children, CompiledAlong BeforeAll BeforeEach AfterEach Child Spec
  | [], _, _, _, _, _, hmem => by simp [SpecsOfChildren] at hmem
  | Child :: Rest, Below, BeforeAll, BeforeEach, AfterEach, Spec, hmem => by
    simp only [SpecsOfChildren, List.mem_append] at hmem
    rcases hmem with hmem | hmem
    · obtain ⟨C, hC, h⟩ := mem_SpecsOfChildren Rest _ _ _ _ Spec hmem
      exact ⟨C, List.mem_cons_of_mem _ hC, h⟩
    · exact ⟨Child, List.mem_cons_self _ _, mem_SpecsOfScope Child _ _ _ _ Spec hmem⟩
end

theorem SpecsOfChildren_of_mem {γ ν : Type} (Children : List (FSpecDefinitionScope γ ν))
    (Child : FSpecDefinitionScope γ ν) (hmem : Child ∈ Children)
    (Below : List (FSpecDefinitionScope γ ν)) (BeforeAll BeforeEach AfterEach : List γ) :
    ∃ Under, ∀ Spec, Spec ∈ SpecsOfScope Under BeforeAll BeforeEach AfterEach Child →
      Spec ∈ SpecsOfChildren Below BeforeAll BeforeEach AfterEach Children := by
  induction Children generalizing Below with
  | nil => simp at hmem
  | cons Head Rest ih =>
    rcases List.mem_cons.mp hmem with h | h
    · subst h
      refine ⟨Below, fun Spec hSpec => ?_⟩
      simp only [SpecsOfChildren, List.mem_append]
      exact Or.inr hSpec
    · obtain ⟨Under, hUnder⟩ := ih h (Below ++ [Head])
      refine ⟨Under, fun Spec hSpec => ?_⟩
      simp only [SpecsOfChildren, List.mem_append]
      exact Or.inl (hUnder Spec hSpec)

theorem SpecsOfScope_of_path {γ ν : Type} (Start Scope : FSpecDefinitionScope γ ν)
    (Path : List (FSpecDefinitionScope γ ν)) (hPath : ScopePath Start Path Scope)
    (It : FSpecItDefinition γ) (hIt : It ∈ Scope.It) :
    ∀ (Below : List (FSpecDefinitionScope γ ν)) (BeforeAll BeforeEach AfterEach : List γ),
    ∃ Under, CompileIt (Under ++ [Scope])
        (BeforeAll ++ HooksAlong (fun S => S.BeforeAll) Path)
        (BeforeEach ++ HooksAlong (fun S => S.BeforeEach) Path)
        (AfterEach ++ HooksAlong (fun S => S.AfterEach) Path) It
      ∈ SpecsOfScope Below BeforeAll BeforeEach AfterEach Start := by
  induction hPath with
  | Here Scope =>
    intro Below BeforeAll BeforeEach AfterEach
    refine ⟨Below, ?_⟩
    obtain ⟨Description, OwnBeforeAll, OwnBeforeEach, OwnAfterEach, Its, Children, Variables⟩ :=
      Scope
    simp only [SpecsOfScope, List.mem_append, List.mem_map, HooksAlong_single]
    exact Or.inl ⟨It, hIt, rfl⟩
  | Child Parent Child Scope Path hChild _ ih =>
    intro Below BeforeAll BeforeEach AfterEach
    obtain ⟨Description, OwnBeforeAll, OwnBeforeEach, OwnAfterEach, Its, Children, Variables⟩ :=
      Parent
    obtain ⟨Under, hUnder⟩ := SpecsOfChildren_of_mem Children Child hChild
      (Below ++ [⟨Description, OwnBeforeAll, OwnBeforeEach, OwnAfterEach, [], [], Variables⟩])
      (BeforeAll ++ OwnBeforeAll) (BeforeEach ++ OwnBeforeEach) (AfterEach ++ OwnAfterEach)
    obtain ⟨Under2, hUnder2⟩ := ih hIt Under
      (BeforeAll ++ OwnBeforeAll) (BeforeEach ++ OwnBeforeEach) (AfterEach ++ OwnAfterEach)
    refine ⟨Under2, ?_⟩
    simp only [SpecsOfScope, List.mem_append, HooksAlong_cons]
    right
    have := hUnder _ hUnder2
    simpa [List.append_assoc] using this

mutual
theorem mem_AllIt {γ ν : Type} :
    ∀ (Scope : FSpecDefinitionScope γ ν) (It : FSpecItDefinition γ),
    It ∈ Scope.AllIt → ∃ Path Last, ScopePath Scope Path Last ∧ It ∈ Last.It
  | ⟨Description, OwnBeforeAll, OwnBeforeEach, OwnAfterEach, Its, Children, Variables⟩,
    It, hmem => by
    simp only [FSpecDefinitionScope.AllIt, List.mem_append] at hmem
    rcases hmem with hmem | hmem
    · exact ⟨[_], _, ScopePath.Here _, hmem⟩
    · obtain ⟨Child, hChild, Path, Last, hPath, hIt⟩ := mem_AllItOfList Children It hmem
      exact ⟨_ :: Path, Last, ScopePath.Child _ Child Last Path hChild hPath, hIt⟩
theorem mem_AllItOfList {γ ν : Type} :
    ∀ (Children : List (FSpecDefinitionScope γ ν)) (It : FSpecItDefinition γ),
    It ∈ AllItOfList Children →
    ∃ Child ∈ Children, ∃ Path Last, ScopePath Child Path Last ∧ It ∈ Last.It
  | [], _, hmem => by simp [AllItOfList] at hmem
  | Child :: Rest, It, hmem => by
    simp only [AllItOfList, List.mem_append] at hmem
    rcases hmem with hmem | hmem
    · obtain ⟨C, hC, h⟩ := mem_AllItOfList Rest It hmem
      exact ⟨C, List.mem_cons_of_mem _ hC, h⟩
    · exact ⟨Child, List.mem_cons_self _ _, mem_AllIt Child It hmem⟩
end

theorem AllItOfList_of_mem {γ ν : Type} (Children : List (FSpecDefinitionScope γ ν))
    (Child : FSpecDefinitionScope γ ν) (hmem : Child ∈ Children) (It : FSpecItDefinition γ)
    (hIt : It ∈ Child.AllIt) : It ∈ AllItOfList Children := by
  induction Children with
  | nil => simp at hmem
  | cons Head Rest ih =>
    simp only [AllItOfList, List.mem_append]
    rcases List.mem_cons.mp hmem with h | h
    · subst h; exact Or.inr hIt
    · exact Or.inl (ih h)

theorem AllIt_of_path {γ ν : Type} (Start Scope : FSpecDefinitionScope γ ν)
    (Path : List (FSpecDefinitionScope γ ν)) (hPath : ScopePath Start Path Scope)
    (It : FSpecItDefinition γ) (hIt : It ∈ Scope.It) : It ∈ Start.AllIt := by
  induction hPath with
  | Here Scope =>
    obtain ⟨Description, OwnBeforeAll, OwnBeforeEach, OwnAfterEach, Its, Children, Variables⟩ :=
      Scope
    simp only [FSpecDefinitionScope.AllIt, List.mem_append]
    exact Or.inl hIt
  | Child Parent Child Scope Path hChild _ ih =>
    obtain ⟨Description, OwnBeforeAll, OwnBeforeEach, OwnAfterEach, Its, Children, Variables⟩ :=
      Parent
    simp only [FSpecDefinitionScope.AllIt, List.mem_append]
    exact Or.inr (AllItOfList_of_mem Children Child hChild It (ih hIt))

/-! ## The declaration pass builds pruned trees -/

theorem PrunedList_append {γ ν : Type} (A B : List (FSpecDefinitionScope γ ν))
    (hA : PrunedList A) (hB : PrunedList B) : PrunedList (A ++ B) := by
  induction A with
  | nil => simpa using hB
  | cons Head Rest ih =>
    simp only [PrunedList, List.cons_append] at hA ⊢
    exact ⟨hA.1, hA.2.1, ih hA.2.2⟩

theorem ValidVariablesList_append {γ ν : Type} (A B : List (FSpecDefinitionScope γ ν))
    (hA : ValidVariablesList A) (hB : ValidVariablesList B) : ValidVariablesList (A ++ B) := by
  induction A with
  | nil => simpa using hB
  | cons Head Rest ih =>
    simp only [ValidVariablesList, List.cons_append] at hA ⊢
    exact ⟨hA.1, ih hA.2⟩

theorem ScopeGrows_refl {σ ν : Type} (Scope : FScope σ ν) : ScopeGrows false Scope Scope :=
  ⟨[], [], by simp, by simp, by simp [PrunedList], by simp [ValidVariablesList], by simp,
    fun h => h, rfl⟩

theorem ScopeGrows_trans {σ ν : Type} (b1 b2 : Bool) (A B C : FScope σ ν)
    (h1 : ScopeGrows b1 A B) (h2 : ScopeGrows b2 B C) : ScopeGrows (b1 || b2) A C := by
  obtain ⟨I1, C1, hI1, hC1, hP1, hV1, hb1, hN1, hD1⟩ := h1
  obtain ⟨I2, C2, hI2, hC2, hP2, hV2, hb2, hN2, hD2⟩ := h2
  refine ⟨I1 ++ I2, C1 ++ C2, ?_, ?_, PrunedList_append _ _ hP1 hP2,
    ValidVariablesList_append _ _ hV1 hV2, ?_, fun h => hN2 (hN1 h), hD2.trans hD1⟩
  · rw [hI2, hI1, List.append_assoc]
  · rw [hC2, hC1, List.append_assoc]
  · simp only [Bool.or_eq_true, hb1, hb2, ne_eq, List.append_eq_nil, not_and_or]
    tauto

theorem GetId_concat (DescriptionStack : List String) (InDescription : String) :
    ∃ Id, GetId (DescriptionStack ++ [InDescription]) = Except.ok Id := by
  unfold GetId
  simp only [List.getLast?_concat]
  split
  · split
    · exact ⟨_, rfl⟩
    · split
      · exact ⟨_, rfl⟩
      · exact ⟨_, rfl⟩
  · exact ⟨_, rfl⟩

theorem ModifyCurrentScope_mk {σ ν : Type} (Descriptions : List String)
    (Below : List (FScope σ ν)) (Current : FScope σ ν)
    (m : List (String × FSpec (FLatentCommand σ) ν)) (bDefined bSkip : Bool)
    (Timeout Counter : Int) (Change : FScope σ ν → FScope σ ν) :
    FEnhancedAutomationSpecBase.ModifyCurrentScope
      (⟨Descriptions, Below ++ [Current], m, bDefined, bSkip, Timeout, Counter⟩ :
        FEnhancedAutomationSpecBase σ ν) Change
    = Except.ok ⟨Descriptions, Below ++ [Change Current], m, bDefined, bSkip, Timeout, Counter⟩ := by
  simp [FEnhancedAutomationSpecBase.ModifyCurrentScope, List.getLast?_concat,
    List.dropLast_concat]

theorem PopDescription_mk {σ ν : Type} (Descriptions : List String) (InDescription : String)
    (Stack : List (FScope σ ν))
    (m : List (String × FSpec (FLatentCommand σ) ν)) (bDefined bSkip : Bool)
    (Timeout Counter : Int) :
    FEnhancedAutomationSpecBase.PopDescription
      (⟨Descriptions ++ [InDescription], Stack, m, bDefined, bSkip, Timeout, Counter⟩ :
        FEnhancedAutomationSpecBase σ ν)
    = Except.ok ⟨Descriptions, Stack, m, bDefined, bSkip, Timeout, Counter⟩ := by
  unfold FEnhancedAutomationSpecBase.PopDescription
  cases Descriptions with
  | nil => simp
  | cons Head Rest =>
    simp only [List.cons_append]
    rw [← List.cons_append, List.dropLast_concat]

theorem It_spec {σ ν : Type} (InDescription Filename : String) (LineNumber : Int)
    (Args : FWorkArgs σ) (this : FEnhancedAutomationSpecBase σ ν) (Below : List (FScope σ ν))
    (Current : FScope σ ν) (hstack : this.DefinitionScopeStack = Below ++ [Current]) :
    ∃ After NewScope,
      FEnhancedAutomationSpecBase.It InDescription Filename LineNumber Args this
        = Except.ok After ∧
      KeepsFrame this After Below NewScope ∧ ScopeGrows true Current NewScope ∧
      After.HandleCounter = this.HandleCounter := by
  obtain ⟨Id, hId⟩ := GetId_concat this.DescriptionStack InDescription
  obtain ⟨Descriptions, Stack, m, bDefined, bSkip, Timeout, Counter⟩ := this
  simp only at hstack hId
  subst hstack
  unfold FEnhancedAutomationSpecBase.It
  simp only [FEnhancedAutomationSpecBase.PushDescription, hId, ModifyCurrentScope_mk,
    PopDescription_mk]
  refine ⟨_, _, rfl, ⟨rfl, rfl, rfl, rfl, rfl, rfl⟩, ?_, rfl⟩
  exact ⟨[_], [], rfl, by simp, by simp [PrunedList], by simp [ValidVariablesList], by simp,
    fun h => h, rfl⟩

theorem BeforeAll_spec {σ ν : Type} (Args : FWorkArgs σ)
    (this : FEnhancedAutomationSpecBase σ ν) (Below : List (FScope σ ν))
    (Current : FScope σ ν) (hstack : this.DefinitionScopeStack = Below ++ [Current]) :
    ∃ After NewScope,
      FEnhancedAutomationSpecBase.BeforeAll Args this = Except.ok After ∧
      KeepsFrame this After Below NewScope ∧ ScopeGrows false Current NewScope := by
  obtain ⟨Descriptions, Stack, m, bDefined, bSkip, Timeout, Counter⟩ := this
  simp only at hstack
  subst hstack
  unfold FEnhancedAutomationSpecBase.BeforeAll
  simp only [ModifyCurrentScope_mk]
  refine ⟨_, _, rfl, ⟨rfl, rfl, rfl, rfl, rfl, rfl⟩, ?_⟩
  exact ⟨[], [], by simp, by simp, by simp [PrunedList], by simp [ValidVariablesList], by simp,
    fun h => h, rfl⟩

theorem BeforeEach_spec {σ ν : Type} (Args : FWorkArgs σ)
    (this : FEnhancedAutomationSpecBase σ ν) (Below : List (FScope σ ν))
    (Current : FScope σ ν) (hstack : this.DefinitionScopeStack = Below ++ [Current]) :
    ∃ After NewScope,
      FEnhancedAutomationSpecBase.BeforeEach Args this = Except.ok After ∧
      KeepsFrame this After Below NewScope ∧ ScopeGrows false Current NewScope := by
  obtain ⟨Descriptions, Stack, m, bDefined, bSkip, Timeout, Counter⟩ := this
  simp only at hstack
  subst hstack
  unfold FEnhancedAutomationSpecBase.BeforeEach
  simp only [ModifyCurrentScope_mk]
  refine ⟨_, _, rfl, ⟨rfl, rfl, rfl, rfl, rfl, rfl⟩, ?_⟩
  exact ⟨[], [], by simp, by simp, by simp [PrunedList], by simp [ValidVariablesList], by simp,
    fun h => h, rfl⟩

theorem AfterEach_spec {σ ν : Type} (Args : FWorkArgs σ)
    (this : FEnhancedAutomationSpecBase σ ν) (Below : List (FScope σ ν))
    (Current : FScope σ ν) (hstack : this.DefinitionScopeStack = Below ++ [Current]) :
    ∃ After NewScope,
      FEnhancedAutomationSpecBase.AfterEach Args this = Except.ok After ∧
      KeepsFrame this After Below NewScope ∧ ScopeGrows false Current NewScope := by
  obtain ⟨Descriptions, Stack, m, bDefined, bSkip, Timeout, Counter⟩ := this
  simp only at hstack
  subst hstack
  unfold FEnhancedAutomationSpecBase.AfterEach
  simp only [ModifyCurrentScope_mk]
  refine ⟨_, _, rfl, ⟨rfl, rfl, rfl, rfl, rfl, rfl⟩, ?_⟩
  exact ⟨[], [], by simp, by simp, by simp [PrunedList], by simp [ValidVariablesList], by simp,
    fun h => h, rfl⟩

theorem Let_spec {σ ν : Type} (Name : String) (Variable : ν)
    (this : FEnhancedAutomationSpecBase σ ν) (Below : List (FScope σ ν))
    (Current : FScope σ ν) (hstack : this.DefinitionScopeStack = Below ++ [Current]) :
    ∃ After NewScope,
      FEnhancedAutomationSpecBase.Let Name Variable this = Except.ok After ∧
      KeepsFrame this After Below NewScope ∧ ScopeGrows false Current NewScope := by
  obtain ⟨Descriptions, Stack, m, bDefined, bSkip, Timeout, Counter⟩ := this
  simp only at hstack
  subst hstack
  unfold FEnhancedAutomationSpecBase.Let
  simp only [ModifyCurrentScope_mk]
  refine ⟨_, _, rfl, ⟨rfl, rfl, rfl, rfl, rfl, rfl⟩, ?_⟩
  exact ⟨[], [], by simp, by simp, by simp [PrunedList], by simp [ValidVariablesList], by simp,
    fun h => TMapFoldedKeys_Add_nodup _ _ _ h, rfl⟩

/-- Effect of `Describe` on the parent scope when the body behaves like a sequence of
declarations: the scope built by the body is added to the children of the parent when
the body declared an `It` somewhere, and nothing is added otherwise. -/
theorem Describe_spec {σ ν : Type} (InDescription : String)
    (DoWork : FEnhancedAutomationSpecBase σ ν → Except FFault (FEnhancedAutomationSpecBase σ ν))
    (bDeclaresIt : Bool)
    (hWork : ∀ (Opened : FEnhancedAutomationSpecBase σ ν) (Below : List (FScope σ ν))
      (Current : FScope σ ν), Opened.DefinitionScopeStack = Below ++ [Current] →
      ∃ After NewScope, DoWork Opened = Except.ok After ∧
        KeepsFrame Opened After Below NewScope ∧ ScopeGrows bDeclaresIt Current NewScope)
    (this : FEnhancedAutomationSpecBase σ ν) (Below : List (FScope σ ν))
    (ParentScope : FScope σ ν) (hstack : this.DefinitionScopeStack = Below ++ [ParentScope]) :
    ∃ After Built,
      FEnhancedAutomationSpecBase.Describe InDescription DoWork this = Except.ok After ∧
      KeepsFrame this After Below
        { ParentScope with
          Children := ParentScope.Children ++ (if bDeclaresIt then [Built] else []) } ∧
      ScopeGrows bDeclaresIt (NewDescribeScope σ ν InDescription) Built ∧
      (Built.It ≠ [] ∨ Built.Children ≠ [] ↔ bDeclaresIt = true) := by
  obtain ⟨Descriptions, Stack, m, bDefined, bSkip, Timeout, Counter⟩ := this
  simp only at hstack
  subst hstack
  obtain ⟨Worked, Built, hDo, hFrame, hGrows⟩ := hWork
    ⟨Descriptions ++ [InDescription],
      (Below ++ [{ ParentScope with
        Children := ParentScope.Children ++ [NewDescribeScope σ ν InDescription] }])
        ++ [NewDescribeScope σ ν InDescription], m, bDefined, bSkip, Timeout, Counter⟩
    (Below ++ [{ ParentScope with
      Children := ParentScope.Children ++ [NewDescribeScope σ ν InDescription] }])
    (NewDescribeScope σ ν InDescription) rfl
  obtain ⟨WDescriptions, WStack, Wm, WbDefined, WbSkip, WTimeout, WCounter⟩ := Worked
  obtain ⟨hF1, hF2, hF3, hF4, hF5, hF6⟩ := hFrame
  simp only at hF1 hF2 hF3 hF4 hF5 hF6
  subst hF1 hF2 hF3 hF4 hF5 hF6
  have hbuilt : (Built.It ≠ [] ∨ Built.Children ≠ [] ↔ bDeclaresIt = true) := by
    obtain ⟨NewIt, NewChildren, hI, hC, _, _, hb, _, _⟩ := hGrows
    rw [hI, hC, hb]
    simp [NewDescribeScope]
  have hrun : FEnhancedAutomationSpecBase.Describe InDescription DoWork
      (⟨Descriptions, Below ++ [ParentScope], Wm, WbDefined, WbSkip, WTimeout, Counter⟩ :
        FEnhancedAutomationSpecBase σ ν)
      = Except.ok ⟨Descriptions,
          Below ++ [{ ParentScope with
            Children := ParentScope.Children ++ (if bDeclaresIt then [Built] else []) }],
          Wm, WbDefined, WbSkip, WTimeout, WCounter⟩ := by
    unfold FEnhancedAutomationSpecBase.Describe
    simp only [List.getLast?_concat, List.dropLast_concat]
    simp only [NewDescribeScope] at hDo
    rw [hDo]
    simp only [PopDescription_mk, List.getLast?_concat, List.dropLast_concat]
    by_cases hb : bDeclaresIt = true
    · have hne : Built.It = [] → ¬ Built.Children = [] := by
        intro h1 h2
        rcases hbuilt.mpr hb with h | h
        · exact h h1
        · exact h h2
      simp [hb]
      exact hne
    · have h := hbuilt.not.mpr hb
      simp only [not_or, not_not] at h
      simp [h.1, h.2, hb]
  exact ⟨_, Built, hrun, ⟨rfl, rfl, rfl, rfl, rfl, rfl⟩, hGrows, hbuilt⟩

theorem Pruned_iff {γ ν : Type} (Scope : FSpecDefinitionScope γ ν) :
    Scope.Pruned ↔ PrunedList Scope.Children := by
  cases Scope
  simp [FSpecDefinitionScope.Pruned]

theorem ValidVariables_iff {γ ν : Type} (Scope : FSpecDefinitionScope γ ν) :
    Scope.ValidVariables ↔
      (TMapFoldedKeys Scope.Variables).Nodup ∧ ValidVariablesList Scope.Children := by
  cases Scope
  simp [FSpecDefinitionScope.ValidVariables]

theorem KeepsFrame_trans {σ ν : Type} (A B C : FEnhancedAutomationSpecBase σ ν)
    (Below : List (FScope σ ν)) (S1 S2 : FScope σ ν) (h1 : KeepsFrame A B Below S1)
    (h2 : KeepsFrame B C Below S2) : KeepsFrame A C Below S2 := by
  obtain ⟨_, a2, a3, a4, a5, a6⟩ := h1
  obtain ⟨b1, b2, b3, b4, b5, b6⟩ := h2
  exact ⟨b1, b2.trans a2, b3.trans a3, b4.trans a4, b5.trans a5, b6.trans a6⟩

theorem ScopeGrows_of_Describe {σ ν : Type} (InDescription : String) (bDeclaresIt : Bool)
    (ParentScope Built : FScope σ ν)
    (hGrows : ScopeGrows bDeclaresIt (NewDescribeScope σ ν InDescription) Built)
    (hbuilt : Built.It ≠ [] ∨ Built.Children ≠ [] ↔ bDeclaresIt = true) :
    ScopeGrows bDeclaresIt ParentScope
      { ParentScope with
        Children := ParentScope.Children ++ (if bDeclaresIt then [Built] else []) } := by
  obtain ⟨NewIt, NewChildren, hI, hC, hP, hV, _, hN, _⟩ := hGrows
  have hC2 : Built.Children = NewChildren := by simpa [NewDescribeScope] using hC
  refine ⟨[], if bDeclaresIt then [Built] else [], by simp, rfl, ?_, ?_, ?_, fun h => h, rfl⟩
  · by_cases hb : bDeclaresIt = true
    · simp only [hb, if_true, PrunedList, and_true]
      refine ⟨hbuilt.mpr hb, ?_⟩
      rw [Pruned_iff, hC2]
      exact hP
    · simp [hb, PrunedList]
  · by_cases hb : bDeclaresIt = true
    · simp only [hb, if_true, ValidVariablesList, and_true]
      rw [ValidVariables_iff, hC2]
      exact ⟨hN (by simp [NewDescribeScope, TMapFoldedKeys, TMapKeys]), hV⟩
    · simp [hb, ValidVariablesList]
  · by_cases hb : bDeclaresIt = true <;> simp [hb]

mutual
theorem RunDecl_spec {σ ν : Type} :
    ∀ (Decl : FSpecDecl σ ν) (this : FEnhancedAutomationSpecBase σ ν)
      (Below : List (FScope σ ν)) (Current : FScope σ ν),
    this.DefinitionScopeStack = Below ++ [Current] →
    ∃ After NewScope, RunDecl Decl this = Except.ok After ∧
      KeepsFrame this After Below NewScope ∧ ScopeGrows Decl.DeclaresIt Current NewScope
  | FSpecDecl.Describe InDescription DoWork, this, Below, Current, hstack => by
    obtain ⟨After, Built, hrun, hFrame, hGrows, hbuilt⟩ :=
      Describe_spec InDescription (fun Opened => RunDecls DoWork Opened)
        (DeclaresItInList DoWork)
        (fun Opened B C h => RunDecls_spec DoWork Opened B C h) this Below Current hstack
    refine ⟨After, _, ?_, hFrame, ?_⟩
    · simp only [RunDecl]
      exact hrun
    · simp only [FSpecDecl.DeclaresIt]
      exact ScopeGrows_of_Describe InDescription _ Current Built hGrows hbuilt
  | FSpecDecl.It InDescription Filename LineNumber Args, this, Below, Current, hstack => by
    obtain ⟨After, NewScope, hrun, hFrame, hGrows, _⟩ :=
      It_spec InDescription Filename LineNumber Args this Below Current hstack
    exact ⟨After, NewScope, by simp only [RunDecl]; exact hrun, hFrame,
      by simp only [FSpecDecl.DeclaresIt]; exact hGrows⟩
  | FSpecDecl.BeforeAll Args, this, Below, Current, hstack => by
    obtain ⟨After, NewScope, hrun, hFrame, hGrows⟩ :=
      BeforeAll_spec Args this Below Current hstack
    exact ⟨After, NewScope, by simp only [RunDecl]; exact hrun, hFrame,
      by simp only [FSpecDecl.DeclaresIt]; exact hGrows⟩
  | FSpecDecl.BeforeEach Args, this, Below, Current, hstack => by
    obtain ⟨After, NewScope, hrun, hFrame, hGrows⟩ :=
      BeforeEach_spec Args this Below Current hstack
    exact ⟨After, NewScope, by simp only [RunDecl]; exact hrun, hFrame,
      by simp only [FSpecDecl.DeclaresIt]; exact hGrows⟩
  | FSpecDecl.AfterEach Args, this, Below, Current, hstack => by
    obtain ⟨After, NewScope, hrun, hFrame, hGrows⟩ :=
      AfterEach_spec Args this Below Current hstack
    exact ⟨After, NewScope, by simp only [RunDecl]; exact hrun, hFrame,
      by simp only [FSpecDecl.DeclaresIt]; exact hGrows⟩
  | FSpecDecl.Let Name Variable, this, Below, Current, hstack => by
    obtain ⟨After, NewScope, hrun, hFrame, hGrows⟩ :=
      Let_spec Name Variable this Below Current hstack
    exact ⟨After, NewScope, by simp only [RunDecl]; exact hrun, hFrame,
      by simp only [FSpecDecl.DeclaresIt]; exact hGrows⟩
  | FSpecDecl.RedefineLet Name Make, this, Below, Current, hstack => by
    obtain ⟨After, NewScope, hrun, hFrame, hGrows⟩ :=
      Let_spec Name (Make (FEnhancedAutomationSpecBase.VisibleVariable
        this.DefinitionScopeStack Name)) this Below Current hstack
    exact ⟨After, NewScope,
      by simp only [RunDecl, FEnhancedAutomationSpecBase.RedefineLet]; exact hrun, hFrame,
      by simp only [FSpecDecl.DeclaresIt]; exact hGrows⟩
theorem RunDecls_spec {σ ν : Type} :
    ∀ (Decls : List (FSpecDecl σ ν)) (this : FEnhancedAutomationSpecBase σ ν)
      (Below : List (FScope σ ν)) (Current : FScope σ ν),
    this.DefinitionScopeStack = Below ++ [Current] →
    ∃ After NewScope, RunDecls Decls this = Except.ok After ∧
      KeepsFrame this After Below NewScope ∧ ScopeGrows (DeclaresItInList Decls) Current NewScope
  | [], this, Below, Current, hstack =>
    ⟨this, Current, by simp only [RunDecls], ⟨hstack, rfl, rfl, rfl, rfl, rfl⟩,
      by simp only [DeclaresItInList]; exact ScopeGrows_refl Current⟩
  | Decl :: Rest, this, Below, Current, hstack => by
    obtain ⟨Mid, MidScope, hrun1, hFrame1, hGrows1⟩ := RunDecl_spec Decl this Below Current hstack
    obtain ⟨After, NewScope, hrun2, hFrame2, hGrows2⟩ :=
      RunDecls_spec Rest Mid Below MidScope hFrame1.1
    refine ⟨After, NewScope, ?_, KeepsFrame_trans _ _ _ _ _ _ hFrame1 hFrame2, ?_⟩
    · simp only [RunDecls, hrun1]
      exact hrun2
    · simp only [DeclaresItInList]
      exact ScopeGrows_trans _ _ _ _ _ hGrows1 hGrows2
end

/-! ## From the declarations of Define to the compiled map -/

/-- A declaration pass that starts with a pruned root alone on the scope stack ends with
a pruned root alone on the scope stack. -/
theorem RunDecls_root {σ ν : Type} (Decls : List (FSpecDecl σ ν))
    (this Declared : FEnhancedAutomationSpecBase σ ν) (Root0 : FScope σ ν)
    (hstack : this.DefinitionScopeStack = [Root0]) (hp : Root0.Pruned)
    (hv : Root0.ValidVariables) (hrun : RunDecls Decls this = Except.ok Declared) :
    ∃ Root, Declared.DefinitionScopeStack = [Root] ∧ Root.Pruned ∧ Root.ValidVariables ∧
      Declared.IdToSpecMap = this.IdToSpecMap ∧
      Declared.bHasBeenDefined = this.bHasBeenDefined := by
  obtain ⟨After, Root, hrun2, hFrame, hGrows⟩ := RunDecls_spec Decls this [] Root0 hstack
  rw [hrun] at hrun2
  cases hrun2
  obtain ⟨NewIt, NewChildren, _, hC, hP, hV, _, hN, _⟩ := hGrows
  refine ⟨Root, hFrame.1, ?_, ?_, hFrame.2.2.1, hFrame.2.2.2.1⟩
  · rw [Pruned_iff, hC]
    exact PrunedList_append _ _ ((Pruned_iff Root0).mp hp) hP
  · rw [ValidVariables_iff, hC]
    exact ⟨hN ((ValidVariables_iff Root0).mp hv).1,
      ValidVariablesList_append _ _ ((ValidVariables_iff Root0).mp hv).2 hV⟩

theorem Fresh_root {σ ν : Type} (Decls : List (FSpecDecl σ ν)) (bSkip : Bool)
    (Timeout Counter : Int) (Declared : FEnhancedAutomationSpecBase σ ν)
    (hrun : RunDecls Decls (FEnhancedAutomationSpecBase.Fresh σ ν bSkip Timeout Counter)
      = Except.ok Declared) :
    ∃ Root, Declared.DefinitionScopeStack = [Root] ∧ Root.Pruned ∧ Root.ValidVariables ∧
      Declared.IdToSpecMap = [] ∧ Declared.bHasBeenDefined = false := by
  exact RunDecls_root Decls _ Declared _ rfl
    (by simp [FSpecDefinitionScope.Pruned, PrunedList])
    (by simp [FSpecDefinitionScope.ValidVariables, ValidVariablesList, TMapFoldedKeys,
      TMapKeys]) hrun

/-- The declaration pass never faults. -/
theorem RunDecls_Fresh_ok {σ ν : Type} (Decls : List (FSpecDecl σ ν)) (bSkip : Bool)
    (Timeout Counter : Int) :
    ∃ Declared, RunDecls Decls (FEnhancedAutomationSpecBase.Fresh σ ν bSkip Timeout Counter)
      = Except.ok Declared := by
  obtain ⟨After, _, hrun, _, _⟩ := RunDecls_spec Decls
    (FEnhancedAutomationSpecBase.Fresh σ ν bSkip Timeout Counter) [] _ rfl
  exact ⟨After, hrun⟩

/-- Compilation of a declared spec object whose map is empty: the map of the result lists
the specs of the recursive description, whose identifiers are distinct up to the case of
their letters. -/
theorem PostDefine_object {σ ν : Type} (Declared Compiled : FEnhancedAutomationSpecBase σ ν)
    (Root : FScope σ ν) (hstack : Declared.DefinitionScopeStack = [Root]) (hp : Root.Pruned)
    (hmap : Declared.IdToSpecMap = [])
    (hpost : Declared.PostDefine = Except.ok Compiled) :
    Compiled.IdToSpecMap = (SpecsOfScope [] [] [] [] Root).map SpecEntry ∧
    ((SpecsOfScope [] [] [] [] Root).map (fun Spec => FKeyFuncs.Fold Spec.Id)).Nodup ∧
    Compiled.bHasBeenDefined = true := by
  unfold FEnhancedAutomationSpecBase.PostDefine at hpost
  rw [hstack, hmap] at hpost
  simp only [List.head?_cons] at hpost
  rw [PostDefine_empty_eq Root hp] at hpost
  by_cases hnd : ((SpecsOfScope [] [] [] [] Root).map (fun Spec => FKeyFuncs.Fold Spec.Id)).Nodup
  · rw [if_pos hnd] at hpost
    simp only [Except.ok.injEq] at hpost
    rw [← hpost]
    exact ⟨rfl, hnd, rfl⟩
  · rw [if_neg hnd] at hpost
    simp at hpost

/-- The spec compiled for an `It` declared at the end of a path, found in the map under
the identifier of the declaration. -/
theorem CompiledSpec_of_path {σ ν : Type} (Declared Compiled : FEnhancedAutomationSpecBase σ ν)
    (Root : FScope σ ν) (hstack : Declared.DefinitionScopeStack = [Root]) (hp : Root.Pruned)
    (hmap : Declared.IdToSpecMap = [])
    (hpost : Declared.PostDefine = Except.ok Compiled)
    (Path : List (FScope σ ν)) (Scope : FScope σ ν) (hPath : ScopePath Root Path Scope)
    (It : FSpecItDefinition (FLatentCommand σ)) (hIt : It ∈ Scope.It) :
    ∃ Under, TMapFind Compiled.IdToSpecMap It.Id = some
      (CompileIt (Under ++ [Scope])
        (HooksAlong (fun S => S.BeforeAll) Path)
        (HooksAlong (fun S => S.BeforeEach) Path)
        (HooksAlong (fun S => S.AfterEach) Path) It) := by
  obtain ⟨hm, hnd, _⟩ := PostDefine_object Declared Compiled Root hstack hp hmap hpost
  obtain ⟨Under, hmem⟩ := SpecsOfScope_of_path Root Scope Path hPath It hIt [] [] [] []
  simp only [List.nil_append] at hmem
  refine ⟨Under, ?_⟩
  rw [hm]
  exact TMapFind_SpecEntry _ hnd _ hmem

/-! ## Helpers for concrete instances -/

theorem ValueOf_eq {α : Type} (Result : Except FFault α) (Default : α)
    (h : Result.toOption.isSome = true) : Result = Except.ok (ValueOf Result Default) := by
  cases Result with
  | error e => simp [Except.toOption] at h
  | ok v => rfl

theorem headD_mem {α : Type} (l : List α) (d : α) (h : 0 < l.length) : l.headD d ∈ l := by
  cases l with
  | nil => simp at h
  | cons x xs => simp

theorem getLastD_mem {α : Type} (l : List α) (d : α) (h : 0 < l.length) : l.getLastD d ∈ l := by
  cases l with
  | nil => simp at h
  | cons x xs =>
    rw [List.getLastD_cons]
    induction xs generalizing x with
    | nil => simp
    | cons y ys ih =>
      rw [List.getLastD_cons]
      exact List.mem_cons_of_mem _ (ih y (by simp))

theorem EnsureDefinitions_Fresh {σ ν : Type} (Decls : List (FSpecDecl σ ν)) (bSkip : Bool)
    (Timeout Counter : Int) (Compiled : FEnhancedAutomationSpecBase σ ν)
    (hrun : FEnhancedAutomationSpecBase.EnsureDefinitions (RunDecls Decls)
      (FEnhancedAutomationSpecBase.Fresh σ ν bSkip Timeout Counter) = Except.ok Compiled) :
    ∃ Declared, RunDecls Decls (FEnhancedAutomationSpecBase.Fresh σ ν bSkip Timeout Counter)
        = Except.ok Declared ∧
      Declared.PostDefine = Except.ok Compiled ∧
      Declared.DefinitionScopeStack = [DeclaredRoot Decls bSkip Timeout Counter] ∧
      (DeclaredRoot Decls bSkip Timeout Counter).Pruned ∧
      (DeclaredRoot Decls bSkip Timeout Counter).ValidVariables ∧
      Declared.IdToSpecMap = [] := by
  obtain ⟨Declared, hdef⟩ := RunDecls_Fresh_ok Decls bSkip Timeout Counter
  obtain ⟨Root, hstack, hp, hv, hmap, _⟩ := Fresh_root Decls bSkip Timeout Counter Declared hdef
  have hroot : DeclaredRoot Decls bSkip Timeout Counter = Root := by
    unfold DeclaredRoot
    rw [hdef]
    simp [hstack]
  refine ⟨Declared, hdef, ?_, by rw [hroot]; exact hstack, by rw [hroot]; exact hp,
    by rw [hroot]; exact hv, hmap⟩
  unfold FEnhancedAutomationSpecBase.EnsureDefinitions at hrun
  simp only [FEnhancedAutomationSpecBase.Fresh, Bool.not_false, if_true] at hrun
  simp only [FEnhancedAutomationSpecBase.Fresh] at hdef
  rw [hdef] at hrun
  exact hrun

theorem TMapFind_mem {κ ν : Type} [FKeyFuncs κ] [DecidableEq κ] (m : List (κ × ν)) (k : κ)
    (v : ν) (h : TMapFind m k = some v) :
    ∃ Stored, FKeyFuncs.Fold Stored = FKeyFuncs.Fold k ∧ (Stored, v) ∈ m := by
  induction m with
  | nil => simp [TMapFind] at h
  | cons p rest ih =>
    obtain ⟨a, b⟩ := p
    by_cases h1 : FKeyFuncs.Fold a = FKeyFuncs.Fold k
    · simp only [TMapFind, h1, if_true, Option.some.injEq] at h
      subst h
      exact ⟨a, h1, List.mem_cons_self _ _⟩
    · simp only [TMapFind, h1, if_false] at h
      obtain ⟨Stored, hFold, hMem⟩ := ih h
      exact ⟨Stored, hFold, List.mem_cons_of_mem _ hMem⟩

/-- Every entry of the compiled map is a spec compiled along a path of the declared
tree. -/
theorem CompiledAlong_of_entry {σ ν : Type} (Decls : List (FSpecDecl σ ν)) (bSkip : Bool)
    (Timeout Counter : Int) (Compiled : FEnhancedAutomationSpecBase σ ν)
    (hrun : FEnhancedAutomationSpecBase.EnsureDefinitions (RunDecls Decls)
      (FEnhancedAutomationSpecBase.Fresh σ ν bSkip Timeout Counter) = Except.ok Compiled)
    (Id : String) (Spec : FSpec (FLatentCommand σ) ν)
    (hfind : TMapFind Compiled.IdToSpecMap Id = some Spec) :
    CompiledAlong [] [] [] (DeclaredRoot Decls bSkip Timeout Counter) Spec := by
  obtain ⟨Declared, _, hpost, hstack, hp, _, hmap⟩ :=
    EnsureDefinitions_Fresh Decls bSkip Timeout Counter Compiled hrun
  obtain ⟨hm, _, _⟩ := PostDefine_object Declared Compiled _ hstack hp hmap hpost
  obtain ⟨Stored, _, hmem⟩ := TMapFind_mem _ _ _ hfind
  rw [hm] at hmem
  obtain ⟨S, hS, hEntry⟩ := List.mem_map.mp hmem
  have hSS : S = Spec := by
    simp only [SpecEntry, Prod.mk.injEq] at hEntry
    exact hEntry.2
  subst hSS
  exact mem_SpecsOfScope _ _ _ _ _ S hS

theorem ValidVariablesList_mem {γ ν : Type} (Children : List (FSpecDefinitionScope γ ν))
    (hv : ValidVariablesList Children) (Child : FSpecDefinitionScope γ ν)
    (hmem : Child ∈ Children) : Child.ValidVariables := by
  induction Children with
  | nil => simp at hmem
  | cons Head Rest ih =>
    simp only [ValidVariablesList] at hv
    rcases List.mem_cons.mp hmem with h | h
    · rw [h]; exact hv.1
    · exact ih hv.2 h

theorem ValidVariables_of_path {γ ν : Type} (Start Scope : FSpecDefinitionScope γ ν)
    (Path : List (FSpecDefinitionScope γ ν)) (hPath : ScopePath Start Path Scope)
    (hv : Start.ValidVariables) : (TMapFoldedKeys Scope.Variables).Nodup := by
  induction hPath with
  | Here Scope => exact ((ValidVariables_iff Scope).mp hv).1
  | Child Parent Child Scope Path hChild _ ih =>
    exact ih (ValidVariablesList_mem _ ((ValidVariables_iff Parent).mp hv).2 Child hChild)

theorem MergeStackVariables_concat {γ ν : Type} (Under : List (FSpecDefinitionScope γ ν))
    (Scope : FSpecDefinitionScope γ ν) :
    MergeStackVariables (Under ++ [Scope])
      = TMapAppend (MergeStackVariables Under) Scope.Variables := by
  simp [MergeStackVariables, List.foldl_append]

theorem DeclaredRoot_pruned {σ ν : Type} (Decls : List (FSpecDecl σ ν)) (bSkip : Bool)
    (Timeout Counter : Int) :
    (DeclaredRoot Decls bSkip Timeout Counter).Pruned ∧
    (DeclaredRoot Decls bSkip Timeout Counter).ValidVariables := by
  obtain ⟨Declared, hdef⟩ := RunDecls_Fresh_ok Decls bSkip Timeout Counter
  obtain ⟨Root, hstack, hp, hv, _, _⟩ := Fresh_root Decls bSkip Timeout Counter Declared hdef
  have hroot : DeclaredRoot Decls bSkip Timeout Counter = Root := by
    unfold DeclaredRoot
    rw [hdef]
    simp [hstack]
  rw [hroot]
  exact ⟨hp, hv⟩


theorem SpecsOfScope_id_list {γ ν : Type} (Root : FSpecDefinitionScope γ ν) :
    (SpecsOfScope [] [] [] [] Root).map (fun Spec => Spec.Id)
      = Root.AllIt.map (fun It => It.Id) := by
  have := congrArg (List.map (fun (q : String × String × String × Int) => q.1))
    (SpecsOfScope_ids Root [] [] [] [])
  simpa [List.map_map, Function.comp] using this

theorem SpecsOfScope_folded_id_list {γ ν : Type} (Root : FSpecDefinitionScope γ ν) :
    (SpecsOfScope [] [] [] [] Root).map (fun Spec => FKeyFuncs.Fold Spec.Id)
      = Root.AllIt.map (fun It => FKeyFuncs.Fold It.Id) := by
  have := congrArg (List.map (fun (Id : String) => FKeyFuncs.Fold Id))
    (SpecsOfScope_id_list Root)
  simpa [List.map_map, Function.comp] using this

/-- When the identifiers of the declared `It` blocks are distinct up to the case of their
letters, the first call of `EnsureDefinitions` on a fresh spec object succeeds. -/
theorem EnsureDefinitions_Fresh_total {σ ν : Type} (Decls : List (FSpecDecl σ ν))
    (bSkip : Bool) (Timeout Counter : Int)
    (hIds : ((DeclaredRoot Decls bSkip Timeout Counter).AllIt.map
      (fun It => FKeyFuncs.Fold It.Id)).Nodup) :
    ∃ Compiled, FEnhancedAutomationSpecBase.EnsureDefinitions (RunDecls Decls)
      (FEnhancedAutomationSpecBase.Fresh σ ν bSkip Timeout Counter) = Except.ok Compiled := by
  obtain ⟨Declared, hdef⟩ := RunDecls_Fresh_ok Decls bSkip Timeout Counter
  obtain ⟨Root, hstack, hp, _, hmap, _⟩ := Fresh_root Decls bSkip Timeout Counter Declared hdef
  have hroot : DeclaredRoot Decls bSkip Timeout Counter = Root := by
    unfold DeclaredRoot
    rw [hdef]
    simp [hstack]
  rw [hroot] at hIds
  have hpd : PostDefine Root [] = Except.ok ((SpecsOfScope [] [] [] [] Root).map SpecEntry) := by
    rw [PostDefine_empty_eq Root hp, SpecsOfScope_folded_id_list, if_pos hIds]
  refine ⟨{ Declared with
    IdToSpecMap := (SpecsOfScope [] [] [] [] Root).map SpecEntry
    DefinitionScopeStack := []
    bHasBeenDefined := true }, ?_⟩
  unfold FEnhancedAutomationSpecBase.EnsureDefinitions
  simp only [FEnhancedAutomationSpecBase.Fresh, Bool.not_false, if_true]
  simp only [FEnhancedAutomationSpecBase.Fresh] at hdef
  rw [hdef]
  simp only [FEnhancedAutomationSpecBase.PostDefine, hstack, List.head?_cons, hmap, hpd]

/-! ## The run-once wrapper and the session state -/

theorem Wrapper_unmarked {σ : Type} (BlockHandle : Int) (DoWork : TUserWork σ)
    (Spec : FSpecWorld σ) (Session : FEnhancedTestSessionState)
    (hs : Spec.SuiteSessionState = some Session)
    (hrun : Session.HasBlockRun BlockHandle = false) :
    CreateRunWorkOnceWrapper BlockHandle (UserLambda DoWork) Spec =
      Except.ok
        { Env := DoWork Spec.Env
          SuiteSessionState := some { BlocksRun := Session.BlocksRun ++ [BlockHandle] }
          BodiesInvoked := Spec.BodiesInvoked ++ [BlockHandle] } := by
  simp [CreateRunWorkOnceWrapper, UserLambda, FSpecWorld.MarkBlockAsRun,
    FEnhancedTestSessionState.MarkBlockAsRun, hs, hrun]

theorem Wrapper_marked {σ : Type} (BlockHandle : Int) (DoWork : TFunction σ)
    (Spec : FSpecWorld σ) (hrun : Spec.HasBlockRun BlockHandle = true) :
    CreateRunWorkOnceWrapper BlockHandle DoWork Spec = Except.ok Spec := by
  unfold FSpecWorld.HasBlockRun at hrun
  cases hs : Spec.SuiteSessionState with
  | none => simp [hs] at hrun
  | some Session =>
    simp only [hs] at hrun
    simp [CreateRunWorkOnceWrapper, hs, hrun]

theorem PollWrapper_marked {σ : Type} (BlockHandle : Int) (DoWork : TFunction σ)
    (bSkipIfErrored : Bool) (Spec : FSpecWorld σ)
    (hrun : Spec.HasBlockRun BlockHandle = true) :
    PollBlocking
      { Work := CreateRunWorkOnceWrapper BlockHandle DoWork, bSkipIfErrored := bSkipIfErrored }
      Spec = Except.ok Spec := by
  unfold PollBlocking FSimpleBlockingCommand.Update
  by_cases hc : (!bSkipIfErrored || !Spec.HasAnyErrors) = true
  · simp only [hc, if_true, Wrapper_marked BlockHandle DoWork Spec hrun]
  · simp only [hc, Bool.false_eq_true, if_false]

theorem PollWrapper_skipped {σ : Type} (Work : TFunction σ) (Spec : FSpecWorld σ)
    (herr : Spec.HasAnyErrors = true) :
    PollBlocking { Work := Work, bSkipIfErrored := true } Spec = Except.ok Spec := by
  simp [PollBlocking, FSimpleBlockingCommand.Update, herr]

theorem PollWrapper_unmarked {σ : Type} (BlockHandle : Int) (DoWork : TUserWork σ)
    (bSkipIfErrored : Bool) (Spec : FSpecWorld σ) (Session : FEnhancedTestSessionState)
    (hs : Spec.SuiteSessionState = some Session)
    (hrun : Session.HasBlockRun BlockHandle = false)
    (hskip : (bSkipIfErrored && Spec.HasAnyErrors) = false) :
    PollBlocking
      { Work := CreateRunWorkOnceWrapper BlockHandle (UserLambda DoWork)
        bSkipIfErrored := bSkipIfErrored }
      Spec =
      Except.ok
        { Env := DoWork Spec.Env
          SuiteSessionState := some { BlocksRun := Session.BlocksRun ++ [BlockHandle] }
          BodiesInvoked := Spec.BodiesInvoked ++ [BlockHandle] } := by
  have hc : (!bSkipIfErrored || !Spec.HasAnyErrors) = true := by
    cases bSkipIfErrored <;> cases h : Spec.HasAnyErrors <;> simp_all
  unfold PollBlocking FSimpleBlockingCommand.Update
  simp only [hc, if_true, Wrapper_unmarked BlockHandle DoWork Spec Session hs hrun]

theorem PollWrapper_invariant {σ : Type} (BlockHandle : Int) (DoWork : TUserWork σ)
    (bSkipIfErrored : Bool) (Spec : FSpecWorld σ) (hinv : OnceInvariant BlockHandle Spec) :
    ∃ After, PollBlocking
        { Work := CreateRunWorkOnceWrapper BlockHandle (UserLambda DoWork)
          bSkipIfErrored := bSkipIfErrored } Spec = Except.ok After ∧
      OnceInvariant BlockHandle After ∧
      (Spec.HasBlockRun BlockHandle = true → After = Spec) := by
  obtain ⟨hsome, hle, hzero⟩ := hinv
  cases hs : Spec.SuiteSessionState with
  | none => simp [hs] at hsome
  | some Session =>
    by_cases hrun : Spec.HasBlockRun BlockHandle = true
    · exact ⟨Spec, PollWrapper_marked BlockHandle _ bSkipIfErrored Spec hrun,
        ⟨hsome, hle, hzero⟩, fun _ => rfl⟩
    · have hrun2 : Spec.HasBlockRun BlockHandle = false := by simpa using hrun
      have hrun3 : Session.HasBlockRun BlockHandle = false := by
        simpa [FSpecWorld.HasBlockRun, hs] using hrun2
      by_cases hskip : (bSkipIfErrored && Spec.HasAnyErrors) = false
      · refine ⟨_, PollWrapper_unmarked BlockHandle DoWork bSkipIfErrored Spec Session hs hrun3
          hskip, ⟨rfl, ?_, ?_⟩, fun h => absurd h hrun⟩
        · simp only [List.count_append, hzero hrun2]
          simp
        · intro h
          simp [FSpecWorld.HasBlockRun, FEnhancedTestSessionState.HasBlockRun] at h
      · have hboth : bSkipIfErrored = true ∧ Spec.HasAnyErrors = true := by
          cases bSkipIfErrored <;> cases h : Spec.HasAnyErrors <;> simp_all
        refine ⟨Spec, ?_, ⟨hsome, hle, hzero⟩, fun _ => rfl⟩
        rw [hboth.1]
        exact PollWrapper_skipped _ Spec hboth.2

theorem Foreign_invariant {σ : Type} (BlockHandle : Int)
    (Step : FSpecWorld σ → Except FFault (FSpecWorld σ)) (hf : ForeignTo BlockHandle Step)
    (Spec After : FSpecWorld σ) (hstep : Step Spec = Except.ok After)
    (hinv : OnceInvariant BlockHandle Spec) : OnceInvariant BlockHandle After := by
  obtain ⟨h1, h2, h3⟩ := hf Spec After hstep
  obtain ⟨hsome, hle, hzero⟩ := hinv
  refine ⟨h1 hsome, by rw [h3]; exact hle, ?_⟩
  intro h
  rw [h3]
  exact hzero (by rw [← h2]; exact h)

theorem RunSteps_append {α : Type} (A B : List (α → Except FFault α)) (State : α) :
    RunSteps (A ++ B) State =
      match RunSteps A State with
      | Except.error e => Except.error e
      | Except.ok Mid => RunSteps B Mid := by
  induction A generalizing State with
  | nil => simp [RunSteps]
  | cons Step Rest ih =>
    simp only [List.cons_append, RunSteps]
    cases h : Step State with
    | error e => simp
    | ok Next => simp [ih]

/-- Through any sequence of polls of the wrapper command and of foreign steps the
invariant is kept, and once the handle is marked the ghost record of its body does not
change any more. -/
theorem RunSteps_invariant {σ : Type} (BlockHandle : Int) (DoWork : TUserWork σ)
    (bSkipIfErrored : Bool) (Steps : List (FSpecWorld σ → Except FFault (FSpecWorld σ)))
    (hSteps : ∀ Step ∈ Steps,
      Step = PollBlocking
        { Work := CreateRunWorkOnceWrapper BlockHandle (UserLambda DoWork)
          bSkipIfErrored := bSkipIfErrored } ∨ ForeignTo BlockHandle Step)
    (Start End : FSpecWorld σ) (hinv : OnceInvariant BlockHandle Start)
    (hRun : RunSteps Steps Start = Except.ok End) :
    OnceInvariant BlockHandle End ∧
    (Start.HasBlockRun BlockHandle = true →
      End.HasBlockRun BlockHandle = true ∧
      End.BodiesInvoked.count BlockHandle = Start.BodiesInvoked.count BlockHandle) := by
  induction Steps generalizing Start with
  | nil =>
    simp only [RunSteps, Except.ok.injEq] at hRun
    subst hRun
    exact ⟨hinv, fun h => ⟨h, rfl⟩⟩
  | cons Step Rest ih =>
    simp only [RunSteps] at hRun
    cases hstep : Step Start with
    | error e => simp [hstep] at hRun
    | ok Next =>
      simp only [hstep] at hRun
      have hRest : ∀ S ∈ Rest, S = PollBlocking
          { Work := CreateRunWorkOnceWrapper BlockHandle (UserLambda DoWork)
            bSkipIfErrored := bSkipIfErrored } ∨ ForeignTo BlockHandle S :=
        fun S hS => hSteps S (List.mem_cons_of_mem _ hS)
      rcases hSteps Step (List.mem_cons_self _ _) with hpoll | hforeign
      · obtain ⟨After, hAfter, hinvA, hsame⟩ :=
          PollWrapper_invariant BlockHandle DoWork bSkipIfErrored Start hinv
        rw [hpoll, hAfter] at hstep
        simp only [Except.ok.injEq] at hstep
        subst hstep
        obtain ⟨hE, hkeep⟩ := ih hRest After hinvA hRun
        refine ⟨hE, fun hm => ?_⟩
        have := hsame hm
        subst this
        exact hkeep hm
      · obtain ⟨h1, h2, h3⟩ := hforeign Start Next hstep
        obtain ⟨hE, hkeep⟩ := ih hRest Next
          (Foreign_invariant BlockHandle Step hforeign Start Next hstep hinv) hRun
        refine ⟨hE, fun hm => ?_⟩
        obtain ⟨k1, k2⟩ := hkeep (by rw [h2]; exact hm)
        exact ⟨k1, by rw [k2, h3]⟩

theorem ForeignTo_user {σ : Type} (BlockHandle : Int) (DoWork : TUserWork σ)
    (bSkipIfErrored : Bool) :
    ForeignTo BlockHandle
      (PollBlocking { Work := UserLambda DoWork, bSkipIfErrored := bSkipIfErrored }) := by
  intro Spec After hstep
  unfold PollBlocking FSimpleBlockingCommand.Update at hstep
  by_cases hc : (!bSkipIfErrored || !Spec.HasAnyErrors) = true
  · simp only [hc, if_true, UserLambda, Except.ok.injEq] at hstep
    subst hstep
    exact ⟨fun h => h, rfl, rfl⟩
  · simp only [hc, Bool.false_eq_true, if_false, Except.ok.injEq] at hstep
    subst hstep
    exact ⟨fun h => h, rfl, rfl⟩

theorem RunSteps_marked {σ : Type} (BlockHandle : Int) (DoWork : TFunction σ)
    (bSkipIfErrored : Bool) (Steps : List (FSpecWorld σ → Except FFault (FSpecWorld σ)))
    (hSteps : ∀ Step ∈ Steps,
      Step = PollBlocking
        { Work := CreateRunWorkOnceWrapper BlockHandle DoWork
          bSkipIfErrored := bSkipIfErrored } ∨ ForeignTo BlockHandle Step)
    (Start End : FSpecWorld σ) (hm : Start.HasBlockRun BlockHandle = true)
    (hRun : RunSteps Steps Start = Except.ok End) :
    End.HasBlockRun BlockHandle = true ∧
    End.BodiesInvoked.count BlockHandle = Start.BodiesInvoked.count BlockHandle := by
  induction Steps generalizing Start with
  | nil =>
    simp only [RunSteps, Except.ok.injEq] at hRun
    subst hRun
    exact ⟨hm, rfl⟩
  | cons Step Rest ih =>
    simp only [RunSteps] at hRun
    cases hstep : Step Start with
    | error e => simp [hstep] at hRun
    | ok Next =>
      simp only [hstep] at hRun
      have hRest : ∀ S ∈ Rest, S = PollBlocking
          { Work := CreateRunWorkOnceWrapper BlockHandle DoWork
            bSkipIfErrored := bSkipIfErrored } ∨ ForeignTo BlockHandle S :=
        fun S hS => hSteps S (List.mem_cons_of_mem _ hS)
      rcases hSteps Step (List.mem_cons_self _ _) with hpoll | hforeign
      · rw [hpoll, PollWrapper_marked BlockHandle DoWork bSkipIfErrored Start hm] at hstep
        simp only [Except.ok.injEq] at hstep
        subst hstep
        exact ih hRest Start hm hRun
      · obtain ⟨_, h2, h3⟩ := hforeign Start Next hstep
        obtain ⟨k1, k2⟩ := ih hRest Next (by rw [h2]; exact hm) hRun
        exact ⟨k1, by rw [k2, h3]⟩
/-! ## Polls of the commands that span several polls -/

theorem WrapInt64_of_range (x : Int) (hLow : -9223372036854775808 ≤ x)
    (hHigh : x ≤ 9223372036854775807) : WrapInt64 x = x := by
  unfold WrapInt64
  omega

theorem FDateTimePlus_of_range (Time Span : Int)
    (hLow : -9223372036854775808 ≤ Time + Span) (hHigh : Time + Span ≤ 9223372036854775807) :
    FDateTimePlus Time Span = Time + Span :=
  WrapInt64_of_range _ hLow hHigh

theorem MultiFrame_started_poll {σ : Type} (Command : FMultiFrameLatentCommand σ)
    (NowAtStart Now : Int) (Spec : FSpecWorld σ)
    (hStarted : Command.bHasStartedRunning = true) :
    Command.Update NowAtStart Now Spec =
      if Command.bDone = true then Except.ok (Command.Reset, Spec, true)
      else if Now ≥ FDateTimePlus Command.StartTime Command.Timeout then
        Except.ok (Command.Reset, Spec.AddError "Latent command timed out.", true)
      else Except.ok (Command, Spec, false) := by
  simp [FMultiFrameLatentCommand.Update, hStarted]

theorem MultiFrame_first_poll {σ : Type} (Command : FMultiFrameLatentCommand σ)
    (NowAtStart Now : Int) (Spec AfterWork : FSpecWorld σ) (bDelegateExecuted : Bool)
    (hIdle : Command.bHasStartedRunning = false)
    (hRun : Command.bSkipIfErrored = false ∨ Spec.HasAnyErrors = false)
    (hWork : Command.Work Spec = Except.ok (AfterWork, bDelegateExecuted)) :
    Command.Update NowAtStart Now Spec =
      if Now ≥ FDateTimePlus NowAtStart Command.Timeout then
        Except.ok ((Command.Started NowAtStart).Reset,
          AfterWork.AddError "Latent command timed out.", true)
      else Except.ok (Command.Started NowAtStart, AfterWork, false) := by
  have hskip : ¬ (Command.bSkipIfErrored = true ∧ Spec.HasAnyErrors = true) := by
    rcases hRun with h | h <;> simp [h]
  cases bDelegateExecuted <;>
    simp [FMultiFrameLatentCommand.Update, hIdle, hskip, hWork,
      FMultiFrameLatentCommand.Done, FMultiFrameLatentCommand.Started]

theorem Async_started_poll {σ : Type} (Command : FAsyncCommand σ)
    (NowAtStart Now : Int) (Spec : FSpecWorld σ)
    (hStarted : Command.bFutureValid = true) :
    Command.Update NowAtStart Now Spec =
      if Command.bDone = true then (Command.Reset, Spec, true)
      else if Now ≥ FDateTimePlus Command.StartTime Command.Timeout then
        (Command.Reset, Spec.AddError "Latent command timed out.", true)
      else (Command, Spec, false) := by
  simp [FAsyncCommand.Update, hStarted]

theorem Async_first_poll {σ : Type} (Command : FAsyncCommand σ)
    (NowAtStart Now : Int) (Spec : FSpecWorld σ)
    (hIdle : Command.bFutureValid = false)
    (hRun : Command.bSkipIfErrored = false ∨ Spec.HasAnyErrors = false) :
    Command.Update NowAtStart Now Spec =
      if Now ≥ FDateTimePlus NowAtStart Command.Timeout then
        ((Command.Started NowAtStart).Reset,
          Spec.AddError "Latent command timed out.", true)
      else (Command.Started NowAtStart, Spec, false) := by
  have hskip : ¬ (Command.bSkipIfErrored = true ∧ Spec.HasAnyErrors = true) := by
    rcases hRun with h | h <;> simp [h]
  simp [FAsyncCommand.Update, hIdle, hskip, FAsyncCommand.Started]

theorem AsyncMultiFrame_started_poll {σ : Type} (Command : FAsyncMultiFrameLatentCommand σ)
    (NowAtStart Now : Int) (Spec : FSpecWorld σ)
    (hStarted : Command.bFutureValid = true) :
    Command.Update NowAtStart Now Spec =
      if Command.bDone = true then (Command.Reset, Spec, true)
      else if Now ≥ FDateTimePlus Command.StartTime Command.Timeout then
        (Command.Reset, Spec.AddError "Latent command timed out.", true)
      else (Command, Spec, false) := by
  simp [FAsyncMultiFrameLatentCommand.Update, hStarted]

theorem AsyncMultiFrame_first_poll {σ : Type} (Command : FAsyncMultiFrameLatentCommand σ)
    (NowAtStart Now : Int) (Spec : FSpecWorld σ)
    (hIdle : Command.bFutureValid = false)
    (hRun : Command.bSkipIfErrored = false ∨ Spec.HasAnyErrors = false) :
    Command.Update NowAtStart Now Spec =
      if Now ≥ FDateTimePlus NowAtStart Command.Timeout then
        ((Command.Started NowAtStart).Reset,
          Spec.AddError "Latent command timed out.", true)
      else (Command.Started NowAtStart, Spec, false) := by
  have hskip : ¬ (Command.bSkipIfErrored = true ∧ Spec.HasAnyErrors = true) := by
    rcases hRun with h | h <;> simp [h]
  simp [FAsyncMultiFrameLatentCommand.Update, hIdle, hskip,
    FAsyncMultiFrameLatentCommand.Started]


theorem Update_idle_after_completion {σ : Type} (Command Next : FLatentCommand σ)
    (NowAtStart Now : Int) (Spec NewSpec : FSpecWorld σ) (bComplete : Bool)
    (hInv : Command.DoneOnlyWhileStarted)
    (hUpdate : Command.Update NowAtStart Now Spec = Except.ok (Next, NewSpec, bComplete)) :
    Next.DoneOnlyWhileStarted ∧ (bComplete = true → Next.IsIdle) := by
  cases Command with
  | SimpleBlocking Command =>
    simp only [FLatentCommand.Update] at hUpdate
    cases hPoll : Command.Update Spec with
    | error e => simp [hPoll] at hUpdate
    | ok Result =>
      simp [hPoll] at hUpdate
      obtain ⟨hNext, -, -⟩ := hUpdate
      subst hNext
      simp [FLatentCommand.DoneOnlyWhileStarted, FLatentCommand.IsIdle]
  | Async Command =>
    simp only [FLatentCommand.Update] at hUpdate
    simp only [FLatentCommand.DoneOnlyWhileStarted,
      FAsyncCommand.DoneOnlyWhileStarted] at hInv
    simp only [Except.ok.injEq, Prod.mk.injEq] at hUpdate
    obtain ⟨hNext, -, hComplete⟩ := hUpdate
    subst hNext
    subst hComplete
    simp only [FLatentCommand.DoneOnlyWhileStarted, FLatentCommand.IsIdle,
      FAsyncCommand.DoneOnlyWhileStarted, FAsyncCommand.IsIdle, FAsyncCommand.Update,
      FAsyncCommand.Reset]
    cases hValid : Command.bFutureValid <;> cases hDone : Command.bDone <;>
      simp [hValid, hDone] at hInv ⊢ <;> split_ifs <;> simp_all
  | MultiFrameLatent Command =>
    simp only [FLatentCommand.Update] at hUpdate
    simp only [FLatentCommand.DoneOnlyWhileStarted,
      FMultiFrameLatentCommand.DoneOnlyWhileStarted] at hInv
    cases hPoll : Command.Update NowAtStart Now Spec with
    | error e => simp [hPoll] at hUpdate
    | ok Result =>
      obtain ⟨NextCommand, ResultSpec, bResult⟩ := Result
      simp [hPoll] at hUpdate
      obtain ⟨hNext, -, hComplete⟩ := hUpdate
      subst hNext
      subst hComplete
      simp only [FLatentCommand.DoneOnlyWhileStarted, FLatentCommand.IsIdle,
        FMultiFrameLatentCommand.DoneOnlyWhileStarted, FMultiFrameLatentCommand.IsIdle]
      cases hStarted : Command.bHasStartedRunning
      · have hDone : Command.bDone = false := by
          cases h : Command.bDone
          · rfl
          · rw [hInv h] at hStarted
            cases hStarted
        by_cases hskip : Command.bSkipIfErrored = true ∧ Spec.HasAnyErrors = true
        · simp [FMultiFrameLatentCommand.Update, hStarted, hskip] at hPoll
          obtain ⟨h1, -, h3⟩ := hPoll
          subst h1
          subst h3
          simp [hStarted, hDone]
        · have hRun : Command.bSkipIfErrored = false ∨ Spec.HasAnyErrors = false := by
            by_contra hcon
            push_neg at hcon
            exact hskip ⟨by simpa using hcon.1, by simpa using hcon.2⟩
          cases hWork : Command.Work Spec with
          | error e =>
            simp [FMultiFrameLatentCommand.Update, hStarted, hskip, hWork] at hPoll
          | ok WorkResult =>
            obtain ⟨AfterWork, bDelegateExecuted⟩ := WorkResult
            rw [MultiFrame_first_poll Command NowAtStart Now Spec AfterWork bDelegateExecuted
              hStarted hRun hWork] at hPoll
            split_ifs at hPoll with hge
            · simp only [Except.ok.injEq, Prod.mk.injEq] at hPoll
              obtain ⟨h1, -, h3⟩ := hPoll
              subst h1
              subst h3
              simp [FMultiFrameLatentCommand.Reset]
            · simp only [Except.ok.injEq, Prod.mk.injEq] at hPoll
              obtain ⟨h1, -, h3⟩ := hPoll
              subst h1
              subst h3
              simp [FMultiFrameLatentCommand.Started]
      · rw [MultiFrame_started_poll Command NowAtStart Now Spec hStarted] at hPoll
        split_ifs at hPoll with hDone hge
        · simp only [Except.ok.injEq, Prod.mk.injEq] at hPoll
          obtain ⟨h1, -, h3⟩ := hPoll
          subst h1
          subst h3
          simp [FMultiFrameLatentCommand.Reset]
        · simp only [Except.ok.injEq, Prod.mk.injEq] at hPoll
          obtain ⟨h1, -, h3⟩ := hPoll
          subst h1
          subst h3
          simp [FMultiFrameLatentCommand.Reset]
        · simp only [Except.ok.injEq, Prod.mk.injEq] at hPoll
          obtain ⟨h1, -, h3⟩ := hPoll
          subst h1
          subst h3
          simp [hStarted]
  | AsyncMultiFrameLatent Command =>
    simp only [FLatentCommand.Update] at hUpdate
    simp only [FLatentCommand.DoneOnlyWhileStarted,
      FAsyncMultiFrameLatentCommand.DoneOnlyWhileStarted] at hInv
    simp only [Except.ok.injEq, Prod.mk.injEq] at hUpdate
    obtain ⟨hNext, -, hComplete⟩ := hUpdate
    subst hNext
    subst hComplete
    simp only [FLatentCommand.DoneOnlyWhileStarted, FLatentCommand.IsIdle,
      FAsyncMultiFrameLatentCommand.DoneOnlyWhileStarted, FAsyncMultiFrameLatentCommand.IsIdle,
      FAsyncMultiFrameLatentCommand.Update, FAsyncMultiFrameLatentCommand.Reset]
    cases hValid : Command.bFutureValid <;> cases hDone : Command.bDone <;>
      simp [hValid, hDone] at hInv ⊢ <;> split_ifs <;> simp_all

theorem MultiFrame_idle_poll {σ : Type} (Command : FMultiFrameLatentCommand σ)
    (NowAtStart Now : Int) (Spec AfterWork : FSpecWorld σ) (bDelegateExecuted : Bool)
    (hIdle : Command.bHasStartedRunning = false)
    (hRun : Command.bSkipIfErrored = false ∨ Spec.HasAnyErrors = false)
    (hWork : Command.Work Spec = Except.ok (AfterWork, bDelegateExecuted)) :
    Command.Update NowAtStart Now Spec =
      (Command.Started NowAtStart).Update NowAtStart Now AfterWork := by
  rw [MultiFrame_first_poll Command NowAtStart Now Spec AfterWork bDelegateExecuted
    hIdle hRun hWork]
  rw [MultiFrame_started_poll (Command.Started NowAtStart) NowAtStart Now AfterWork rfl]
  simp [FMultiFrameLatentCommand.Started]

theorem Async_idle_poll {σ : Type} (Command : FAsyncCommand σ)
    (NowAtStart Now : Int) (Spec : FSpecWorld σ)
    (hIdle : Command.bFutureValid = false)
    (hRun : Command.bSkipIfErrored = false ∨ Spec.HasAnyErrors = false) :
    Command.Update NowAtStart Now Spec =
      (Command.Started NowAtStart).Update NowAtStart Now Spec := by
  rw [Async_first_poll Command NowAtStart Now Spec hIdle hRun]
  rw [Async_started_poll (Command.Started NowAtStart) NowAtStart Now Spec rfl]
  simp [FAsyncCommand.Started]

theorem AsyncMultiFrame_idle_poll {σ : Type} (Command : FAsyncMultiFrameLatentCommand σ)
    (NowAtStart Now : Int) (Spec : FSpecWorld σ)
    (hIdle : Command.bFutureValid = false)
    (hRun : Command.bSkipIfErrored = false ∨ Spec.HasAnyErrors = false) :
    Command.Update NowAtStart Now Spec =
      (Command.Started NowAtStart).Update NowAtStart Now Spec := by
  rw [AsyncMultiFrame_first_poll Command NowAtStart Now Spec hIdle hRun]
  rw [AsyncMultiFrame_started_poll (Command.Started NowAtStart) NowAtStart Now Spec rfl]
  simp [FAsyncMultiFrameLatentCommand.Started]

theorem LatentMultiFrame_idle_poll {σ : Type} (Command : FMultiFrameLatentCommand σ)
    (NowAtStart Now : Int) (Spec AfterWork : FSpecWorld σ) (bDelegateExecuted : Bool)
    (hIdle : Command.bHasStartedRunning = false)
    (hRun : Command.bSkipIfErrored = false ∨ Spec.HasAnyErrors = false)
    (hWork : Command.Work Spec = Except.ok (AfterWork, bDelegateExecuted)) :
    (FLatentCommand.MultiFrameLatent Command).Update NowAtStart Now Spec =
      (FLatentCommand.MultiFrameLatent (Command.Started NowAtStart)).Update NowAtStart Now
        AfterWork := by
  simp only [FLatentCommand.Update]
  rw [MultiFrame_idle_poll Command NowAtStart Now Spec AfterWork bDelegateExecuted hIdle hRun
    hWork]

theorem LatentAsync_idle_poll {σ : Type} (Command : FAsyncCommand σ)
    (NowAtStart Now : Int) (Spec : FSpecWorld σ)
    (hIdle : Command.bFutureValid = false)
    (hRun : Command.bSkipIfErrored = false ∨ Spec.HasAnyErrors = false) :
    (FLatentCommand.Async Command).Update NowAtStart Now Spec =
      (FLatentCommand.Async (Command.Started NowAtStart)).Update NowAtStart Now Spec := by
  simp only [FLatentCommand.Update]
  rw [Async_idle_poll Command NowAtStart Now Spec hIdle hRun]

theorem LatentAsyncMultiFrame_idle_poll {σ : Type} (Command : FAsyncMultiFrameLatentCommand σ)
    (NowAtStart Now : Int) (Spec : FSpecWorld σ)
    (hIdle : Command.bFutureValid = false)
    (hRun : Command.bSkipIfErrored = false ∨ Spec.HasAnyErrors = false) :
    (FLatentCommand.AsyncMultiFrameLatent Command).Update NowAtStart Now Spec =
      (FLatentCommand.AsyncMultiFrameLatent (Command.Started NowAtStart)).Update NowAtStart Now
        Spec := by
  simp only [FLatentCommand.Update]
  rw [AsyncMultiFrame_idle_poll Command NowAtStart Now Spec hIdle hRun]


/-! ## Running compiled specs -/

theorem foldl_EnqueueLatentCommand {σ : Type} (Commands Queue : List (FLatentCommand σ)) :
    Commands.foldl EnqueueLatentCommand Queue = Queue ++ Commands := by
  induction Commands generalizing Queue with
  | nil => simp
  | cons Command Rest ih =>
    simp only [List.foldl_cons, EnqueueLatentCommand]
    rw [← EnqueueLatentCommand, ih]
    simp [EnqueueLatentCommand]

theorem RunSpec_queue {σ ν : Type} (Ops : FSpecVariableOps σ ν)
    (SpecToRun : FSpec (FLatentCommand σ) ν) (this : FSpecRuntime σ ν) :
    (FEnhancedAutomationSpecBase.RunSpec Ops SpecToRun this).LatentCommands =
      this.LatentCommands ++ SpecToRun.Commands := by
  simp [FEnhancedAutomationSpecBase.RunSpec, foldl_EnqueueLatentCommand]

theorem RunSpec_base {σ ν : Type} (Ops : FSpecVariableOps σ ν)
    (SpecToRun : FSpec (FLatentCommand σ) ν) (this : FSpecRuntime σ ν) :
    (FEnhancedAutomationSpecBase.RunSpec Ops SpecToRun this).Base = this.Base := rfl

theorem RunSpec_all_queue {σ ν : Type} (Ops : FSpecVariableOps σ ν)
    (Specs : List (FSpec (FLatentCommand σ) ν)) (this : FSpecRuntime σ ν) :
    (Specs.foldl (fun Runtime SpecToRun =>
        FEnhancedAutomationSpecBase.RunSpec Ops SpecToRun Runtime) this).LatentCommands =
      this.LatentCommands ++ (Specs.map (fun SpecToRun => SpecToRun.Commands)).flatten ∧
    (Specs.foldl (fun Runtime SpecToRun =>
        FEnhancedAutomationSpecBase.RunSpec Ops SpecToRun Runtime) this).Base = this.Base := by
  induction Specs generalizing this with
  | nil => simp
  | cons SpecToRun Rest ih =>
    simp only [List.foldl_cons, List.map_cons, List.flatten_cons]
    obtain ⟨h1, h2⟩ := ih (FEnhancedAutomationSpecBase.RunSpec Ops SpecToRun this)
    rw [h1, h2, RunSpec_queue, RunSpec_base]
    simp

theorem RunTest_of_defined {σ ν : Type} (Ops : FSpecVariableOps σ ν)
    (Define : FEnhancedAutomationSpecBase σ ν → Except FFault (FEnhancedAutomationSpecBase σ ν))
    (InParameters : String) (this : FSpecRuntime σ ν) (Defined : FEnhancedAutomationSpecBase σ ν)
    (hDefined : FEnhancedAutomationSpecBase.EnsureDefinitions Define this.Base =
      Except.ok Defined) :
    FEnhancedAutomationSpecBase.RunTest Ops Define InParameters this =
      if InParameters = "" then
        Except.ok ((TMapValues Defined.IdToSpecMap).foldl
          (fun Runtime SpecToRun => FEnhancedAutomationSpecBase.RunSpec Ops SpecToRun Runtime)
          { this with Base := Defined, Spec := this.Spec.EnsureSessionState }, true)
      else
        match TMapFind Defined.IdToSpecMap InParameters with
        | some SpecToRun =>
          Except.ok (FEnhancedAutomationSpecBase.RunSpec Ops SpecToRun
            { this with Base := Defined, Spec := this.Spec.EnsureSessionState }, true)
        | none =>
          Except.ok ({ this with Base := Defined, Spec := this.Spec.EnsureSessionState }, true) := by
  simp only [FEnhancedAutomationSpecBase.RunTest, hDefined]

theorem EnsureSessionState_env {σ : Type} (Spec : FSpecWorld σ) :
    Spec.EnsureSessionState.Env = Spec.Env := by
  unfold FSpecWorld.EnsureSessionState
  split_ifs <;> rfl

/-! ## Scoped variables -/

theorem TMapFind_Remove {κ ν : Type} [FKeyFuncs κ] [DecidableEq κ] (m : List (κ × ν))
    (key k : κ) :
    TMapFind (TMapRemove m key) k =
      if FKeyFuncs.Fold key = FKeyFuncs.Fold k then none else TMapFind m k := by
  induction m with
  | nil => simp [TMapRemove, TMapFind]
  | cons p rest ih =>
    obtain ⟨a, b⟩ := p
    by_cases hak : FKeyFuncs.Fold a = FKeyFuncs.Fold key
    · simp only [TMapRemove, if_pos hak, ih]
      by_cases hk : FKeyFuncs.Fold key = FKeyFuncs.Fold k
      · simp [hk]
      · have hne : ¬ FKeyFuncs.Fold a = FKeyFuncs.Fold k := by rw [hak]; exact hk
        simp [hk, hne, TMapFind]
    · simp only [TMapRemove, if_neg hak, TMapFind, ih]
      by_cases hk : FKeyFuncs.Fold key = FKeyFuncs.Fold k
      · have hne : ¬ FKeyFuncs.Fold a = FKeyFuncs.Fold k := by rw [← hk]; exact hak
        simp [hk, hne]
      · simp [hk]

theorem TMapFind_Remove_nat {ν : Type} (m : List (Nat × ν)) (key k : Nat) :
    TMapFind (TMapRemove m key) k = if key = k then none else TMapFind m k := by
  rw [TMapFind_Remove]
  rfl

theorem TMapFind_Add_nat {ν : Type} (m : List (Nat × ν)) (key : Nat) (val : ν) (k : Nat) :
    TMapFind (TMapAdd m key val) k = if key = k then some val else TMapFind m k := by
  rw [TMapFind_Add]
  rfl

mutual
theorem Reset_memo_none {τ : Type} :
    ∀ (Variable : TSpecVariable τ) (Members : FSpecVariableMembers τ) (h : Nat),
      (h ∈ Variable.Handles ∨ TMapFind Members.Memo h = none) →
      TMapFind (Variable.Reset Members).Memo h = none
  | ⟨Handle, _, Previous⟩, Members, h, hyp => by
    rw [TSpecVariable.Reset]
    apply ResetShadowed_memo_none Previous
    rw [TSpecVariable.Handles] at hyp
    simp only [TMapFind_Remove_nat]
    by_cases hh : Handle = h
    · right
      simp [hh]
    · rcases hyp with hin | hnone
      · rcases List.mem_cons.mp hin with heq | hrest
        · exact absurd heq.symm hh
        · left
          exact hrest
      · right
        simp [hh, hnone]
theorem ResetShadowed_memo_none {τ : Type} :
    ∀ (Previous : Option (TSpecVariable τ)) (Members : FSpecVariableMembers τ) (h : Nat),
      (h ∈ HandlesOfShadowed Previous ∨ TMapFind Members.Memo h = none) →
      TMapFind (ResetShadowed Previous Members).Memo h = none
  | none, Members, h, hyp => by
    rw [ResetShadowed]
    rcases hyp with hin | hnone
    · simp [HandlesOfShadowed] at hin
    · exact hnone
  | some Shadowed, Members, h, hyp => by
    rw [ResetShadowed]
    apply Reset_memo_none Shadowed
    rw [HandlesOfShadowed] at hyp
    exact hyp
end

theorem Get_memoized {τ : Type} (Fuel : Nat) (Variable : TSpecVariable τ)
    (Members : FSpecVariableMembers τ) (Value : τ)
    (hMemo : TMapFind Members.Memo Variable.Handle = some Value) :
    Variable.Get Fuel Members = some (Value, Members) := by
  cases Fuel <;> simp [TSpecVariable.Get, hMemo]

theorem Get_first {τ : Type} (Fuel : Nat) (Variable : TSpecVariable τ)
    (Members : FSpecVariableMembers τ)
    (hMemo : TMapFind Members.Memo Variable.Handle = none) :
    Variable.Get (Fuel + 1) Members = Variable.Evaluate (TSpecVariable.Get Fuel) Members := by
  simp [TSpecVariable.Get, hMemo]

theorem Evaluate_eq {τ : Type} (ReadVariable : TSpecVariable τ → TVariableRead τ)
    (Variable : TSpecVariable τ) (Members After : FSpecVariableMembers τ) (Value : τ)
    (hRead : Variable.Evaluate ReadVariable Members = some (Value, After)) :
    Variable.Handle ∉ Members.Evaluating ∧
    ∃ Middle,
      Variable.Generator.Run (ReadByName ReadVariable) (ReadPrevious ReadVariable Variable)
          { Members with
            Evaluating := Variable.Handle :: Members.Evaluating
            GeneratorsInvoked := Members.GeneratorsInvoked ++ [Variable.Handle] } =
        some (Value, Middle) ∧
      After =
        { Middle with
          Memo := TMapAdd Middle.Memo Variable.Handle Value
          Evaluating := Members.Evaluating } := by
  unfold TSpecVariable.Evaluate at hRead
  by_cases hCycle : Variable.Handle ∈ Members.Evaluating
  · simp [hCycle] at hRead
  · refine ⟨hCycle, ?_⟩
    simp only [hCycle, if_false] at hRead
    split at hRead
    · cases hRead
    · rename_i Produced Middle hRun
      simp only [Option.some.injEq, Prod.mk.injEq] at hRead
      obtain ⟨h1, h2⟩ := hRead
      subst h1
      exact ⟨Middle, hRun, h2.symm⟩

theorem Evaluate_memoizes {τ : Type} (ReadVariable : TSpecVariable τ → TVariableRead τ)
    (Variable : TSpecVariable τ) (Members After : FSpecVariableMembers τ) (Value : τ)
    (hRead : Variable.Evaluate ReadVariable Members = some (Value, After)) :
    TMapFind After.Memo Variable.Handle = some Value := by
  obtain ⟨-, Middle, -, hAfter⟩ := Evaluate_eq ReadVariable Variable Members After Value hRead
  rw [hAfter]
  simp [TMapFind_Add_nat]

theorem Get_cases {τ : Type} (Fuel : Nat) (Variable : TSpecVariable τ)
    (Members After : FSpecVariableMembers τ) (Value : τ)
    (hRead : Variable.Get Fuel Members = some (Value, After)) :
    (TMapFind Members.Memo Variable.Handle = some Value ∧ After = Members) ∨
    (TMapFind Members.Memo Variable.Handle = none ∧
      ∃ Less, Fuel = Less + 1 ∧
        Variable.Evaluate (TSpecVariable.Get Less) Members = some (Value, After)) := by
  cases hMemo : TMapFind Members.Memo Variable.Handle with
  | some Found =>
    rw [Get_memoized Fuel Variable Members Found hMemo] at hRead
    simp only [Option.some.injEq, Prod.mk.injEq] at hRead
    left
    exact ⟨by rw [hRead.1], hRead.2.symm⟩
  | none =>
    right
    cases Fuel with
    | zero => simp [TSpecVariable.Get, hMemo] at hRead
    | succ Less =>
      rw [Get_first Less Variable Members hMemo] at hRead
      exact ⟨rfl, Less, rfl, hRead⟩

theorem Get_memoizes {τ : Type} (Fuel : Nat) (Variable : TSpecVariable τ)
    (Members After : FSpecVariableMembers τ) (Value : τ)
    (hRead : Variable.Get Fuel Members = some (Value, After)) :
    TMapFind After.Memo Variable.Handle = some Value := by
  rcases Get_cases Fuel Variable Members After Value hRead with ⟨hMemo, hSame⟩ | ⟨-, Less, -, hEval⟩
  · rw [hSame]
    exact hMemo
  · exact Evaluate_memoizes _ Variable Members After Value hEval

theorem Run_preserves {τ : Type} (P : FSpecVariableMembers τ → Prop)
    (ReadNamed : String → TVariableRead τ) (ReadShadowed : TVariableRead τ)
    (hByName : ∀ Name Members Value After,
      ReadNamed Name Members = some (Value, After) → P Members → P After)
    (hShadowed : ∀ Members Value After,
      ReadShadowed Members = some (Value, After) → P Members → P After) :
    ∀ (Generator : FGenerator τ) (Members After : FSpecVariableMembers τ) (Value : τ),
      Generator.Run ReadNamed ReadShadowed Members = some (Value, After) → P Members →
      P After := by
  intro Generator
  induction Generator with
  | Return Constant =>
    intro Members After Value hRun hP
    simp only [FGenerator.Run, Option.some.injEq, Prod.mk.injEq] at hRun
    rw [← hRun.2]
    exact hP
  | Read Name Continue ih =>
    intro Members After Value hRun hP
    simp only [FGenerator.Run] at hRun
    cases hRead : ReadNamed Name Members with
    | none => simp [hRead] at hRun
    | some Result =>
      obtain ⟨Read, Middle⟩ := Result
      simp only [hRead] at hRun
      exact ih Read Middle After Value hRun (hByName Name Members Read Middle hRead hP)
  | ReadPrevious Continue ih =>
    intro Members After Value hRun hP
    simp only [FGenerator.Run] at hRun
    cases hRead : ReadShadowed Members with
    | none => simp [hRead] at hRun
    | some Result =>
      obtain ⟨Read, Middle⟩ := Result
      simp only [hRead] at hRun
      exact ih Read Middle After Value hRun (hShadowed Members Read Middle hRead hP)

theorem Evaluate_preserves {τ : Type} (P : FSpecVariableMembers τ → Prop)
    (ReadVariable : TSpecVariable τ → TVariableRead τ)
    (hRead : ∀ Named Members Value After,
      ReadVariable Named Members = some (Value, After) → P Members → P After)
    (Variable : TSpecVariable τ) (Members After : FSpecVariableMembers τ) (Value : τ)
    (hEval : Variable.Evaluate ReadVariable Members = some (Value, After))
    (hStart : P { Members with
      Evaluating := Variable.Handle :: Members.Evaluating
      GeneratorsInvoked := Members.GeneratorsInvoked ++ [Variable.Handle] }) :
    ∃ Middle, P Middle ∧
      After =
        { Middle with
          Memo := TMapAdd Middle.Memo Variable.Handle Value
          Evaluating := Members.Evaluating } := by
  obtain ⟨-, Middle, hRun, hAfter⟩ := Evaluate_eq ReadVariable Variable Members After Value hEval
  refine ⟨Middle, ?_, hAfter⟩
  refine Run_preserves P _ _ ?_ ?_ Variable.Generator _ Middle Value hRun hStart
  · intro Name Current Read Next hNamed hCurrent
    unfold ReadByName at hNamed
    cases hFind : TMapFind Current.VariablesInScope Name with
    | none => simp [hFind] at hNamed
    | some Named =>
      simp only [hFind] at hNamed
      exact hRead Named Current Read Next hNamed hCurrent
  · intro Current Read Next hPrevious hCurrent
    unfold ReadPrevious at hPrevious
    cases hShadowed : Variable.Previous with
    | none => simp [hShadowed] at hPrevious
    | some Shadowed =>
      simp only [hShadowed] at hPrevious
      exact hRead Shadowed Current Read Next hPrevious hCurrent

theorem Get_preserves_memoized {τ : Type} (h : Nat) (Kept : τ) (Count : Nat) :
    ∀ (Fuel : Nat) (Variable : TSpecVariable τ) (Members After : FSpecVariableMembers τ)
      (Value : τ),
      Variable.Get Fuel Members = some (Value, After) →
      (TMapFind Members.Memo h = some Kept ∧ Members.GeneratorsInvoked.count h = Count) →
      (TMapFind After.Memo h = some Kept ∧ After.GeneratorsInvoked.count h = Count) := by
  intro Fuel
  induction Fuel with
  | zero =>
    intro Variable Members After Value hRead hP
    rcases Get_cases 0 Variable Members After Value hRead with ⟨-, hSame⟩ | ⟨-, Less, hFuel, -⟩
    · rw [hSame]
      exact hP
    · cases hFuel
  | succ Fuel ih =>
    intro Variable Members After Value hRead hP
    rcases Get_cases (Fuel + 1) Variable Members After Value hRead with
      ⟨-, hSame⟩ | ⟨hMemo, Less, hFuel, hEval⟩
    · rw [hSame]
      exact hP
    · have hLess : Less = Fuel := by omega
      subst hLess
      have hne : Variable.Handle ≠ h := by
        intro heq
        rw [heq, hP.1] at hMemo
        cases hMemo
      obtain ⟨Middle, hMiddle, hAfter⟩ := Evaluate_preserves
        (fun Current => TMapFind Current.Memo h = some Kept ∧
          Current.GeneratorsInvoked.count h = Count)
        (TSpecVariable.Get Less)
        (fun Named Current Read Next hNamed hCurrent => ih Named Current Next Read hNamed hCurrent)
        Variable Members After Value hEval
        (by
          refine ⟨hP.1, ?_⟩
          simp only [List.count_append, hP.2]
          simp [List.count_cons, hne])
      rw [hAfter]
      refine ⟨?_, hMiddle.2⟩
      simp only [TMapFind_Add_nat, if_neg hne]
      exact hMiddle.1

theorem Get_in_progress {τ : Type} (h : Nat) (Count : Nat) :
    ∀ (Fuel : Nat) (Variable : TSpecVariable τ) (Members After : FSpecVariableMembers τ)
      (Value : τ),
      Variable.Get Fuel Members = some (Value, After) →
      (h ∈ Members.Evaluating ∧ Members.GeneratorsInvoked.count h = Count ∧
        TMapFind Members.Memo h = none) →
      (h ∈ After.Evaluating ∧ After.GeneratorsInvoked.count h = Count ∧
        TMapFind After.Memo h = none) := by
  intro Fuel
  induction Fuel with
  | zero =>
    intro Variable Members After Value hRead hP
    rcases Get_cases 0 Variable Members After Value hRead with ⟨-, hSame⟩ | ⟨-, Less, hFuel, -⟩
    · rw [hSame]
      exact hP
    · cases hFuel
  | succ Fuel ih =>
    intro Variable Members After Value hRead hP
    rcases Get_cases (Fuel + 1) Variable Members After Value hRead with
      ⟨-, hSame⟩ | ⟨hMemo, Less, hFuel, hEval⟩
    · rw [hSame]
      exact hP
    · have hLess : Less = Fuel := by omega
      subst hLess
      have hne : Variable.Handle ≠ h := by
        intro heq
        have hCycle := (Evaluate_eq _ Variable Members After Value hEval).1
        rw [heq] at hCycle
        exact hCycle hP.1
      obtain ⟨Middle, hMiddle, hAfter⟩ := Evaluate_preserves
        (fun Current => h ∈ Current.Evaluating ∧ Current.GeneratorsInvoked.count h = Count ∧
          TMapFind Current.Memo h = none)
        (TSpecVariable.Get Less)
        (fun Named Current Read Next hNamed hCurrent => ih Named Current Next Read hNamed hCurrent)
        Variable Members After Value hEval
        (by
          refine ⟨List.mem_cons_of_mem _ hP.1, ?_, hP.2.2⟩
          simp only [List.count_append, hP.2.1]
          simp [List.count_cons, hne])
      rw [hAfter]
      refine ⟨hP.1, hMiddle.2.1, ?_⟩
      simp only [TMapFind_Add_nat, if_neg hne]
      exact hMiddle.2.2

theorem InvokedAtMostOnce_refl {τ : Type} (h : Nat) (Members : FSpecVariableMembers τ) :
    InvokedAtMostOnce h Members Members :=
  Or.inl ⟨rfl, fun hMemo => hMemo⟩

theorem InvokedAtMostOnce_trans {τ : Type} (h : Nat)
    (First Second Third : FSpecVariableMembers τ)
    (hFirst : InvokedAtMostOnce h First Second) (hSecond : InvokedAtMostOnce h Second Third) :
    InvokedAtMostOnce h First Third := by
  rcases hFirst with ⟨hc1, hm1⟩ | ⟨hc1, hn1, hm1⟩
  · rcases hSecond with ⟨hc2, hm2⟩ | ⟨hc2, hn2, hm2⟩
    · exact Or.inl ⟨by rw [hc2, hc1], fun hMemo => hm2 (hm1 hMemo)⟩
    · right
      refine ⟨by rw [hc2, hc1], ?_, hm2⟩
      cases hFound : TMapFind First.Memo h with
      | none => rfl
      | some Found =>
        have := hm1 (by rw [hFound]; rfl)
        rw [hn2] at this
        cases this
  · rcases hSecond with ⟨hc2, hm2⟩ | ⟨hc2, hn2, hm2⟩
    · exact Or.inr ⟨by rw [hc2, hc1], hn1, hm2 hm1⟩
    · rw [hn2] at hm1
      cases hm1

theorem Get_at_most_once {τ : Type} (h : Nat) :
    ∀ (Fuel : Nat) (Variable : TSpecVariable τ) (Members After : FSpecVariableMembers τ)
      (Value : τ),
      Variable.Get Fuel Members = some (Value, After) → InvokedAtMostOnce h Members After := by
  intro Fuel
  induction Fuel with
  | zero =>
    intro Variable Members After Value hRead
    rcases Get_cases 0 Variable Members After Value hRead with ⟨-, hSame⟩ | ⟨-, Less, hFuel, -⟩
    · rw [hSame]
      exact InvokedAtMostOnce_refl h Members
    · cases hFuel
  | succ Fuel ih =>
    intro Variable Members After Value hRead
    rcases Get_cases (Fuel + 1) Variable Members After Value hRead with
      ⟨-, hSame⟩ | ⟨hMemo, Less, hFuel, hEval⟩
    · rw [hSame]
      exact InvokedAtMostOnce_refl h Members
    · have hLess : Less = Fuel := by omega
      subst hLess
      by_cases hOwn : Variable.Handle = h
      · subst hOwn
        obtain ⟨Middle, hMiddle, hAfter⟩ := Evaluate_preserves
          (fun Current => Variable.Handle ∈ Current.Evaluating ∧
            Current.GeneratorsInvoked.count Variable.Handle =
              Members.GeneratorsInvoked.count Variable.Handle + 1 ∧
            TMapFind Current.Memo Variable.Handle = none)
          (TSpecVariable.Get Less)
          (fun Named Current Read Next hNamed hCurrent =>
            Get_in_progress Variable.Handle _ Less Named Current Next Read hNamed hCurrent)
          Variable Members After Value hEval
          (by
            refine ⟨List.mem_cons_self _ _, ?_, hMemo⟩
            simp [List.count_append])
        right
        rw [hAfter]
        refine ⟨hMiddle.2.1, hMemo, ?_⟩
        simp [TMapFind_Add_nat]
      · obtain ⟨Middle, hMiddle, hAfter⟩ := Evaluate_preserves
          (fun Current => InvokedAtMostOnce h Members Current)
          (TSpecVariable.Get Less)
          (fun Named Current Read Next hNamed hCurrent =>
            InvokedAtMostOnce_trans h Members Current Next hCurrent
              (ih Named Current Next Read hNamed))
          Variable Members After Value hEval
          (by
            left
            refine ⟨?_, fun hFound => hFound⟩
            simp only [List.count_append]
            simp [List.count_cons, hOwn])
        rw [hAfter]
        rcases hMiddle with ⟨hc, hm⟩ | ⟨hc, hn, hm⟩
        · left
          refine ⟨hc, fun hFound => ?_⟩
          simp only [TMapFind_Add_nat, if_neg hOwn]
          exact hm hFound
        · right
          refine ⟨hc, hn, ?_⟩
          simp only [TMapFind_Add_nat, if_neg hOwn]
          exact hm

theorem Modify_at_most_once {τ : Type} (h : Nat) (Fuel : Nat) (Variable : TSpecVariable τ)
    (Change : τ → τ) (Members After : FSpecVariableMembers τ)
    (hModify : Variable.Modify Fuel Change Members = some After) :
    InvokedAtMostOnce h Members After := by
  unfold TSpecVariable.Modify at hModify
  cases hRead : Variable.Get Fuel Members with
  | none => simp [hRead] at hModify
  | some Result =>
    obtain ⟨Value, Read⟩ := Result
    simp only [hRead, Option.some.injEq] at hModify
    have hOnce := Get_at_most_once h Fuel Variable Members Read Value hRead
    rw [← hModify]
    have hKeep : (TMapFind Read.Memo h).isSome = true →
        (TMapFind (TMapAdd Read.Memo Variable.Handle (Change Value)) h).isSome = true := by
      intro hFound
      rw [TMapFind_Add_nat]
      split_ifs
      · rfl
      · exact hFound
    rcases hOnce with ⟨hc, hm⟩ | ⟨hc, hn, hm⟩
    · exact Or.inl ⟨hc, fun hFound => hKeep (hm hFound)⟩
    · exact Or.inr ⟨hc, hn, hKeep hm⟩

theorem Apply_at_most_once {τ : Type} (h : Nat) (Access : FVariableAccess τ)
    (Members After : FSpecVariableMembers τ) (hApply : Access.Apply Members = some After) :
    InvokedAtMostOnce h Members After := by
  cases Access with
  | Get Fuel Variable =>
    simp only [FVariableAccess.Apply, Option.map_eq_some'] at hApply
    obtain ⟨⟨Value, Read⟩, hRead, hAfter⟩ := hApply
    simp only at hAfter
    subst hAfter
    exact Get_at_most_once h Fuel Variable Members Read Value hRead
  | Dereference Fuel Variable =>
    simp only [FVariableAccess.Apply, Option.map_eq_some'] at hApply
    obtain ⟨⟨Value, Read⟩, hRead, hAfter⟩ := hApply
    simp only at hAfter
    subst hAfter
    exact Get_at_most_once h Fuel Variable Members Read Value hRead
  | Arrow Fuel Variable =>
    simp only [FVariableAccess.Apply, Option.map_eq_some'] at hApply
    obtain ⟨⟨Value, Read⟩, hRead, hAfter⟩ := hApply
    simp only at hAfter
    subst hAfter
    exact Get_at_most_once h Fuel Variable Members Read Value hRead
  | Modify Fuel Variable Change =>
    exact Modify_at_most_once h Fuel Variable Change Members After hApply

theorem AccessAll_at_most_once {τ : Type} (h : Nat) (Accesses : List (FVariableAccess τ)) :
    ∀ (Members After : FSpecVariableMembers τ),
      AccessAll Accesses Members = some After → InvokedAtMostOnce h Members After := by
  induction Accesses with
  | nil =>
    intro Members After hAll
    simp only [AccessAll, Option.some.injEq] at hAll
    rw [← hAll]
    exact InvokedAtMostOnce_refl h Members
  | cons Access Rest ih =>
    intro Members After hAll
    simp only [AccessAll] at hAll
    cases hApply : Access.Apply Members with
    | none => simp [hApply] at hAll
    | some Middle =>
      simp only [hApply] at hAll
      exact InvokedAtMostOnce_trans h Members Middle After
        (Apply_at_most_once h Access Members Middle hApply) (ih Middle After hAll)

theorem InvokedAtMostOnce_count {τ : Type} (h : Nat) (Before After : FSpecVariableMembers τ)
    (hOnce : InvokedAtMostOnce h Before After) :
    After.GeneratorsInvoked.count h ≤ Before.GeneratorsInvoked.count h + 1 ∧
    ((TMapFind Before.Memo h).isSome = true →
      After.GeneratorsInvoked.count h = Before.GeneratorsInvoked.count h) := by
  rcases hOnce with ⟨hc, -⟩ | ⟨hc, hn, -⟩
  · exact ⟨by omega, fun _ => hc⟩
  · refine ⟨by omega, fun hFound => ?_⟩
    rw [hn] at hFound
    cases hFound

mutual
theorem Reset_evaluating {τ : Type} :
    ∀ (Variable : TSpecVariable τ) (Members : FSpecVariableMembers τ),
      (Variable.Reset Members).Evaluating = Members.Evaluating
  | ⟨Handle, _, Previous⟩, Members => by
    rw [TSpecVariable.Reset]
    exact ResetShadowed_evaluating Previous _
theorem ResetShadowed_evaluating {τ : Type} :
    ∀ (Previous : Option (TSpecVariable τ)) (Members : FSpecVariableMembers τ),
      (ResetShadowed Previous Members).Evaluating = Members.Evaluating
  | none, Members => by rw [ResetShadowed]
  | some Shadowed, Members => by
    rw [ResetShadowed]
    exact Reset_evaluating Shadowed Members
end

theorem FStringStartsWith_append (InPrefix Rest : String) (hne : 0 < InPrefix.data.length) :
    FStringStartsWith (InPrefix ++ Rest) InPrefix = true := by
  have hlen : 0 < InPrefix.length := hne
  simp [FStringStartsWith, hlen, String.data_append]

theorem TestIdOf_prefixed (TestName Id : String) :
    FEnhancedAutomationSpecBase.TestIdOf TestName (TestName ++ " " ++ Id) = Id := by
  unfold FEnhancedAutomationSpecBase.TestIdOf
  rw [FStringStartsWith_append (TestName ++ " ") Id (by simp [String.data_append])]
  simp only [if_true, RightChop, String.data_append]
  have h : List.drop (TestName.data.length + 1) (TestName.data ++ [' '] ++ Id.data) = Id.data :=
    List.drop_left' (by simp)
  rw [h]

theorem TestIdOf_plain (TestName Id : String)
    (hPlain : FStringStartsWith Id (TestName ++ " ") = false) :
    FEnhancedAutomationSpecBase.TestIdOf TestName Id = Id := by
  simp [FEnhancedAutomationSpecBase.TestIdOf, hPlain]

theorem CompiledSpec_of_It {σ ν : Type} (Decls : List (FSpecDecl σ ν)) (bSkip : Bool)
    (Timeout Counter : Int) (Compiled : FEnhancedAutomationSpecBase σ ν)
    (hrun : FEnhancedAutomationSpecBase.EnsureDefinitions (RunDecls Decls)
      (FEnhancedAutomationSpecBase.Fresh σ ν bSkip Timeout Counter) = Except.ok Compiled)
    (Path : List (FScope σ ν)) (Scope : FScope σ ν)
    (hPath : ScopePath (DeclaredRoot Decls bSkip Timeout Counter) Path Scope)
    (It : FSpecItDefinition (FLatentCommand σ)) (hIt : It ∈ Scope.It) :
    ∃ Spec, TMapFind Compiled.IdToSpecMap It.Id = some Spec ∧
      Spec.Id = It.Id ∧ Spec.Description = It.Description ∧
      Spec.Filename = It.Filename ∧ Spec.LineNumber = It.LineNumber := by
  obtain ⟨Declared, _, hpost, hstack, hp, _, hmap⟩ :=
    EnsureDefinitions_Fresh Decls bSkip Timeout Counter Compiled hrun
  obtain ⟨Under, hfind⟩ := CompiledSpec_of_path Declared Compiled _ hstack hp hmap hpost
    Path Scope hPath It hIt
  exact ⟨_, hfind, rfl, rfl, rfl, rfl⟩

theorem GetTests_fold {γ ν : Type} (Specs : List (FSpec γ ν)) (Names Commands : List String) :
    Specs.foldl
        (fun (Arrays : List String × List String) SpecToRun =>
          (Arrays.1 ++ [SpecToRun.Description], Arrays.2 ++ [SpecToRun.Id]))
        (Names, Commands) =
      (Names ++ Specs.map (fun Spec => Spec.Description),
        Commands ++ Specs.map (fun Spec => Spec.Id)) := by
  induction Specs generalizing Names Commands with
  | nil => simp
  | cons Spec Rest ih =>
    simp only [List.foldl_cons, List.map_cons]
    rw [ih]
    simp

theorem TMapValues_SpecEntry {γ ν : Type} (Specs : List (FSpec γ ν)) :
    TMapValues (Specs.map SpecEntry) = Specs := by
  induction Specs with
  | nil => rfl
  | cons Spec Rest ih =>
    simp only [TMapValues, List.map_cons, SpecEntry, List.map_map] at ih ⊢
    rw [ih]

/-! ## Balance of the declaration stacks -/

theorem Describe_balanced {σ ν : Type} (InDescription : String)
    (DoWork : FEnhancedAutomationSpecBase σ ν → Except FFault (FEnhancedAutomationSpecBase σ ν))
    (this : FEnhancedAutomationSpecBase σ ν) (Below : List (FScope σ ν))
    (ParentScope : FScope σ ν) (Worked : FEnhancedAutomationSpecBase σ ν)
    (FinalScope : FScope σ ν)
    (hstack : this.DefinitionScopeStack = Below ++ [ParentScope])
    (hWork : DoWork (FEnhancedAutomationSpecBase.DescribeOpened InDescription this Below
      ParentScope) = Except.ok Worked)
    (hDescriptions : Worked.DescriptionStack = this.DescriptionStack ++ [InDescription])
    (hScopes : Worked.DefinitionScopeStack =
      Below
        ++ [{ ParentScope with
              Children := ParentScope.Children ++ [NewDescribeScope σ ν InDescription] }]
        ++ [FinalScope]) :
    FEnhancedAutomationSpecBase.Describe InDescription DoWork this =
      Except.ok
        { Worked with
          DescriptionStack := this.DescriptionStack
          DefinitionScopeStack :=
            Below ++
              [{ ParentScope with
                 Children :=
                   ParentScope.Children ++
                     (if FinalScope.It.length = 0 ∧ FinalScope.Children.length = 0 then []
                      else [FinalScope]) }] } := by
  obtain ⟨Descriptions, Stack, m, bDefined, bSkip, Timeout, Counter⟩ := this
  simp only at hstack
  subst hstack
  obtain ⟨WDescriptions, WStack, Wm, WbDefined, WbSkip, WTimeout, WCounter⟩ := Worked
  simp only at hDescriptions hScopes
  subst hDescriptions
  subst hScopes
  unfold FEnhancedAutomationSpecBase.Describe
  simp only [List.getLast?_concat, List.dropLast_concat]
  simp only [FEnhancedAutomationSpecBase.DescribeOpened, NewDescribeScope] at hWork
  rw [hWork]
  simp only [PopDescription_mk, List.getLast?_concat, List.dropLast_concat]
  by_cases hEmpty : FinalScope.It.length = 0 ∧ FinalScope.Children.length = 0
  · simp only [if_pos hEmpty, List.append_nil]
  · simp only [if_neg hEmpty]

theorem Describe_runs_work_on_opened {σ ν : Type} (InDescription : String)
    (DoWork Other : FEnhancedAutomationSpecBase σ ν →
      Except FFault (FEnhancedAutomationSpecBase σ ν))
    (this : FEnhancedAutomationSpecBase σ ν) (Below : List (FScope σ ν))
    (ParentScope : FScope σ ν)
    (hstack : this.DefinitionScopeStack = Below ++ [ParentScope])
    (hSame : Other (FEnhancedAutomationSpecBase.DescribeOpened InDescription this Below
        ParentScope) =
      DoWork (FEnhancedAutomationSpecBase.DescribeOpened InDescription this Below ParentScope)) :
    FEnhancedAutomationSpecBase.Describe InDescription Other this =
      FEnhancedAutomationSpecBase.Describe InDescription DoWork this := by
  obtain ⟨Descriptions, Stack, m, bDefined, bSkip, Timeout, Counter⟩ := this
  simp only at hstack
  subst hstack
  unfold FEnhancedAutomationSpecBase.Describe
  simp only [List.getLast?_concat, List.dropLast_concat]
  simp only [FEnhancedAutomationSpecBase.DescribeOpened, NewDescribeScope] at hSame
  rw [hSame]

/-! ## Identifiers and descriptions -/

/-- The join loop of `GetId` glues the non-empty descriptions one after the other. -/
theorem JoinIdParts_eq_foldl (DescriptionStack : List String) (CompleteId : List Char) :
    JoinIdParts CompleteId DescriptionStack =
      ((DescriptionStack.map String.data).filter (fun Description => Description ≠ [])).foldl
        GlueId CompleteId := by
  induction DescriptionStack generalizing CompleteId with
  | nil => rfl
  | cons Current Rest ih =>
    unfold JoinIdParts
    simp only [List.map_cons]
    cases hCurrent : Current.data with
    | nil => simp [ih]
    | cons First Tail =>
      cases hLast : CompleteId.getLast? with
      | none =>
        have hEmpty : CompleteId = [] := List.getLast?_eq_none_iff.mp hLast
        subst hEmpty
        simp [ih, GlueId]
      | some Last =>
        by_cases hSeam : (FCharIsWhitespace Last || FCharIsWhitespace First) = true
        · simp [ih, GlueId, hLast, hSeam]
        · simp [ih, GlueId, hLast, hSeam]

/-- A text without the character has no last occurrence of it. -/
theorem FindLastChar_none (Text : List Char) (c : Char) (hNot : c ∉ Text) :
    FindLastChar Text c = none := by
  have h : Text.reverse.indexOf? c = none := by
    unfold List.indexOf?
    rw [List.findIdx?_eq_none_iff]
    intro x hx
    have hx2 : x ∈ Text := List.mem_reverse.mp hx
    simp only [beq_eq_false_iff_ne, ne_eq]
    intro hEq
    exact hNot (hEq ▸ hx2)
  unfold FindLastChar
  rw [h]

/-- The last occurrence of a character is found at its index. -/
theorem FindLastChar_last (Pre Mid : List Char) (c : Char) (hNot : c ∉ Mid) :
    FindLastChar (Pre ++ c :: Mid) c = some Pre.length := by
  have hNone : List.findIdx? (fun x => x == c) Mid.reverse = none := by
    rw [List.findIdx?_eq_none_iff]
    intro x hx
    have hx2 : x ∈ Mid := List.mem_reverse.mp hx
    simp only [beq_eq_false_iff_ne, ne_eq]
    intro hEq
    exact hNot (hEq ▸ hx2)
  have h : (Pre ++ c :: Mid).reverse.indexOf? c = some Mid.length := by
    unfold List.indexOf?
    rw [List.reverse_append, List.reverse_cons, List.append_assoc, List.findIdx?_append,
      hNone]
    simp [List.findIdx?_cons]
  unfold FindLastChar
  rw [h]
  simp only [List.length_append, List.length_cons]
  congr 1
  omega

/-- A text that contains a character splits at the last occurrence of it. -/
theorem split_at_last (Text : List Char) (c : Char) (hMem : c ∈ Text) :
    ∃ Pre Mid, Text = Pre ++ c :: Mid ∧ c ∉ Mid := by
  obtain ⟨Front, Back, hSplit, hNot⟩ :=
    List.eq_append_cons_of_mem (List.mem_reverse.mpr hMem)
  refine ⟨Back.reverse, Front.reverse, ?_, fun h => hNot (List.mem_reverse.mp h)⟩
  have h := congrArg List.reverse hSplit
  simpa using h

/-- Joining with a separator puts the separator in front of every entry but the first. -/
theorem intercalate_cons (Sep First : List Char) (Rest : List (List Char)) :
    List.intercalate Sep (First :: Rest) =
      First ++ (Rest.map (fun Entry => Sep ++ Entry)).flatten := by
  induction Rest generalizing First with
  | nil => simp [List.intercalate]
  | cons Second Rest ih =>
    have h := ih Second
    simp only [List.intercalate] at h ⊢
    simp only [List.intersperse, List.flatten_cons, List.map_cons]
    rw [h]
    simp

/-- The join loop of `GetDescription` on a text that is not empty puts a dot in front of
every further description that is not empty. -/
theorem JoinDescriptionParts_of_ne (DescriptionStack : List String)
    (CompleteDescription : List Char) (hne : CompleteDescription ≠ []) :
    JoinDescriptionParts CompleteDescription DescriptionStack =
      CompleteDescription ++
        ((((DescriptionStack.map String.data).filter
          (fun Description => Description ≠ [])).map
            (fun Entry => [Char.ofNat 46] ++ Entry)).flatten) := by
  induction DescriptionStack generalizing CompleteDescription with
  | nil => simp [JoinDescriptionParts]
  | cons Current Rest ih =>
    unfold JoinDescriptionParts
    simp only [List.map_cons]
    cases hCurrent : Current.data with
    | nil => simp [ih _ hne]
    | cons First Tail =>
      cases hLast : CompleteDescription.getLast? with
      | none => exact absurd (List.getLast?_eq_none_iff.mp hLast) hne
      | some Last =>
        have hNext : CompleteDescription ++ [Char.ofNat 46] ++ First :: Tail ≠ [] := by simp
        simp only [ite_self]
        rw [ih _ hNext]
        simp

/-- The join loop of `GetDescription` joins the non-empty descriptions with a dot. -/
theorem JoinDescriptionParts_eq_intercalate (DescriptionStack : List String) :
    JoinDescriptionParts [] DescriptionStack =
      List.intercalate [Char.ofNat 46]
        ((DescriptionStack.map String.data).filter (fun Description => Description ≠ [])) := by
  induction DescriptionStack with
  | nil => rfl
  | cons Current Rest ih =>
    unfold JoinDescriptionParts
    simp only [List.map_cons]
    cases hCurrent : Current.data with
    | nil => simpa using ih
    | cons First Tail =>
      have hne : First :: Tail ≠ [] := by simp
      simp only [List.getLast?_nil]
      rw [JoinDescriptionParts_of_ne Rest _ hne]
      simp [intercalate_cons]

/-! ## The variable scope of a compiled spec -/

theorem Async_update_dispatched {σ : Type} (Command : FAsyncCommand σ)
    (NowAtStart Now : Int) (Spec : FSpecWorld σ)
    (hIdle : Command.bFutureValid = false)
    (hRun : Command.bSkipIfErrored = false ∨ Spec.HasAnyErrors = false) :
    (Command.Update NowAtStart Now Spec).1.Dispatched =
      Command.Dispatched ++ [Command.Execution] := by
  rw [Async_first_poll Command NowAtStart Now Spec hIdle hRun]
  split_ifs <;> rfl

theorem Async_update_work {σ : Type} (Command : FAsyncCommand σ)
    (NowAtStart Now : Int) (Spec : FSpecWorld σ) :
    (Command.Update NowAtStart Now Spec).1.Work = Command.Work := by
  unfold FAsyncCommand.Update
  simp only []
  split_ifs <;> rfl

theorem Async_task_of_dispatched {σ : Type} (Command : FAsyncCommand σ)
    (First : EAsyncExecution) (Waiting : List EAsyncExecution) (Spec : FSpecWorld σ)
    (hDispatched : Command.Dispatched = First :: Waiting) :
    Command.Task Spec =
      match Command.Work Spec with
      | Except.error e => Except.error e
      | Except.ok AfterWork =>
        Except.ok (FAsyncCommand.Done { Command with Dispatched := Waiting }, AfterWork) := by
  unfold FAsyncCommand.Task
  rw [hDispatched]

theorem Async_task_of_none {σ : Type} (Command : FAsyncCommand σ) (Spec : FSpecWorld σ)
    (hDispatched : Command.Dispatched = []) :
    Command.Task Spec = Except.ok (Command, Spec) := by
  unfold FAsyncCommand.Task
  rw [hDispatched]

theorem AsyncMultiFrame_update_dispatched {σ : Type}
    (Command : FAsyncMultiFrameLatentCommand σ) (NowAtStart Now : Int) (Spec : FSpecWorld σ)
    (hIdle : Command.bFutureValid = false)
    (hRun : Command.bSkipIfErrored = false ∨ Spec.HasAnyErrors = false) :
    (Command.Update NowAtStart Now Spec).1.Dispatched =
      Command.Dispatched ++ [Command.Execution] := by
  rw [AsyncMultiFrame_first_poll Command NowAtStart Now Spec hIdle hRun]
  split_ifs <;> rfl

theorem AsyncMultiFrame_update_work {σ : Type} (Command : FAsyncMultiFrameLatentCommand σ)
    (NowAtStart Now : Int) (Spec : FSpecWorld σ) :
    (Command.Update NowAtStart Now Spec).1.Work = Command.Work := by
  unfold FAsyncMultiFrameLatentCommand.Update
  simp only []
  split_ifs <;> rfl

theorem AsyncMultiFrame_task_of_dispatched {σ : Type}
    (Command : FAsyncMultiFrameLatentCommand σ)
    (First : EAsyncExecution) (Waiting : List EAsyncExecution) (Spec : FSpecWorld σ)
    (hDispatched : Command.Dispatched = First :: Waiting) :
    Command.Task Spec =
      match Command.Work Spec with
      | Except.error e => Except.error e
      | Except.ok (AfterWork, bDelegateExecuted) =>
        Except.ok
          (if bDelegateExecuted then
              FAsyncMultiFrameLatentCommand.Done { Command with Dispatched := Waiting }
            else { Command with Dispatched := Waiting },
            AfterWork) := by
  unfold FAsyncMultiFrameLatentCommand.Task
  rw [hDispatched]

theorem AsyncMultiFrame_task_of_none {σ : Type} (Command : FAsyncMultiFrameLatentCommand σ)
    (Spec : FSpecWorld σ) (hDispatched : Command.Dispatched = []) :
    Command.Task Spec = Except.ok (Command, Spec) := by
  unfold FAsyncMultiFrameLatentCommand.Task
  rw [hDispatched]
/-! ## The definition that a redefinition shadows -/

theorem VisibleVariable_cons {σ ν : Type} (Outermost : FScope σ ν) (Inner : List (FScope σ ν))
    (Name : String) :
    FEnhancedAutomationSpecBase.VisibleVariable (Outermost :: Inner) Name =
      match FEnhancedAutomationSpecBase.VisibleVariable Inner Name with
      | some Variable => some Variable
      | none => TMapFind Outermost.Variables Name := rfl

theorem VisibleVariable_of_own {σ ν : Type} (Below : List (FScope σ ν)) (Current : FScope σ ν)
    (Name : String) (Own : ν) (hOwn : TMapFind Current.Variables Name = some Own) :
    FEnhancedAutomationSpecBase.VisibleVariable (Below ++ [Current]) Name = some Own := by
  induction Below with
  | nil =>
    rw [List.nil_append, VisibleVariable_cons, hOwn]
    rfl
  | cons Outermost Inner ih =>
    rw [List.cons_append, VisibleVariable_cons, ih]

theorem VisibleVariable_of_outer {σ ν : Type} (Below : List (FScope σ ν))
    (Current : FScope σ ν) (Name : String) (hNone : TMapFind Current.Variables Name = none) :
    FEnhancedAutomationSpecBase.VisibleVariable (Below ++ [Current]) Name =
      FEnhancedAutomationSpecBase.VisibleVariable Below Name := by
  induction Below with
  | nil =>
    rw [List.nil_append, VisibleVariable_cons, hNone]
    rfl
  | cons Outermost Inner ih =>
    rw [List.cons_append, VisibleVariable_cons, ih, VisibleVariable_cons]
/-! ## Evaluations of the demo of `LetDemo.spec.cpp` -/

theorem LetDemo_chain_outer :
    ChainOf FLetDemoSpec.CompiledObject FLetDemoSpec.SameValueId "OuterValue1" = some [1] := by
  decide!

theorem LetDemo_chain_extended :
    ChainOf FLetDemoSpec.CompiledObject FLetDemoSpec.ExtendedId "OuterValue1" =
      some [12, 1] := by
  decide!

theorem LetDemo_chain_extended_twice :
    ChainOf FLetDemoSpec.CompiledObject FLetDemoSpec.ExtendedTwiceId "OuterValue1" =
      some [14, 12, 1] := by
  decide!

theorem LetDemo_chain_replaced :
    ChainOf FLetDemoSpec.CompiledObject FLetDemoSpec.ReplacedId "OuterValue1" =
      some [9, 1] := by
  decide!

theorem LetDemo_chain_extended_then_replaced :
    ChainOf FLetDemoSpec.CompiledObject FLetDemoSpec.ExtendedThenReplacedId "OuterValue1" =
      some [13, 12, 1] := by
  decide!

theorem LetDemo_run_extended :
    ObserveVariables (FLetDemoSpec.RunTests FLetDemoSpec.Define [FLetDemoSpec.ExtendedId]) =
      some ⟨[], [("OuterValue1", 12), ("OuterValue2", 2), ("InnerValue", 3), ("MyVariable", 8)],
        [(1, "Outer"), (12, "OuterInner")], [12, 1], 0⟩ := by
  decide!

theorem LetDemo_run_extended_twice :
    ObserveVariables
        (FLetDemoSpec.RunTests FLetDemoSpec.Define [FLetDemoSpec.ExtendedTwiceId]) =
      some ⟨[], [("OuterValue1", 14), ("OuterValue2", 2), ("InnerValue", 3), ("MyVariable", 8)],
        [(1, "Outer"), (12, "OuterInner"), (14, "OuterInnerDeepInner")], [14, 12, 1], 0⟩ := by
  decide!

theorem LetDemo_run_replaced :
    ObserveVariables (FLetDemoSpec.RunTests FLetDemoSpec.Define [FLetDemoSpec.ReplacedId]) =
      some ⟨[], [("OuterValue1", 9), ("OuterValue2", 2), ("InnerValue", 3), ("MyVariable", 8)],
        [(9, "Inner")], [9], 0⟩ := by
  decide!

theorem LetDemo_run_extended_then_replaced :
    ObserveVariables
        (FLetDemoSpec.RunTests FLetDemoSpec.Define [FLetDemoSpec.ExtendedThenReplacedId]) =
      some ⟨[], [("OuterValue1", 13), ("OuterValue2", 2), ("InnerValue", 3), ("MyVariable", 8)],
        [(13, "DeepInner")], [13], 0⟩ := by
  decide!

theorem RunDecls_value_stack {σ ν : Type} (Decls : List (FSpecDecl σ ν))
    (Before Default : FEnhancedAutomationSpecBase σ ν) (Under : List (FScope σ ν))
    (Current DefaultScope : FScope σ ν)
    (hstack : Before.DefinitionScopeStack = Under ++ [Current]) :
    (ValueOf (RunDecls Decls Before) Default).DefinitionScopeStack =
      Under ++
        [(ValueOf (RunDecls Decls Before) Default).DefinitionScopeStack.getLastD DefaultScope] ∧
    (ValueOf (RunDecls Decls Before) Default).DescriptionStack = Before.DescriptionStack ∧
    RunDecls Decls Before = Except.ok (ValueOf (RunDecls Decls Before) Default) := by
  obtain ⟨After, NewScope, hrun, hFrame, _⟩ := RunDecls_spec Decls Before Under Current hstack
  rw [hrun]
  simp only [ValueOf]
  refine ⟨?_, hFrame.2.1, trivial⟩
  rw [hFrame.1]
  simp

theorem DescribeOpened_value_stack {σ ν : Type} (InDescription : String)
    (Decls : List (FSpecDecl σ ν)) (this Default : FEnhancedAutomationSpecBase σ ν)
    (Below : List (FScope σ ν)) (ParentScope DefaultScope : FScope σ ν) :
    RunDecls Decls (FEnhancedAutomationSpecBase.DescribeOpened InDescription this Below
        ParentScope) =
      Except.ok
        (ValueOf (RunDecls Decls (FEnhancedAutomationSpecBase.DescribeOpened InDescription this
          Below ParentScope)) Default) ∧
    (ValueOf (RunDecls Decls (FEnhancedAutomationSpecBase.DescribeOpened InDescription this
        Below ParentScope)) Default).DescriptionStack =
      this.DescriptionStack ++ [InDescription] ∧
    (ValueOf (RunDecls Decls (FEnhancedAutomationSpecBase.DescribeOpened InDescription this
        Below ParentScope)) Default).DefinitionScopeStack =
      Below
        ++ [{ ParentScope with
              Children := ParentScope.Children ++ [NewDescribeScope σ ν InDescription] }]
        ++ [(ValueOf (RunDecls Decls (FEnhancedAutomationSpecBase.DescribeOpened InDescription
              this Below ParentScope)) Default).DefinitionScopeStack.getLastD DefaultScope] := by
  have h := RunDecls_value_stack Decls
    (FEnhancedAutomationSpecBase.DescribeOpened InDescription this Below ParentScope) Default
    (Below ++ [({ ParentScope with
      Children := ParentScope.Children ++ [NewDescribeScope σ ν InDescription] } : FScope σ ν)])
    (NewDescribeScope σ ν InDescription) DefaultScope rfl
  exact ⟨h.2.2, h.2.1, h.1⟩

/-! ## Successive block handles -/

theorem WrapInt32_of_range (x : Int) (hLow : -2147483648 ≤ x) (hHigh : x < 2147483648) :
    WrapInt32 x = x := by
  unfold WrapInt32
  rw [Int.emod_eq_of_lt (by omega) (by omega)]
  omega

theorem WrapInt32_range (x : Int) : -2147483648 ≤ WrapInt32 x ∧ WrapInt32 x < 2147483648 := by
  unfold WrapInt32
  have h1 := Int.emod_nonneg (x + 2147483648) (by decide : (4294967296 : Int) ≠ 0)
  have h2 := Int.emod_lt_of_pos (x + 2147483648) (by decide : (0 : Int) < 4294967296)
  constructor <;> omega

theorem WrapInt32_add (x y : Int) : WrapInt32 (WrapInt32 x + y) = WrapInt32 (x + y) := by
  unfold WrapInt32
  omega

/-- The calls yield the successive values of the counter, which wraps at 32 bits. -/
theorem AssignSuccessive_handles (Count : Nat) :
    ∀ HandleCounter : Int, -2147483648 ≤ HandleCounter → HandleCounter < 2147483648 →
      (FSpecBlockHandle.AssignSuccessive Count HandleCounter).1 =
        (List.range Count).map (fun k : Nat => WrapInt32 (HandleCounter + (k : Int))) ∧
      (FSpecBlockHandle.AssignSuccessive Count HandleCounter).2 =
        WrapInt32 (HandleCounter + Count) := by
  induction Count with
  | zero =>
    intro HandleCounter hLow hHigh
    simp [FSpecBlockHandle.AssignSuccessive, WrapInt32_of_range HandleCounter hLow hHigh]
  | succ Count ih =>
    intro HandleCounter hLow hHigh
    have hNext := WrapInt32_range (HandleCounter + 1)
    obtain ⟨hHandles, hCounter⟩ := ih (WrapInt32 (HandleCounter + 1)) hNext.1 hNext.2
    simp only [FSpecBlockHandle.AssignSuccessive, FSpecBlockHandle.Assign]
    rw [hHandles, hCounter, List.range_succ_eq_map]
    refine ⟨?_, ?_⟩
    · simp only [List.map_cons, List.map_map, Nat.cast_zero, Int.add_zero]
      rw [WrapInt32_of_range HandleCounter hLow hHigh]
      congr 1
      apply List.map_congr_left
      intro k _
      show WrapInt32 (WrapInt32 (HandleCounter + 1) + (k : Int)) =
        WrapInt32 (HandleCounter + ((k + 1 : Nat) : Int))
      rw [WrapInt32_add]
      congr 1
      push_cast
      omega
    · rw [WrapInt32_add]
      congr 1
      push_cast
      omega

/-! ## The events of the loop of PostDefine follow the tree -/

theorem PopFinishedScopes_length {γ ν : Type} (n : Nat) :
    ∀ (State After : FPostDefineState γ ν), PopFinishedScopes n State = Except.ok After →
      After.Stack.length ≤ State.Stack.length := by
  induction n with
  | zero =>
    intro State After h
    simp only [PopFinishedScopes, Except.ok.injEq] at h
    rw [← h]
  | succ n ih =>
    intro State After h
    unfold PopFinishedScopes at h
    cases hLast : State.Stack.getLast? with
    | none =>
      simp only [hLast, Except.ok.injEq] at h
      rw [← h]
    | some Last =>
      simp only [hLast] at h
      by_cases hDone : Last.Children.length = 0 ∧ Last.It.length = 0
      · simp only [hDone, and_self, if_true] at h
        cases h1 : RemoveLastAdded State.BeforeAll Last.BeforeAll.length with
        | error e => simp [h1] at h
        | ok NewBeforeAll =>
          cases h2 : RemoveLastAdded State.BeforeEach Last.BeforeEach.length with
          | error e => simp [h1, h2] at h
          | ok NewBeforeEach =>
            cases h3 : RemoveLastAdded State.AfterEach Last.AfterEach.length with
            | error e => simp [h1, h2, h3] at h
            | ok NewAfterEach =>
              simp only [h1, h2, h3] at h
              have := ih _ _ h
              simp only [List.length_dropLast] at this
              omega
      · simp only [hDone, if_false, Except.ok.injEq] at h
        rw [← h]

theorem AddSpecs_split {γ ν : Type} (xs ys : List (FSpec γ ν))
    (m m2 : List (String × FSpec γ ν)) (h : AddSpecs m (xs ++ ys) = Except.ok m2) :
    ∃ m1, AddSpecs m xs = Except.ok m1 ∧ AddSpecs m1 ys = Except.ok m2 := by
  rw [AddSpecs_append] at h
  cases hxs : AddSpecs m xs with
  | error e =>
    rw [hxs] at h
    exact nomatch h
  | ok m1 =>
    rw [hxs] at h
    exact ⟨m1, rfl, h⟩

theorem ContinueEvents_finished {γ ν : Type} (k : Nat)
    (Below : List (FSpecDefinitionScope γ ν)) (Scope : FSpecDefinitionScope γ ν)
    (BeforeAll BeforeEach AfterEach : List γ) (m1 : List (String × FSpec γ ν))
    (hc : Scope.Children = []) (hi : Scope.It = [])
    (hPop : ∀ m : List (String × FSpec γ ν), ∃ After,
      PopFinishedScopes Below.length
        { Stack := Below
          BeforeAll := BeforeAll
          BeforeEach := BeforeEach
          AfterEach := AfterEach
          IdToSpecMap := m } = Except.ok After) :
    ContinueEvents k (Below ++ [Scope]) (BeforeAll ++ Scope.BeforeAll)
        (BeforeEach ++ Scope.BeforeEach) (AfterEach ++ Scope.AfterEach) m1 =
      FTraversalEvent.Pop Scope :: ContinueEvents k Below BeforeAll BeforeEach AfterEach m1 := by
  obtain ⟨After, hAfter⟩ := hPop m1
  have hLength := PopFinishedScopes_length _ _ _ hAfter
  simp only at hLength
  unfold ContinueEvents
  rw [List.length_append, List.length_singleton,
    PopFinishedScopes_finished Below.length Below Scope BeforeAll BeforeEach AfterEach m1 hc hi,
    hAfter]
  simp only [List.drop_append_of_le_length hLength, List.reverse_append, List.reverse_cons,
    List.reverse_nil, List.nil_append, List.map_append, List.map_cons, List.map_nil,
    List.singleton_append, List.cons_append]

theorem ContinueEvents_unfinished {γ ν : Type} (k : Nat)
    (Below : List (FSpecDefinitionScope γ ν)) (Scope : FSpecDefinitionScope γ ν)
    (BeforeAll BeforeEach AfterEach : List γ) (m1 : List (String × FSpec γ ν))
    (h : Scope.It ≠ [] ∨ Scope.Children ≠ []) :
    ContinueEvents k (Below ++ [Scope]) BeforeAll BeforeEach AfterEach m1 =
      PostDefineEvents k
        { Stack := Below ++ [Scope]
          BeforeAll := BeforeAll
          BeforeEach := BeforeEach
          AfterEach := AfterEach
          IdToSpecMap := m1 } := by
  unfold ContinueEvents
  rw [PopFinishedScopes_unfinished _ Below Scope BeforeAll BeforeEach AfterEach m1 h]
  simp

mutual
theorem PostDefineEvents_scope {γ ν : Type} :
    ∀ (Scope : FSpecDefinitionScope γ ν), Scope.Pruned →
    ∀ (Below : List (FSpecDefinitionScope γ ν)) (BeforeAll BeforeEach AfterEach : List γ)
      (m m1 : List (String × FSpec γ ν)) (k : Nat),
    AddSpecs m (SpecsOfScope Below BeforeAll BeforeEach AfterEach Scope) = Except.ok m1 →
    (∀ m2 : List (String × FSpec γ ν), ∃ After,
      PopFinishedScopes Below.length
        { Stack := Below
          BeforeAll := BeforeAll
          BeforeEach := BeforeEach
          AfterEach := AfterEach
          IdToSpecMap := m2 } = Except.ok After) →
    PostDefineEvents (Scope.NumScopes + k)
      { Stack := Below ++ [Scope]
        BeforeAll := BeforeAll
        BeforeEach := BeforeEach
        AfterEach := AfterEach
        IdToSpecMap := m }
    = EventsOfScope Scope ++ ContinueEvents k Below BeforeAll BeforeEach AfterEach m1
  | ⟨Description, OwnBeforeAll, OwnBeforeEach, OwnAfterEach, It, Children, Variables⟩,
    hp, Below, BeforeAll, BeforeEach, AfterEach, m, m1, k, hAdd, hPop => by
    have hfuel : (FSpecDefinitionScope.NumScopes
        (⟨Description, OwnBeforeAll, OwnBeforeEach, OwnAfterEach, It, Children, Variables⟩ :
          FSpecDefinitionScope γ ν)) + k = (NumScopesOfList Children + k) + 1 := by
      simp only [FSpecDefinitionScope.NumScopes]; omega
    rw [hfuel]
    simp only [SpecsOfScope] at hAdd
    obtain ⟨mi, hIts, hRest⟩ := AddSpecs_split _ _ _ _ hAdd
    have hDone := ContinueEvents_finished k Below
      (⟨Description, OwnBeforeAll, OwnBeforeEach, OwnAfterEach, [], [], Variables⟩ :
        FSpecDefinitionScope γ ν) BeforeAll BeforeEach AfterEach m1 rfl rfl hPop
    simp only at hDone
    simp only [PostDefineEvents, List.getLast?_concat, PostDefineStep, CompileIts,
      List.dropLast_concat, hIts, EventsOfScope]
    cases Children with
    | nil =>
      simp only [SpecsOfChildren, AddSpecs, Except.ok.injEq] at hRest
      subst hRest
      obtain ⟨After, hAfter⟩ := hPop mi
      have hLength := PopFinishedScopes_length _ _ _ hAfter
      simp only at hLength
      have hpop := PopFinishedScopes_finished Below.length Below
        (⟨Description, OwnBeforeAll, OwnBeforeEach, OwnAfterEach, [], [], Variables⟩ :
          FSpecDefinitionScope γ ν) BeforeAll BeforeEach AfterEach mi rfl rfl
      simp only at hpop
      simp only [List.length_nil, gt_iff_lt, lt_self_iff_false, if_false, List.length_append,
        List.length_singleton, hpop, hAfter, EventsOfChildren, List.nil_append,
        NumScopesOfList, Nat.zero_add]
      unfold ContinueEvents
      simp only [hAfter, List.drop_append_of_le_length hLength, List.reverse_append,
        List.reverse_cons, List.reverse_nil, List.nil_append, List.map_append, List.map_cons,
        List.map_nil, List.singleton_append, List.cons_append]
    | cons Child Rest =>
      have hp2 : PrunedList (Child :: Rest) := by
        simpa [FSpecDefinitionScope.Pruned] using hp
      have hPop2 : ∀ m2 : List (String × FSpec γ ν), ∃ After,
          PopFinishedScopes
            (Below ++ [(⟨Description, OwnBeforeAll, OwnBeforeEach, OwnAfterEach, [], [],
              Variables⟩ : FSpecDefinitionScope γ ν)]).length
            { Stack := Below ++ [⟨Description, OwnBeforeAll, OwnBeforeEach, OwnAfterEach, [],
                [], Variables⟩]
              BeforeAll := BeforeAll ++ OwnBeforeAll
              BeforeEach := BeforeEach ++ OwnBeforeEach
              AfterEach := AfterEach ++ OwnAfterEach
              IdToSpecMap := m2 } = Except.ok After := by
        intro m2
        obtain ⟨After, hAfter⟩ := hPop m2
        refine ⟨After, ?_⟩
        have hpop := PopFinishedScopes_finished Below.length Below
          (⟨Description, OwnBeforeAll, OwnBeforeEach, OwnAfterEach, [], [], Variables⟩ :
            FSpecDefinitionScope γ ν) BeforeAll BeforeEach AfterEach m2 rfl rfl
        simp only at hpop
        rw [List.length_append, List.length_singleton, hpop, hAfter]
      have hrec := PostDefineEvents_children (Child :: Rest) (by simp) hp2
        (Below ++ [⟨Description, OwnBeforeAll, OwnBeforeEach, OwnAfterEach, [], [],
          Variables⟩])
        (BeforeAll ++ OwnBeforeAll) (BeforeEach ++ OwnBeforeEach) (AfterEach ++ OwnAfterEach)
        mi m1 k hRest hPop2
      simp only [List.length_cons, gt_iff_lt, Nat.zero_lt_succ, if_true, List.length_append,
        List.length_singleton, List.length_nil, Nat.zero_add]
      rw [hrec, hDone]
      have hShort : (Below ++ [(⟨Description, OwnBeforeAll, OwnBeforeEach, OwnAfterEach, [],
          Child :: Rest, Variables⟩ : FSpecDefinitionScope γ ν)]).drop
          (Below.length + 1 + (Rest.length + 1)) = [] := by
        apply List.drop_eq_nil_of_le
        simp
      simp only [hShort, List.reverse_nil, List.map_nil, List.nil_append, List.append_assoc,
        List.singleton_append, List.cons_append]
theorem PostDefineEvents_children {γ ν : Type} :
    ∀ (Children : List (FSpecDefinitionScope γ ν)), Children ≠ [] → PrunedList Children →
    ∀ (Below : List (FSpecDefinitionScope γ ν)) (BeforeAll BeforeEach AfterEach : List γ)
      (m m1 : List (String × FSpec γ ν)) (k : Nat),
    AddSpecs m (SpecsOfChildren Below BeforeAll BeforeEach AfterEach Children) =
      Except.ok m1 →
    (∀ m2 : List (String × FSpec γ ν), ∃ After,
      PopFinishedScopes Below.length
        { Stack := Below
          BeforeAll := BeforeAll
          BeforeEach := BeforeEach
          AfterEach := AfterEach
          IdToSpecMap := m2 } = Except.ok After) →
    PostDefineEvents (NumScopesOfList Children + k)
      { Stack := Below ++ Children
        BeforeAll := BeforeAll
        BeforeEach := BeforeEach
        AfterEach := AfterEach
        IdToSpecMap := m }
    = EventsOfChildren Children ++ ContinueEvents k Below BeforeAll BeforeEach AfterEach m1
  | [], hne, _, _, _, _, _, _, _, _, _, _ => absurd rfl hne
  | Child :: Rest, _, hp, Below, BeforeAll, BeforeEach, AfterEach, m, m1, k, hAdd, hPop => by
    obtain ⟨hne, hpc, hpr⟩ : (Child.It ≠ [] ∨ Child.Children ≠ []) ∧ Child.Pruned ∧
        PrunedList Rest := by
      simpa [PrunedList] using hp
    cases Rest with
    | nil =>
      simp only [SpecsOfChildren, List.nil_append] at hAdd
      have hrec := PostDefineEvents_scope Child hpc Below BeforeAll BeforeEach AfterEach m m1 k
        hAdd hPop
      simp only [NumScopesOfList, Nat.add_zero, EventsOfChildren, List.nil_append]
      exact hrec
    | cons Second Others =>
      have hspecs : SpecsOfChildren Below BeforeAll BeforeEach AfterEach
          (Child :: Second :: Others)
          = SpecsOfChildren (Below ++ [Child]) BeforeAll BeforeEach AfterEach (Second :: Others)
            ++ SpecsOfScope Below BeforeAll BeforeEach AfterEach Child := by
        simp [SpecsOfChildren]
      rw [hspecs] at hAdd
      obtain ⟨ma, hFirst, hLast⟩ := AddSpecs_split _ _ _ _ hAdd
      have hPop2 : ∀ m2 : List (String × FSpec γ ν), ∃ After,
          PopFinishedScopes (Below ++ [Child]).length
            { Stack := Below ++ [Child]
              BeforeAll := BeforeAll
              BeforeEach := BeforeEach
              AfterEach := AfterEach
              IdToSpecMap := m2 } = Except.ok After :=
        fun m2 => ⟨_, PopFinishedScopes_unfinished _ Below Child BeforeAll BeforeEach
          AfterEach m2 hne⟩
      have hrec := PostDefineEvents_children (Second :: Others) (by simp) hpr
        (Below ++ [Child]) BeforeAll BeforeEach AfterEach m ma (Child.NumScopes + k) hFirst hPop2
      have hfuel : NumScopesOfList (Child :: Second :: Others) + k
          = NumScopesOfList (Second :: Others) + (Child.NumScopes + k) := by
        simp only [NumScopesOfList]; omega
      have hstack : Below ++ Child :: Second :: Others = (Below ++ [Child]) ++ Second :: Others := by
        simp
      rw [hfuel, hstack, hrec,
        ContinueEvents_unfinished _ Below Child BeforeAll BeforeEach AfterEach ma hne,
        PostDefineEvents_scope Child hpc Below BeforeAll BeforeEach AfterEach ma m1 k hLast hPop]
      have hevents : EventsOfChildren (Child :: Second :: Others) =
          EventsOfChildren (Second :: Others) ++ EventsOfScope Child := by
        simp [EventsOfChildren]
      rw [hevents, List.append_assoc]
end

theorem VisitedScopes_append {γ ν : Type} (A B : List (FTraversalEvent γ ν)) :
    VisitedScopes (A ++ B) = VisitedScopes A ++ VisitedScopes B := by
  induction A with
  | nil => rfl
  | cons Event Rest ih =>
    cases Event with
    | Visit Scope => simp [VisitedScopes, ih]
    | Pop PoppedScope => simp [VisitedScopes, ih]

theorem PoppedScopes_append {γ ν : Type} (A B : List (FTraversalEvent γ ν)) :
    PoppedScopes (A ++ B) = PoppedScopes A ++ PoppedScopes B := by
  induction A with
  | nil => rfl
  | cons Event Rest ih =>
    cases Event with
    | Visit Scope => simp [PoppedScopes, ih]
    | Pop PoppedScope => simp [PoppedScopes, ih]

mutual
theorem VisitedScopes_scope {γ ν : Type} :
    ∀ Scope : FSpecDefinitionScope γ ν, VisitedScopes (EventsOfScope Scope) = Scope.AllScopes
  | ⟨Description, BeforeAll, BeforeEach, AfterEach, It, Children, Variables⟩ => by
    simp only [EventsOfScope, VisitedScopes, VisitedScopes_append, List.append_nil,
      FSpecDefinitionScope.AllScopes]
    rw [VisitedScopes_children Children]
theorem VisitedScopes_children {γ ν : Type} :
    ∀ Children : List (FSpecDefinitionScope γ ν),
      VisitedScopes (EventsOfChildren Children) = AllScopesOfList Children
  | [] => rfl
  | Child :: Rest => by
    simp only [EventsOfChildren, VisitedScopes_append, AllScopesOfList]
    rw [VisitedScopes_children Rest, VisitedScopes_scope Child]
end

mutual
theorem AllScopes_length {γ ν : Type} :
    ∀ Scope : FSpecDefinitionScope γ ν, Scope.AllScopes.length = Scope.NumScopes
  | ⟨Description, BeforeAll, BeforeEach, AfterEach, It, Children, Variables⟩ => by
    simp only [FSpecDefinitionScope.AllScopes, FSpecDefinitionScope.NumScopes,
      List.length_cons]
    rw [AllScopesOfList_length Children]
    omega
theorem AllScopesOfList_length {γ ν : Type} :
    ∀ Children : List (FSpecDefinitionScope γ ν),
      (AllScopesOfList Children).length = NumScopesOfList Children
  | [] => rfl
  | Child :: Rest => by
    simp only [AllScopesOfList, NumScopesOfList, List.length_append]
    rw [AllScopesOfList_length Rest, AllScopes_length Child]
    omega
end

mutual
theorem PoppedScopes_length {γ ν : Type} :
    ∀ Scope : FSpecDefinitionScope γ ν,
      (PoppedScopes (EventsOfScope Scope)).length = Scope.NumScopes
  | ⟨Description, BeforeAll, BeforeEach, AfterEach, It, Children, Variables⟩ => by
    simp only [EventsOfScope, PoppedScopes, PoppedScopes_append, List.length_append,
      List.length_cons, List.length_nil, FSpecDefinitionScope.NumScopes]
    rw [PoppedScopes_children_length Children]
    omega
theorem PoppedScopes_children_length {γ ν : Type} :
    ∀ Children : List (FSpecDefinitionScope γ ν),
      (PoppedScopes (EventsOfChildren Children)).length = NumScopesOfList Children
  | [] => rfl
  | Child :: Rest => by
    simp only [EventsOfChildren, PoppedScopes_append, NumScopesOfList, List.length_append]
    rw [PoppedScopes_children_length Rest, PoppedScopes_length Child]
    omega
end

theorem PopsFollowVisits_append {γ ν : Type} (A B : List (FTraversalEvent γ ν))
    (hA : PopsFollowVisits A) (hB : PopsFollowVisits B) : PopsFollowVisits (A ++ B) := by
  intro Front Back PoppedScope hSplit
  rcases List.append_eq_append_iff.mp hSplit with ⟨Middle, hFront, hB2⟩ | ⟨Middle, hA2, hRest⟩
  · obtain ⟨Scope, hMem, hEq⟩ := hB Middle Back PoppedScope hB2
    refine ⟨Scope, ?_, hEq⟩
    rw [hFront]
    exact List.mem_append_right _ hMem
  · cases Middle with
    | nil =>
      simp only [List.nil_append] at hRest
      simp only [List.append_nil] at hA2
      obtain ⟨Scope, hMem, hEq⟩ := hB [] Back PoppedScope hRest.symm
      exact absurd hMem (List.not_mem_nil _)
    | cons First Others =>
      simp only [List.cons_append, List.cons.injEq] at hRest
      obtain ⟨hFirst, hOthers⟩ := hRest
      subst hFirst
      exact hA Front Others PoppedScope hA2

mutual
theorem PopsFollowVisits_scope {γ ν : Type} :
    ∀ Scope : FSpecDefinitionScope γ ν, PopsFollowVisits (EventsOfScope Scope)
  | ⟨Description, BeforeAll, BeforeEach, AfterEach, It, Children, Variables⟩ => by
    intro Front Back PoppedScope hSplit
    simp only [EventsOfScope] at hSplit
    cases Front with
    | nil => simp at hSplit
    | cons First Others =>
      simp only [List.cons_append, List.cons.injEq] at hSplit
      obtain ⟨hFirst, hTail⟩ := hSplit
      rcases List.append_eq_append_iff.mp hTail with ⟨Middle, hOthers, hLast⟩ |
        ⟨Middle, hInner, hRest⟩
      · cases Middle with
        | nil =>
          simp only [List.nil_append, List.cons.injEq] at hLast
          refine ⟨(⟨Description, BeforeAll, BeforeEach, AfterEach, It, Children, Variables⟩ :
            FSpecDefinitionScope γ ν),
            ?_, (FTraversalEvent.Pop.inj hLast.1).symm⟩
          rw [← hFirst]
          exact List.mem_cons_self _ _
        | cons Event More =>
          simp only [List.cons_append, List.cons.injEq] at hLast
          exact absurd hLast.2 (by simp)
      · cases Middle with
        | nil =>
          simp only [List.nil_append, List.cons.injEq] at hRest
          refine ⟨(⟨Description, BeforeAll, BeforeEach, AfterEach, It, Children, Variables⟩ :
            FSpecDefinitionScope γ ν),
            ?_, FTraversalEvent.Pop.inj hRest.1⟩
          rw [← hFirst]
          exact List.mem_cons_self _ _
        | cons Event More =>
          simp only [List.cons_append, List.cons.injEq] at hRest
          obtain ⟨hEvent, _⟩ := hRest
          subst hEvent
          obtain ⟨Scope, hMem, hEq⟩ :=
            PopsFollowVisits_children Children Others More PoppedScope hInner
          exact ⟨Scope, List.mem_cons_of_mem _ hMem, hEq⟩
theorem PopsFollowVisits_children {γ ν : Type} :
    ∀ Children : List (FSpecDefinitionScope γ ν), PopsFollowVisits (EventsOfChildren Children)
  | [] => by
    intro Front Back PoppedScope hSplit
    simp [EventsOfChildren] at hSplit
  | Child :: Rest => by
    simp only [EventsOfChildren]
    exact PopsFollowVisits_append _ _ (PopsFollowVisits_children Rest)
      (PopsFollowVisits_scope Child)
end

theorem AllScopes_self {γ ν : Type} (Scope : FSpecDefinitionScope γ ν) :
    Scope ∈ Scope.AllScopes := by
  obtain ⟨Description, BeforeAll, BeforeEach, AfterEach, It, Children, Variables⟩ := Scope
  simp [FSpecDefinitionScope.AllScopes]

theorem AllScopesOfList_of_mem {γ ν : Type} (Children : List (FSpecDefinitionScope γ ν))
    (Child : FSpecDefinitionScope γ ν) (hmem : Child ∈ Children)
    (Scope : FSpecDefinitionScope γ ν) (hScope : Scope ∈ Child.AllScopes) :
    Scope ∈ AllScopesOfList Children := by
  induction Children with
  | nil => simp at hmem
  | cons First Rest ih =>
    simp only [AllScopesOfList, List.mem_append]
    rcases List.mem_cons.mp hmem with h | h
    · right
      rw [← h]
      exact hScope
    · left
      exact ih h

theorem AllScopes_of_path {γ ν : Type} (Root Scope : FSpecDefinitionScope γ ν)
    (Path : List (FSpecDefinitionScope γ ν)) (hPath : ScopePath Root Path Scope) :
    Scope ∈ Root.AllScopes := by
  induction hPath with
  | Here Scope => exact AllScopes_self Scope
  | Child Parent Child Scope Path hChild _ ih =>
    obtain ⟨Description, BeforeAll, BeforeEach, AfterEach, It, Children, Variables⟩ := Parent
    simp only [FSpecDefinitionScope.AllScopes, List.mem_cons]
    right
    exact AllScopesOfList_of_mem Children Child hChild Scope ih

theorem PostDefineLoop_empty {γ ν : Type} (k : Nat) (State : FPostDefineState γ ν)
    (hEmpty : State.Stack = []) : PostDefineLoop k State = Except.ok State := by
  cases k <;> simp [PostDefineLoop, hEmpty]

theorem PostDefineEvents_empty {γ ν : Type} (k : Nat) (State : FPostDefineState γ ν)
    (hEmpty : State.Stack = []) : PostDefineEvents k State = [] := by
  cases k <;> simp [PostDefineEvents, hEmpty]

/-- On a pruned tree whose specs are registered without a failed check, the loop of
`PostDefine` ends, with any fuel from the number of scopes on, with an empty stack and
empty hook sequences, and its events are those of the recursion over the tree. -/
theorem PostDefineLoop_root {γ ν : Type} (Root : FSpecDefinitionScope γ ν)
    (hp : Root.Pruned) (m m1 : List (String × FSpec γ ν))
    (hAdd : AddSpecs m (SpecsOfScope [] [] [] [] Root) = Except.ok m1) (k : Nat) :
    PostDefineLoop (Root.NumScopes + k) (PostDefineStart Root m) =
      Except.ok
        { Stack := []
          BeforeAll := []
          BeforeEach := []
          AfterEach := []
          IdToSpecMap := m1 } ∧
    PostDefineEvents (Root.NumScopes + k) (PostDefineStart Root m) = EventsOfScope Root := by
  constructor
  · have h := PostDefineLoop_scope Root hp [] [] [] [] m k
    simp only [List.nil_append] at h
    unfold PostDefineStart
    rw [h, hAdd]
    simp only [ContinueAfter, List.length_nil, PopFinishedScopes]
    exact PostDefineLoop_empty k _ rfl
  · have h := PostDefineEvents_scope Root hp [] [] [] [] m m1 k hAdd
      (fun m2 => ⟨_, rfl⟩)
    simp only [List.nil_append] at h
    unfold PostDefineStart
    rw [h]
    simp only [ContinueEvents, List.length_nil, PopFinishedScopes, List.drop_nil,
      List.reverse_nil, List.map_nil, List.nil_append]
    rw [PostDefineEvents_empty k _ rfl, List.append_nil]

/-! ## Claims -/

/-- C1: for every scope tree built by the declarations of `Define` whose identifiers are
distinct as keys of `IdToSpecMap`, that is up to the case of their letters, as the
assertion of `PostDefine` demands, compilation succeeds, and for every
`It` declared in a scope at the end of a root-to-scope path the map holds under the
identifier of the `It` a spec whose commands are exactly the `BeforeAll` commands of the
scopes of the path, outermost first, then their `BeforeEach` commands, outermost first,
then the body of the `It`, then the reverse of their `AfterEach` commands; so no hook of
a scope off the path is in the chain. -/
theorem C1_hook_chain_of_compiled_spec {σ ν : Type} (Decls : List (FSpecDecl σ ν))
    (bEnableSkipIfError : Bool) (DefaultTimeout HandleCounter : Int)
    (hIds : ((DeclaredRoot Decls bEnableSkipIfError DefaultTimeout HandleCounter).AllIt.map
      (fun It => FKeyFuncs.Fold It.Id)).Nodup) :
    ∃ Compiled,
      FEnhancedAutomationSpecBase.EnsureDefinitions (RunDecls Decls)
        (FEnhancedAutomationSpecBase.Fresh σ ν bEnableSkipIfError DefaultTimeout HandleCounter)
        = Except.ok Compiled ∧
      ∀ (Path : List (FScope σ ν)) (Scope : FScope σ ν)
        (It : FSpecItDefinition (FLatentCommand σ)),
        ScopePath (DeclaredRoot Decls bEnableSkipIfError DefaultTimeout HandleCounter)
          Path Scope →
        It ∈ Scope.It →
        ∃ Spec, TMapFind Compiled.IdToSpecMap It.Id = some Spec ∧
          Spec.Commands =
            HooksAlong (fun S => S.BeforeAll) Path ++ HooksAlong (fun S => S.BeforeEach) Path
              ++ [It.Command] ++ (HooksAlong (fun S => S.AfterEach) Path).reverse := by
  obtain ⟨Compiled, hrun⟩ :=
    EnsureDefinitions_Fresh_total Decls bEnableSkipIfError DefaultTimeout HandleCounter hIds
  refine ⟨Compiled, hrun, ?_⟩
  intro Path Scope It hPath hIt
  obtain ⟨Declared, _, hpost, hstack, hp, _, hmap⟩ :=
    EnsureDefinitions_Fresh Decls bEnableSkipIfError DefaultTimeout HandleCounter Compiled hrun
  obtain ⟨Under, hfind⟩ := CompiledSpec_of_path Declared Compiled _ hstack hp hmap hpost
    Path Scope hPath It hIt
  exact ⟨_, hfind, rfl⟩

/-- C1 at the demo: the `It` of the scope with two `BeforeEach` blocks, at the end of the
path root, "BeforeAll()", "when there are multiple expectations and multiple BeforeEach
blocks". -/
theorem C1_hook_chain_of_compiled_spec_witness :
    ∃ Compiled,
      FBeforeAllDemoSpec.Compiled = Except.ok Compiled ∧
      ∃ Spec, TMapFind Compiled.IdToSpecMap FBeforeAllDemoSpec.SecondIt.Id = some Spec ∧
        Spec.Commands =
          HooksAlong (fun S => S.BeforeAll)
              [FBeforeAllDemoSpec.Root, FBeforeAllDemoSpec.Group, FBeforeAllDemoSpec.SecondScope]
            ++ HooksAlong (fun S => S.BeforeEach)
              [FBeforeAllDemoSpec.Root, FBeforeAllDemoSpec.Group, FBeforeAllDemoSpec.SecondScope]
            ++ [FBeforeAllDemoSpec.SecondIt.Command]
            ++ (HooksAlong (fun S => S.AfterEach)
              [FBeforeAllDemoSpec.Root, FBeforeAllDemoSpec.Group,
                FBeforeAllDemoSpec.SecondScope]).reverse :=
  (C1_hook_chain_of_compiled_spec FBeforeAllDemoSpec.Define true 300000000 1
    (by decide!)).imp
    (fun _ h => ⟨h.1, h.2
      [FBeforeAllDemoSpec.Root, FBeforeAllDemoSpec.Group, FBeforeAllDemoSpec.SecondScope]
      FBeforeAllDemoSpec.SecondScope FBeforeAllDemoSpec.SecondIt
      (ScopePath.Child _ FBeforeAllDemoSpec.Group _ _
        (headD_mem _ _ (by decide!))
        (ScopePath.Child _ FBeforeAllDemoSpec.SecondScope _ _
          (getLastD_mem _ _ (by decide!))
          (ScopePath.Here _)))
      (headD_mem _ _ (by decide!))⟩)

/-- C2: let the command of a blocking `BeforeAll` with some block handle be polled any
number of times within one session, as a copy in the chain of any spec that inherits it,
between any other steps that neither clear the session nor belong to this handle.  Then
its body is invoked at most once in total; the first poll that skip-if-errored does not
suppress invokes it, and it is then invoked exactly once; and every poll of the command
after the handle is marked leaves the spec object as it is. -/
theorem C2_before_all_body_at_most_once_per_session {σ : Type} (BlockHandle : Int)
    (DoWork : TUserWork σ) (bSkipIfErrored : Bool)
    (Steps : List (FSpecWorld σ → Except FFault (FSpecWorld σ)))
    (hSteps : ∀ Step ∈ Steps,
      Step = PollBlocking
        { Work := CreateRunWorkOnceWrapper BlockHandle (UserLambda DoWork)
          bSkipIfErrored := bSkipIfErrored } ∨ ForeignTo BlockHandle Step)
    (Start End : FSpecWorld σ) (hSession : Start.SuiteSessionState.isSome = true)
    (hFresh : Start.HasBlockRun BlockHandle = false)
    (hNone : Start.BodiesInvoked.count BlockHandle = 0)
    (hRun : RunSteps Steps Start = Except.ok End) :
    End.BodiesInvoked.count BlockHandle ≤ 1 ∧
    (∀ Before After Mid,
      Steps = Before ++ PollBlocking
        { Work := CreateRunWorkOnceWrapper BlockHandle (UserLambda DoWork)
          bSkipIfErrored := bSkipIfErrored } :: After →
      (∀ Step ∈ Before, ForeignTo BlockHandle Step) →
      RunSteps Before Start = Except.ok Mid →
      (bSkipIfErrored && Mid.HasAnyErrors) = false →
      ∃ Ran, PollBlocking
          { Work := CreateRunWorkOnceWrapper BlockHandle (UserLambda DoWork)
            bSkipIfErrored := bSkipIfErrored } Mid = Except.ok Ran ∧
        Ran.Env = DoWork Mid.Env ∧
        Ran.BodiesInvoked = Mid.BodiesInvoked ++ [BlockHandle] ∧
        Ran.HasBlockRun BlockHandle = true ∧
        End.BodiesInvoked.count BlockHandle = 1) ∧
    (∀ Spec : FSpecWorld σ, Spec.HasBlockRun BlockHandle = true →
      PollBlocking
        { Work := CreateRunWorkOnceWrapper BlockHandle (UserLambda DoWork)
          bSkipIfErrored := bSkipIfErrored } Spec = Except.ok Spec) := by
  have hinv : OnceInvariant BlockHandle Start := ⟨hSession, by omega, fun _ => hNone⟩
  refine ⟨(RunSteps_invariant BlockHandle DoWork bSkipIfErrored Steps hSteps Start End hinv
    hRun).1.2.1, ?_, fun Spec h => PollWrapper_marked BlockHandle _ bSkipIfErrored Spec h⟩
  intro Before After Mid hsplit hBefore hMid hskip
  have hB : ∀ Step ∈ Before, Step = PollBlocking
      { Work := CreateRunWorkOnceWrapper BlockHandle (UserLambda DoWork)
        bSkipIfErrored := bSkipIfErrored } ∨ ForeignTo BlockHandle Step :=
    fun S hS => Or.inr (hBefore S hS)
  have hA : ∀ Step ∈ After, Step = PollBlocking
      { Work := CreateRunWorkOnceWrapper BlockHandle (UserLambda DoWork)
        bSkipIfErrored := bSkipIfErrored } ∨ ForeignTo BlockHandle Step := by
    intro S hS
    apply hSteps S
    rw [hsplit]
    exact List.mem_append_right _ (List.mem_cons_of_mem _ hS)
  have hMidInv := (RunSteps_invariant BlockHandle DoWork bSkipIfErrored Before hB Start Mid
    hinv hMid).1
  -- the foreign steps before the first poll leave the handle unmarked
  have hMidFresh : Mid.HasBlockRun BlockHandle = false ∧
      Mid.BodiesInvoked.count BlockHandle = 0 := by
    clear hsplit hRun hB hMidInv hskip hA
    induction Before generalizing Start with
    | nil =>
      simp only [RunSteps, Except.ok.injEq] at hMid
      subst hMid
      exact ⟨hFresh, hNone⟩
    | cons Step Rest ih =>
      simp only [RunSteps] at hMid
      cases hstep : Step Start with
      | error e => simp [hstep] at hMid
      | ok Next =>
        simp only [hstep] at hMid
        obtain ⟨h1, h2, h3⟩ := hBefore Step (List.mem_cons_self _ _) Start Next hstep
        exact ih Next (h1 hSession) (by rw [h2]; exact hFresh) (by rw [h3]; exact hNone)
          ⟨h1 hSession, by rw [h3]; omega, fun _ => by rw [h3]; exact hNone⟩
          (fun S hS => hBefore S (List.mem_cons_of_mem _ hS)) hMid
  cases hs : Mid.SuiteSessionState with
  | none =>
    have h0 := hMidInv.1
    rw [hs] at h0
    simp at h0
  | some Session =>
    have hrun3 : Session.HasBlockRun BlockHandle = false := by
      simpa [FSpecWorld.HasBlockRun, hs] using hMidFresh.1
    have hpoll := PollWrapper_unmarked BlockHandle DoWork bSkipIfErrored Mid Session hs hrun3
      hskip
    refine ⟨_, hpoll, rfl, rfl, ?_, ?_⟩
    · simp [FSpecWorld.HasBlockRun, FEnhancedTestSessionState.HasBlockRun]
    · rw [hsplit, RunSteps_append, hMid] at hRun
      simp only [RunSteps, hpoll] at hRun
      have hRanInv : OnceInvariant BlockHandle
          ({ Env := DoWork Mid.Env
             SuiteSessionState := some { BlocksRun := Session.BlocksRun ++ [BlockHandle] }
             BodiesInvoked := Mid.BodiesInvoked ++ [BlockHandle] } : FSpecWorld σ) := by
        refine ⟨rfl, ?_, ?_⟩
        · simp only [List.count_append, hMidFresh.2]
          simp
        · intro h
          simp [FSpecWorld.HasBlockRun, FEnhancedTestSessionState.HasBlockRun] at h
      obtain ⟨_, hkeep⟩ := RunSteps_invariant BlockHandle DoWork bSkipIfErrored After hA _ End
        hRanInv hRun
      rw [(hkeep (by simp [FSpecWorld.HasBlockRun,
        FEnhancedTestSessionState.HasBlockRun])).2]
      simp only [List.count_append, hMidFresh.2]
      simp

/-- C2 at the demo: the polls of the chains of the two specs of the first scope, the second
executed twice, in a fresh session; and the compiled chains themselves, queued one after
the other, leave the counter at 1 with the body of handle 1 invoked once. -/
theorem C2_before_all_body_at_most_once_per_session_witness :
    (ValueOf (RunSteps FBeforeAllDemoSpec.FirstScopePolls FBeforeAllDemoSpec.FreshSession)
      FBeforeAllDemoSpec.FreshSession).BodiesInvoked.count 1 ≤ 1 ∧
    Observe (ExecuteLatentCommands 0
        (CommandsOf FBeforeAllDemoSpec.Compiled
            (FBeforeAllDemoSpec.FirstScope.It.headD (NoItDefinition FBeforeAllDemoSpec)).Id
          ++ CommandsOf FBeforeAllDemoSpec.Compiled
            (FBeforeAllDemoSpec.FirstScope.It.getLastD (NoItDefinition FBeforeAllDemoSpec)).Id
          ++ CommandsOf FBeforeAllDemoSpec.Compiled
            (FBeforeAllDemoSpec.FirstScope.It.getLastD (NoItDefinition FBeforeAllDemoSpec)).Id)
        FBeforeAllDemoSpec.FreshSession)
      = some ({ Test1RunCount := 1, Test2RunCount := 0 }, [], [1], 0) :=
  ⟨(C2_before_all_body_at_most_once_per_session 1
    (fun Env =>
      { Env with Members :=
        { Env.Members with Test1RunCount := WrapInt32 (Env.Members.Test1RunCount + 1) } })
    true FBeforeAllDemoSpec.FirstScopePolls
    (by
      intro Step hStep
      simp only [FBeforeAllDemoSpec.FirstScopePolls, List.mem_cons, List.mem_singleton,
        List.not_mem_nil, or_false] at hStep
      rcases hStep with h | h | h | h | h | h
      · exact Or.inl h
      · exact Or.inr (h ▸ ForeignTo_user 1 _ true)
      · exact Or.inl h
      · exact Or.inr (h ▸ ForeignTo_user 1 _ true)
      · exact Or.inl h
      · exact Or.inr (h ▸ ForeignTo_user 1 _ true))
    FBeforeAllDemoSpec.FreshSession
    (ValueOf (RunSteps FBeforeAllDemoSpec.FirstScopePolls FBeforeAllDemoSpec.FreshSession)
      FBeforeAllDemoSpec.FreshSession)
    (by decide) (by decide) (by decide)
    (ValueOf_eq _ _ (by decide!))).1, by decide!⟩

/-- C3: when the identifiers of the declarations are distinct as keys of `IdToSpecMap`,
that is up to the case of their letters, compilation succeeds, and
the command chain of every compiled spec starts with all `BeforeAll` commands of
the scopes of its path and goes on with all their `BeforeEach` commands, so every
`BeforeAll` command comes before every `BeforeEach` command, whatever the order of the
declarations inside a scope was.  In the demo, whose scope declares `BeforeEach` (times
two), `BeforeAll` (plus one), `BeforeEach` (plus one) in that order, executing the chain
of its `It` in a fresh session from 0 ends without an error in the body, which tests for
3, and with the counter at 3. -/
theorem C3_before_all_precedes_before_each {σ ν : Type} (Decls : List (FSpecDecl σ ν))
    (bEnableSkipIfError : Bool) (DefaultTimeout HandleCounter : Int)
    (hIds : ((DeclaredRoot Decls bEnableSkipIfError DefaultTimeout HandleCounter).AllIt.map
      (fun It => FKeyFuncs.Fold It.Id)).Nodup) :
    (∃ Compiled,
      FEnhancedAutomationSpecBase.EnsureDefinitions (RunDecls Decls)
        (FEnhancedAutomationSpecBase.Fresh σ ν bEnableSkipIfError DefaultTimeout HandleCounter)
        = Except.ok Compiled ∧
      ∀ (Id : String) (Spec : FSpec (FLatentCommand σ) ν),
        TMapFind Compiled.IdToSpecMap Id = some Spec →
        ∃ Path Scope It,
          ScopePath (DeclaredRoot Decls bEnableSkipIfError DefaultTimeout HandleCounter)
            Path Scope ∧
          It ∈ Scope.It ∧
          Spec.Commands =
            HooksAlong (fun S => S.BeforeAll) Path
              ++ (HooksAlong (fun S => S.BeforeEach) Path
                ++ (It.Command :: (HooksAlong (fun S => S.AfterEach) Path).reverse))) ∧
    (FBeforeAllDemoSpec.SecondScope.BeforeAll.length = 1 ∧
      FBeforeAllDemoSpec.SecondScope.BeforeEach.length = 2 ∧
      Observe (ExecuteLatentCommands 0
        (CommandsOf FBeforeAllDemoSpec.Compiled FBeforeAllDemoSpec.SecondIt.Id)
        FBeforeAllDemoSpec.FreshSession)
      = some ({ Test1RunCount := 0, Test2RunCount := 3 }, [], [2], 0)) := by
  refine ⟨?_, by decide!, by decide!, by decide!⟩
  obtain ⟨Compiled, hrun⟩ :=
    EnsureDefinitions_Fresh_total Decls bEnableSkipIfError DefaultTimeout HandleCounter hIds
  refine ⟨Compiled, hrun, ?_⟩
  intro Id Spec hfind
  obtain ⟨Path, Scope, It, Under, hPath, hIt, hSpec⟩ :=
    CompiledAlong_of_entry Decls bEnableSkipIfError DefaultTimeout HandleCounter Compiled hrun
      Id Spec hfind
  refine ⟨Path, Scope, It, hPath, hIt, ?_⟩
  rw [hSpec]
  simp [CompileIt]

/-- C3 at the demo: its declarations compile, and the chain of the spec with two
`BeforeEach` blocks ends with the counter at 3. -/
theorem C3_before_all_precedes_before_each_witness :
    (∃ Compiled, FBeforeAllDemoSpec.Compiled = Except.ok Compiled) ∧
    Observe (ExecuteLatentCommands 0
        (CommandsOf FBeforeAllDemoSpec.Compiled FBeforeAllDemoSpec.SecondIt.Id)
        FBeforeAllDemoSpec.FreshSession)
      = some ({ Test1RunCount := 0, Test2RunCount := 3 }, [], [2], 0) :=
  ⟨(C3_before_all_precedes_before_each FBeforeAllDemoSpec.Define true 300000000 1
      (by decide!)).1.imp (fun _ h => h.1),
    (C3_before_all_precedes_before_each FBeforeAllDemoSpec.Define true 300000000 1
      (by decide!)).2.2.2⟩

/-- C4, the code at the failing input: for the `It` of the group "Second", whose path is
the root, "Outer", "Second", the names declared on the path are `X` alone, bound in
"Outer"; yet the merged scope of its compiled spec binds `X` to the variable of the
sibling group "First" and binds `Y`, which only "First" declares.  The hook of "First"
does not reach the chain of that spec, which is the body alone. -/
theorem C4_merged_scope_takes_variables_of_waiting_siblings :
    SiblingScopesRoot.Variables = [] ∧
    SiblingScopesOuter.Variables = [("X", "X of Outer")] ∧
    SiblingScopesSecond.Variables = [] ∧
    SiblingScopesFirst.Variables = [("X", "X of First"), ("Y", "Y of First")] ∧
    SiblingScopesSecond.It.map (fun It => It.Id) = ["Outer Second reads the X of Outer"] ∧
    VariablesOf SiblingScopesCompiled "Outer Second reads the X of Outer"
      = [("X", "X of First"), ("Y", "Y of First")] ∧
    SiblingScopesFirst.BeforeEach.length = 1 ∧
    (CommandsOf SiblingScopesCompiled "Outer Second reads the X of Outer").length = 1 := by
  refine ⟨by decide!, by decide!, by decide!, by decide!, by decide!, by decide!, by decide!,
    by decide!⟩

/-- C5: when the identifiers of the declarations are distinct as keys of `IdToSpecMap`,
that is up to the case of their letters, compilation succeeds, and for every `It`
declared in a scope and every variable name that the scope itself declares, the merged
variable scope of the compiled spec binds the name to the variable of that scope,
whatever the other scopes on the traversal stack declare: the scope being compiled is
merged last and overwrites.  Names are keys of a `TMap` and match up to the case of
their letters. -/
theorem C5_own_variable_wins_in_merged_scope {σ ν : Type} (Decls : List (FSpecDecl σ ν))
    (bEnableSkipIfError : Bool) (DefaultTimeout HandleCounter : Int)
    (hIds : ((DeclaredRoot Decls bEnableSkipIfError DefaultTimeout HandleCounter).AllIt.map
      (fun It => FKeyFuncs.Fold It.Id)).Nodup) :
    ∃ Compiled,
      FEnhancedAutomationSpecBase.EnsureDefinitions (RunDecls Decls)
        (FEnhancedAutomationSpecBase.Fresh σ ν bEnableSkipIfError DefaultTimeout HandleCounter)
        = Except.ok Compiled ∧
      ∀ (Path : List (FScope σ ν)) (Scope : FScope σ ν)
        (It : FSpecItDefinition (FLatentCommand σ)) (Name : String) (Variable : ν),
        ScopePath (DeclaredRoot Decls bEnableSkipIfError DefaultTimeout HandleCounter)
          Path Scope →
        It ∈ Scope.It →
        TMapFind Scope.Variables Name = some Variable →
        ∃ Spec, TMapFind Compiled.IdToSpecMap It.Id = some Spec ∧
          TMapFind Spec.Variables Name = some Variable := by
  obtain ⟨Compiled, hrun⟩ :=
    EnsureDefinitions_Fresh_total Decls bEnableSkipIfError DefaultTimeout HandleCounter hIds
  refine ⟨Compiled, hrun, ?_⟩
  intro Path Scope It Name Variable hPath hIt hOwn
  obtain ⟨Declared, _, hpost, hstack, hp, hv, hmap⟩ :=
    EnsureDefinitions_Fresh Decls bEnableSkipIfError DefaultTimeout HandleCounter Compiled hrun
  obtain ⟨Under, hfind⟩ := CompiledSpec_of_path Declared Compiled _ hstack hp hmap hpost
    Path Scope hPath It hIt
  refine ⟨_, hfind, ?_⟩
  simp only [CompileIt]
  rw [MergeStackVariables_concat,
    TMapFind_Append _ _ _ (ValidVariables_of_path _ Scope Path hPath hv), hOwn]

/-- C5 at the sibling groups: the `It` of "First", which redefines `X`, sees its own `X`
and not the `X` of "Outer". -/
theorem C5_own_variable_wins_in_merged_scope_witness :
    ∃ Compiled,
      SiblingScopesCompiled = Except.ok Compiled ∧
      ∃ Spec, TMapFind Compiled.IdToSpecMap
          (SiblingScopesFirst.It.headD (NoItDefinition Unit)).Id = some Spec ∧
        TMapFind Spec.Variables "X" = some "X of First" :=
  (C5_own_variable_wins_in_merged_scope SiblingScopesDefine true 300000000 1
    (by decide!)).imp
    (fun _ h => ⟨h.1, h.2
      [SiblingScopesRoot, SiblingScopesOuter, SiblingScopesFirst] SiblingScopesFirst
      (SiblingScopesFirst.It.headD (NoItDefinition Unit)) "X" "X of First"
      (ScopePath.Child _ SiblingScopesOuter _ _ (headD_mem _ _ (by decide!))
        (ScopePath.Child _ SiblingScopesFirst _ _ (headD_mem _ _ (by decide!))
          (ScopePath.Here _)))
      (headD_mem _ _ (by decide!)) (by decide!)⟩)

/-- C6: on the tree that the declarations of `Define` build and an empty `IdToSpecMap`,
`PostDefine` fails its uniqueness assertion exactly when two `It` declarations of the tree
carry identifiers that are the same key of the map, that is the same text up to the case
of its letters; when the identifiers are distinct in that sense it succeeds, and the map
holds, in compilation order, one entry per `It` declaration, keyed by the identifier of
the `It` and carrying its identifier, description, file name and line number.  The `It`
declarations of the tree are those found at the end of some path from the root. -/
theorem C6_postdefine_fails_iff_duplicate_identifier {σ ν : Type}
    (Decls : List (FSpecDecl σ ν)) (bEnableSkipIfError : Bool)
    (DefaultTimeout HandleCounter : Int) :
    (PostDefine (DeclaredRoot Decls bEnableSkipIfError DefaultTimeout HandleCounter) []
        = Except.error FFault.CheckFailed ↔
      ¬ ((DeclaredRoot Decls bEnableSkipIfError DefaultTimeout HandleCounter).AllIt.map
        (fun It => FKeyFuncs.Fold It.Id)).Nodup) ∧
    (((DeclaredRoot Decls bEnableSkipIfError DefaultTimeout HandleCounter).AllIt.map
        (fun It => FKeyFuncs.Fold It.Id)).Nodup →
      ∃ Map, PostDefine (DeclaredRoot Decls bEnableSkipIfError DefaultTimeout HandleCounter) []
          = Except.ok Map ∧
        Map.map (fun Entry => (Entry.1, Entry.2.Id, Entry.2.Description, Entry.2.Filename,
            Entry.2.LineNumber))
          = (DeclaredRoot Decls bEnableSkipIfError DefaultTimeout HandleCounter).AllIt.map
            (fun It => (It.Id, It.Id, It.Description, It.Filename, It.LineNumber))) ∧
    (∀ It, It ∈ (DeclaredRoot Decls bEnableSkipIfError DefaultTimeout HandleCounter).AllIt ↔
      ∃ Path Scope,
        ScopePath (DeclaredRoot Decls bEnableSkipIfError DefaultTimeout HandleCounter)
          Path Scope ∧ It ∈ Scope.It) ∧
    (∀ Id Other : String,
      FKeyFuncs.Fold Id = FKeyFuncs.Fold Other ↔
        Id.data.map FCharToLower = Other.data.map FCharToLower) := by
  have hp := (DeclaredRoot_pruned Decls bEnableSkipIfError DefaultTimeout HandleCounter).1
  have hids := SpecsOfScope_ids
    (DeclaredRoot Decls bEnableSkipIfError DefaultTimeout HandleCounter) [] [] [] []
  rw [PostDefine_empty_eq _ hp, SpecsOfScope_folded_id_list]
  refine ⟨?_, ?_, ?_, ?_⟩
  · by_cases hnd : ((DeclaredRoot Decls bEnableSkipIfError DefaultTimeout
        HandleCounter).AllIt.map (fun It => FKeyFuncs.Fold It.Id)).Nodup
    · simp [hnd]
    · simp [hnd]
  · intro hnd
    refine ⟨_, by rw [if_pos hnd], ?_⟩
    rw [List.map_map]
    have := congrArg (List.map (fun (q : String × String × String × Int) =>
      (q.1, q.1, q.2.1, q.2.2.1, q.2.2.2))) hids
    simpa [List.map_map, Function.comp, SpecEntry] using this
  · intro It
    constructor
    · exact mem_AllIt _ It
    · rintro ⟨Path, Scope, hPath, hIt⟩
      exact AllIt_of_path _ Scope Path hPath It hIt
  · intro Id Other
    rw [Fold_string, Fold_string]
    constructor
    · intro h
      exact congrArg String.data h
    · intro h
      rw [h]

/-- C6 where the claim fails: the two tests of `CaseVariantDefine` carry the identifiers
"A x" and "A X", which are two different texts, and `PostDefine` fails its uniqueness
assertion on them, because the map takes them for the same key. -/
theorem C6_identifiers_that_differ_in_case_fail_the_assertion :
    (DeclaredRoot CaseVariantDefine true 300000000 1).AllIt.map (fun It => It.Id) =
      ["A x", "A X"] ∧
    ("A x" : String) ≠ "A X" ∧
    FaultOf (PostDefine (DeclaredRoot CaseVariantDefine true 300000000 1) []) =
      some FFault.CheckFailed ∧
    FaultOf (FEnhancedAutomationSpecBase.EnsureDefinitions (RunDecls CaseVariantDefine)
      (FEnhancedAutomationSpecBase.Fresh Unit Unit true 300000000 1)) =
      some FFault.CheckFailed := by
  refine ⟨by decide!, by decide, by decide!, by decide!⟩

/-- C7: once `EnsureDefinitions` has run, `bHasBeenDefined` is set and every further call,
with whatever `Define`, returns the spec object as it is: neither `Define` nor
`PostDefine` runs, and `IdToSpecMap` and all other state stay unchanged. -/
theorem C7_ensure_definitions_idempotent {σ ν : Type}
    (Define Again : FEnhancedAutomationSpecBase σ ν →
      Except FFault (FEnhancedAutomationSpecBase σ ν))
    (this Defined : FEnhancedAutomationSpecBase σ ν)
    (hrun : FEnhancedAutomationSpecBase.EnsureDefinitions Define this = Except.ok Defined) :
    Defined.bHasBeenDefined = true ∧
    FEnhancedAutomationSpecBase.EnsureDefinitions Again Defined = Except.ok Defined := by
  have hflag : Defined.bHasBeenDefined = true := by
    unfold FEnhancedAutomationSpecBase.EnsureDefinitions at hrun
    by_cases hb : this.bHasBeenDefined = true
    · simp only [hb, Bool.not_true, Bool.false_eq_true, if_false, Except.ok.injEq] at hrun
      rw [← hrun]
      exact hb
    · have hb2 : this.bHasBeenDefined = false := by simpa using hb
      simp only [hb2, Bool.not_false, if_true] at hrun
      cases hd : Define this with
      | error e => simp [hd] at hrun
      | ok Declared =>
        simp only [hd] at hrun
        unfold FEnhancedAutomationSpecBase.PostDefine at hrun
        cases hh : Declared.DefinitionScopeStack.head? with
        | none => simp [hh] at hrun
        | some Root =>
          simp only [hh] at hrun
          cases hpd : PostDefine Root Declared.IdToSpecMap with
          | error e => simp [hpd] at hrun
          | ok NewMap =>
            simp only [hpd, Except.ok.injEq] at hrun
            rw [← hrun]
  refine ⟨hflag, ?_⟩
  unfold FEnhancedAutomationSpecBase.EnsureDefinitions
  simp [hflag]

/-- C7 at the demo: after the first call a second call, even with a `Define` that would
fail, returns the compiled object. -/
theorem C7_ensure_definitions_idempotent_witness :
    FBeforeAllDemoSpec.CompiledObject.bHasBeenDefined = true ∧
    FEnhancedAutomationSpecBase.EnsureDefinitions (fun _ => Except.error FFault.CheckFailed)
      FBeforeAllDemoSpec.CompiledObject = Except.ok FBeforeAllDemoSpec.CompiledObject :=
  C7_ensure_definitions_idempotent (RunDecls FBeforeAllDemoSpec.Define)
    (fun _ => Except.error FFault.CheckFailed)
    (FEnhancedAutomationSpecBase.Fresh FBeforeAllDemoSpec Unit true 300000000 1)
    FBeforeAllDemoSpec.CompiledObject
    (ValueOf_eq FBeforeAllDemoSpec.Compiled _ (by decide!))

/-- C8: when `Describe` returns, the scope it created is among the children of its parent
exactly when an `It` was declared somewhere inside it: then the built scope is the last
child, it has an `It` or a child, and so has every scope below it; a `Describe` whose
body declares only hooks, variables or empty groups leaves the whole scope stack as it
was, so nothing of it reaches the compiled map.  Hence every scope below the root of a
declared tree has an `It` or a child. -/
theorem C8_describe_keeps_scope_iff_it_declared {σ ν : Type} (InDescription : String)
    (DoWork : List (FSpecDecl σ ν)) (this : FEnhancedAutomationSpecBase σ ν)
    (Below : List (FScope σ ν)) (ParentScope : FScope σ ν)
    (hstack : this.DefinitionScopeStack = Below ++ [ParentScope]) :
    (∃ After Built,
      RunDecl (FSpecDecl.Describe InDescription DoWork) this = Except.ok After ∧
      After.DefinitionScopeStack =
        Below ++ [{ ParentScope with
          Children :=
            ParentScope.Children ++ (if DeclaresItInList DoWork then [Built] else []) }] ∧
      After.DescriptionStack = this.DescriptionStack ∧
      Built.Description = InDescription ∧
      (Built.It ≠ [] ∨ Built.Children ≠ [] ↔ DeclaresItInList DoWork = true) ∧
      Built.Pruned ∧
      (DeclaresItInList DoWork = false →
        After.DefinitionScopeStack = this.DefinitionScopeStack)) ∧
    (∀ (Decls : List (FSpecDecl σ ν)) (bEnableSkipIfError : Bool)
      (DefaultTimeout HandleCounter : Int),
      (DeclaredRoot Decls bEnableSkipIfError DefaultTimeout HandleCounter).Pruned) := by
  refine ⟨?_, fun Decls b t c => (DeclaredRoot_pruned Decls b t c).1⟩
  obtain ⟨After, Built, hrun, hFrame, hGrows, hbuilt⟩ :=
    Describe_spec InDescription (fun Opened => RunDecls DoWork Opened)
      (DeclaresItInList DoWork)
      (fun Opened B C h => RunDecls_spec DoWork Opened B C h) this Below ParentScope hstack
  obtain ⟨NewIt, NewChildren, _, hC, hP, _, _, _, hD⟩ := hGrows
  refine ⟨After, Built, by simp only [RunDecl]; exact hrun, hFrame.1, hFrame.2.1, ?_, hbuilt,
    ?_, ?_⟩
  · rw [hD]; rfl
  · rw [Pruned_iff, hC]
    simpa [NewDescribeScope] using hP
  · intro hno
    rw [hFrame.1, hstack, hno]
    cases ParentScope
    simp

/-- C8 at a group that declares only a hook: the scope stack after the `Describe` is the
one before it. -/
theorem C8_describe_keeps_scope_iff_it_declared_witness :
    ∃ After Built,
      RunDecl (FSpecDecl.Describe "only a hook"
          [FSpecDecl.BeforeEach (FWorkArgs.Blocking id)])
        (FEnhancedAutomationSpecBase.Fresh Unit Unit true 300000000 1) = Except.ok After ∧
      After.DefinitionScopeStack =
        [] ++ [{ NewDescribeScope Unit Unit "" with
          Children := (NewDescribeScope Unit Unit "").Children
            ++ (if DeclaresItInList [(FSpecDecl.BeforeEach (FWorkArgs.Blocking id) :
              FSpecDecl Unit Unit)] then [Built] else []) }] ∧
      After.DescriptionStack
        = (FEnhancedAutomationSpecBase.Fresh Unit Unit true 300000000 1).DescriptionStack ∧
      Built.Description = "only a hook" ∧
      (Built.It ≠ [] ∨ Built.Children ≠ [] ↔
        DeclaresItInList [(FSpecDecl.BeforeEach (FWorkArgs.Blocking id) :
          FSpecDecl Unit Unit)] = true) ∧
      Built.Pruned ∧
      (DeclaresItInList [(FSpecDecl.BeforeEach (FWorkArgs.Blocking id) :
          FSpecDecl Unit Unit)] = false →
        After.DefinitionScopeStack
          = (FEnhancedAutomationSpecBase.Fresh Unit Unit true 300000000 1).DefinitionScopeStack) :=
  (C8_describe_keeps_scope_iff_it_declared "only a hook"
    [FSpecDecl.BeforeEach (FWorkArgs.Blocking id)]
    (FEnhancedAutomationSpecBase.Fresh Unit Unit true 300000000 1) []
    (NewDescribeScope Unit Unit "") rfl).1

/-- C9: after `ClearState` no handle is marked as run, so the next execution of the
run-once wrapper of a `BeforeAll` invokes the body again and marks the handle; from then
on, through any polls of the wrapper command and any other steps that do not clear the
session, the handle stays marked and the body is not invoked again. -/
theorem C9_clear_state_lets_before_all_run_again {σ : Type}
    (Session : FEnhancedTestSessionState) (BlockHandle : Int) (DoWork : TUserWork σ)
    (bSkipIfErrored : Bool) (Spec : FSpecWorld σ) :
    (∀ Handle : Int, Session.ClearState.HasBlockRun Handle = false) ∧
    CreateRunWorkOnceWrapper BlockHandle (UserLambda DoWork)
        { Spec with SuiteSessionState := some Session.ClearState }
      = Except.ok
        { Env := DoWork Spec.Env
          SuiteSessionState := some { BlocksRun := [BlockHandle] }
          BodiesInvoked := Spec.BodiesInvoked ++ [BlockHandle] } ∧
    (∀ (Steps : List (FSpecWorld σ → Except FFault (FSpecWorld σ))) (End : FSpecWorld σ),
      (∀ Step ∈ Steps,
        Step = PollBlocking
          { Work := CreateRunWorkOnceWrapper BlockHandle (UserLambda DoWork)
            bSkipIfErrored := bSkipIfErrored } ∨ ForeignTo BlockHandle Step) →
      RunSteps Steps
          { Env := DoWork Spec.Env
            SuiteSessionState := some { BlocksRun := [BlockHandle] }
            BodiesInvoked := Spec.BodiesInvoked ++ [BlockHandle] }
        = Except.ok End →
      End.HasBlockRun BlockHandle = true ∧
      End.BodiesInvoked.count BlockHandle
        = (Spec.BodiesInvoked ++ [BlockHandle]).count BlockHandle) := by
  refine ⟨fun Handle => ?_, ?_, ?_⟩
  · simp [FEnhancedTestSessionState.ClearState, FEnhancedTestSessionState.HasBlockRun]
  · have h := Wrapper_unmarked BlockHandle DoWork
      { Spec with SuiteSessionState := some Session.ClearState } Session.ClearState rfl
      (by simp [FEnhancedTestSessionState.ClearState, FEnhancedTestSessionState.HasBlockRun])
    simpa [FEnhancedTestSessionState.ClearState] using h
  · intro Steps End hSteps hRun
    exact RunSteps_marked BlockHandle (UserLambda DoWork) bSkipIfErrored Steps hSteps _ End
      (by simp [FSpecWorld.HasBlockRun, FEnhancedTestSessionState.HasBlockRun]) hRun

/-- C10: when the owning spec already has an error, a poll of an idle command with
`bSkipIfErrored` set returns true at once, for each of the four kinds of command, and
leaves the spec object (its members, its errors, the session, the record of invoked
bodies) and the command as they were: the work, whatever it is, is not invoked and no
error is added. -/
theorem C10_skip_if_errored_completes_without_work {σ : Type} (Spec : FSpecWorld σ)
    (hErrors : Spec.HasAnyErrors = true) :
    (∀ Command : FSimpleBlockingCommand σ, Command.bSkipIfErrored = true →
      Command.Update Spec = Except.ok (Spec, true)) ∧
    (∀ (Command : FAsyncCommand σ) (NowAtStart Now : Int),
      Command.bSkipIfErrored = true → Command.bFutureValid = false →
      Command.Update NowAtStart Now Spec = (Command, Spec, true)) ∧
    (∀ (Command : FMultiFrameLatentCommand σ) (NowAtStart Now : Int),
      Command.bSkipIfErrored = true → Command.bHasStartedRunning = false →
      Command.Update NowAtStart Now Spec = Except.ok (Command, Spec, true)) ∧
    (∀ (Command : FAsyncMultiFrameLatentCommand σ) (NowAtStart Now : Int),
      Command.bSkipIfErrored = true → Command.bFutureValid = false →
      Command.Update NowAtStart Now Spec = (Command, Spec, true)) := by
  refine ⟨?_, ?_, ?_, ?_⟩
  · intro Command hskip
    simp [FSimpleBlockingCommand.Update, hskip, hErrors]
  · intro Command t0 t hskip hidle
    simp [FAsyncCommand.Update, hskip, hidle, hErrors]
  · intro Command t0 t hskip hidle
    simp [FMultiFrameLatentCommand.Update, hskip, hidle, hErrors]
  · intro Command t0 t hskip hidle
    simp [FAsyncMultiFrameLatentCommand.Update, hskip, hidle, hErrors]

/-- C10 at a spec object with one recorded error and a blocking command whose work would
change the member. -/
theorem C10_skip_if_errored_completes_without_work_witness :
    IncrementCommand.Update ErroredSpec = Except.ok (ErroredSpec, true) :=
  (C10_skip_if_errored_completes_without_work ErroredSpec (by decide)).1 IncrementCommand rfl
/-! ## Claims C11 to C14: timeouts, completion and reuse of commands -/

/-- C11: the polls compare the clock with `StartTime + Timeout`, a sum of ticks that is
taken in 64 bits.  When the sum is within the range of a signed 64-bit integer, a
multi-frame latent, async or async multi-frame latent command that started at `StartTime`
with timeout `Timeout` and whose completion is not signalled (`bDone` is false) answers a
poll at `Now` with false, leaving command and spec as they were, when
`Now < StartTime + Timeout`, and with true when `Now ≥ StartTime + Timeout`, and then the
spec has gained exactly one error, "Latent command timed out.", at the end of its errors.
The poll that starts the command records its first clock reading as the start time and
makes the same comparison.  Whatever the sum is, the comparison is with the wrapped sum
`FDateTimePlus StartTime Timeout`. -/
theorem C11_timeout_at_start_plus_timeout {σ : Type} :
    (∀ (Command : FMultiFrameLatentCommand σ) (NowAtStart Now : Int) (Spec : FSpecWorld σ),
      Command.bHasStartedRunning = true → Command.bDone = false →
      -9223372036854775808 ≤ Command.StartTime + Command.Timeout →
      Command.StartTime + Command.Timeout ≤ 9223372036854775807 →
      (Now < Command.StartTime + Command.Timeout →
        Command.Update NowAtStart Now Spec = Except.ok (Command, Spec, false)) ∧
      (Now ≥ Command.StartTime + Command.Timeout →
        Command.Update NowAtStart Now Spec =
          Except.ok (Command.Reset, Spec.AddError "Latent command timed out.", true))) ∧
    (∀ (Command : FAsyncCommand σ) (NowAtStart Now : Int) (Spec : FSpecWorld σ),
      Command.bFutureValid = true → Command.bDone = false →
      -9223372036854775808 ≤ Command.StartTime + Command.Timeout →
      Command.StartTime + Command.Timeout ≤ 9223372036854775807 →
      (Now < Command.StartTime + Command.Timeout →
        Command.Update NowAtStart Now Spec = (Command, Spec, false)) ∧
      (Now ≥ Command.StartTime + Command.Timeout →
        Command.Update NowAtStart Now Spec =
          (Command.Reset, Spec.AddError "Latent command timed out.", true))) ∧
    (∀ (Command : FAsyncMultiFrameLatentCommand σ) (NowAtStart Now : Int)
      (Spec : FSpecWorld σ),
      Command.bFutureValid = true → Command.bDone = false →
      -9223372036854775808 ≤ Command.StartTime + Command.Timeout →
      Command.StartTime + Command.Timeout ≤ 9223372036854775807 →
      (Now < Command.StartTime + Command.Timeout →
        Command.Update NowAtStart Now Spec = (Command, Spec, false)) ∧
      (Now ≥ Command.StartTime + Command.Timeout →
        Command.Update NowAtStart Now Spec =
          (Command.Reset, Spec.AddError "Latent command timed out.", true))) ∧
    (∀ (Command : FMultiFrameLatentCommand σ) (NowAtStart Now : Int)
      (Spec AfterWork : FSpecWorld σ),
      Command.bHasStartedRunning = false →
      (Command.bSkipIfErrored = false ∨ Spec.HasAnyErrors = false) →
      Command.Work Spec = Except.ok (AfterWork, false) →
      -9223372036854775808 ≤ NowAtStart + Command.Timeout →
      NowAtStart + Command.Timeout ≤ 9223372036854775807 →
      (Command.Started NowAtStart).StartTime = NowAtStart ∧
      (Now < NowAtStart + Command.Timeout →
        Command.Update NowAtStart Now Spec =
          Except.ok (Command.Started NowAtStart, AfterWork, false)) ∧
      (Now ≥ NowAtStart + Command.Timeout →
        Command.Update NowAtStart Now Spec =
          Except.ok ((Command.Started NowAtStart).Reset,
            AfterWork.AddError "Latent command timed out.", true))) ∧
    (∀ (Command : FAsyncCommand σ) (NowAtStart Now : Int) (Spec : FSpecWorld σ),
      Command.bFutureValid = false →
      (Command.bSkipIfErrored = false ∨ Spec.HasAnyErrors = false) →
      -9223372036854775808 ≤ NowAtStart + Command.Timeout →
      NowAtStart + Command.Timeout ≤ 9223372036854775807 →
      (Command.Started NowAtStart).StartTime = NowAtStart ∧
      (Now < NowAtStart + Command.Timeout →
        Command.Update NowAtStart Now Spec = (Command.Started NowAtStart, Spec, false)) ∧
      (Now ≥ NowAtStart + Command.Timeout →
        Command.Update NowAtStart Now Spec =
          ((Command.Started NowAtStart).Reset,
            Spec.AddError "Latent command timed out.", true))) ∧
    (∀ (Command : FAsyncMultiFrameLatentCommand σ) (NowAtStart Now : Int)
      (Spec : FSpecWorld σ),
      Command.bFutureValid = false →
      (Command.bSkipIfErrored = false ∨ Spec.HasAnyErrors = false) →
      -9223372036854775808 ≤ NowAtStart + Command.Timeout →
      NowAtStart + Command.Timeout ≤ 9223372036854775807 →
      (Command.Started NowAtStart).StartTime = NowAtStart ∧
      (Now < NowAtStart + Command.Timeout →
        Command.Update NowAtStart Now Spec = (Command.Started NowAtStart, Spec, false)) ∧
      (Now ≥ NowAtStart + Command.Timeout →
        Command.Update NowAtStart Now Spec =
          ((Command.Started NowAtStart).Reset,
            Spec.AddError "Latent command timed out.", true))) ∧
    (∀ (Command : FMultiFrameLatentCommand σ) (NowAtStart Now : Int) (Spec : FSpecWorld σ),
      Command.bHasStartedRunning = true → Command.bDone = false →
      (Now < FDateTimePlus Command.StartTime Command.Timeout →
        Command.Update NowAtStart Now Spec = Except.ok (Command, Spec, false)) ∧
      (Now ≥ FDateTimePlus Command.StartTime Command.Timeout →
        Command.Update NowAtStart Now Spec =
          Except.ok (Command.Reset, Spec.AddError "Latent command timed out.", true))) ∧
    (∀ (Command : FAsyncCommand σ) (NowAtStart Now : Int) (Spec : FSpecWorld σ),
      Command.bFutureValid = true → Command.bDone = false →
      (Now < FDateTimePlus Command.StartTime Command.Timeout →
        Command.Update NowAtStart Now Spec = (Command, Spec, false)) ∧
      (Now ≥ FDateTimePlus Command.StartTime Command.Timeout →
        Command.Update NowAtStart Now Spec =
          (Command.Reset, Spec.AddError "Latent command timed out.", true))) ∧
    (∀ (Command : FAsyncMultiFrameLatentCommand σ) (NowAtStart Now : Int)
      (Spec : FSpecWorld σ),
      Command.bFutureValid = true → Command.bDone = false →
      (Now < FDateTimePlus Command.StartTime Command.Timeout →
        Command.Update NowAtStart Now Spec = (Command, Spec, false)) ∧
      (Now ≥ FDateTimePlus Command.StartTime Command.Timeout →
        Command.Update NowAtStart Now Spec =
          (Command.Reset, Spec.AddError "Latent command timed out.", true))) ∧
    (∀ (Spec : FSpecWorld σ) (Text : String),
      (Spec.AddError Text).Env.Errors = Spec.Env.Errors ++ [Text]) := by
  refine ⟨?_, ?_, ?_, ?_, ?_, ?_, ?_, ?_, ?_, ?_⟩
  · intro Command NowAtStart Now Spec hStarted hDone hLow hHigh
    rw [MultiFrame_started_poll Command NowAtStart Now Spec hStarted,
      FDateTimePlus_of_range _ _ hLow hHigh]
    constructor
    · intro hlt
      simp [hDone, not_le.mpr hlt]
    · intro hge
      simp [hDone, hge]
  · intro Command NowAtStart Now Spec hStarted hDone hLow hHigh
    rw [Async_started_poll Command NowAtStart Now Spec hStarted,
      FDateTimePlus_of_range _ _ hLow hHigh]
    constructor
    · intro hlt
      simp [hDone, not_le.mpr hlt]
    · intro hge
      simp [hDone, hge]
  · intro Command NowAtStart Now Spec hStarted hDone hLow hHigh
    rw [AsyncMultiFrame_started_poll Command NowAtStart Now Spec hStarted,
      FDateTimePlus_of_range _ _ hLow hHigh]
    constructor
    · intro hlt
      simp [hDone, not_le.mpr hlt]
    · intro hge
      simp [hDone, hge]
  · intro Command NowAtStart Now Spec AfterWork hIdle hRun hWork hLow hHigh
    rw [MultiFrame_first_poll Command NowAtStart Now Spec AfterWork false hIdle hRun hWork,
      FDateTimePlus_of_range _ _ hLow hHigh]
    refine ⟨rfl, ?_, ?_⟩
    · intro hlt
      simp [not_le.mpr hlt]
    · intro hge
      simp [hge]
  · intro Command NowAtStart Now Spec hIdle hRun hLow hHigh
    rw [Async_first_poll Command NowAtStart Now Spec hIdle hRun,
      FDateTimePlus_of_range _ _ hLow hHigh]
    refine ⟨rfl, ?_, ?_⟩
    · intro hlt
      simp [not_le.mpr hlt]
    · intro hge
      simp [hge]
  · intro Command NowAtStart Now Spec hIdle hRun hLow hHigh
    rw [AsyncMultiFrame_first_poll Command NowAtStart Now Spec hIdle hRun,
      FDateTimePlus_of_range _ _ hLow hHigh]
    refine ⟨rfl, ?_, ?_⟩
    · intro hlt
      simp [not_le.mpr hlt]
    · intro hge
      simp [hge]
  · intro Command NowAtStart Now Spec hStarted hDone
    rw [MultiFrame_started_poll Command NowAtStart Now Spec hStarted]
    constructor
    · intro hlt
      simp [hDone, not_le.mpr hlt]
    · intro hge
      simp [hDone, hge]
  · intro Command NowAtStart Now Spec hStarted hDone
    rw [Async_started_poll Command NowAtStart Now Spec hStarted]
    constructor
    · intro hlt
      simp [hDone, not_le.mpr hlt]
    · intro hge
      simp [hDone, hge]
  · intro Command NowAtStart Now Spec hStarted hDone
    rw [AsyncMultiFrame_started_poll Command NowAtStart Now Spec hStarted]
    constructor
    · intro hlt
      simp [hDone, not_le.mpr hlt]
    · intro hge
      simp [hDone, hge]
  · intro Spec Text
    rfl

/-- Witness of C11: an async command started at time 100 with a timeout of 50 ticks is
still waiting when polled at 149 and times out, with the one error, when polled at 150. -/
theorem C11_timeout_at_start_plus_timeout_witness :
    PendingAsyncCommand.Update 0 149 CleanSpec = (PendingAsyncCommand, CleanSpec, false) ∧
    PendingAsyncCommand.Update 0 150 CleanSpec =
      (PendingAsyncCommand.Reset, CleanSpec.AddError "Latent command timed out.", true) ∧
    (CleanSpec.AddError "Latent command timed out.").Env.Errors =
      ["Latent command timed out."] :=
  ⟨(C11_timeout_at_start_plus_timeout.2.1 PendingAsyncCommand 0 149 CleanSpec rfl rfl
      (by decide) (by decide)).1 (by decide),
    (C11_timeout_at_start_plus_timeout.2.1 PendingAsyncCommand 0 150 CleanSpec rfl rfl
      (by decide) (by decide)).2 (by decide),
    by decide⟩

/-- C11 where the claim fails: the command of `UnboundedWaitCommand` has the timeout
`FTimespan::MaxValue()`.  Its first poll, at the tick count 638000000000000000 of a day
in the year 2022, runs the body and records that start time; the clock reads the same
value, which is earlier than start plus timeout; but the sum of the ticks wraps to a
negative number, so the poll answers true and adds the error "Latent command timed
out.". -/
theorem C11_largest_timeout_times_out_at_once :
    (638000000000000000 : Int) < 638000000000000000 + UnboundedWaitCommand.Timeout ∧
    FDateTimePlus 638000000000000000 UnboundedWaitCommand.Timeout = -8585372036854775809 ∧
    FMultiFrameLatentCommand.Observe
        (UnboundedWaitCommand.Update 638000000000000000 638000000000000000 CleanSpec) =
      some ⟨false, false, 638000000000000000, 1, ["Latent command timed out."], true⟩ := by
  refine ⟨by decide, by decide, by decide!⟩

/-- C12, evaluation of the program where the claim fails.  When the delegate is executed
after the first poll has returned, `Done` sets `bDone` and the next poll answers true
without an error, whatever the clock reads.  When the body executes the delegate before
it returns, `Done` runs while `bHasStartedRunning` is still false and does nothing: the
first poll leaves `bDone` false and, before the deadline, answers false.  So the command
of `DoneBeforeReturnCommand`, timeout 30 seconds, polled at time 0, has run its body (the
counter is 1) and answers false; it answers false again one tick before the deadline,
and at the deadline it answers true with the error "Latent command timed out.". -/
theorem C12_delegate_executed_before_return_is_dropped {σ : Type} :
    (∀ (Command : FMultiFrameLatentCommand σ) (NowAtStart Now : Int) (Spec : FSpecWorld σ),
      Command.bHasStartedRunning = true →
      Command.Done.Update NowAtStart Now Spec = Except.ok (Command.Done.Reset, Spec, true)) ∧
    (∀ (Command : FMultiFrameLatentCommand σ) (NowAtStart Now : Int)
      (Spec AfterWork : FSpecWorld σ),
      Command.bHasStartedRunning = false →
      (Command.bSkipIfErrored = false ∨ Spec.HasAnyErrors = false) →
      Command.Work Spec = Except.ok (AfterWork, true) →
      Now < FDateTimePlus NowAtStart Command.Timeout →
      Command.Update NowAtStart Now Spec =
        Except.ok (Command.Started NowAtStart, AfterWork, false) ∧
      (Command.Started NowAtStart).bDone = false) ∧
    FMultiFrameLatentCommand.Observe (DoneBeforeReturnCommand.Update 0 0 CleanSpec) =
      some ⟨true, false, 0, 1, [], false⟩ ∧
    FMultiFrameLatentCommand.Observe
        (RunSteps [FMultiFrameLatentCommand.PollAt 0, FMultiFrameLatentCommand.PollAt 299999999]
          (DoneBeforeReturnCommand, CleanSpec, false)) =
      some ⟨true, false, 0, 1, [], false⟩ ∧
    FMultiFrameLatentCommand.Observe
        (RunSteps [FMultiFrameLatentCommand.PollAt 0, FMultiFrameLatentCommand.PollAt 300000000]
          (DoneBeforeReturnCommand, CleanSpec, false)) =
      some ⟨false, false, 0, 1, ["Latent command timed out."], true⟩ := by
  refine ⟨?_, ?_, by decide!, by decide!, by decide!⟩
  · intro Command NowAtStart Now Spec hStarted
    have hDone : Command.Done.bDone = true := by
      simp [FMultiFrameLatentCommand.Done, hStarted]
    have hStill : Command.Done.bHasStartedRunning = true := by
      simp [FMultiFrameLatentCommand.Done, hStarted]
    rw [MultiFrame_started_poll Command.Done NowAtStart Now Spec hStill]
    simp [hDone]
  · intro Command NowAtStart Now Spec AfterWork hIdle hRun hWork hlt
    rw [MultiFrame_first_poll Command NowAtStart Now Spec AfterWork true hIdle hRun hWork]
    exact ⟨by simp [not_le.mpr hlt], rfl⟩

/-- C13: a poll of an async, multi-frame latent or async multi-frame latent command that
answers true (by skip, by completion or by timeout) leaves the command idle, given that
`bDone` is only set during an activation, which every command satisfies when it is
constructed and after every poll.  A poll of an idle command that is not skipped begins
an activation that invokes the work again: the multi-frame latent command calls its work
inside the poll and goes on as the started command does; the async commands make their
future valid, hand one more task to `Async`, keep their work, and go on as the started
command does, and a run of a task that was handed over calls the work of the command and
then, for the async command, `Done`, while nothing runs when no task was handed over.
On the command of `AsyncTeardownCommand`: the first activation hands over a task, whose
run counts to 1 and signals completion; the poll after it answers true and leaves the
command idle; the next poll hands over a new task, whose run counts to 2. -/
theorem C13_command_is_idle_after_completion {σ : Type} :
    (∀ (Command Next : FLatentCommand σ) (NowAtStart Now : Int) (Spec NewSpec : FSpecWorld σ)
      (bComplete : Bool),
      Command.DoneOnlyWhileStarted →
      Command.Update NowAtStart Now Spec = Except.ok (Next, NewSpec, bComplete) →
      Next.DoneOnlyWhileStarted ∧ (bComplete = true → Next.IsIdle)) ∧
    (∀ (DefaultTimeout : Int) (bSkipIfErrored : Bool) (Wrap : TFunction σ → TFunction σ)
      (WrapLatent : TLatentFunction σ → TLatentFunction σ) (Args : FWorkArgs σ),
      (MakeCommand DefaultTimeout bSkipIfErrored Wrap WrapLatent Args).IsIdle ∧
      (MakeCommand DefaultTimeout bSkipIfErrored Wrap WrapLatent Args).DoneOnlyWhileStarted) ∧
    (∀ (Command : FMultiFrameLatentCommand σ) (NowAtStart Now : Int) (Spec : FSpecWorld σ),
      Command.IsIdle → (Command.bSkipIfErrored = false ∨ Spec.HasAnyErrors = false) →
      Command.Update NowAtStart Now Spec =
        match Command.Work Spec with
        | Except.error e => Except.error e
        | Except.ok (AfterWork, _) => (Command.Started NowAtStart).Update NowAtStart Now AfterWork) ∧
    (∀ (Command : FAsyncCommand σ) (NowAtStart Now : Int) (Spec : FSpecWorld σ),
      Command.IsIdle → (Command.bSkipIfErrored = false ∨ Spec.HasAnyErrors = false) →
      Command.Update NowAtStart Now Spec = (Command.Started NowAtStart).Update NowAtStart Now Spec ∧
      (Command.Started NowAtStart).bFutureValid = true ∧
      (Command.Update NowAtStart Now Spec).1.Dispatched =
        Command.Dispatched ++ [Command.Execution] ∧
      (Command.Update NowAtStart Now Spec).1.Work = Command.Work) ∧
    (∀ (Command : FAsyncMultiFrameLatentCommand σ) (NowAtStart Now : Int)
      (Spec : FSpecWorld σ),
      Command.IsIdle → (Command.bSkipIfErrored = false ∨ Spec.HasAnyErrors = false) →
      Command.Update NowAtStart Now Spec = (Command.Started NowAtStart).Update NowAtStart Now Spec ∧
      (Command.Started NowAtStart).bFutureValid = true ∧
      (Command.Update NowAtStart Now Spec).1.Dispatched =
        Command.Dispatched ++ [Command.Execution] ∧
      (Command.Update NowAtStart Now Spec).1.Work = Command.Work) ∧
    (∀ (Command : FAsyncCommand σ) (First : EAsyncExecution)
      (Waiting : List EAsyncExecution) (Spec : FSpecWorld σ),
      Command.Dispatched = First :: Waiting →
      Command.Task Spec =
        match Command.Work Spec with
        | Except.error e => Except.error e
        | Except.ok AfterWork =>
          Except.ok (FAsyncCommand.Done { Command with Dispatched := Waiting }, AfterWork)) ∧
    (∀ (Command : FAsyncMultiFrameLatentCommand σ) (First : EAsyncExecution)
      (Waiting : List EAsyncExecution) (Spec : FSpecWorld σ),
      Command.Dispatched = First :: Waiting →
      Command.Task Spec =
        match Command.Work Spec with
        | Except.error e => Except.error e
        | Except.ok (AfterWork, bDelegateExecuted) =>
          Except.ok
            (if bDelegateExecuted then
                FAsyncMultiFrameLatentCommand.Done { Command with Dispatched := Waiting }
              else { Command with Dispatched := Waiting },
              AfterWork)) ∧
    (∀ (Command : FAsyncCommand σ) (Spec : FSpecWorld σ),
      Command.Dispatched = [] → Command.Task Spec = Except.ok (Command, Spec)) ∧
    (∀ (Command : FAsyncMultiFrameLatentCommand σ) (Spec : FSpecWorld σ),
      Command.Dispatched = [] → Command.Task Spec = Except.ok (Command, Spec)) ∧
    FAsyncCommand.Observe
        (RunSteps [FAsyncCommand.PollAt 0] (AsyncTeardownCommand, CleanSpec, false)) =
      some ⟨true, false, [EAsyncExecution.ThreadPool], 0, [], false⟩ ∧
    FAsyncCommand.Observe
        (RunSteps [FAsyncCommand.PollAt 0, FAsyncCommand.RunTask, FAsyncCommand.PollAt 1]
          (AsyncTeardownCommand, CleanSpec, false)) =
      some ⟨false, false, [], 1, [], true⟩ ∧
    FAsyncCommand.Observe
        (RunSteps [FAsyncCommand.PollAt 0, FAsyncCommand.RunTask, FAsyncCommand.PollAt 1,
            FAsyncCommand.PollAt 2]
          (AsyncTeardownCommand, CleanSpec, false)) =
      some ⟨true, false, [EAsyncExecution.ThreadPool], 1, [], false⟩ ∧
    FAsyncCommand.Observe
        (RunSteps [FAsyncCommand.PollAt 0, FAsyncCommand.RunTask, FAsyncCommand.PollAt 1,
            FAsyncCommand.PollAt 2, FAsyncCommand.RunTask]
          (AsyncTeardownCommand, CleanSpec, false)) =
      some ⟨true, true, [], 2, [], false⟩ ∧
    FAsyncMultiFrameLatentCommand.Observe
        (RunSteps [FAsyncMultiFrameLatentCommand.PollAt 0,
            FAsyncMultiFrameLatentCommand.RunTask, FAsyncMultiFrameLatentCommand.PollAt 1,
            FAsyncMultiFrameLatentCommand.PollAt 2, FAsyncMultiFrameLatentCommand.RunTask]
          (AsyncLatentTeardownCommand, CleanSpec, false)) =
      some ⟨true, true, [], 2, [], false⟩ := by
  refine ⟨?_, ?_, ?_, ?_, ?_, ?_, ?_, ?_, ?_, by decide!, by decide!, by decide!, by decide!,
    by decide!⟩
  · intro Command Next NowAtStart Now Spec NewSpec bComplete hInv hUpdate
    exact Update_idle_after_completion Command Next NowAtStart Now Spec NewSpec bComplete
      hInv hUpdate
  · intro DefaultTimeout bSkipIfErrored Wrap WrapLatent Args
    cases Args <;>
      simp [MakeCommand, FLatentCommand.IsIdle, FLatentCommand.DoneOnlyWhileStarted,
        FAsyncCommand.IsIdle, FAsyncCommand.DoneOnlyWhileStarted,
        FMultiFrameLatentCommand.IsIdle, FMultiFrameLatentCommand.DoneOnlyWhileStarted,
        FAsyncMultiFrameLatentCommand.IsIdle,
        FAsyncMultiFrameLatentCommand.DoneOnlyWhileStarted]
  · intro Command NowAtStart Now Spec hIdle hRun
    cases hWork : Command.Work Spec with
    | error e =>
      have hskip : ¬ (Command.bSkipIfErrored = true ∧ Spec.HasAnyErrors = true) := by
        rcases hRun with h | h <;> simp [h]
      simp [FMultiFrameLatentCommand.Update, hIdle.1, hskip, hWork]
    | ok Result =>
      obtain ⟨AfterWork, bDelegateExecuted⟩ := Result
      exact MultiFrame_idle_poll Command NowAtStart Now Spec AfterWork bDelegateExecuted
        hIdle.1 hRun hWork
  · intro Command NowAtStart Now Spec hIdle hRun
    exact ⟨Async_idle_poll Command NowAtStart Now Spec hIdle.1 hRun, rfl,
      Async_update_dispatched Command NowAtStart Now Spec hIdle.1 hRun,
      Async_update_work Command NowAtStart Now Spec⟩
  · intro Command NowAtStart Now Spec hIdle hRun
    exact ⟨AsyncMultiFrame_idle_poll Command NowAtStart Now Spec hIdle.1 hRun, rfl,
      AsyncMultiFrame_update_dispatched Command NowAtStart Now Spec hIdle.1 hRun,
      AsyncMultiFrame_update_work Command NowAtStart Now Spec⟩
  · intro Command First Waiting Spec hDispatched
    exact Async_task_of_dispatched Command First Waiting Spec hDispatched
  · intro Command First Waiting Spec hDispatched
    exact AsyncMultiFrame_task_of_dispatched Command First Waiting Spec hDispatched
  · intro Command Spec hDispatched
    exact Async_task_of_none Command Spec hDispatched
  · intro Command Spec hDispatched
    exact AsyncMultiFrame_task_of_none Command Spec hDispatched

/-- Witness of C13: the command that never executes its delegate, started at time 0 with
a timeout of 50 ticks and polled at time 50, answers true and is idle afterwards. -/
theorem C13_command_is_idle_after_completion_witness :
    (FLatentCommand.MultiFrameLatent (NeverDoneCommand.Started 0)).DoneOnlyWhileStarted ∧
    (FLatentCommand.MultiFrameLatent (NeverDoneCommand.Started 0)).Update 50 50 CleanSpec =
      Except.ok (FLatentCommand.MultiFrameLatent (NeverDoneCommand.Started 0).Reset,
        CleanSpec.AddError "Latent command timed out.", true) ∧
    (FLatentCommand.MultiFrameLatent (NeverDoneCommand.Started 0).Reset).IsIdle :=
  ⟨(fun h => nomatch h), rfl,
    ((C13_command_is_idle_after_completion.1
      (FLatentCommand.MultiFrameLatent (NeverDoneCommand.Started 0))
      (FLatentCommand.MultiFrameLatent (NeverDoneCommand.Started 0).Reset) 50 50 CleanSpec
      (CleanSpec.AddError "Latent command timed out.") true (fun h => nomatch h) rfl).2 rfl)⟩

/-- C14: `AfterEach` and `LatentAfterEach`, in each of their overloads, add to the current
scope one command whose `bSkipIfErrored` is false, whatever `bEnableSkipIfError` is: the
overloads construct the command without the skip argument.  Polled on any spec object,
with or without recorded errors, the blocking command runs the teardown body and answers
true; the multi-frame latent command runs the teardown body inside the poll and goes on
as the started command does; the async commands go on as the started command does, the
command that the poll leaves has handed exactly one task to `Async`, and the run of that
task, on whatever state the spec object is in by then, calls the teardown body. -/
theorem C14_after_each_never_skips {σ ν : Type} (Args : FWorkArgs σ)
    (this : FEnhancedAutomationSpecBase σ ν) (Below : List (FScope σ ν))
    (Current : FScope σ ν) (hstack : this.DefinitionScopeStack = Below ++ [Current]) :
    ∃ Command : FLatentCommand σ,
      FEnhancedAutomationSpecBase.AfterEach Args this =
        Except.ok
          { this with
            DefinitionScopeStack :=
              Below ++ [{ Current with AfterEach := Current.AfterEach ++ [Command] }] } ∧
      Command.bSkipIfErrored = false ∧
      Command.IsIdle ∧
      ∀ (NowAtStart Now : Int) (Spec : FSpecWorld σ),
        match Args with
        | FWorkArgs.Blocking DoWork =>
          Command.Update NowAtStart Now Spec =
            Except.ok (Command, { Spec with Env := DoWork Spec.Env }, true)
        | FWorkArgs.Latent _ DoWork =>
          ∃ Idle : FMultiFrameLatentCommand σ,
            Command = FLatentCommand.MultiFrameLatent Idle ∧
            Command.Update NowAtStart Now Spec =
              (FLatentCommand.MultiFrameLatent (Idle.Started NowAtStart)).Update NowAtStart Now
                { Spec with Env := (DoWork Spec.Env).1 }
        | FWorkArgs.Async Execution _ DoWork =>
          ∃ Idle : FAsyncCommand σ,
            Command = FLatentCommand.Async Idle ∧
            Command.Update NowAtStart Now Spec =
              (FLatentCommand.Async (Idle.Started NowAtStart)).Update NowAtStart Now Spec ∧
            (Idle.Update NowAtStart Now Spec).1.Dispatched = [Execution] ∧
            ∀ Later : FSpecWorld σ, ∃ After : FAsyncCommand σ,
              (Idle.Update NowAtStart Now Spec).1.Task Later =
                Except.ok (After, { Later with Env := DoWork Later.Env })
        | FWorkArgs.AsyncLatent Execution _ DoWork =>
          ∃ Idle : FAsyncMultiFrameLatentCommand σ,
            Command = FLatentCommand.AsyncMultiFrameLatent Idle ∧
            Command.Update NowAtStart Now Spec =
              (FLatentCommand.AsyncMultiFrameLatent (Idle.Started NowAtStart)).Update
                NowAtStart Now Spec ∧
            (Idle.Update NowAtStart Now Spec).1.Dispatched = [Execution] ∧
            ∀ Later : FSpecWorld σ, ∃ After : FAsyncMultiFrameLatentCommand σ,
              (Idle.Update NowAtStart Now Spec).1.Task Later =
                Except.ok (After, { Later with Env := (DoWork Later.Env).1 }) := by
  obtain ⟨Descriptions, Stack, m, bDefined, bSkip, Timeout, Counter⟩ := this
  simp only at hstack
  subst hstack
  refine ⟨MakeCommand Timeout false id id Args, ?_, ?_, ?_, ?_⟩
  · unfold FEnhancedAutomationSpecBase.AfterEach
    simp only [ModifyCurrentScope_mk, DefaultSkipIfErrored]
  · cases Args <;> rfl
  · cases Args <;> simp [MakeCommand, FLatentCommand.IsIdle, FAsyncCommand.IsIdle,
      FMultiFrameLatentCommand.IsIdle, FAsyncMultiFrameLatentCommand.IsIdle]
  · intro NowAtStart Now Spec
    cases Args with
    | Blocking DoWork =>
      simp [MakeCommand, FLatentCommand.Update, FSimpleBlockingCommand.Update, UserLambda]
    | Async Execution Span DoWork =>
      have hDispatched : ∀ Idle : FAsyncCommand σ, Idle.bFutureValid = false →
          Idle.bSkipIfErrored = false → Idle.Dispatched = [] → Idle.Execution = Execution →
          (Idle.Update NowAtStart Now Spec).1.Dispatched = [Execution] := by
        intro Idle hIdle hFlag hNone hExecution
        rw [Async_update_dispatched Idle NowAtStart Now Spec hIdle (Or.inl hFlag), hNone,
          hExecution]
        rfl
      refine ⟨_, rfl, LatentAsync_idle_poll _ NowAtStart Now Spec rfl (Or.inl rfl),
        hDispatched _ rfl rfl rfl rfl, ?_⟩
      intro Later
      rw [Async_task_of_dispatched _ Execution [] Later (hDispatched _ rfl rfl rfl rfl),
        Async_update_work]
      exact ⟨_, rfl⟩
    | Latent Span DoWork =>
      exact ⟨_, rfl, LatentMultiFrame_idle_poll _ NowAtStart Now Spec
        { Spec with Env := (DoWork Spec.Env).1 } (DoWork Spec.Env).2 rfl (Or.inl rfl) rfl⟩
    | AsyncLatent Execution Span DoWork =>
      have hDispatched : ∀ Idle : FAsyncMultiFrameLatentCommand σ, Idle.bFutureValid = false →
          Idle.bSkipIfErrored = false → Idle.Dispatched = [] → Idle.Execution = Execution →
          (Idle.Update NowAtStart Now Spec).1.Dispatched = [Execution] := by
        intro Idle hIdle hFlag hNone hExecution
        rw [AsyncMultiFrame_update_dispatched Idle NowAtStart Now Spec hIdle (Or.inl hFlag),
          hNone, hExecution]
        rfl
      refine ⟨_, rfl, LatentAsyncMultiFrame_idle_poll _ NowAtStart Now Spec rfl (Or.inl rfl),
        hDispatched _ rfl rfl rfl rfl, ?_⟩
      intro Later
      rw [AsyncMultiFrame_task_of_dispatched _ Execution [] Later
        (hDispatched _ rfl rfl rfl rfl), AsyncMultiFrame_update_work]
      exact ⟨_, rfl⟩

/-- Witness of C14: on a spec object declared with `bEnableSkipIfError`, the command that
`AfterEach` adds for an async body incrementing the counter does not skip on a spec that
has a recorded error: its poll hands the body to the thread pool, and the run of the task
counts to 1. -/
theorem C14_after_each_never_skips_witness :
    DeclaringSpec.bEnableSkipIfError = true ∧
    ErroredSpec.HasAnyErrors = true ∧
    ∃ Idle : FAsyncCommand Int,
      FEnhancedAutomationSpecBase.AfterEach
          (FWorkArgs.Async EAsyncExecution.ThreadPool (some 50) TeardownBody)
          DeclaringSpec =
        Except.ok
          { DeclaringSpec with
            DefinitionScopeStack :=
              [NewDescribeScope Int Unit ""] ++
                [{ NewDescribeScope Int Unit "Teardown" with
                   AfterEach := (NewDescribeScope Int Unit "Teardown").AfterEach ++
                     [FLatentCommand.Async Idle] }] } ∧
      Idle.bSkipIfErrored = false ∧
      (Idle.Update 0 0 ErroredSpec).1.Dispatched = [EAsyncExecution.ThreadPool] ∧
      ∃ After : FAsyncCommand Int,
        (Idle.Update 0 0 ErroredSpec).1.Task ErroredSpec =
          Except.ok (After, { ErroredSpec with Env := TeardownBody ErroredSpec.Env }) ∧
        (TeardownBody ErroredSpec.Env).Members = 1 :=
  match C14_after_each_never_skips
      (FWorkArgs.Async EAsyncExecution.ThreadPool (some 50) TeardownBody)
      DeclaringSpec [NewDescribeScope Int Unit ""] (NewDescribeScope Int Unit "Teardown") rfl with
  | ⟨_, hAdded, hFlag, _, hPoll⟩ =>
    match hPoll 0 0 ErroredSpec with
    | ⟨Idle, hCommand, _, hDispatched, hTask⟩ =>
      ⟨rfl, rfl, Idle, by rw [← hCommand]; exact hAdded, by rw [hCommand] at hFlag; exact hFlag,
        hDispatched,
        match hTask ErroredSpec with
        | ⟨After, hRun⟩ => ⟨After, hRun, rfl⟩⟩

/-! ## Claims C15 to C17: running compiled specs -/

/-- C15: `RunSpec` leaves in the queue of the scheduler what was queued, followed by the
commands of the spec, each once and in index order; the declaration and compilation
state of the spec object, and with it `IdToSpecMap` and the commands of every compiled
spec, is unchanged. -/
theorem C15_run_spec_enqueues_commands_in_order {σ ν : Type} (Ops : FSpecVariableOps σ ν)
    (SpecToRun : FSpec (FLatentCommand σ) ν) (this : FSpecRuntime σ ν) :
    (FEnhancedAutomationSpecBase.RunSpec Ops SpecToRun this).LatentCommands =
      this.LatentCommands ++ SpecToRun.Commands ∧
    (FEnhancedAutomationSpecBase.RunSpec Ops SpecToRun this).Base = this.Base ∧
    (FEnhancedAutomationSpecBase.RunSpec Ops SpecToRun this).Base.IdToSpecMap =
      this.Base.IdToSpecMap :=
  ⟨RunSpec_queue Ops SpecToRun this, rfl, rfl⟩

/-- C16: when `EnsureDefinitions` returns, `RunTest` returns true for every parameter.
With the empty parameter it calls `RunSpec` once for every compiled spec, in the order of
`IdToSpecMap`, so the queue gains the command chains of all specs, also when the empty
text is itself the identifier of a compiled spec.  With a parameter that is not empty
and that `IdToSpecMap` finds, it calls `RunSpec` for the spec found only; the map finds a
parameter when it equals the identifier of an entry up to the case of its letters.  With
a parameter that is not empty and that the map does not find, it calls nothing: the queue
and the members and errors of the spec object are as before; that is the case exactly
when no key of the map equals the parameter up to case.  When `EnsureDefinitions` fails,
which is the only other case, `RunTest` does not return. -/
theorem C16_run_test_selects_specs {σ ν : Type} (Ops : FSpecVariableOps σ ν)
    (Define : FEnhancedAutomationSpecBase σ ν → Except FFault (FEnhancedAutomationSpecBase σ ν))
    (this : FSpecRuntime σ ν) :
    (∀ (InParameters : String) (e : FFault),
      FEnhancedAutomationSpecBase.EnsureDefinitions Define this.Base = Except.error e →
      FEnhancedAutomationSpecBase.RunTest Ops Define InParameters this = Except.error e) ∧
    (∀ Defined : FEnhancedAutomationSpecBase σ ν,
      FEnhancedAutomationSpecBase.EnsureDefinitions Define this.Base = Except.ok Defined →
      (∀ InParameters : String, ∃ After,
        FEnhancedAutomationSpecBase.RunTest Ops Define InParameters this =
          Except.ok (After, true)) ∧
      (∃ After,
        FEnhancedAutomationSpecBase.RunTest Ops Define "" this = Except.ok (After, true) ∧
        After =
          (TMapValues Defined.IdToSpecMap).foldl
            (fun Runtime SpecToRun => FEnhancedAutomationSpecBase.RunSpec Ops SpecToRun Runtime)
            { this with Base := Defined, Spec := this.Spec.EnsureSessionState } ∧
        After.LatentCommands =
          this.LatentCommands ++
            ((TMapValues Defined.IdToSpecMap).map (fun SpecToRun => SpecToRun.Commands)).flatten) ∧
      (∀ (InParameters : String) (SpecToRun : FSpec (FLatentCommand σ) ν),
        InParameters ≠ "" → TMapFind Defined.IdToSpecMap InParameters = some SpecToRun →
        FEnhancedAutomationSpecBase.RunTest Ops Define InParameters this =
          Except.ok (FEnhancedAutomationSpecBase.RunSpec Ops SpecToRun
            { this with Base := Defined, Spec := this.Spec.EnsureSessionState }, true)) ∧
      (∀ InParameters : String,
        InParameters ≠ "" → TMapFind Defined.IdToSpecMap InParameters = none →
        ∃ After,
          FEnhancedAutomationSpecBase.RunTest Ops Define InParameters this =
            Except.ok (After, true) ∧
          After.LatentCommands = this.LatentCommands ∧
          After.Spec.Env = this.Spec.Env) ∧
      (∀ InParameters : String,
        TMapFind Defined.IdToSpecMap InParameters = none ↔
          ∀ Key ∈ TMapKeys Defined.IdToSpecMap,
            Key.data.map FCharToLower ≠ InParameters.data.map FCharToLower) ∧
      (∀ (InParameters : String) (SpecToRun : FSpec (FLatentCommand σ) ν),
        TMapFind Defined.IdToSpecMap InParameters = some SpecToRun →
        ∃ Key, Key.data.map FCharToLower = InParameters.data.map FCharToLower ∧
          (Key, SpecToRun) ∈ Defined.IdToSpecMap)) := by
  constructor
  · intro InParameters e hFailed
    simp only [FEnhancedAutomationSpecBase.RunTest, hFailed]
  · intro Defined hDefined
    refine ⟨?_, ?_, ?_, ?_, ?_, ?_⟩
    · intro InParameters
      rw [RunTest_of_defined Ops Define InParameters this Defined hDefined]
      by_cases hEmpty : InParameters = ""
      · exact ⟨_, by rw [if_pos hEmpty]⟩
      · rw [if_neg hEmpty]
        cases TMapFind Defined.IdToSpecMap InParameters with
        | none => exact ⟨_, rfl⟩
        | some SpecToRun => exact ⟨_, rfl⟩
    · refine ⟨_, ?_, rfl, ?_⟩
      · rw [RunTest_of_defined Ops Define "" this Defined hDefined]
        simp
      · rw [(RunSpec_all_queue Ops (TMapValues Defined.IdToSpecMap) _).1]
    · intro InParameters SpecToRun hNotEmpty hFound
      rw [RunTest_of_defined Ops Define InParameters this Defined hDefined, if_neg hNotEmpty,
        hFound]
    · intro InParameters hNotEmpty hFound
      refine ⟨{ this with Base := Defined, Spec := this.Spec.EnsureSessionState }, ?_, rfl, ?_⟩
      · rw [RunTest_of_defined Ops Define InParameters this Defined hDefined, if_neg hNotEmpty,
          hFound]
      · exact EnsureSessionState_env this.Spec
    · intro InParameters
      rw [TMapFind_none_iff]
      simp only [TMapFoldedKeys, List.mem_map, not_exists, not_and, Fold_string]
      constructor
      · intro h Key hKey hSame
        exact h Key hKey (by rw [hSame])
      · intro h Key hKey hSame
        exact h Key hKey (congrArg String.data hSame)
    · intro InParameters SpecToRun hFound
      obtain ⟨Key, hFold, hMem⟩ := TMapFind_mem _ _ _ hFound
      exact ⟨Key, congrArg String.data hFold, hMem⟩

/-- Witness of C16: on the demo of `LetDemo.spec.cpp`, `RunTest` with a parameter that is
no identifier of a compiled spec returns true, enqueues nothing and leaves the members
and errors of the spec object as they were. -/
theorem C16_run_test_selects_specs_witness :
    ∃ After,
      FEnhancedAutomationSpecBase.RunTest (VariableOps String) (RunDecls FLetDemoSpec.Define)
          "No such test" FLetDemoSpec.Start = Except.ok (After, true) ∧
      After.LatentCommands = FLetDemoSpec.Start.LatentCommands ∧
      After.Spec.Env = FLetDemoSpec.Start.Spec.Env :=
  ((C16_run_test_selects_specs (VariableOps String) (RunDecls FLetDemoSpec.Define)
      FLetDemoSpec.Start).2 FLetDemoSpec.CompiledObject
      (ValueOf_eq _ _ (by decide!))).2.2.2.1 "No such test" (by decide)
    (Option.isNone_iff_eq_none.mp (by decide!))

/-- C16 where the claim fails, at `EmptyIdDefine`, whose compiled identifiers are the
empty text and "Other".  `RunTest` with the empty parameter, which is the identifier of
the first spec, runs both specs: two commands are queued.  `RunTest` with "OTHER", which
is not empty and is not one of the two identifiers, runs the second spec: one command is
queued.  With "Another", which no identifier equals up to case, nothing is queued. -/
theorem C16_empty_and_case_variant_parameters :
    CompiledIds (FLetDemoSpec.Enqueued EmptyIdDefine "") = ["", "Other"] ∧
    ObserveVariables (FLetDemoSpec.Enqueued EmptyIdDefine "") =
      some ⟨[], [], [], [], 2⟩ ∧
    "OTHER" ∉ CompiledIds (FLetDemoSpec.Enqueued EmptyIdDefine "OTHER") ∧
    ObserveVariables (FLetDemoSpec.Enqueued EmptyIdDefine "OTHER") =
      some ⟨[], [], [], [], 1⟩ ∧
    ObserveVariables (FLetDemoSpec.Enqueued EmptyIdDefine "Another") =
      some ⟨[], [], [], [], 0⟩ := by
  refine ⟨by decide!, by decide!, by decide!, by decide!, by decide!⟩

/-- C17, evaluation of the program where the claim fails.  A spec class declares the
scope of lines 92 to 107 of `LetDemo.spec.cpp`: a variable defined as "ABC", a test that
assigns "DEF" to it, and a test that expects "ABC".  `RunTest` with the empty parameter
calls `RunSpec` for both specs before any command runs: when it returns, both commands
are queued and nothing is memoized.  The scheduler then runs the first body, which
memoizes "DEF", and the second body, which reads "DEF" and records the error
"MyVariable"; the factory ran once.  Run one at a time, each through its own `RunTest`,
the same two tests record no error and the factory runs once in each. -/
theorem C17_run_all_resets_before_any_chain_runs :
    ObserveVariables (FLetDemoSpec.Enqueued FLetDemoSpec.ChangingValueOnly "") =
      some ⟨[], [("MyVariable", 8)], [], [], 2⟩ ∧
    ObserveVariables (FLetDemoSpec.RunTests FLetDemoSpec.ChangingValueOnly [""]) =
      some ⟨["MyVariable"], [("MyVariable", 8)], [(8, "DEF")], [8], 0⟩ ∧
    ObserveVariables (FLetDemoSpec.RunTests FLetDemoSpec.ChangingValueOnly
        [FLetDemoSpec.OnlyAffectsId, FLetDemoSpec.OnlyDoesNotAffectId]) =
      some ⟨[], [("MyVariable", 8)], [(8, "ABC")], [8, 8], 0⟩ := by
  refine ⟨by decide!, by decide!, by decide!⟩

/-! ## Claims C18 to C20: scoped variables -/

/-- C19: a read of a variable that has no memoized value evaluates it, which invokes the
factory, and a read that returns leaves the value memoized.  From then on, whatever the
fuel, `Get()`, `operator*` and `operator->` return the memoized value and leave the
members, ghost record of invoked factories included, as they are.  A write through an
accessor replaces the memoized value, and reads of other variables keep it.  Over any
sequence of reads and writes through the accessors that return, the factory of each
variable is invoked at most once, and not at all when the variable had a memoized value
at the start.  On the demo, the test of line 40 writes "Changed", reads it back through
the three accessors without an error, and the factory of the variable ran once. -/
theorem C19_variable_is_memoized_within_run {τ : Type} :
    (∀ (Fuel : Nat) (Variable : TSpecVariable τ) (Members : FSpecVariableMembers τ),
      TMapFind Members.Memo Variable.Handle = none →
      Variable.Get (Fuel + 1) Members =
        Variable.Evaluate (TSpecVariable.Get Fuel) Members) ∧
    (∀ (Fuel : Nat) (Variable : TSpecVariable τ) (Members After : FSpecVariableMembers τ)
      (Value : τ),
      Variable.Get Fuel Members = some (Value, After) →
      TMapFind After.Memo Variable.Handle = some Value) ∧
    (∀ (Fuel : Nat) (Variable : TSpecVariable τ) (Members : FSpecVariableMembers τ)
      (Value : τ),
      TMapFind Members.Memo Variable.Handle = some Value →
      Variable.Get Fuel Members = some (Value, Members) ∧
      Variable.Dereference Fuel Members = some (Value, Members) ∧
      Variable.Arrow Fuel Members = some (Value, Members)) ∧
    (∀ (Fuel : Nat) (Other : TSpecVariable τ) (Members After : FSpecVariableMembers τ)
      (Read Kept : τ) (h : Nat),
      Other.Get Fuel Members = some (Read, After) →
      TMapFind Members.Memo h = some Kept → TMapFind After.Memo h = some Kept) ∧
    (∀ (Fuel : Nat) (Variable : TSpecVariable τ) (Change : τ → τ)
      (Members After : FSpecVariableMembers τ),
      Variable.Modify Fuel Change Members = some After →
      ∃ Value Read,
        Variable.Get Fuel Members = some (Value, Read) ∧
        After = { Read with Memo := TMapAdd Read.Memo Variable.Handle (Change Value) } ∧
        TMapFind After.Memo Variable.Handle = some (Change Value)) ∧
    (∀ (Accesses : List (FVariableAccess τ)) (Members After : FSpecVariableMembers τ)
      (h : Nat),
      AccessAll Accesses Members = some After →
      After.GeneratorsInvoked.count h ≤ Members.GeneratorsInvoked.count h + 1 ∧
      ((TMapFind Members.Memo h).isSome = true →
        After.GeneratorsInvoked.count h = Members.GeneratorsInvoked.count h)) ∧
    ObserveVariables (FLetDemoSpec.RunTests FLetDemoSpec.Define [FLetDemoSpec.SameValueId]) =
      some ⟨[], [("OuterValue1", 1), ("OuterValue2", 2)], [(1, "Changed")], [1], 0⟩ := by
  refine ⟨?_, ?_, ?_, ?_, ?_, ?_, by decide!⟩
  · intro Fuel Variable Members hMemo
    exact Get_first Fuel Variable Members hMemo
  · intro Fuel Variable Members After Value hRead
    exact Get_memoizes Fuel Variable Members After Value hRead
  · intro Fuel Variable Members Value hMemo
    exact ⟨Get_memoized Fuel Variable Members Value hMemo,
      Get_memoized Fuel Variable Members Value hMemo,
      Get_memoized Fuel Variable Members Value hMemo⟩
  · intro Fuel Other Members After Read Kept h hRead hMemo
    exact (Get_preserves_memoized h Kept _ Fuel Other Members After Read hRead
      ⟨hMemo, rfl⟩).1
  · intro Fuel Variable Change Members After hModify
    unfold TSpecVariable.Modify at hModify
    cases hRead : Variable.Get Fuel Members with
    | none => simp [hRead] at hModify
    | some Result =>
      obtain ⟨Value, Read⟩ := Result
      simp only [hRead, Option.some.injEq] at hModify
      refine ⟨Value, Read, rfl, hModify.symm, ?_⟩
      rw [← hModify]
      simp [TMapFind_Add_nat]
  · intro Accesses Members After h hAll
    exact InvokedAtMostOnce_count h Members After
      (AccessAll_at_most_once h Accesses Members After hAll)

/-- C20: `REDEFINE_LET` enters, under the name, a new variable whose `Previous` is the
definition of that name that is visible where the redefinition stands: the definition of
the innermost scope on the scope stack that defines the name, the current scope included.
The evaluation of a variable whose factory returns a value derived from `Previous` reads
the definition in `Previous` and memoizes the value derived from what that read returns;
the evaluation of a definition whose factory returns a constant memoizes the constant,
whatever the variable shadows; both for a variable whose factory is not already running.
On the demo, with `OuterValue1` declared as "Outer" under handle 1: in the specs under the
redefinition `Previous + "Inner"`, handle 12, the name is bound to the chain 12, 1, and
the test of line 173 ends with "OuterInner"; in the specs under the further redefinition
`Previous + "DeepInner"`, handle 14, the name is bound to the chain 14, 12, 1, and the
test of line 214 ends with "OuterInnerDeepInner"; the tests of lines 115 and 194, under
redefinitions that do not read `Previous`, end with "Inner" and "DeepInner".  None of
them records an error. -/
theorem C20_redefinition_reads_previous {τ : Type} :
    (∀ (σ : Type) (Handle : Nat) (Name : String) (Generator : FGenerator τ)
      (this : FEnhancedAutomationSpecBase σ (TSpecVariable τ))
      (Below : List (FScope σ (TSpecVariable τ))) (Current : FScope σ (TSpecVariable τ)),
      this.DefinitionScopeStack = Below ++ [Current] →
      RunDecl (REDEFINE_LET Handle Name Generator) this =
        Except.ok
          { this with
            DefinitionScopeStack :=
              Below ++
                [{ Current with
                   Variables :=
                     TMapAdd Current.Variables Name
                       { Handle := Handle
                         Generator := Generator
                         Previous :=
                           FEnhancedAutomationSpecBase.VisibleVariable (Below ++ [Current])
                             Name } }] }) ∧
    (∀ (σ : Type) (Below : List (FScope σ (TSpecVariable τ)))
      (Current : FScope σ (TSpecVariable τ)) (Name : String),
      (∀ Own : TSpecVariable τ, TMapFind Current.Variables Name = some Own →
        FEnhancedAutomationSpecBase.VisibleVariable (Below ++ [Current]) Name = some Own) ∧
      (TMapFind Current.Variables Name = none →
        FEnhancedAutomationSpecBase.VisibleVariable (Below ++ [Current]) Name =
          FEnhancedAutomationSpecBase.VisibleVariable Below Name)) ∧
    (∀ (σ : Type) (Name : String),
      FEnhancedAutomationSpecBase.VisibleVariable ([] : List (FScope σ (TSpecVariable τ)))
        Name = none) ∧
    (∀ (ReadVariable : TSpecVariable τ → TVariableRead τ) (Variable : TSpecVariable τ)
      (Derive : τ → τ) (Members : FSpecVariableMembers τ),
      Variable.Generator =
        FGenerator.ReadPrevious (fun Value => FGenerator.Return (Derive Value)) →
      Variable.Handle ∉ Members.Evaluating →
      Variable.Evaluate ReadVariable Members =
        match Variable.Previous with
        | none => none
        | some Shadowed =>
          match ReadVariable Shadowed
              { Members with
                Evaluating := Variable.Handle :: Members.Evaluating
                GeneratorsInvoked := Members.GeneratorsInvoked ++ [Variable.Handle] } with
          | none => none
          | some (Value, After) =>
            some (Derive Value,
              { After with
                Memo := TMapAdd After.Memo Variable.Handle (Derive Value)
                Evaluating := Members.Evaluating })) ∧
    (∀ (ReadVariable : TSpecVariable τ → TVariableRead τ) (Variable : TSpecVariable τ)
      (Constant : τ) (Members : FSpecVariableMembers τ),
      Variable.Generator = FGenerator.Return Constant →
      Variable.Handle ∉ Members.Evaluating →
      Variable.Evaluate ReadVariable Members =
        some (Constant,
          { Members with
            GeneratorsInvoked := Members.GeneratorsInvoked ++ [Variable.Handle]
            Memo := TMapAdd Members.Memo Variable.Handle Constant })) ∧
    ChainOf FLetDemoSpec.CompiledObject FLetDemoSpec.SameValueId "OuterValue1" = some [1] ∧
    ChainOf FLetDemoSpec.CompiledObject FLetDemoSpec.ExtendedId "OuterValue1" =
      some [12, 1] ∧
    ChainOf FLetDemoSpec.CompiledObject FLetDemoSpec.ExtendedTwiceId "OuterValue1" =
      some [14, 12, 1] ∧
    ChainOf FLetDemoSpec.CompiledObject FLetDemoSpec.ReplacedId "OuterValue1" =
      some [9, 1] ∧
    ChainOf FLetDemoSpec.CompiledObject FLetDemoSpec.ExtendedThenReplacedId "OuterValue1" =
      some [13, 12, 1] ∧
    ObserveVariables (FLetDemoSpec.RunTests FLetDemoSpec.Define [FLetDemoSpec.ExtendedId]) =
      some ⟨[], [("OuterValue1", 12), ("OuterValue2", 2), ("InnerValue", 3), ("MyVariable", 8)],
        [(1, "Outer"), (12, "OuterInner")], [12, 1], 0⟩ ∧
    ObserveVariables
        (FLetDemoSpec.RunTests FLetDemoSpec.Define [FLetDemoSpec.ExtendedTwiceId]) =
      some ⟨[], [("OuterValue1", 14), ("OuterValue2", 2), ("InnerValue", 3), ("MyVariable", 8)],
        [(1, "Outer"), (12, "OuterInner"), (14, "OuterInnerDeepInner")], [14, 12, 1], 0⟩ ∧
    ObserveVariables (FLetDemoSpec.RunTests FLetDemoSpec.Define [FLetDemoSpec.ReplacedId]) =
      some ⟨[], [("OuterValue1", 9), ("OuterValue2", 2), ("InnerValue", 3), ("MyVariable", 8)],
        [(9, "Inner")], [9], 0⟩ ∧
    ObserveVariables
        (FLetDemoSpec.RunTests FLetDemoSpec.Define [FLetDemoSpec.ExtendedThenReplacedId]) =
      some ⟨[], [("OuterValue1", 13), ("OuterValue2", 2), ("InnerValue", 3), ("MyVariable", 8)],
        [(13, "DeepInner")], [13], 0⟩ := by
  refine ⟨?_, ?_, ?_, ?_, ?_, LetDemo_chain_outer, LetDemo_chain_extended,
    LetDemo_chain_extended_twice, LetDemo_chain_replaced, LetDemo_chain_extended_then_replaced,
    LetDemo_run_extended, LetDemo_run_extended_twice, LetDemo_run_replaced,
    LetDemo_run_extended_then_replaced⟩
  · intro σ Handle Name Generator this Below Current hstack
    obtain ⟨Descriptions, Stack, m, bDefined, bSkip, Timeout, Counter⟩ := this
    simp only at hstack
    subst hstack
    simp only [REDEFINE_LET, RunDecl, FEnhancedAutomationSpecBase.RedefineLet,
      FEnhancedAutomationSpecBase.Let, ModifyCurrentScope_mk]
  · intro σ Below Current Name
    exact ⟨fun Own hOwn => VisibleVariable_of_own Below Current Name Own hOwn,
      fun hNone => VisibleVariable_of_outer Below Current Name hNone⟩
  · intro σ Name
    rfl
  · intro ReadVariable Variable Derive Members hGenerator hFree
    unfold TSpecVariable.Evaluate
    rw [hGenerator, if_neg hFree]
    simp only [FGenerator.Run, ReadPrevious]
    cases Variable.Previous with
    | none => rfl
    | some Shadowed =>
      simp only []
      cases ReadVariable Shadowed
          { Members with
            Evaluating := Variable.Handle :: Members.Evaluating
            GeneratorsInvoked := Members.GeneratorsInvoked ++ [Variable.Handle] } with
      | none => rfl
      | some Result => rfl
  · intro ReadVariable Variable Constant Members hGenerator hFree
    unfold TSpecVariable.Evaluate
    rw [hGenerator, if_neg hFree]
    simp only [FGenerator.Run]

/-! ## Claim C21: reads by name in the code of outer scopes -/

/-- C22, for the names under which the lookup finds the spec: for every `It` declaration
of a compiled spec object, `GetTestSourceFileName` and `GetTestSourceFileLine` return the
file name and the line number that the declaration recorded, when they are called with
the name of the test class, a blank and the identifier, and also when they are called
with the identifier alone, unless the identifier itself starts, up to case, with the name
of the test class and a blank. -/
theorem C22_source_location_of_compiled_spec {σ ν : Type} (Decls : List (FSpecDecl σ ν))
    (bEnableSkipIfError : Bool) (DefaultTimeout HandleCounter : Int)
    (Compiled : FEnhancedAutomationSpecBase σ ν) (TestName BaseFileName : String)
    (BaseFileLine : Int)
    (hrun : FEnhancedAutomationSpecBase.EnsureDefinitions (RunDecls Decls)
      (FEnhancedAutomationSpecBase.Fresh σ ν bEnableSkipIfError DefaultTimeout HandleCounter)
      = Except.ok Compiled) :
    ∀ (Path : List (FScope σ ν)) (Scope : FScope σ ν)
      (It : FSpecItDefinition (FLatentCommand σ)),
      ScopePath (DeclaredRoot Decls bEnableSkipIfError DefaultTimeout HandleCounter)
        Path Scope →
      It ∈ Scope.It →
      FEnhancedAutomationSpecBase.GetTestSourceFileName TestName BaseFileName
          (TestName ++ " " ++ It.Id) Compiled = It.Filename ∧
      FEnhancedAutomationSpecBase.GetTestSourceFileLine TestName BaseFileLine
          (TestName ++ " " ++ It.Id) Compiled = It.LineNumber ∧
      (FStringStartsWith It.Id (TestName ++ " ") = false →
        FEnhancedAutomationSpecBase.GetTestSourceFileName TestName BaseFileName It.Id
            Compiled = It.Filename ∧
        FEnhancedAutomationSpecBase.GetTestSourceFileLine TestName BaseFileLine It.Id
            Compiled = It.LineNumber) := by
  intro Path Scope It hPath hIt
  obtain ⟨Spec, hFind, -, -, hFile, hLine⟩ := CompiledSpec_of_It Decls bEnableSkipIfError
    DefaultTimeout HandleCounter Compiled hrun Path Scope hPath It hIt
  refine ⟨?_, ?_, fun hPlain => ⟨?_, ?_⟩⟩
  · simp only [FEnhancedAutomationSpecBase.GetTestSourceFileName, TestIdOf_prefixed, hFind,
      hFile]
  · simp only [FEnhancedAutomationSpecBase.GetTestSourceFileLine, TestIdOf_prefixed, hFind,
      hLine]
  · simp only [FEnhancedAutomationSpecBase.GetTestSourceFileName,
      TestIdOf_plain TestName It.Id hPlain, hFind, hFile]
  · simp only [FEnhancedAutomationSpecBase.GetTestSourceFileLine,
      TestIdOf_plain TestName It.Id hPlain, hFind, hLine]

/-- Witness of C22: the `It` of the scope with two `BeforeEach` blocks of the demo of
`BeforeAllDemo.spec.cpp`, looked up under the class name `FBeforeAllDemoSpec`. -/
theorem C22_source_location_of_compiled_spec_witness :
    FEnhancedAutomationSpecBase.GetTestSourceFileName "FBeforeAllDemoSpec" "Unknown"
        ("FBeforeAllDemoSpec" ++ " " ++ FBeforeAllDemoSpec.SecondIt.Id)
        FBeforeAllDemoSpec.CompiledObject = FBeforeAllDemoSpec.SecondIt.Filename ∧
    FEnhancedAutomationSpecBase.GetTestSourceFileLine "FBeforeAllDemoSpec" 0
        ("FBeforeAllDemoSpec" ++ " " ++ FBeforeAllDemoSpec.SecondIt.Id)
        FBeforeAllDemoSpec.CompiledObject = FBeforeAllDemoSpec.SecondIt.LineNumber ∧
    (FStringStartsWith FBeforeAllDemoSpec.SecondIt.Id ("FBeforeAllDemoSpec" ++ " ") = false →
      FEnhancedAutomationSpecBase.GetTestSourceFileName "FBeforeAllDemoSpec" "Unknown"
          FBeforeAllDemoSpec.SecondIt.Id FBeforeAllDemoSpec.CompiledObject =
        FBeforeAllDemoSpec.SecondIt.Filename ∧
      FEnhancedAutomationSpecBase.GetTestSourceFileLine "FBeforeAllDemoSpec" 0
          FBeforeAllDemoSpec.SecondIt.Id FBeforeAllDemoSpec.CompiledObject =
        FBeforeAllDemoSpec.SecondIt.LineNumber) :=
  C22_source_location_of_compiled_spec FBeforeAllDemoSpec.Define true 300000000 1
    FBeforeAllDemoSpec.CompiledObject "FBeforeAllDemoSpec" "Unknown" 0
    (ValueOf_eq FBeforeAllDemoSpec.Compiled _ (by decide!))
    [FBeforeAllDemoSpec.Root, FBeforeAllDemoSpec.Group, FBeforeAllDemoSpec.SecondScope]
    FBeforeAllDemoSpec.SecondScope FBeforeAllDemoSpec.SecondIt
    (ScopePath.Child _ FBeforeAllDemoSpec.Group _ _
      (headD_mem _ _ (by decide!))
      (ScopePath.Child _ FBeforeAllDemoSpec.SecondScope _ _
        (getLastD_mem _ _ (by decide!))
        (ScopePath.Here _)))
    (headD_mem _ _ (by decide!))

/-- C22 at an identifier that starts with the class name: in the spec class `FDemo` whose
outermost `Describe` is "FDemo", the test "works" is compiled under the identifier
"FDemo works" with the file name "Demo.spec.cpp" and the line 7.  Called with that
identifier, both functions cut off "FDemo ", look up "works", find nothing and return the
values of the base class. -/
theorem C22_identifier_that_starts_with_the_class_name :
    TMapKeys PrefixedIdCompiled.IdToSpecMap = ["FDemo works"] ∧
    (TMapFind PrefixedIdCompiled.IdToSpecMap "FDemo works").map
        (fun Spec => (Spec.Filename, Spec.LineNumber)) = some ("Demo.spec.cpp", 7) ∧
    FEnhancedAutomationSpecBase.GetTestSourceFileName "FDemo" "Unknown" "FDemo works"
        PrefixedIdCompiled = "Unknown" ∧
    FEnhancedAutomationSpecBase.GetTestSourceFileLine "FDemo" 0 "FDemo works"
        PrefixedIdCompiled = 0 := by
  decide!

/-- C23: when `EnsureDefinitions` returns, `GetTests` returns the arrays it was given
followed by one entry per compiled spec, in the order of `IdToSpecMap`: the description
in `OutBeautifiedNames` and the identifier in `OutTestCommands`, at the same index for
the same spec, so both arrays grow by the number of compiled specs.  For a spec object
compiled from declarations, the appended identifiers are those of the `It` declarations,
each once, and the appended names their descriptions. -/
theorem C23_get_tests_lists_every_spec_once {σ ν : Type}
    (Define : FEnhancedAutomationSpecBase σ ν → Except FFault (FEnhancedAutomationSpecBase σ ν))
    (OutBeautifiedNames OutTestCommands : List String)
    (this Defined : FEnhancedAutomationSpecBase σ ν)
    (hDefined : FEnhancedAutomationSpecBase.EnsureDefinitions Define this = Except.ok Defined) :
    FEnhancedAutomationSpecBase.GetTests Define OutBeautifiedNames OutTestCommands this =
      Except.ok (Defined,
        OutBeautifiedNames ++ (TMapValues Defined.IdToSpecMap).map (fun Spec => Spec.Description),
        OutTestCommands ++ (TMapValues Defined.IdToSpecMap).map (fun Spec => Spec.Id)) ∧
    (OutBeautifiedNames ++
        (TMapValues Defined.IdToSpecMap).map (fun Spec => Spec.Description)).length =
      OutBeautifiedNames.length + Defined.IdToSpecMap.length ∧
    (OutTestCommands ++ (TMapValues Defined.IdToSpecMap).map (fun Spec => Spec.Id)).length =
      OutTestCommands.length + Defined.IdToSpecMap.length ∧
    (∀ (i : Nat) (Entry : String × FSpec (FLatentCommand σ) ν),
      Defined.IdToSpecMap[i]? = some Entry →
      (OutBeautifiedNames ++
          (TMapValues Defined.IdToSpecMap).map
            (fun Spec => Spec.Description))[OutBeautifiedNames.length + i]? =
        some Entry.2.Description ∧
      (OutTestCommands ++
          (TMapValues Defined.IdToSpecMap).map
            (fun Spec => Spec.Id))[OutTestCommands.length + i]? = some Entry.2.Id) ∧
    (∀ i : Nat, i < OutBeautifiedNames.length →
      (OutBeautifiedNames ++
          (TMapValues Defined.IdToSpecMap).map (fun Spec => Spec.Description))[i]? =
        OutBeautifiedNames[i]?) ∧
    (∀ i : Nat, i < OutTestCommands.length →
      (OutTestCommands ++ (TMapValues Defined.IdToSpecMap).map (fun Spec => Spec.Id))[i]? =
        OutTestCommands[i]?) ∧
    (∀ (Decls : List (FSpecDecl σ ν)) (bEnableSkipIfError : Bool)
      (DefaultTimeout HandleCounter : Int),
      Define = RunDecls Decls →
      this = FEnhancedAutomationSpecBase.Fresh σ ν bEnableSkipIfError DefaultTimeout
        HandleCounter →
      (TMapValues Defined.IdToSpecMap).map (fun Spec => Spec.Id) =
        (DeclaredRoot Decls bEnableSkipIfError DefaultTimeout HandleCounter).AllIt.map
          (fun It => It.Id) ∧
      (TMapValues Defined.IdToSpecMap).map (fun Spec => Spec.Description) =
        (DeclaredRoot Decls bEnableSkipIfError DefaultTimeout HandleCounter).AllIt.map
          (fun It => It.Description) ∧
      ((TMapValues Defined.IdToSpecMap).map (fun Spec => Spec.Id)).Nodup) := by
  refine ⟨?_, ?_, ?_, ?_, ?_, ?_, ?_⟩
  · simp only [FEnhancedAutomationSpecBase.GetTests, hDefined, GetTests_fold]
  · simp [TMapValues]
  · simp [TMapValues]
  · intro i Entry hEntry
    have hi : i < Defined.IdToSpecMap.length := by
      rcases Nat.lt_or_ge i Defined.IdToSpecMap.length with h | h
      · exact h
      · rw [List.getElem?_eq_none h] at hEntry
        cases hEntry
    constructor
    · rw [List.getElem?_append_right (Nat.le_add_right _ _)]
      simp [TMapValues, hEntry]
    · rw [List.getElem?_append_right (Nat.le_add_right _ _)]
      simp [TMapValues, hEntry]
  · intro i hi
    exact List.getElem?_append_left hi
  · intro i hi
    exact List.getElem?_append_left hi
  · intro Decls bEnableSkipIfError DefaultTimeout HandleCounter hDefine hFresh
    subst hDefine
    subst hFresh
    obtain ⟨Declared, _, hpost, hstack, hp, _, hmap⟩ :=
      EnsureDefinitions_Fresh Decls bEnableSkipIfError DefaultTimeout HandleCounter Defined
        hDefined
    obtain ⟨hm, hnd, _⟩ := PostDefine_object Declared Defined _ hstack hp hmap hpost
    rw [hm, TMapValues_SpecEntry]
    have hids := SpecsOfScope_ids
      (DeclaredRoot Decls bEnableSkipIfError DefaultTimeout HandleCounter) [] [] [] []
    have hExact : ((SpecsOfScope [] [] [] []
        (DeclaredRoot Decls bEnableSkipIfError DefaultTimeout HandleCounter)).map
          (fun Spec => Spec.Id)).Nodup := by
      apply List.Nodup.of_map (fun Id : String => FKeyFuncs.Fold Id)
      rw [List.map_map]
      exact hnd
    refine ⟨SpecsOfScope_id_list _, ?_, hExact⟩
    have := congrArg (List.map (fun (q : String × String × String × Int) => q.2.1)) hids
    simpa [List.map_map, Function.comp] using this

/-- Witness of C23: `GetTests` on the fresh spec object of the demo of
`BeforeAllDemo.spec.cpp`, called with one entry already in each array. -/
theorem C23_get_tests_lists_every_spec_once_witness :
    ObserveTests
        (FEnhancedAutomationSpecBase.GetTests (RunDecls FBeforeAllDemoSpec.Define)
          ["Earlier name"] ["Earlier command"]
          (FEnhancedAutomationSpecBase.Fresh FBeforeAllDemoSpec Unit true 300000000 1)) =
      some
        (["Earlier name"] ++
            (TMapValues FBeforeAllDemoSpec.CompiledObject.IdToSpecMap).map
              (fun Spec => Spec.Description),
          ["Earlier command"] ++
            (TMapValues FBeforeAllDemoSpec.CompiledObject.IdToSpecMap).map
              (fun Spec => Spec.Id)) ∧
    (TMapValues FBeforeAllDemoSpec.CompiledObject.IdToSpecMap).length = 3 :=
  ⟨by
    rw [(C23_get_tests_lists_every_spec_once (RunDecls FBeforeAllDemoSpec.Define)
      ["Earlier name"] ["Earlier command"]
      (FEnhancedAutomationSpecBase.Fresh FBeforeAllDemoSpec Unit true 300000000 1)
      FBeforeAllDemoSpec.CompiledObject
      (ValueOf_eq FBeforeAllDemoSpec.Compiled _ (by decide!))).1]
    rfl,
   by decide!⟩

/-! ## Claims C24 to C26: declaration stacks, identifiers and descriptions -/

/-- C24: `Describe` calls its work in the state `DescribeOpened`: the new scope is on top
of the scope stack, the entry below it is the previous top with the new scope as its last
child, the entries further down are untouched, and the description is on top of the
description stack; `Describe` depends on its work only through what the work does in that
state.  When the work returns with both stacks as it found them, up to what it declared
in the scope on top, `Describe` returns with the description stack as it was before the
call and with the scope stack as it was, its top being the previous top, to which the
built scope is added as last child unless it is empty.  A declaration pass on a stack
with a scope on top never finds the stack empty: it returns with the same scopes below
the top and the same description stack, and from the fresh spec object it returns with
the root alone on the stack. -/
theorem C24_describe_keeps_stacks_balanced {σ ν : Type} (InDescription : String)
    (DoWork : FEnhancedAutomationSpecBase σ ν → Except FFault (FEnhancedAutomationSpecBase σ ν))
    (this : FEnhancedAutomationSpecBase σ ν) (Below : List (FScope σ ν))
    (ParentScope : FScope σ ν) (Worked : FEnhancedAutomationSpecBase σ ν)
    (FinalScope : FScope σ ν)
    (hstack : this.DefinitionScopeStack = Below ++ [ParentScope])
    (hWork : DoWork (FEnhancedAutomationSpecBase.DescribeOpened InDescription this Below
      ParentScope) = Except.ok Worked)
    (hDescriptions : Worked.DescriptionStack = this.DescriptionStack ++ [InDescription])
    (hScopes : Worked.DefinitionScopeStack =
      Below
        ++ [{ ParentScope with
              Children := ParentScope.Children ++ [NewDescribeScope σ ν InDescription] }]
        ++ [FinalScope]) :
    ((FEnhancedAutomationSpecBase.DescribeOpened InDescription this Below
        ParentScope).DefinitionScopeStack.getLast? =
        some (NewDescribeScope σ ν InDescription) ∧
      (FEnhancedAutomationSpecBase.DescribeOpened InDescription this Below
        ParentScope).DefinitionScopeStack.dropLast =
        Below ++ [{ ParentScope with
          Children := ParentScope.Children ++ [NewDescribeScope σ ν InDescription] }] ∧
      (FEnhancedAutomationSpecBase.DescribeOpened InDescription this Below
        ParentScope).DescriptionStack = this.DescriptionStack ++ [InDescription] ∧
      ∀ Other : FEnhancedAutomationSpecBase σ ν →
          Except FFault (FEnhancedAutomationSpecBase σ ν),
        Other (FEnhancedAutomationSpecBase.DescribeOpened InDescription this Below
            ParentScope) =
          DoWork (FEnhancedAutomationSpecBase.DescribeOpened InDescription this Below
            ParentScope) →
        FEnhancedAutomationSpecBase.Describe InDescription Other this =
          FEnhancedAutomationSpecBase.Describe InDescription DoWork this) ∧
    (∃ After,
      FEnhancedAutomationSpecBase.Describe InDescription DoWork this = Except.ok After ∧
      After.DescriptionStack = this.DescriptionStack ∧
      After.DefinitionScopeStack =
        Below ++
          [{ ParentScope with
             Children :=
               ParentScope.Children ++
                 (if FinalScope.It.length = 0 ∧ FinalScope.Children.length = 0 then []
                  else [FinalScope]) }] ∧
      After.DefinitionScopeStack.length = this.DefinitionScopeStack.length) ∧
    (∀ (Decls : List (FSpecDecl σ ν)) (Before : FEnhancedAutomationSpecBase σ ν)
      (Under : List (FScope σ ν)) (Current : FScope σ ν),
      Before.DefinitionScopeStack = Under ++ [Current] →
      ∃ After NewScope,
        RunDecls Decls Before = Except.ok After ∧
        After.DefinitionScopeStack = Under ++ [NewScope] ∧
        After.DescriptionStack = Before.DescriptionStack) ∧
    (∀ (Decls : List (FSpecDecl σ ν)) (bEnableSkipIfError : Bool)
      (DefaultTimeout HandleCounter : Int),
      ∃ Declared Root,
        RunDecls Decls
            (FEnhancedAutomationSpecBase.Fresh σ ν bEnableSkipIfError DefaultTimeout
              HandleCounter) = Except.ok Declared ∧
        Declared.DefinitionScopeStack = [Root] ∧ Declared.DescriptionStack = []) := by
  refine ⟨⟨?_, ?_, rfl, ?_⟩, ?_, ?_, ?_⟩
  · simp [FEnhancedAutomationSpecBase.DescribeOpened]
  · simp [FEnhancedAutomationSpecBase.DescribeOpened]
  · intro Other hSame
    exact Describe_runs_work_on_opened InDescription DoWork Other this Below ParentScope
      hstack hSame
  · refine ⟨_, Describe_balanced InDescription DoWork this Below ParentScope Worked
      FinalScope hstack hWork hDescriptions hScopes, rfl, rfl, ?_⟩
    simp [hstack]
  · intro Decls Before Under Current hBefore
    obtain ⟨After, NewScope, hrun, hFrame, _⟩ := RunDecls_spec Decls Before Under Current hBefore
    exact ⟨After, NewScope, hrun, hFrame.1, hFrame.2.1⟩
  · intro Decls bEnableSkipIfError DefaultTimeout HandleCounter
    obtain ⟨After, NewScope, hrun, hFrame, _⟩ := RunDecls_spec Decls
      (FEnhancedAutomationSpecBase.Fresh σ ν bEnableSkipIfError DefaultTimeout HandleCounter)
      [] _ rfl
    exact ⟨After, NewScope, hrun, hFrame.1, hFrame.2.1⟩

/-- Witness of C24: `Describe("Group", ...)` on the spec object `DeclaringSpec`, whose
stacks hold the root and the scope "Teardown", with a body that declares a `BeforeEach`,
a test, a nested group with a test and an empty nested group.  The body returns with the
description "Group" on top of the description stack and with the built scope on top of
the scope stack; the built scope holds the hook, the test and the nested group with its
test, and not the empty group.  `Describe` returns with the description stack and the
scope stack of `DeclaringSpec`, the built scope added as the last child of "Teardown". -/
theorem C24_describe_keeps_stacks_balanced_witness :
    NestedGroupWorked.DescriptionStack = ["Teardown", "Group"] ∧
    NestedGroupScope.BeforeEach.length = 1 ∧
    NestedGroupScope.It.map (fun It => It.Id) = ["Teardown Group first"] ∧
    NestedGroupScope.Children.map
        (fun Child => (Child.Description, Child.It.map (fun It => It.Id))) =
      [("Nested", ["Teardown Group Nested second"])] ∧
    ∃ After,
      FEnhancedAutomationSpecBase.Describe "Group" (RunDecls NestedGroupWork) DeclaringSpec =
        Except.ok After ∧
      After.DescriptionStack = DeclaringSpec.DescriptionStack ∧
      After.DefinitionScopeStack =
        [NewDescribeScope Int Unit ""] ++
          [{ NewDescribeScope Int Unit "Teardown" with
             Children :=
               (NewDescribeScope Int Unit "Teardown").Children ++
                 (if NestedGroupScope.It.length = 0 ∧ NestedGroupScope.Children.length = 0
                  then []
                  else [NestedGroupScope]) }] ∧
      After.DefinitionScopeStack.length = DeclaringSpec.DefinitionScopeStack.length :=
  ⟨by decide!, by decide!, by decide!, by decide!,
    (C24_describe_keeps_stacks_balanced "Group" (RunDecls NestedGroupWork) DeclaringSpec
      [NewDescribeScope Int Unit ""] (NewDescribeScope Int Unit "Teardown")
      NestedGroupWorked NestedGroupScope rfl
      (DescribeOpened_value_stack "Group" NestedGroupWork DeclaringSpec DeclaringSpec
        [NewDescribeScope Int Unit ""] (NewDescribeScope Int Unit "Teardown")
        (NewDescribeScope Int Unit "Group")).1
      (DescribeOpened_value_stack "Group" NestedGroupWork DeclaringSpec DeclaringSpec
        [NewDescribeScope Int Unit ""] (NewDescribeScope Int Unit "Teardown")
        (NewDescribeScope Int Unit "Group")).2.1
      (DescribeOpened_value_stack "Group" NestedGroupWork DeclaringSpec DeclaringSpec
        [NewDescribeScope Int Unit ""] (NewDescribeScope Int Unit "Teardown")
        (NewDescribeScope Int Unit "Group")).2.2).2.1⟩

/-- C25: on a description stack that is not empty, `GetId` returns the text between
the last opening bracket and the final closing bracket of the innermost description when
that description ends with a closing bracket and at least one character stands between
the two, whatever the descriptions of the ancestors are; in every other case it returns
the non-empty descriptions in order, glued with one blank except where the text built so
far ends with whitespace or the next description begins with whitespace. -/
theorem C25_get_id_takes_brackets_or_joins (Below : List String) (Last : String) :
    (∀ Pre Mid : List Char,
      Last.data = Pre ++ Char.ofNat 91 :: Mid ++ [Char.ofNat 93] →
      Char.ofNat 91 ∉ Mid → Mid ≠ [] →
      GetId (Below ++ [Last]) = Except.ok (String.mk Mid)) ∧
    ((¬ ∃ Pre Mid : List Char,
        Last.data = Pre ++ Char.ofNat 91 :: Mid ++ [Char.ofNat 93] ∧
        Char.ofNat 91 ∉ Mid ∧ Mid ≠ []) →
      GetId (Below ++ [Last]) = Except.ok (IdOfDescriptions (Below ++ [Last]))) ∧
    GetId ["Suite", "case [fast]"] = Except.ok "fast" ∧
    GetId ["Suite", "case []"] = Except.ok "Suite case []" ∧
    GetId ["Suite ", "", " case", "one"] = Except.ok "Suite  case one" := by
  have hWhole : String.mk (JoinIdParts [] (Below ++ [Last])) =
      IdOfDescriptions (Below ++ [Last]) := by
    unfold IdOfDescriptions
    rw [JoinIdParts_eq_foldl]
  refine ⟨?_, ?_, rfl, rfl, rfl⟩
  · intro Pre Mid hData hNot hMid
    unfold GetId
    simp only [List.getLast?_concat, hData, List.dropLast_concat, if_true]
    rw [FindLastChar_last Pre Mid _ hNot]
    have hLength : Pre.length ≠ (Pre ++ Char.ofNat 91 :: Mid).length - 1 := by
      have hPos : 0 < Mid.length := List.length_pos.mpr hMid
      simp only [List.length_append, List.length_cons]
      omega
    simp only [ne_eq, hLength, not_false_eq_true, if_true]
    have hDrop : List.drop (Pre.length + 1) (Pre ++ Char.ofNat 91 :: Mid) = Mid := by
      have h : Pre ++ Char.ofNat 91 :: Mid = (Pre ++ [Char.ofNat 91]) ++ Mid := by simp
      rw [h]
      exact List.drop_left' (by simp)
    rw [hDrop]
  · intro hNo
    unfold GetId
    simp only [List.getLast?_concat]
    rw [hWhole]
    by_cases hEnds : Last.data.getLast? = some (Char.ofNat 93)
    · simp only [hEnds, if_true]
      obtain ⟨ItDescription, hIt⟩ : ∃ ItDescription,
          Last.data = ItDescription ++ [Char.ofNat 93] := by
        rcases List.eq_nil_or_concat Last.data with hNil | ⟨Front, Final, hConcat⟩
        · rw [hNil] at hEnds
          exact absurd hEnds (by simp)
        · rw [hConcat, List.concat_eq_append, List.getLast?_concat] at hEnds
          exact ⟨Front, by rw [hConcat, List.concat_eq_append, Option.some.inj hEnds]⟩
      rw [hIt, List.dropLast_concat]
      by_cases hMem : Char.ofNat 91 ∈ ItDescription
      · obtain ⟨Pre, Mid, hSplit, hNot⟩ := split_at_last ItDescription _ hMem
        rw [hSplit, FindLastChar_last Pre Mid _ hNot]
        have hMid : Mid = [] := by
          by_contra hne
          exact hNo ⟨Pre, Mid, by rw [hIt, hSplit], hNot, hne⟩
        subst hMid
        simp
      · rw [FindLastChar_none _ _ hMem]
    · simp only [hEnds, if_false]

/-- C26: `GetDescription` returns the entries of the description stack that are not
empty, in order, joined by one dot; empty descriptions add nothing, and whitespace at the
start or the end of an entry changes no dot. -/
theorem C26_get_description_joins_with_dots (DescriptionStack : List String) :
    GetDescription DescriptionStack = DescriptionOfDescriptions DescriptionStack ∧
    GetDescription ["Suite ", "", " case", "one"] = "Suite . case.one" := by
  refine ⟨?_, by decide!⟩
  unfold GetDescription DescriptionOfDescriptions
  rw [JoinDescriptionParts_eq_intercalate]

/-! ## Claims C27 to C30: completion, signals and commands that run once -/

/-- C28, evaluation of the program where the claim fails.  `Done` only asks whether
the command is in an activation, not which activation the delegate was made for: on a
started command it sets `bDone`, and the next poll reports completion.  The command of
`KeptDelegateCommand`, timeout 50, is started at time 0 and ends by timeout at time 50,
with the error.  Its second activation starts at time 60, with the deadline 110.  When
the callback of the first activation executes its delegate after that, the poll at time
61 reports completion, although the work of the second activation has not signalled;
without that signal the poll at time 61 answers false.  A signal that arrives between
the two activations is ignored. -/
theorem C28_stale_signal_completes_later_activation {σ : Type} :
    (∀ (Command : FMultiFrameLatentCommand σ) (NowAtStart Now : Int) (Spec : FSpecWorld σ),
      Command.bHasStartedRunning = true →
      Command.Done.Update NowAtStart Now Spec = Except.ok (Command.Done.Reset, Spec, true)) ∧
    FMultiFrameLatentCommand.Observe
        (RunSteps [FMultiFrameLatentCommand.PollAt 0, FMultiFrameLatentCommand.PollAt 50]
          (KeptDelegateCommand, CleanSpec, false)) =
      some ⟨false, false, 0, 1, ["Latent command timed out."], true⟩ ∧
    FMultiFrameLatentCommand.Observe
        (RunSteps [FMultiFrameLatentCommand.PollAt 0, FMultiFrameLatentCommand.PollAt 50,
            FMultiFrameLatentCommand.PollAt 60]
          (KeptDelegateCommand, CleanSpec, false)) =
      some ⟨true, false, 60, 2, ["Latent command timed out."], false⟩ ∧
    FMultiFrameLatentCommand.Observe
        (RunSteps [FMultiFrameLatentCommand.PollAt 0, FMultiFrameLatentCommand.PollAt 50,
            FMultiFrameLatentCommand.PollAt 60, FMultiFrameLatentCommand.SignalDone,
            FMultiFrameLatentCommand.PollAt 61]
          (KeptDelegateCommand, CleanSpec, false)) =
      some ⟨false, false, 60, 2, ["Latent command timed out."], true⟩ ∧
    FMultiFrameLatentCommand.Observe
        (RunSteps [FMultiFrameLatentCommand.PollAt 0, FMultiFrameLatentCommand.PollAt 50,
            FMultiFrameLatentCommand.PollAt 60, FMultiFrameLatentCommand.PollAt 61]
          (KeptDelegateCommand, CleanSpec, false)) =
      some ⟨true, false, 60, 2, ["Latent command timed out."], false⟩ ∧
    FMultiFrameLatentCommand.Observe
        (RunSteps [FMultiFrameLatentCommand.PollAt 0, FMultiFrameLatentCommand.PollAt 50,
            FMultiFrameLatentCommand.SignalDone, FMultiFrameLatentCommand.PollAt 60,
            FMultiFrameLatentCommand.PollAt 61]
          (KeptDelegateCommand, CleanSpec, false)) =
      some ⟨true, false, 60, 2, ["Latent command timed out."], false⟩ := by
  refine ⟨?_, by decide!, by decide!, by decide!, by decide!, by decide!⟩
  intro Command NowAtStart Now Spec hStarted
  have hDone : Command.Done.bDone = true := by
    simp [FMultiFrameLatentCommand.Done, hStarted]
  have hStill : Command.Done.bHasStartedRunning = true := by
    simp [FMultiFrameLatentCommand.Done, hStarted]
  rw [MultiFrame_started_poll Command.Done NowAtStart Now Spec hStill]
  simp [hDone]

/-- C29, evaluation of the program where the claim fails.  When the handle is marked
the latent wrapper returns without invoking the body and without executing the delegate,
which nothing else holds.  The command has started an activation all the same: it
answers false until its deadline and then answers true with the error "Latent command
timed out.".  The blocking wrapper on a marked handle completes at once.  At the command
of `LatentBeforeAllCommand`, timeout 50: the first spec polls it at time 0, the body runs
and the handle 7 is marked, the callback executes the delegate and the poll at time 1
reports completion.  The second spec polls it at times 10 and 59: the body is not run
again and the polls answer false; the poll at time 60 answers true with the error. -/
theorem C29_marked_latent_before_all_waits_for_timeout {σ : Type} :
    (∀ (BlockHandle : Int) (DoWork : TLatentFunction σ) (Command : FMultiFrameLatentCommand σ)
      (Session : FEnhancedTestSessionState) (Spec : FSpecWorld σ) (NowAtStart Now : Int),
      Command.Work = CreateRunWorkOnceLatentWrapper BlockHandle DoWork →
      Command.bHasStartedRunning = false →
      (Command.bSkipIfErrored = false ∨ Spec.HasAnyErrors = false) →
      Spec.SuiteSessionState = some Session → Session.HasBlockRun BlockHandle = true →
      Command.Work Spec = Except.ok (Spec, false) ∧
      (Now < FDateTimePlus NowAtStart Command.Timeout →
        Command.Update NowAtStart Now Spec =
          Except.ok (Command.Started NowAtStart, Spec, false)) ∧
      (Now ≥ FDateTimePlus NowAtStart Command.Timeout →
        Command.Update NowAtStart Now Spec =
          Except.ok ((Command.Started NowAtStart).Reset,
            Spec.AddError "Latent command timed out.", true)) ∧
      (∀ Later : Int, Later ≥ FDateTimePlus NowAtStart Command.Timeout →
        (Command.Started NowAtStart).Update Later Later Spec =
          Except.ok ((Command.Started NowAtStart).Reset,
            Spec.AddError "Latent command timed out.", true))) ∧
    (∀ (BlockHandle : Int) (DoWork : TFunction σ) (bSkipIfErrored : Bool)
      (Spec : FSpecWorld σ), Spec.HasBlockRun BlockHandle = true →
      FSimpleBlockingCommand.Update
        { Work := CreateRunWorkOnceWrapper BlockHandle DoWork
          bSkipIfErrored := bSkipIfErrored } Spec = Except.ok (Spec, true)) ∧
    MakeCommand 300000000 true (CreateRunWorkOnceWrapper 7) (CreateRunWorkOnceLatentWrapper 7)
        (FWorkArgs.Latent (some 50) KeepDelegateBody) =
      FLatentCommand.MultiFrameLatent LatentBeforeAllCommand ∧
    ObserveRunOnce
        (RunSteps [FMultiFrameLatentCommand.PollAt 0]
          (LatentBeforeAllCommand, SessionSpec, false)) =
      some ⟨true, 0, 1, [], some [7], [7], false⟩ ∧
    ObserveRunOnce
        (RunSteps [FMultiFrameLatentCommand.PollAt 0, FMultiFrameLatentCommand.SignalDone,
            FMultiFrameLatentCommand.PollAt 1]
          (LatentBeforeAllCommand, SessionSpec, false)) =
      some ⟨false, 0, 1, [], some [7], [7], true⟩ ∧
    ObserveRunOnce
        (RunSteps [FMultiFrameLatentCommand.PollAt 0, FMultiFrameLatentCommand.SignalDone,
            FMultiFrameLatentCommand.PollAt 1, FMultiFrameLatentCommand.PollAt 10]
          (LatentBeforeAllCommand, SessionSpec, false)) =
      some ⟨true, 10, 1, [], some [7], [7], false⟩ ∧
    ObserveRunOnce
        (RunSteps [FMultiFrameLatentCommand.PollAt 0, FMultiFrameLatentCommand.SignalDone,
            FMultiFrameLatentCommand.PollAt 1, FMultiFrameLatentCommand.PollAt 10,
            FMultiFrameLatentCommand.PollAt 59]
          (LatentBeforeAllCommand, SessionSpec, false)) =
      some ⟨true, 10, 1, [], some [7], [7], false⟩ ∧
    ObserveRunOnce
        (RunSteps [FMultiFrameLatentCommand.PollAt 0, FMultiFrameLatentCommand.SignalDone,
            FMultiFrameLatentCommand.PollAt 1, FMultiFrameLatentCommand.PollAt 10,
            FMultiFrameLatentCommand.PollAt 59, FMultiFrameLatentCommand.PollAt 60]
          (LatentBeforeAllCommand, SessionSpec, false)) =
      some ⟨false, 10, 1, ["Latent command timed out."], some [7], [7], true⟩ := by
  refine ⟨?_, ?_, rfl, by decide!, by decide!, by decide!, by decide!, by decide!⟩
  · intro BlockHandle DoWork Command Session Spec NowAtStart Now hWrapped hIdle hRun hSession
      hMarked
    have hWork : Command.Work Spec = Except.ok (Spec, false) := by
      rw [hWrapped]
      simp [CreateRunWorkOnceLatentWrapper, hSession, hMarked]
    refine ⟨hWork, ?_, ?_, ?_⟩
    · intro hlt
      rw [MultiFrame_first_poll Command NowAtStart Now Spec Spec false hIdle hRun hWork]
      simp [not_le.mpr hlt]
    · intro hge
      rw [MultiFrame_first_poll Command NowAtStart Now Spec Spec false hIdle hRun hWork]
      simp [hge]
    · intro Later hge
      rw [MultiFrame_started_poll (Command.Started NowAtStart) Later Later Spec rfl]
      have hStart : (Command.Started NowAtStart).StartTime = NowAtStart := rfl
      have hTimeout : (Command.Started NowAtStart).Timeout = Command.Timeout := rfl
      have hDone : (Command.Started NowAtStart).bDone = false := rfl
      simp [hStart, hTimeout, hDone, hge]
  · intro BlockHandle DoWork bSkipIfErrored Spec hMarked
    unfold FSimpleBlockingCommand.Update
    by_cases hc : (!bSkipIfErrored || !Spec.HasAnyErrors) = true
    · simp only [hc, if_true, Wrapper_marked BlockHandle DoWork Spec hMarked]
    · simp only [hc, Bool.false_eq_true, if_false]

/-- C30: a run-once wrapper whose body leaves the session state alone never fails
the assertion of `MarkBlockAsRun`.  On a marked handle the wrapper returns at once.  On a
handle that is not marked it invokes the body, and when the body returns the handle is
still not marked, so `MarkBlockAsRun` succeeds and appends the handle.  Every fault of
the wrapper is a fault of its body.  After the wrapper has returned, `HasBlockRun` is
true for its handle and answers for every other handle what it answered before.  The
same holds for the wrapper of latent work. -/
theorem C30_mark_block_as_run_never_asserts {σ : Type} (BlockHandle : Int)
    (DoWork : TFunction σ) (DoLatentWork : TLatentFunction σ) (Spec : FSpecWorld σ)
    (Session : FEnhancedTestSessionState)
    (hSession : Spec.SuiteSessionState = some Session)
    (hWork : ∀ Before After, DoWork Before = Except.ok After →
      After.SuiteSessionState = Before.SuiteSessionState)
    (hLatentWork : ∀ Before After bDelegateExecuted,
      DoLatentWork Before = Except.ok (After, bDelegateExecuted) →
      After.SuiteSessionState = Before.SuiteSessionState) :
    (Session.HasBlockRun BlockHandle = true →
      CreateRunWorkOnceWrapper BlockHandle DoWork Spec = Except.ok Spec ∧
      CreateRunWorkOnceLatentWrapper BlockHandle DoLatentWork Spec = Except.ok (Spec, false)) ∧
    (Session.HasBlockRun BlockHandle = false →
      (∀ After, DoWork { Spec with BodiesInvoked := Spec.BodiesInvoked ++ [BlockHandle] } =
          Except.ok After →
        After.HasBlockRun BlockHandle = false ∧
        After.MarkBlockAsRun BlockHandle =
          Except.ok { After with
            SuiteSessionState := some { BlocksRun := Session.BlocksRun ++ [BlockHandle] } } ∧
        CreateRunWorkOnceWrapper BlockHandle DoWork Spec = After.MarkBlockAsRun BlockHandle) ∧
      (∀ After bDelegateExecuted,
        DoLatentWork { Spec with BodiesInvoked := Spec.BodiesInvoked ++ [BlockHandle] } =
          Except.ok (After, bDelegateExecuted) →
        After.HasBlockRun BlockHandle = false ∧
        After.MarkBlockAsRun BlockHandle =
          Except.ok { After with
            SuiteSessionState := some { BlocksRun := Session.BlocksRun ++ [BlockHandle] } } ∧
        CreateRunWorkOnceLatentWrapper BlockHandle DoLatentWork Spec =
          Except.ok ({ After with
            SuiteSessionState := some { BlocksRun := Session.BlocksRun ++ [BlockHandle] } },
            bDelegateExecuted))) ∧
    (∀ e, CreateRunWorkOnceWrapper BlockHandle DoWork Spec = Except.error e →
      DoWork { Spec with BodiesInvoked := Spec.BodiesInvoked ++ [BlockHandle] } =
        Except.error e) ∧
    (∀ e, CreateRunWorkOnceLatentWrapper BlockHandle DoLatentWork Spec = Except.error e →
      DoLatentWork { Spec with BodiesInvoked := Spec.BodiesInvoked ++ [BlockHandle] } =
        Except.error e) ∧
    (∀ After, CreateRunWorkOnceWrapper BlockHandle DoWork Spec = Except.ok After →
      After.HasBlockRun BlockHandle = true ∧
      ∀ Other, Other ≠ BlockHandle → After.HasBlockRun Other = Spec.HasBlockRun Other) ∧
    (∀ After bDelegateExecuted,
      CreateRunWorkOnceLatentWrapper BlockHandle DoLatentWork Spec =
        Except.ok (After, bDelegateExecuted) →
      After.HasBlockRun BlockHandle = true ∧
      ∀ Other, Other ≠ BlockHandle → After.HasBlockRun Other = Spec.HasBlockRun Other) := by
  have hMark : ∀ After : FSpecWorld σ, After.SuiteSessionState = some Session →
      Session.HasBlockRun BlockHandle = false →
      After.HasBlockRun BlockHandle = false ∧
      After.MarkBlockAsRun BlockHandle =
        Except.ok { After with
          SuiteSessionState := some { BlocksRun := Session.BlocksRun ++ [BlockHandle] } } := by
    intro After hAfter hFree
    simp [FSpecWorld.HasBlockRun, FSpecWorld.MarkBlockAsRun,
      FEnhancedTestSessionState.MarkBlockAsRun, hAfter, hFree]
  have hOther : ∀ After : FSpecWorld σ,
      After.SuiteSessionState = some { BlocksRun := Session.BlocksRun ++ [BlockHandle] } →
      After.HasBlockRun BlockHandle = true ∧
      ∀ Other, Other ≠ BlockHandle → After.HasBlockRun Other = Spec.HasBlockRun Other := by
    intro After hAfter
    refine ⟨by simp [FSpecWorld.HasBlockRun, FEnhancedTestSessionState.HasBlockRun, hAfter],
      ?_⟩
    intro Other hne
    simp [FSpecWorld.HasBlockRun, FEnhancedTestSessionState.HasBlockRun, hAfter, hSession,
      hne]
  have hSame : Session.HasBlockRun BlockHandle = true →
      Spec.HasBlockRun BlockHandle = true ∧
      ∀ Other, Other ≠ BlockHandle → Spec.HasBlockRun Other = Spec.HasBlockRun Other := by
    intro hMarked
    exact ⟨by simp [FSpecWorld.HasBlockRun, hSession, hMarked], fun _ _ => rfl⟩
  cases hMarked : Session.HasBlockRun BlockHandle with
  | true =>
    have hBlocking : CreateRunWorkOnceWrapper BlockHandle DoWork Spec = Except.ok Spec := by
      simp [CreateRunWorkOnceWrapper, hSession, hMarked]
    have hLatent : CreateRunWorkOnceLatentWrapper BlockHandle DoLatentWork Spec =
        Except.ok (Spec, false) := by
      simp [CreateRunWorkOnceLatentWrapper, hSession, hMarked]
    refine ⟨fun _ => ⟨hBlocking, hLatent⟩, (fun h => nomatch h), ?_, ?_, ?_, ?_⟩
    · intro e he
      rw [hBlocking] at he
      exact nomatch he
    · intro e he
      rw [hLatent] at he
      exact nomatch he
    · intro After hAfter
      rw [hBlocking] at hAfter
      cases hAfter
      exact hSame hMarked
    · intro After bDelegateExecuted hAfter
      rw [hLatent] at hAfter
      cases hAfter
      exact hSame hMarked
  | false =>
    have hInvoked :
        ({ Spec with BodiesInvoked := Spec.BodiesInvoked ++ [BlockHandle] } :
          FSpecWorld σ).SuiteSessionState = some Session := hSession
    have hBlockingError : ∀ e,
        DoWork { Spec with BodiesInvoked := Spec.BodiesInvoked ++ [BlockHandle] } =
          Except.error e →
        CreateRunWorkOnceWrapper BlockHandle DoWork Spec = Except.error e := by
      intro e hBody
      simp only [hSession] at hBody
      simp [CreateRunWorkOnceWrapper, hSession, hMarked, hBody]
    have hBlockingOk : ∀ After,
        DoWork { Spec with BodiesInvoked := Spec.BodiesInvoked ++ [BlockHandle] } =
          Except.ok After →
        CreateRunWorkOnceWrapper BlockHandle DoWork Spec =
          Except.ok { After with
            SuiteSessionState := some { BlocksRun := Session.BlocksRun ++ [BlockHandle] } } := by
      intro After hBody
      have hKept := (hWork _ _ hBody).trans hInvoked
      simp only [hSession] at hBody
      simp [CreateRunWorkOnceWrapper, hSession, hMarked, hBody, (hMark After hKept hMarked).2]
    have hLatentError : ∀ e,
        DoLatentWork { Spec with BodiesInvoked := Spec.BodiesInvoked ++ [BlockHandle] } =
          Except.error e →
        CreateRunWorkOnceLatentWrapper BlockHandle DoLatentWork Spec = Except.error e := by
      intro e hBody
      simp only [hSession] at hBody
      simp [CreateRunWorkOnceLatentWrapper, hSession, hMarked, hBody]
    have hLatentOk : ∀ After bDelegateExecuted,
        DoLatentWork { Spec with BodiesInvoked := Spec.BodiesInvoked ++ [BlockHandle] } =
          Except.ok (After, bDelegateExecuted) →
        CreateRunWorkOnceLatentWrapper BlockHandle DoLatentWork Spec =
          Except.ok ({ After with
            SuiteSessionState := some { BlocksRun := Session.BlocksRun ++ [BlockHandle] } },
            bDelegateExecuted) := by
      intro After bDelegateExecuted hBody
      have hKept := (hLatentWork _ _ _ hBody).trans hInvoked
      simp only [hSession] at hBody
      simp [CreateRunWorkOnceLatentWrapper, hSession, hMarked, hBody,
        (hMark After hKept hMarked).2]
    refine ⟨(fun h => nomatch h), fun _ => ⟨?_, ?_⟩, ?_, ?_, ?_, ?_⟩
    · intro After hBody
      have hKept := (hWork _ _ hBody).trans hInvoked
      refine ⟨(hMark After hKept hMarked).1, (hMark After hKept hMarked).2, ?_⟩
      rw [hBlockingOk After hBody, (hMark After hKept hMarked).2]
    · intro After bDelegateExecuted hBody
      have hKept := (hLatentWork _ _ _ hBody).trans hInvoked
      exact ⟨(hMark After hKept hMarked).1, (hMark After hKept hMarked).2,
        hLatentOk After bDelegateExecuted hBody⟩
    · intro e he
      cases hBody : DoWork { Spec with BodiesInvoked := Spec.BodiesInvoked ++ [BlockHandle] } with
      | error e2 =>
        rw [hBlockingError e2 hBody] at he
        rw [he]
      | ok After =>
        rw [hBlockingOk After hBody] at he
        exact nomatch he
    · intro e he
      cases hBody : DoLatentWork
          { Spec with BodiesInvoked := Spec.BodiesInvoked ++ [BlockHandle] } with
      | error e2 =>
        rw [hLatentError e2 hBody] at he
        rw [he]
      | ok Result =>
        rw [hLatentOk Result.1 Result.2 hBody] at he
        exact nomatch he
    · intro After hAfter
      cases hBody : DoWork { Spec with BodiesInvoked := Spec.BodiesInvoked ++ [BlockHandle] } with
      | error e2 =>
        rw [hBlockingError e2 hBody] at hAfter
        exact nomatch hAfter
      | ok AfterWork =>
        rw [hBlockingOk AfterWork hBody] at hAfter
        cases hAfter
        exact hOther _ rfl
    · intro After bDelegateExecuted hAfter
      cases hBody : DoLatentWork
          { Spec with BodiesInvoked := Spec.BodiesInvoked ++ [BlockHandle] } with
      | error e2 =>
        rw [hLatentError e2 hBody] at hAfter
        exact nomatch hAfter
      | ok Result =>
        rw [hLatentOk Result.1 Result.2 hBody] at hAfter
        cases hAfter
        exact hOther _ rfl

/-- Witness of C30: in a session without marked handles the wrapper with handle 7 around
a body that increments the counter invokes the body, marks the handle 7 and leaves the
handle 8 unmarked; its body and the latent body of `KeepDelegateBody` leave the session
state alone. -/
theorem C30_mark_block_as_run_never_asserts_witness :
    CreateRunWorkOnceWrapper 7 IncrementCommand.Work SessionSpec =
      Except.ok
        { Env := { Members := 1, Errors := [] }
          SuiteSessionState := some { BlocksRun := [7] }
          BodiesInvoked := [7] } ∧
    (∀ After, CreateRunWorkOnceWrapper 7 IncrementCommand.Work SessionSpec = Except.ok After →
      After.HasBlockRun 7 = true ∧
      ∀ Other, Other ≠ 7 → After.HasBlockRun Other = SessionSpec.HasBlockRun Other) :=
  have h := C30_mark_block_as_run_never_asserts 7 IncrementCommand.Work
    (UserLatentLambda KeepDelegateBody) SessionSpec { BlocksRun := [] } rfl
    (fun _ _ hBody => by cases hBody; rfl) (fun _ _ _ hBody => by cases hBody; rfl)
  ⟨((h.2.1 (by decide)).1 _ rfl).2.2, h.2.2.2.2.1⟩

/-! ## Claims C31 and C32: block handles and the traversal of PostDefine -/

/-- C31, for the calls before the counter wraps: the first `Count` calls of
`FSpecBlockHandle::Assign` in a process, for `Count` up to 2147483647, yield the handles
1, 2, ..., `Count`, which are strictly increasing and pairwise distinct, and before the
last of them the counter is the number of calls made plus one.  Every `BeforeAll`
declaration takes the value of the counter as the handle of its run-once wrapper and
leaves the counter as `Assign` leaves it. -/
theorem C31_handles_increase_until_the_counter_wraps (Count : Nat)
    (hCount : Count ≤ 2147483647) :
    (FSpecBlockHandle.AssignSuccessive Count FSpecBlockHandle.InitialHandleCounter).1 =
      (List.range Count).map (fun k : Nat => (k : Int) + 1) ∧
    (FSpecBlockHandle.AssignSuccessive Count FSpecBlockHandle.InitialHandleCounter).1.Pairwise
      (fun a b : Int => a < b) ∧
    (FSpecBlockHandle.AssignSuccessive Count FSpecBlockHandle.InitialHandleCounter).1.Nodup ∧
    (Count < 2147483647 →
      (FSpecBlockHandle.AssignSuccessive Count FSpecBlockHandle.InitialHandleCounter).2 =
        (Count : Int) + 1) ∧
    (∀ (σ ν : Type) (Args : FWorkArgs σ) (this : FEnhancedAutomationSpecBase σ ν),
      FEnhancedAutomationSpecBase.BeforeAll Args this =
        FEnhancedAutomationSpecBase.ModifyCurrentScope
          { this with HandleCounter := (FSpecBlockHandle.Assign this.HandleCounter).2 }
          (fun CurrentScope =>
            { CurrentScope with
              BeforeAll := CurrentScope.BeforeAll ++
                [MakeCommand this.DefaultTimeout this.bEnableSkipIfError
                  (CreateRunWorkOnceWrapper (FSpecBlockHandle.Assign this.HandleCounter).1)
                  (CreateRunWorkOnceLatentWrapper (FSpecBlockHandle.Assign this.HandleCounter).1)
                  Args] })) := by
  have hAll := AssignSuccessive_handles Count FSpecBlockHandle.InitialHandleCounter
    (by decide) (by decide)
  have hHandles :
      (FSpecBlockHandle.AssignSuccessive Count FSpecBlockHandle.InitialHandleCounter).1 =
        (List.range Count).map (fun k : Nat => (k : Int) + 1) := by
    rw [hAll.1]
    apply List.map_congr_left
    intro k hk
    have hk2 : k < Count := List.mem_range.mp hk
    rw [WrapInt32_of_range _ (by unfold FSpecBlockHandle.InitialHandleCounter; omega)
      (by unfold FSpecBlockHandle.InitialHandleCounter; omega)]
    unfold FSpecBlockHandle.InitialHandleCounter
    omega
  have hIncreasing :
      ((List.range Count).map (fun k : Nat => (k : Int) + 1)).Pairwise
        (fun a b : Int => a < b) := by
    rw [List.pairwise_map]
    exact (List.pairwise_lt_range Count).imp (fun {a b} hab => by omega)
  refine ⟨hHandles, ?_, ?_, ?_, ?_⟩
  · rw [hHandles]
    exact hIncreasing
  · rw [hHandles]
    exact hIncreasing.imp (fun {a b} hab => ne_of_lt hab)
  · intro hLess
    rw [hAll.2, WrapInt32_of_range _
      (by unfold FSpecBlockHandle.InitialHandleCounter; omega)
      (by unfold FSpecBlockHandle.InitialHandleCounter; omega)]
    unfold FSpecBlockHandle.InitialHandleCounter
    omega
  · intro σ ν Args this
    rfl

/-- Witness of C31: the first three calls yield the handles 1, 2 and 3. -/
theorem C31_handles_increase_until_the_counter_wraps_witness :
    (FSpecBlockHandle.AssignSuccessive 3 FSpecBlockHandle.InitialHandleCounter).1 =
      [1, 2, 3] :=
  (C31_handles_increase_until_the_counter_wraps 3 (by decide)).1.trans (by decide)

/-- C31 at the call on which the counter wraps: after 2147483646 calls the counter is
2147483647, so the next two calls yield 2147483647 and then -2147483648, which is
smaller; and after 4294967296 calls the counter is 1 again, so the handle 1 is yielded a
second time. -/
theorem C31_handle_after_the_largest_is_negative :
    (FSpecBlockHandle.AssignSuccessive 2147483646 FSpecBlockHandle.InitialHandleCounter).2 =
      2147483647 ∧
    (FSpecBlockHandle.AssignSuccessive 2 2147483647).1 = [2147483647, -2147483648] ∧
    ¬ ((2147483647 : Int) < -2147483648) ∧
    (FSpecBlockHandle.AssignSuccessive 4294967296 FSpecBlockHandle.InitialHandleCounter).2 =
      FSpecBlockHandle.InitialHandleCounter ∧
    (FSpecBlockHandle.Assign FSpecBlockHandle.InitialHandleCounter).1 = 1 :=
  ⟨(AssignSuccessive_handles 2147483646 FSpecBlockHandle.InitialHandleCounter
      (by decide) (by decide)).2.trans (by decide),
    by decide, by decide,
    (AssignSuccessive_handles 4294967296 FSpecBlockHandle.InitialHandleCounter
      (by decide) (by decide)).2.trans (by decide),
    rfl⟩

/-- C32: on the tree that the declarations of `Define` build, in which `Describe` leaves
no scope below the root without an `It` or a child, and whose `It` declarations have
identifiers that are distinct as keys of `IdToSpecMap`, that is up to the case of their
letters, the loop of `PostDefine` returns within as many iterations as there
are scopes, and more fuel gives the same result; the traversal stack and the three
running hook sequences are then empty and the map lists the specs of the `It`
declarations, each once.  The events of the loop are those of the recursion over the
tree: every scope is visited once, in the order of `AllScopes`, which lists every scope
of every path once, so there are as many visits as scopes; there are as many pops; and
every pop comes after the visit of the scope it pops.  The same holds on every tree in
which every scope below the root has an `It` or a child.  On a tree with a child that has
neither, that child is popped without a visit. -/
theorem C32_post_define_visits_every_scope_once {σ ν : Type} (Decls : List (FSpecDecl σ ν))
    (bEnableSkipIfError : Bool) (DefaultTimeout HandleCounter : Int)
    (hIds : ((DeclaredRoot Decls bEnableSkipIfError DefaultTimeout HandleCounter).AllIt.map
      (fun It => FKeyFuncs.Fold It.Id)).Nodup) :
    PostDefineLoop
        (DeclaredRoot Decls bEnableSkipIfError DefaultTimeout HandleCounter).NumScopes
        (PostDefineStart
          (DeclaredRoot Decls bEnableSkipIfError DefaultTimeout HandleCounter) []) =
      Except.ok
        { Stack := []
          BeforeAll := []
          BeforeEach := []
          AfterEach := []
          IdToSpecMap :=
            (SpecsOfScope [] [] [] []
              (DeclaredRoot Decls bEnableSkipIfError DefaultTimeout HandleCounter)).map
              SpecEntry } ∧
    PostDefineEvents
        (DeclaredRoot Decls bEnableSkipIfError DefaultTimeout HandleCounter).NumScopes
        (PostDefineStart
          (DeclaredRoot Decls bEnableSkipIfError DefaultTimeout HandleCounter) []) =
      EventsOfScope (DeclaredRoot Decls bEnableSkipIfError DefaultTimeout HandleCounter) ∧
    (DeclaredRoot Decls bEnableSkipIfError DefaultTimeout HandleCounter).Pruned ∧
    (∀ (γ : Type) (Root : FSpecDefinitionScope γ ν), Root.Pruned →
      (Root.AllIt.map (fun It => FKeyFuncs.Fold It.Id)).Nodup →
      ∀ k : Nat,
        PostDefineLoop (Root.NumScopes + k) (PostDefineStart Root []) =
          Except.ok
            { Stack := []
              BeforeAll := []
              BeforeEach := []
              AfterEach := []
              IdToSpecMap := (SpecsOfScope [] [] [] [] Root).map SpecEntry } ∧
        PostDefineEvents (Root.NumScopes + k) (PostDefineStart Root []) =
          EventsOfScope Root) ∧
    (∀ (γ : Type) (Root : FSpecDefinitionScope γ ν),
      VisitedScopes (EventsOfScope Root) = Root.AllScopes ∧
      Root.AllScopes.length = Root.NumScopes ∧
      (∀ (Path : List (FSpecDefinitionScope γ ν)) (Scope : FSpecDefinitionScope γ ν),
        ScopePath Root Path Scope → Scope ∈ Root.AllScopes) ∧
      (PoppedScopes (EventsOfScope Root)).length = Root.NumScopes ∧
      PopsFollowVisits (EventsOfScope Root) ∧
      (SpecsOfScope [] [] [] [] Root).map (fun Spec => Spec.Id) =
        Root.AllIt.map (fun It => It.Id)) ∧
    (PostDefineEvents UnprunedRoot.NumScopes (PostDefineStart UnprunedRoot [])).map
        FTraversalEvent.Label =
      [(true, "Root"), (true, "Leaf"), (false, "Leaf"), (false, "Empty"), (false, "Root")] := by
  have hAdd : ∀ (γ : Type) (Root : FSpecDefinitionScope γ ν),
      (Root.AllIt.map (fun It => FKeyFuncs.Fold It.Id)).Nodup →
      AddSpecs [] (SpecsOfScope [] [] [] [] Root) =
        Except.ok ((SpecsOfScope [] [] [] [] Root).map SpecEntry) := by
    intro γ Root hNodup
    rw [AddSpecs_eq, if_pos]
    · rfl
    · refine ⟨fun Spec _ hMem => by simp [TMapFoldedKeys, TMapKeys] at hMem, ?_⟩
      rw [SpecsOfScope_folded_id_list]
      exact hNodup
  have hPruned :=
    (DeclaredRoot_pruned Decls bEnableSkipIfError DefaultTimeout HandleCounter).1
  refine ⟨(PostDefineLoop_root _ hPruned [] _ (hAdd _ _ hIds) 0).1,
    (PostDefineLoop_root _ hPruned [] _ (hAdd _ _ hIds) 0).2, hPruned, ?_, ?_, by decide!⟩
  · intro γ Root hp hNodup k
    exact PostDefineLoop_root Root hp [] _ (hAdd γ Root hNodup) k
  · intro γ Root
    exact ⟨VisitedScopes_scope Root, AllScopes_length Root,
      fun Path Scope hPath => AllScopes_of_path Root Scope Path hPath,
      PoppedScopes_length Root, PopsFollowVisits_scope Root, SpecsOfScope_id_list Root⟩

/-- Witness of C32: the tree of the demo of `BeforeAllDemo.spec.cpp` has four scopes; the
loop returns with empty stack and hook sequences, and it visits the root, the group, the
second scope of the group, which it pops, the first scope, which it pops, and then pops
the group and the root. -/
theorem C32_post_define_visits_every_scope_once_witness :
    PostDefineLoop (DeclaredRoot FBeforeAllDemoSpec.Define true 300000000 1).NumScopes
        (PostDefineStart (DeclaredRoot FBeforeAllDemoSpec.Define true 300000000 1) []) =
      Except.ok
        { Stack := []
          BeforeAll := []
          BeforeEach := []
          AfterEach := []
          IdToSpecMap :=
            (SpecsOfScope [] [] [] []
              (DeclaredRoot FBeforeAllDemoSpec.Define true 300000000 1)).map SpecEntry } ∧
    (DeclaredRoot FBeforeAllDemoSpec.Define true 300000000 1).NumScopes = 4 ∧
    (PostDefineEvents (DeclaredRoot FBeforeAllDemoSpec.Define true 300000000 1).NumScopes
        (PostDefineStart (DeclaredRoot FBeforeAllDemoSpec.Define true 300000000 1) [])).map
        FTraversalEvent.Label =
      [(true, ""), (true, "BeforeAll()"),
       (true, "when there are multiple expectations and multiple BeforeEach blocks"),
       (false, "when there are multiple expectations and multiple BeforeEach blocks"),
       (true, "when there are multiple expectations and no BeforeEach blocks"),
       (false, "when there are multiple expectations and no BeforeEach blocks"),
       (false, "BeforeAll()"), (false, "")] :=
  ⟨(C32_post_define_visits_every_scope_once FBeforeAllDemoSpec.Define true 300000000 1
      (by decide!)).1,
    by decide!, by decide!⟩

end EnhancedSpecs
